import Mathlib

/-!
# CellNet-CCAEvals: LEDBAT, SIAD and LoLa congestion controllers, RED queue

A shallow embedding of the congestion-control callbacks of
`algs-extension/ledbat/tcp_ledbat.c`, `algs-extension/siad/tcp_siad.c` and
`algs-extension/lola/tcp_lola.c`, and of the queue of
`mm-modified/queue/red_packet_queue.hh`.

Conventions of the embedding:

* `u32`/`u8`/`u64` values are natural numbers; every C operation that can wrap
  is followed by an explicit `% 4294967296` (resp. `% 256`, `% 2^64`).
* `s32` values are integers; a store to an `s32` goes through `toS32`.
* A callback that would dereference a null pointer, index outside an allocated
  buffer or divide by zero returns `Except.error` with the matching `Fault`.
* Values the kernel supplies (clock readings, `tcp_is_cwnd_limited`, the
  reno slow start helper, `HZ`) are explicit arguments.
* The `double`s of the RED queue are exact rationals; the clock reading and the
  random draw of `enqueue` are explicit arguments.
-/

namespace CCA

/-- Ways in which a callback can abort instead of returning. -/
inductive Fault where
  | nullDeref
  | outOfBounds
  | divByZero
  deriving DecidableEq, Repr

/-- The C constant `UINT_MAX` for a 32-bit `unsigned int`. -/
def UINT_MAX : Nat := 4294967295

/-- The C constant `INT_MAX` for a 32-bit `int`. -/
def INT_MAX : Nat := 2147483647

/-- Conversion of an integer value to `u32` (reduction modulo 2^32). -/
def toU32 (x : Int) : Nat := (x % 4294967296).toNat

/-- Conversion of an integer value to `s32` (two's complement wrap). -/
def toS32 (x : Int) : Int := (x + 2147483648) % 4294967296 - 2147483648

/-- Conversion of an integer value to `u8`. -/
def toU8 (x : Int) : Nat := (x % 256).toNat

/-- The kernel `abs()` applied to an `s32`, read as an unsigned magnitude.
For every value except `INT_MIN` this is what every kernel version computes. -/
def kabs (x : Int) : Nat := x.natAbs

/-- Unsigned 32-bit division; a zero divisor traps. -/
def udiv (a b : Nat) : Except Fault Nat :=
  if b = 0 then Except.error Fault.divByZero else Except.ok (a / b)

/-- Signed (truncating) division on `long`; a zero divisor traps. -/
def sdiv (a b : Int) : Except Fault Int :=
  if b = 0 then Except.error Fault.divByZero else Except.ok (Int.tdiv a b)

/-! ## LEDBAT (`tcp_ledbat.c`) -/

namespace Ledbat

/-- `#define GAIN 1`. -/
def GAIN : Int := 1

/-- `#define ALLOWED_INCREASE 1`. -/
def ALLOWED_INCREASE : Nat := 1

/-- `#define MIN_CWND 2U`. -/
def MIN_CWND : Nat := 2

/-- Module parameters of `tcp_ledbat.c` (all `static int`) and the kernel
tick rate `HZ`. -/
structure Params where
  target : Int
  current_filter : Int
  base_history : Int
  HZ : Nat
  deriving DecidableEq, Repr

/-- `struct ledbat_list`: `buffer = none` is the null pointer left by a failed
`kmalloc`; `next` and `len` are `u8`. -/
structure ledbat_list where
  buffer : Option (List Nat)
  next : Nat
  len : Nat
  deriving DecidableEq, Repr

/-- `struct ledbat`. -/
structure ledbat where
  base_delay : Nat
  cwnd_cnt : Int
  current_delays : ledbat_list
  base_delays : ledbat_list
  last_rollover : Nat
  remote_hz : Nat
  last_local_ts : Nat
  last_remote_ts : Nat
  local_time_offset : Nat
  remote_time_offset : Nat
  deriving DecidableEq, Repr

/-- The fields of `struct tcp_sock` that `tcp_ledbat.c` reads or writes. -/
structure tcp_sock where
  snd_cwnd : Nat
  snd_ssthresh : Nat
  snd_cwnd_clamp : Nat
  packets_out : Nat
  rcv_tsval : Nat
  rcv_tsecr : Nat
  deriving DecidableEq, Repr

/-- A socket: the transport part and the controller's private block. -/
structure sock where
  tp : tcp_sock
  ca : ledbat
  deriving DecidableEq, Repr

/-- `ledbat_init_list(list, len)`. `alloc_ok` says whether `kmalloc` returned
memory; a negative `len` asks for an impossible size and always fails. -/
def ledbat_init_list (len : Int) (alloc_ok : Bool) : ledbat_list :=
  { buffer := if alloc_ok && decide (0 ≤ len) then
                some (List.replicate len.toNat UINT_MAX) else none
    len := toU8 len
    next := 0 }

/-- `tcp_ledbat_init`. The two flags give the outcome of the two `kmalloc`
calls. -/
def tcp_ledbat_init (p : Params) (tp : tcp_sock) (alloc_cur alloc_base : Bool) : sock :=
  { tp := tp
    ca := { base_delay := UINT_MAX
            cwnd_cnt := 0
            current_delays := ledbat_init_list p.current_filter alloc_cur
            base_delays := ledbat_init_list p.base_history alloc_base
            last_rollover := 0
            local_time_offset := 0
            remote_time_offset := 0
            last_local_ts := 0
            last_remote_ts := 0
            remote_hz := p.HZ } }

/-- Read `buffer[i]` of a list. -/
def list_read (l : ledbat_list) (i : Nat) : Except Fault Nat :=
  match l.buffer with
  | none => Except.error Fault.nullDeref
  | some b => if h : i < b.length then Except.ok (b.get ⟨i, h⟩)
              else Except.error Fault.outOfBounds

/-- Write `buffer[i] = v` of a list. -/
def list_write (l : ledbat_list) (i : Nat) (v : Nat) : Except Fault ledbat_list :=
  match l.buffer with
  | none => Except.error Fault.nullDeref
  | some b => if i < b.length then Except.ok { l with buffer := some (b.set i v) }
              else Except.error Fault.outOfBounds

/-- `tcp_ledbat_update_current_delay(sk, int delay)` on the current-delay list. -/
def tcp_ledbat_update_current_delay (p : Params) (l : ledbat_list) (delay : Int) :
    Except Fault ledbat_list := do
  let l1 ← list_write l l.next (toU32 delay)
  let n1 := (l1.next + 1) % 256
  if (n1 : Int) = p.current_filter then
    pure { l1 with next := 0 }
  else
    pure { l1 with next := n1 }

/-- `tcp_ledbat_update_base_delay(sk, u32 delay)`; `now_sec` is the value of
`get_seconds()` (an `unsigned long`). Returns the new base list and
`last_rollover`. -/
def tcp_ledbat_update_base_delay (p : Params) (l : ledbat_list) (last_rollover : Nat)
    (now_sec : Nat) (delay : Nat) : Except Fault (ledbat_list × Nat) :=
  if now_sec ≥ (last_rollover + 60) % 4294967296 then do
    let n1 := (l.next + 1) % 256
    let n2 := if (n1 : Int) = p.base_history then 0 else n1
    let l1 ← list_write { l with next := n2 } n2 delay
    pure (l1, now_sec % 4294967296)
  else do
    let old ← list_read l l.next
    let l1 ← list_write l l.next (min old delay)
    pure (l1, last_rollover)

/-- The loop of `tcp_ledbat_get_min_from_list`: `k` iterations remain, the
loop variable is `i`. -/
def min_loop (l : ledbat_list) : Nat → Nat → Nat → Except Fault Nat
  | 0, _, acc => Except.ok acc
  | k + 1, i, acc => do
    let v ← list_read l i
    min_loop l k (i + 1) (min v acc)

/-- `tcp_ledbat_get_min_from_list`. -/
def tcp_ledbat_get_min_from_list (l : ledbat_list) : Except Fault Nat :=
  min_loop l l.len 0 UINT_MAX

/-- What one ACK brings from outside the controller: the `acked` argument,
`get_seconds()`, and the answer of `tcp_is_cwnd_limited(sk)`. -/
structure AckInput where
  acked : Nat
  now_sec : Nat
  cwnd_limited : Bool
  deriving DecidableEq, Repr

/-- Lines 215-239 of `tcp_ledbat_cong_avoid`: the one-way delay, the filter
updates and the queuing delay. Returns the updated controller block, the
sample `delay` and `queuing_delay`. -/
def delay_stage (p : Params) (s : sock) (inp : AckInput) :
    Except Fault (ledbat × Nat × Nat) := do
  let tp := s.tp
  let c0 := s.ca
  let c1 := if c0.remote_time_offset = 0 then
              { c0 with remote_time_offset := tp.rcv_tsval } else c0
  let c2 := if c1.local_time_offset = 0 then
              { c1 with local_time_offset := tp.rcv_tsecr } else c1
  let time ← udiv ((toU32 ((tp.rcv_tsval : Int) - c2.remote_time_offset) * 1000) % 4294967296)
                  c2.remote_hz
  let remote_time ← udiv ((toU32 ((tp.rcv_tsecr : Int) - c2.local_time_offset) * 1000) % 4294967296)
                  p.HZ
  let delay := if time > remote_time then time - remote_time else 0
  let (bl, ro) ← tcp_ledbat_update_base_delay p c2.base_delays c2.last_rollover inp.now_sec delay
  let cl ← tcp_ledbat_update_current_delay p c2.current_delays (toS32 delay)
  let c3 := { c2 with base_delays := bl, last_rollover := ro, current_delays := cl,
                      base_delay := min c2.base_delay delay }
  if c3.current_delays.buffer.isSome && c3.base_delays.buffer.isSome then do
    let a ← tcp_ledbat_get_min_from_list c3.current_delays
    let b ← tcp_ledbat_get_min_from_list c3.base_delays
    pure (c3, delay, toU32 ((a : Int) - b))
  else
    pure (c3, delay, toU32 ((delay : Int) - c3.base_delay))

/-- Lines 252-274 of `tcp_ledbat_cong_avoid`: the LEDBAT window update, for the
`acked` left over by slow start. -/
def window_update (p : Params) (tp : tcp_sock) (c : ledbat) (queuing_delay acked : Nat) :
    Except Fault sock := do
  let cwnd := tp.snd_cwnd
  let off_target := toS32 (toU32 p.target - (queuing_delay : Int))
  let cnt1 := toS32 (c.cwnd_cnt + GAIN * off_target * acked)
  let (cwnd1, cnt2) ←
    if kabs cnt1 ≥ (tp.snd_cwnd * toU32 p.target) % 4294967296 then do
      let q ← sdiv cnt1 p.target
      let inc ← sdiv q tp.snd_cwnd
      pure (toU32 (cwnd + inc), toS32 (cnt1 - inc * tp.snd_cwnd * p.target))
    else
      pure (cwnd, cnt1)
  let max_allowed_cwnd := (tp.packets_out + acked + ALLOWED_INCREASE) % 4294967296
  let cwnd2 := min cwnd1 max_allowed_cwnd
  let snd_cwnd := max MIN_CWND cwnd2
  let ssthresh := if snd_cwnd ≤ tp.snd_ssthresh then toU32 ((snd_cwnd : Int) - 1)
                  else tp.snd_ssthresh
  pure { tp := { tp with snd_cwnd := snd_cwnd, snd_ssthresh := ssthresh }
         ca := { c with cwnd_cnt := cnt2 } }

/-- Lines 241-250 of `tcp_ledbat_cong_avoid`: the cwnd-limited test and the
slow start. `slow_start` is the kernel helper `tcp_slow_start(tp, acked)`,
which returns the updated transport block and the number of ACKed packets it
did not use. The result is the transport block and, when the call goes on to
the window update, the value of `acked` it goes on with (`none`: the call
returns). -/
def gate (slow_start : tcp_sock → Nat → tcp_sock × Nat) (tp : tcp_sock) (inp : AckInput) :
    tcp_sock × Option Nat :=
  if !inp.cwnd_limited then
    (tp, none)
  else if tp.snd_cwnd ≤ tp.snd_ssthresh then
    let r := slow_start tp inp.acked
    if r.2 = 0 then (r.1, none) else (r.1, some r.2)
  else
    (tp, some inp.acked)

/-- `tcp_ledbat_cong_avoid(sk, ack, acked)`. -/
def tcp_ledbat_cong_avoid (p : Params) (slow_start : tcp_sock → Nat → tcp_sock × Nat)
    (s : sock) (inp : AckInput) : Except Fault sock := do
  let (c, _, queuing_delay) ← delay_stage p s inp
  match gate slow_start s.tp inp with
  | (tp1, none) => pure { tp := tp1, ca := c }
  | (tp1, some acked1) => window_update p tp1 c queuing_delay acked1

/-- The kernel helper `tcp_slow_start` (net/ipv4/tcp_cong.c, Linux 4.4), which
the LEDBAT and LoLa modules call:
`cwnd = min(snd_cwnd + acked, snd_ssthresh); acked -= cwnd - snd_cwnd;
snd_cwnd = min(cwnd, snd_cwnd_clamp); return acked;`. -/
def linux_tcp_slow_start (tp : tcp_sock) (acked : Nat) : tcp_sock × Nat :=
  let cwnd := min ((tp.snd_cwnd + acked) % 4294967296) tp.snd_ssthresh
  let acked1 := toU32 ((acked : Int) - toU32 ((cwnd : Int) - tp.snd_cwnd))
  ({ tp with snd_cwnd := min cwnd tp.snd_cwnd_clamp }, acked1)

/-- The default module parameters (`target = 100`, `current_filter = 2`,
`base_history = 2`) on a kernel with `HZ = 1000`. -/
def defaultParams : Params :=
  { target := 100, current_filter := 2, base_history := 2, HZ := 1000 }

/-- A connection right after `tcp_ledbat_init` with both buffers allocated:
window 20 above `ssthresh` 10, 20 packets in flight, clamped at 20. -/
def sockAfterInit : sock :=
  tcp_ledbat_init defaultParams
    { snd_cwnd := 20, snd_ssthresh := 10, snd_cwnd_clamp := 20, packets_out := 20,
      rcv_tsval := 5000, rcv_tsecr := 7000 } true true

/-- The transport block of `sockAfterInit` with the clamp raised to 50. -/
def sockWideClamp : sock :=
  { sockAfterInit with tp := { sockAfterInit.tp with snd_cwnd_clamp := 50 } }

/-- One ACK for a single packet at wall-clock second 100 on a cwnd-limited
flow. -/
def oneAck : AckInput := { acked := 1, now_sec := 100, cwnd_limited := true }

/-- One stretch ACK covering 20 packets at wall-clock second 100 on a
cwnd-limited flow. -/
def stretchAck : AckInput := { acked := 20, now_sec := 100, cwnd_limited := true }

/-- Feed a sequence of `u32` delay samples to the current-delay list, each
through `tcp_ledbat_update_current_delay` with the `u32 → int` conversion of
the call on line 230. -/
def insert_samples (p : Params) : ledbat_list → List Nat → Except Fault ledbat_list
  | l, [] => Except.ok l
  | l, x :: xs => do
    let l1 ← tcp_ledbat_update_current_delay p l (toS32 x)
    insert_samples p l1 xs

/-- `m` is the minimum of the non-empty list `xs`. -/
def IsMinOf (m : Nat) (xs : List Nat) : Prop := m ∈ xs ∧ ∀ x ∈ xs, m ≤ x

/-- Feed a sequence of `(now_sec, delay)` pairs to the base-delay list through
`tcp_ledbat_update_base_delay`. Returns, in order, the clock readings of the
calls on which the cursor `next` moved, with the final list and
`last_rollover`. -/
def base_feed (p : Params) :
    ledbat_list → Nat → List (Nat × Nat) → Except Fault (List Nat × ledbat_list × Nat)
  | l, ro, [] => Except.ok ([], l, ro)
  | l, ro, (t, d) :: rest => do
    let r ← tcp_ledbat_update_base_delay p l ro t d
    let r2 ← base_feed p r.1 r.2 rest
    pure (if r.1.next ≠ l.next then t :: r2.1 else r2.1, r2.2)

/-- The base-delay list is allocated with `base_history` slots,
`2 ≤ base_history ≤ 255`, and its cursor is inside. -/
def base_wf (p : Params) (l : ledbat_list) : Prop :=
  2 ≤ p.base_history ∧ p.base_history ≤ 255 ∧
  ∃ b, l.buffer = some b ∧ (b.length : Int) = p.base_history ∧ l.next < b.length

/-- `n` successive ACKs in congestion avoidance, each reaching the window
update of lines 252-274 with the same `queuing_delay` and `acked`; the run
stops at the first call that traps. -/
def ca_run (p : Params) (queuing_delay acked : Nat) : Nat → sock → Except Fault sock
  | 0, s => pure s
  | n + 1, s => do
    let s1 ← window_update p s.tp s.ca queuing_delay acked
    ca_run p queuing_delay acked n s1

/-- Number of ACKs until the window has gone down `j` times from `c` when each
window `w` lasts `w` ACKs: `c + (c - 1) + ... + (c - j + 1)`. -/
def epoch_calls (c : Nat) : Nat → Nat
  | 0 => 0
  | j + 1 => epoch_calls c j + (c - j)

/-- The state of a run at `queuing_delay = 2 * target`: window `w`, `k` ACKs
counted against it (`cwnd_cnt = -k * target`), `po` packets in flight and the
threshold below the window. -/
def dt_inv (p : Params) (po : Nat) (s : sock) (w k : Nat) : Prop :=
  s.tp.snd_cwnd = w ∧ s.ca.cwnd_cnt = -((k : Int) * p.target) ∧ s.tp.packets_out = po ∧
  s.tp.snd_ssthresh < w

/-- A connection in congestion avoidance whose next ACK measures a one-way
delay of `delay` ms over a base delay of 0: the time offsets are set
(5000 and 7000), the timestamps of the ACK are 1000 + `delay` and 1000 ticks
later, the base history `[UINT_MAX, 0]` is in its first minute and the last
current-delay sample was `delay` too. -/
def delayedSock (cwnd ssthresh packets_out : Nat) (cnt : Int) (delay : Nat) : sock :=
  { tp := { snd_cwnd := cwnd, snd_ssthresh := ssthresh, snd_cwnd_clamp := 4294967295,
            packets_out := packets_out, rcv_tsval := 6000 + delay, rcv_tsecr := 8000 }
    ca := { base_delay := 0, cwnd_cnt := cnt,
            current_delays := { buffer := some [delay, delay], next := 1, len := 2 },
            base_delays := { buffer := some [4294967295, 0], next := 1, len := 2 },
            last_rollover := 100, remote_hz := 1000, last_local_ts := 0, last_remote_ts := 0,
            local_time_offset := 7000, remote_time_offset := 5000 } }

/-- A connection in congestion avoidance with a window of 21474837 packets, all
in flight, `cwnd_cnt = 0`, right after `tcp_ledbat_init`. -/
def hugeWindowSock : sock :=
  tcp_ledbat_init defaultParams
    { snd_cwnd := 21474837, snd_ssthresh := 10, snd_cwnd_clamp := 4294967295,
      packets_out := 21474837, rcv_tsval := 5000, rcv_tsecr := 7000 } true true

/-- A base-delay ring of two slots holding 5 and 7 ms, cursor on slot 0. -/
def twoSlotBase : ledbat_list := { buffer := some [5, 7], next := 0, len := 2 }

/-- A connection 71.6 minutes after its first timestamp pair (offsets 5000 and
7000, `HZ = remote_hz = 1000`): the ACK carries a remote timestamp 4295000
ticks and a local echo 4294950 ticks after the first pair, a one-way delay
50 ms above that of the first pair. -/
def longLivedSock : sock :=
  { tp := { snd_cwnd := 20, snd_ssthresh := 10, snd_cwnd_clamp := 4294967295,
            packets_out := 20, rcv_tsval := 4300000, rcv_tsecr := 4301950 }
    ca := { base_delay := 0, cwnd_cnt := 0,
            current_delays := { buffer := some [50, 50], next := 1, len := 2 },
            base_delays := { buffer := some [0, 10], next := 0, len := 2 },
            last_rollover := 4380, remote_hz := 1000, last_local_ts := 0, last_remote_ts := 0,
            local_time_offset := 7000, remote_time_offset := 5000 } }

/-- Lines 257-259 of `tcp_ledbat_cong_avoid`, for the value `cnt` that
`cwnd_cnt` has after line 255: the increment `inc` (a `long`), the window
`cwnd + inc` (a `u32`) and the residual `cwnd_cnt - inc * snd_cwnd * target`
(an `s32`). -/
def apply_inc (p : Params) (snd_cwnd : Nat) (cnt : Int) : Except Fault (Int × Nat × Int) := do
  let q ← sdiv cnt p.target
  let inc ← sdiv q snd_cwnd
  pure (inc, toU32 (snd_cwnd + inc), toS32 (cnt - inc * snd_cwnd * p.target))

/-- The relation between the two filter windows, both read oldest entry first:
every entry of the current-delay window from position `i` on is matched by an
entry of the base-delay window from position `i` on that is not above it. -/
def covers (cv bv : List Nat) : Prop :=
  ∀ i : Nat, ∀ y ∈ cv.drop i, ∃ x ∈ bv.drop i, x ≤ y

/-- The filters of a connection are in order: both buffers allocated with
`current_filter` and `base_history` slots, the cursors inside, `len` the
allocated length, `remote_hz` still `HZ`, and the base-delay window (oldest
minute first, the cursor's slot last) covers the current-delay window (oldest
sample first). -/
def filters_inv (p : Params) (c : ledbat) : Prop :=
  ∃ cb bb : List Nat, c.current_delays.buffer = some cb ∧ c.base_delays.buffer = some bb ∧
    (cb.length : Int) = p.current_filter ∧ (bb.length : Int) = p.base_history ∧
    c.current_delays.next < cb.length ∧ c.base_delays.next < bb.length ∧
    c.current_delays.len = cb.length ∧ c.base_delays.len = bb.length ∧
    c.remote_hz = p.HZ ∧
    covers (cb.rotate c.current_delays.next) (bb.rotate (c.base_delays.next + 1))

/-- The states of a LEDBAT connection whose two `kmalloc` calls succeeded:
`tcp_ledbat_init`, then any sequence of returning `tcp_ledbat_cong_avoid`
calls; between the calls the transport may rewrite its own block. -/
inductive Reachable (p : Params) (slow_start : tcp_sock → Nat → tcp_sock × Nat) : sock → Prop where
  | init (tp : tcp_sock) : Reachable p slow_start (tcp_ledbat_init p tp true true)
  | transport (s : sock) (tp : tcp_sock) : Reachable p slow_start s →
      Reachable p slow_start { s with tp := tp }
  | cong_avoid (s s1 : sock) (inp : AckInput) : Reachable p slow_start s →
      tcp_ledbat_cong_avoid p slow_start s inp = Except.ok s1 → Reachable p slow_start s1

end Ledbat

/-! ## SIAD (`tcp_siad.c`) -/

namespace Siad

/-- `#define OFFSET 1`. -/
def OFFSET : Nat := 1

/-- `#define MIN_CWND 2U`. -/
def MIN_CWND : Nat := 2

/-- `#define NUM_RTT 20`. -/
def NUM_RTT : Int := 20

/-- `#define MIN_RTT 2`. -/
def MIN_RTT : Int := 2

/-- The module parameters `num_rtt`, `num_ms` and the two sysctl overrides
`sysctl_tcp_siad_num_rtt`, `sysctl_tcp_siad_num_ms` (all `int`). -/
structure Params where
  num_rtt : Int
  num_ms : Int
  sysctl_tcp_siad_num_rtt : Int
  sysctl_tcp_siad_num_ms : Int
  deriving DecidableEq, Repr

/-- `struct siad`. `config_num_rtt` is an `int`, the two state flags are `u8`,
the three trend slots are `u16`, everything else is `u32`. -/
structure siad where
  config_num_rtt : Int
  default_num_rtt : Nat
  default_num_ms : Nat
  curr_num_rtt : Nat
  increase : Nat
  prev_max_cwnd : Nat
  incthresh : Nat
  prior_snd_una : Nat
  prev_delay : Nat
  curr_delay : Nat
  min_delay : Nat
  curr_min_delay : Nat
  dec_cnt : Nat
  min_delay_seen : Nat
  increase_performed : Nat
  prev_min_delay1 : Nat
  prev_min_delay2 : Nat
  prev_min_delay3 : Nat
  deriving DecidableEq, Repr

/-- The fields of `struct tcp_sock` that `tcp_siad.c` reads or writes. -/
structure tcp_sock where
  snd_cwnd : Nat
  snd_ssthresh : Nat
  snd_cwnd_cnt : Nat
  snd_cwnd_clamp : Nat
  snd_una : Nat
  mss_cache : Nat
  srtt : Nat
  saw_tstamp : Bool
  rcv_tsecr : Nat
  deriving DecidableEq, Repr

/-- A socket: the transport part and the controller's private block. -/
structure sock where
  tp : tcp_sock
  ca : siad
  deriving DecidableEq, Repr

/-- The events of `enum tcp_ca_event`. -/
inductive tcp_ca_event where
  | CA_EVENT_TX_START
  | CA_EVENT_CWND_RESTART
  | CA_EVENT_COMPLETE_CWR
  | CA_EVENT_FRTO
  | CA_EVENT_LOSS
  | CA_EVENT_FAST_ACK
  | CA_EVENT_SLOW_ACK
  deriving DecidableEq, Repr

/-- `tcp_siad_init`. -/
def tcp_siad_init (p : Params) (tp : tcp_sock) : sock :=
  let default_num_rtt :=
    if p.sysctl_tcp_siad_num_rtt ≠ 0 then toU32 (max MIN_RTT p.sysctl_tcp_siad_num_rtt)
    else toU32 p.num_rtt
  let default_num_ms :=
    if p.sysctl_tcp_siad_num_ms ≠ 0 then toU32 p.sysctl_tcp_siad_num_ms
    else toU32 p.num_ms
  let curr_num_rtt := default_num_rtt
  { tp := tp
    ca := { config_num_rtt := 0
            default_num_rtt := default_num_rtt
            default_num_ms := default_num_ms
            curr_num_rtt := curr_num_rtt
            increase := (tp.snd_cwnd * curr_num_rtt) % 4294967296
            prev_max_cwnd := tp.snd_cwnd
            incthresh := tp.snd_cwnd
            prior_snd_una := tp.snd_una
            curr_delay := 0
            min_delay := INT_MAX
            curr_min_delay := INT_MAX
            prev_delay := INT_MAX
            dec_cnt := 0
            min_delay_seen := 1
            increase_performed := 0
            prev_min_delay1 := 0
            prev_min_delay2 := 0
            prev_min_delay3 := 0 } }

/-- `tcp_siad_cwnd_event`. -/
def tcp_siad_cwnd_event (s : sock) (event : tcp_ca_event) : sock :=
  match event with
  | tcp_ca_event.CA_EVENT_COMPLETE_CWR =>
    { s with ca := { s.ca with prior_snd_una := s.tp.snd_una
                               curr_min_delay := INT_MAX
                               dec_cnt := 0
                               min_delay_seen := 0
                               increase_performed := 0 } }
  | _ => s

/-- What one ACK brings from outside the controller: the `ack` argument, the
clock `tcp_time_stamp`, and the answer of `tcp_is_cwnd_limited(sk, in_flight)`. -/
structure AckInput where
  ack : Nat
  now : Nat
  cwnd_limited : Bool
  deriving DecidableEq, Repr

/-- Lines 125-133 of `tcp_siad_cong_avoid`: the RTT sample, from the timestamp
echo when there is one, else from the smoothed RTT. -/
def sample_delay (tp : tcp_sock) (now : Nat) : Nat :=
  if tp.saw_tstamp && decide (tp.rcv_tsecr ≠ 0) then toU32 ((now : Int) - tp.rcv_tsecr)
  else tp.srtt / 8

/-- Lines 138-152 of `tcp_siad_cong_avoid`: the total and the per-epoch
minimum delay. -/
def min_filter (tp : tcp_sock) (c : siad) (delay : Nat) : Except Fault siad :=
  if c.min_delay = INT_MAX ∨ delay ≤ c.min_delay then
    pure { c with min_delay := delay, min_delay_seen := 1, curr_min_delay := delay }
  else if delay ≤ c.curr_min_delay then do
    let alpha ← udiv c.increase c.curr_num_rtt
    if tp.snd_cwnd > (tp.snd_ssthresh + alpha + 1) % 4294967296 then
      pure { c with curr_min_delay := delay, min_delay := delay, min_delay_seen := 1 }
    else
      pure { c with curr_min_delay := delay }
  else
    pure c

/-- Lines 125-159 of `tcp_siad_cong_avoid`: the delay sample, the minimum
filters and `bytes_acked`. Returns the updated controller block and
`bytes_acked`. -/
def delay_update (s : sock) (inp : AckInput) : Except Fault (siad × Nat) := do
  let delay := sample_delay s.tp inp.now
  let c ← min_filter s.tp
    { s.ca with curr_delay := min delay s.ca.prev_delay, prev_delay := delay } delay
  let c := if s.tp.snd_cwnd > c.incthresh ∨ s.tp.snd_cwnd < s.tp.snd_ssthresh then
             { c with min_delay_seen := 1 } else c
  let bytes_acked := toU32 ((inp.ack : Int) - c.prior_snd_una)
  pure ({ c with prior_snd_una := inp.ack }, bytes_acked)

/-- `max(1*curr_num_rtt, (incthresh - snd_cwnd) * curr_num_rtt / d)`, the
recalculation of `increase` used three times in the additional decrease. -/
def recalc_increase (c : siad) (snd_cwnd d : Nat) : Except Fault Nat := do
  let q ← udiv ((toU32 ((c.incthresh : Int) - snd_cwnd) * c.curr_num_rtt) % 4294967296) d
  pure (max c.curr_num_rtt q)

/-- Lines 180-235 of `tcp_siad_cong_avoid`: from the window `w0` computed on
line 178 (and `dec_cnt` already incremented), the window after the further
reductions and the controller block with the recalculated `increase`. -/
def decrease_window (c : siad) (w0 : Nat) : Except Fault (Nat × siad) :=
  if w0 > MIN_CWND + OFFSET then do
    let w1 := w0 - OFFSET
    let inc1 ← recalc_increase c w1 (toU32 ((c.curr_num_rtt : Int) - c.dec_cnt - 1))
    let c := { c with increase := inc1 }
    let alpha ← udiv c.increase c.curr_num_rtt
    let reduce ← udiv w1 (toU32 ((c.curr_num_rtt : Int) - c.dec_cnt))
    if reduce < alpha then
      if (alpha + MIN_CWND) % 4294967296 < w1 then
        pure (toU32 ((w1 : Int) - alpha), c)
      else
        pure (MIN_CWND, { c with min_delay_seen := 1 })
    else
      if (reduce + MIN_CWND) % 4294967296 < w1 then do
        let w2 := toU32 ((w1 : Int) - reduce)
        let inc2 ← recalc_increase c w2 (toU32 ((c.curr_num_rtt : Int) - c.dec_cnt))
        pure (w2, { c with increase := inc2 })
      else do
        let c := { c with min_delay_seen := 1 }
        let inc2 ← recalc_increase c MIN_CWND (toU32 ((c.curr_num_rtt : Int) - c.dec_cnt))
        pure (MIN_CWND, { c with increase := inc2 })
  else do
    let c := { c with min_delay_seen := 1 }
    let inc2 ← recalc_increase c MIN_CWND (toU32 ((c.curr_num_rtt : Int) - c.dec_cnt))
    pure (MIN_CWND, { c with increase := inc2 })

/-- Lines 168-244 of `tcp_siad_cong_avoid`: the additional decrease. -/
def additional_decrease (tp : tcp_sock) (c : siad) : Except Fault sock := do
  let c := { c with dec_cnt := (c.dec_cnt + 1) % 4294967296 }
  let tp := { tp with snd_cwnd_cnt := 0 }
  let w0 ← udiv ((c.min_delay * tp.snd_ssthresh) % 4294967296) c.curr_delay
  let r ← decrease_window c w0
  let tp := { tp with snd_cwnd := r.1, snd_ssthresh := toU32 ((r.1 : Int) - 1) }
  let c := if r.2.increase > (tp.snd_cwnd * r.2.curr_num_rtt) % 4294967296 then
             { r.2 with min_delay_seen := 1 } else r.2
  pure { tp := tp, ca := c }

/-- Lines 277-302 of `tcp_siad_cong_avoid`: the new `increase` after the
window grew by `inc` to `tp.snd_cwnd`. -/
def adapt_increase (tp : tcp_sock) (c : siad) (inc : Nat) : Nat :=
  let old := toU32 ((tp.snd_cwnd : Int) - inc)
  if tp.snd_cwnd ≥ tp.snd_ssthresh ∧ old < tp.snd_ssthresh ∧ c.incthresh > tp.snd_ssthresh then
    max c.curr_num_rtt (toU32 ((c.incthresh : Int) - tp.snd_ssthresh))
  else if (tp.snd_cwnd ≥ tp.snd_ssthresh ∧ old < tp.snd_ssthresh ∧
            c.incthresh ≤ tp.snd_ssthresh) ∨
          (tp.snd_cwnd ≥ c.incthresh ∧ old < c.incthresh) then
    c.curr_num_rtt
  else if tp.snd_cwnd > c.incthresh ∧
          c.increase < ((tp.snd_cwnd / 2) * c.curr_num_rtt) % 4294967296 then
    (c.increase + (inc * c.curr_num_rtt) % 4294967296) % 4294967296
  else if tp.snd_cwnd < tp.snd_ssthresh then
    (tp.snd_cwnd * c.curr_num_rtt) % 4294967296
  else
    c.increase

/-- Lines 249-253 of `tcp_siad_cong_avoid`: take over a `Num_RTT` configured by
socket option. -/
def apply_config (c : siad) : siad :=
  if c.config_num_rtt ≠ 0 ∧ toU32 c.config_num_rtt ≠ c.curr_num_rtt then
    { c with curr_num_rtt := toU32 c.config_num_rtt } else c

/-- Lines 267-306 of `tcp_siad_cong_avoid`: with `snd_cwnd_cnt` already
counted up, grow the window once `snd_cwnd_cnt ≥ next`. -/
def grow_window (tp : tcp_sock) (c : siad) (acked_pkts next : Nat) : sock :=
  if tp.snd_cwnd_cnt ≥ next then
    let n := tp.snd_cwnd_cnt / next
    let r : tcp_sock × siad :=
      if tp.snd_cwnd < tp.snd_cwnd_clamp then
        let inc := min acked_pkts (min n (tp.snd_cwnd_clamp - tp.snd_cwnd))
        let tp1 := { tp with snd_cwnd := (tp.snd_cwnd + inc) % 4294967296 }
        let c1 := { c with increase_performed := 1 }
        (tp1, { c1 with increase := adapt_increase tp1 c1 inc })
      else (tp, c)
    { tp := { r.1 with
                snd_cwnd_cnt := toU32 ((r.1.snd_cwnd_cnt : Int) - (n * next) % 4294967296) }
      ca := r.2 }
  else
    { tp := tp, ca := c }

/-- Lines 247-306 of `tcp_siad_cong_avoid`: the regular increase. -/
def regular_increase (tp : tcp_sock) (c : siad) (bytes_acked : Nat) : Except Fault sock := do
  let c := apply_config c
  let q ← udiv bytes_acked tp.mss_cache
  let acked_pkts := if bytes_acked % tp.mss_cache ≠ 0 ∨ q = 0 then (q + 1) % 4294967296 else q
  let tp := { tp with snd_cwnd_cnt := (tp.snd_cwnd_cnt + acked_pkts) % 4294967296 }
  let r ← udiv ((tp.snd_cwnd * c.curr_num_rtt) % 4294967296) c.increase
  pure (grow_window tp c acked_pkts (max 1 r))

/-- `tcp_siad_cong_avoid(sk, ack, in_flight)`. -/
def tcp_siad_cong_avoid (s : sock) (inp : AckInput) : Except Fault sock := do
  let (c, bytes_acked) ← delay_update s inp
  if !inp.cwnd_limited then
    pure { tp := s.tp, ca := c }
  else do
    let alpha ← udiv c.increase c.curr_num_rtt
    if s.tp.snd_cwnd > (s.tp.snd_ssthresh + alpha + 2) % 4294967296 ∧ c.min_delay_seen = 0 ∧
        c.dec_cnt < toU32 ((c.curr_num_rtt : Int) - 1) then
      additional_decrease s.tp c
    else
      regular_increase s.tp c bytes_acked

/-- Lines 318-348 of `tcp_siad_ssthresh`: the estimate of the window at the
congestion event, "about one RTT ago". -/
def est_cwnd (tp : tcp_sock) (c : siad) : Except Fault Nat :=
  let cwnd := tp.snd_cwnd
  if c.increase_performed = 1 then
    if c.increase ≥ (tp.snd_cwnd * c.curr_num_rtt) % 4294967296 ∨
        tp.snd_cwnd ≤ tp.snd_ssthresh then
      pure (tp.snd_cwnd / 2)
    else if tp.snd_cwnd > c.incthresh ∧
        c.increase = ((tp.snd_cwnd / 2) * c.curr_num_rtt) % 4294967296 then
      pure (cwnd - cwnd / 3)
    else if tp.snd_cwnd ≥ c.incthresh ∧ c.incthresh > tp.snd_ssthresh ∧
        c.increase = c.curr_num_rtt then do
      let a ← udiv (toU32 ((c.incthresh : Int) - tp.snd_ssthresh)) c.curr_num_rtt
      pure (toU32 ((cwnd : Int) - a))
    else if tp.snd_cwnd > c.incthresh then do
      let a ← udiv c.increase c.curr_num_rtt
      pure (toU32 ((cwnd : Int) - min (toU32 ((tp.snd_cwnd : Int) - MIN_CWND)) (a / 2)))
    else do
      let a ← udiv c.increase c.curr_num_rtt
      pure (toU32 ((cwnd : Int) - min (toU32 ((tp.snd_cwnd : Int) - MIN_CWND)) a))
  else
    pure cwnd

/-- Lines 350-373 of `tcp_siad_ssthresh`: the detector of monotonically
increasing minimum delays. The three slots are `u16`. -/
def trend_update (c : siad) : siad :=
  if c.min_delay < c.prev_min_delay1 ∨ c.min_delay < c.prev_min_delay2 ∨
      c.min_delay < c.prev_min_delay3 then
    { c with prev_min_delay1 := 0, prev_min_delay2 := 0, prev_min_delay3 := 0 }
  else if c.min_delay > c.prev_min_delay1 then
    if c.prev_min_delay1 = 0 then
      { c with prev_min_delay1 := c.min_delay % 65536 }
    else if c.prev_min_delay2 = 0 then
      { c with prev_min_delay2 := c.min_delay % 65536 }
    else if c.min_delay > c.prev_min_delay2 then
      if c.prev_min_delay3 = 0 then
        { c with prev_min_delay3 := c.min_delay % 65536 }
      else if c.min_delay > c.prev_min_delay3 then
        { c with min_delay := c.prev_min_delay1, prev_min_delay2 := 0, prev_min_delay3 := 0 }
      else c
    else c
  else c

/-- Lines 375-390 of `tcp_siad_ssthresh`: the new slow-start threshold from the
estimated window `cwnd`. -/
def new_ssthresh (c : siad) (cwnd : Nat) : Except Fault Nat := do
  let ssthresh ←
    if c.min_delay ≠ INT_MAX ∧ c.curr_delay ≠ 0 then
      udiv ((c.min_delay * cwnd) % 4294967296) c.curr_delay
    else
      pure (cwnd / 2)
  if ssthresh > MIN_CWND + OFFSET then
    pure (ssthresh - OFFSET)
  else
    pure MIN_CWND

/-- Lines 392-406 of `tcp_siad_ssthresh`: the value of `curr_num_rtt` for the
next epoch. -/
def next_num_rtt (c : siad) : Except Fault Nat :=
  if c.config_num_rtt ≠ 0 then
    pure (toU32 c.config_num_rtt)
  else if c.default_num_ms ≠ 0 ∧ c.min_delay ≠ INT_MAX ∧ c.curr_delay ≠ 0 then do
    let tmp ← udiv ((c.default_num_ms * 2) % 4294967296)
                   ((c.curr_delay + c.min_delay) % 4294967296)
    pure (max c.default_num_rtt tmp)
  else
    pure c.default_num_rtt

/-- `tcp_siad_ssthresh`: returns the new threshold and the updated socket. -/
def tcp_siad_ssthresh (s : sock) : Except Fault (Nat × sock) := do
  let tp := { s.tp with snd_cwnd_cnt := 0 }
  let cwnd ← est_cwnd tp s.ca
  let c := trend_update s.ca
  let ssthresh ← new_ssthresh c cwnd
  let n ← next_num_rtt c
  let c := { c with curr_num_rtt := n }
  let incthresh :=
    if c.prev_max_cwnd < (2 * cwnd) % 4294967296 then
      max (toU32 ((cwnd : Int) + toS32 ((cwnd : Int) - c.prev_max_cwnd))) ssthresh
    else ssthresh
  let c := { c with incthresh := incthresh }
  let c := { c with increase := max c.curr_num_rtt (toU32 ((c.incthresh : Int) - ssthresh)) }
  let c := { c with prev_max_cwnd := cwnd }
  pure (ssthresh, { tp := tp, ca := c })

/-- `tcp_siad_undo_cwnd`: returns the restored window and the updated socket. -/
def tcp_siad_undo_cwnd (s : sock) : Nat × sock :=
  let cwnd := s.ca.incthresh
  (cwnd, { s with ca := { s.ca with incthresh := s.ca.prev_max_cwnd, min_delay_seen := 1 } })

/-- Every field of the transport block fits its C type (`u32`). -/
def tcp_sock.wf (tp : tcp_sock) : Prop :=
  tp.snd_cwnd ≤ UINT_MAX ∧ tp.snd_ssthresh ≤ UINT_MAX ∧ tp.snd_cwnd_cnt ≤ UINT_MAX ∧
  tp.snd_cwnd_clamp ≤ UINT_MAX ∧ tp.snd_una ≤ UINT_MAX ∧ tp.mss_cache ≤ UINT_MAX ∧
  tp.srtt ≤ UINT_MAX ∧ tp.rcv_tsecr ≤ UINT_MAX

/-- The states of a connection: `tcp_siad_init` on any transport block, then
any sequence of SIAD callbacks; between callbacks the transport may rewrite
the fields it owns. -/
inductive Reachable (p : Params) : sock → Prop where
  | init (tp : tcp_sock) : tp.wf → Reachable p (tcp_siad_init p tp)
  | transport (s : sock) (tp : tcp_sock) : Reachable p s → tp.wf →
      Reachable p { s with tp := tp }
  | cong_avoid (s s1 : sock) (inp : AckInput) : Reachable p s → inp.ack ≤ UINT_MAX →
      inp.now ≤ UINT_MAX → tcp_siad_cong_avoid s inp = Except.ok s1 → Reachable p s1
  | ssthresh (s s1 : sock) (r : Nat) : Reachable p s →
      tcp_siad_ssthresh s = Except.ok (r, s1) → Reachable p s1
  | undo_cwnd (s : sock) : Reachable p s → Reachable p (tcp_siad_undo_cwnd s).2
  | cwnd_event (s : sock) (ev : tcp_ca_event) : Reachable p s →
      Reachable p (tcp_siad_cwnd_event s ev)

/-- Module parameters with `num_rtt = 1` (below `MIN_RTT`) and no sysctl
override. -/
def smallNumRttParams : Params :=
  { num_rtt := 1, num_ms := 0, sysctl_tcp_siad_num_rtt := 0, sysctl_tcp_siad_num_ms := 0 }

/-- A transport block at connection start: initial window 10, no threshold
yet, timestamps in use. -/
def connStart : tcp_sock :=
  { snd_cwnd := 10, snd_ssthresh := 2147483647, snd_cwnd_cnt := 0,
    snd_cwnd_clamp := 4294967295, snd_una := 0, mss_cache := 1460, srtt := 0,
    saw_tstamp := true, rcv_tsecr := 1000 }

/-- The default module parameters (`num_rtt = 20`, `num_ms = 0`). -/
def defaultParams : Params :=
  { num_rtt := 20, num_ms := 0, sysctl_tcp_siad_num_rtt := 0, sysctl_tcp_siad_num_ms := 0 }

/-- A loss on a large window over a long path: one million packets, the
minimum and the current delay both at 5000 ticks, no increase performed yet. -/
def bigWindowLoss : sock :=
  { tp := { connStart with snd_cwnd := 1000000 }
    ca := { (tcp_siad_init defaultParams connStart).ca with
              min_delay := 5000, curr_delay := 5000, prev_delay := 5000,
              curr_min_delay := 5000, increase := 20000000 } }

/-- A loss with `num_ms` in use (`default_num_ms = 100`) after two delay
samples of `2^31` ticks. -/
def wrapDelayLoss : sock :=
  { tp := connStart
    ca := { (tcp_siad_init defaultParams connStart).ca with
              default_num_ms := 100, min_delay := 2147483648, curr_delay := 2147483648,
              prev_delay := 2147483648, curr_min_delay := 2147483648 } }

/-- Module parameters with the smallest legal epoch, `num_rtt = MIN_RTT = 2`. -/
def twoRttParams : Params :=
  { num_rtt := 2, num_ms := 0, sysctl_tcp_siad_num_rtt := 0, sysctl_tcp_siad_num_ms := 0 }

/-- The connection of `connStart` after one stretch ACK for 30 segments with a
delay of 10 ticks: slow start has taken the window from 10 to 40. -/
def traceAfterSlowStart : sock :=
  ((tcp_siad_cong_avoid (tcp_siad_init twoRttParams connStart)
    { ack := 43800, now := 1010, cwnd_limited := true }).toOption).getD
    (tcp_siad_init twoRttParams connStart)

/-- The result of `tcp_siad_ssthresh` at the first loss. -/
def traceAtLoss : Nat × sock :=
  ((tcp_siad_ssthresh traceAfterSlowStart).toOption).getD (0, traceAfterSlowStart)

/-- After recovery the transport has `snd_ssthresh = snd_cwnd = 19`, the value
returned at the loss, and the controller has seen `CA_EVENT_COMPLETE_CWR`. -/
def traceAfterRecovery : sock :=
  tcp_siad_cwnd_event
    { traceAtLoss.2 with
        tp := { traceAtLoss.2.tp with snd_cwnd := 19, snd_ssthresh := 19, snd_una := 43800 } }
    tcp_ca_event.CA_EVENT_COMPLETE_CWR

/-- The state after one more stretch ACK for 30 segments with a delay of 20
ticks: the window has grown to 29, the minimum delay 10 has not been seen
again, and no additional decrease has been made yet in this epoch. -/
def lastDecreaseState : sock :=
  { tp := { snd_cwnd := 29, snd_ssthresh := 19, snd_cwnd_cnt := 0,
            snd_cwnd_clamp := 4294967295, snd_una := 43800, mss_cache := 1460, srtt := 0,
            saw_tstamp := true, rcv_tsecr := 1000 }
    ca := { config_num_rtt := 0, default_num_rtt := 2, default_num_ms := 0, curr_num_rtt := 2,
            increase := 11, prev_max_cwnd := 20, incthresh := 30, prior_snd_una := 87600,
            prev_delay := 20, curr_delay := 10, min_delay := 10, curr_min_delay := 20,
            dec_cnt := 0, min_delay_seen := 0, increase_performed := 1,
            prev_min_delay1 := 10, prev_min_delay2 := 0, prev_min_delay3 := 0 } }

/-- The next ACK, for one segment, with a delay of 30 ticks on a cwnd-limited
flow. -/
def lastDecreaseAck : AckInput := { ack := 89060, now := 1030, cwnd_limited := true }

/-- Module parameters with `num_rtt = 2` and an epoch length given in
milliseconds, `num_ms = 1000`. -/
def msParams : Params :=
  { num_rtt := 2, num_ms := 1000, sysctl_tcp_siad_num_rtt := 0, sysctl_tcp_siad_num_ms := 0 }

/-- With `msParams`: the connection of `connStart` after one stretch ACK for 30
segments with a delay of 10 ticks (slow start, window 40). -/
def msAfterSlowStart : sock :=
  ((tcp_siad_cong_avoid (tcp_siad_init msParams connStart)
    { ack := 43800, now := 1010, cwnd_limited := true }).toOption).getD
    (tcp_siad_init msParams connStart)

/-- The result of `tcp_siad_ssthresh` at the first loss: threshold 19 and
`curr_num_rtt = 2 * 1000 / (10 + 10) = 100`. -/
def msAtLoss : Nat × sock :=
  ((tcp_siad_ssthresh msAfterSlowStart).toOption).getD (0, msAfterSlowStart)

/-- After recovery: the transport has set `snd_cwnd = snd_ssthresh = 19` and
the controller has seen `CA_EVENT_COMPLETE_CWR`. -/
def msAfterRecovery : sock :=
  tcp_siad_cwnd_event
    { msAtLoss.2 with
        tp := { msAtLoss.2.tp with snd_cwnd := 19, snd_ssthresh := 19, snd_una := 43800 } }
    tcp_ca_event.CA_EVENT_COMPLETE_CWR

/-- The states of a connection on which no window arithmetic wraps: as
`Reachable`, with a first window of at least one packet whose product with
`default_num_rtt` fits 32 bits, a clamp that fits `u32`, and after every
`tcp_siad_cong_avoid` a window of at least one packet with
`2 * snd_cwnd * curr_num_rtt` below `2^32`. -/
inductive ReachableNoWrap (p : Params) : sock → Prop where
  | init (tp : tcp_sock) : tp.wf → 1 ≤ tp.snd_cwnd →
      tp.snd_cwnd * (tcp_siad_init p tp).ca.default_num_rtt < 4294967296 →
      ReachableNoWrap p (tcp_siad_init p tp)
  | transport (s : sock) (tp : tcp_sock) : ReachableNoWrap p s → tp.wf →
      ReachableNoWrap p { s with tp := tp }
  | cong_avoid (s s1 : sock) (inp : AckInput) : ReachableNoWrap p s → inp.ack ≤ UINT_MAX →
      inp.now ≤ UINT_MAX → tcp_siad_cong_avoid s inp = Except.ok s1 →
      s.tp.snd_cwnd_clamp ≤ UINT_MAX → 1 ≤ s1.tp.snd_cwnd →
      2 * (s1.tp.snd_cwnd * s1.ca.curr_num_rtt) < 4294967296 → ReachableNoWrap p s1
  | ssthresh (s s1 : sock) (r : Nat) : ReachableNoWrap p s →
      tcp_siad_ssthresh s = Except.ok (r, s1) → ReachableNoWrap p s1
  | undo_cwnd (s : sock) : ReachableNoWrap p s → ReachableNoWrap p (tcp_siad_undo_cwnd s).2
  | cwnd_event (s : sock) (ev : tcp_ca_event) : ReachableNoWrap p s →
      ReachableNoWrap p (tcp_siad_cwnd_event s ev)

/-- A transport block at connection start with a window of `2^31` packets. -/
def hugeWindowStart : tcp_sock := { connStart with snd_cwnd := 2147483648 }

/-- With `msParams`, the state after recovery and one stretch ACK for 100
segments: window 24 over a threshold of 19, `curr_num_rtt = 100`, no additional
decrease made yet. -/
def msBeforeDecrease : sock :=
  ((tcp_siad_cong_avoid msAfterRecovery
    { ack := 189800, now := 1020, cwnd_limited := true }).toOption).getD msAfterRecovery

/-- The next ACK, for one segment, with a delay of 30 ticks on a cwnd-limited
flow. -/
def msDecreaseAck : AckInput := { ack := 191260, now := 1030, cwnd_limited := true }

/-- The controller block and `bytes_acked` after the delay update of
`msDecreaseAck` on `msBeforeDecrease`. -/
def msDecreaseDelays : siad × Nat :=
  ((delay_update msBeforeDecrease msDecreaseAck).toOption).getD (msBeforeDecrease.ca, 0)

/-- A connection in fast increase with the increase rate at its cap: window
98 above `incthresh = 50`, `Num_RTT = 20` and
`increase = (98 >> 1) * 20 = 980`. -/
def fastIncreaseAtCap : sock :=
  { tp := { connStart with snd_cwnd := 98, snd_ssthresh := 40, snd_una := 100000 }
    ca := { (tcp_siad_init defaultParams connStart).ca with
              increase := 980, incthresh := 50, prev_max_cwnd := 60,
              prior_snd_una := 100000, min_delay := 10, curr_delay := 10, prev_delay := 10,
              curr_min_delay := 10, increase_performed := 1 } }

/-- A stretch ACK for four full segments (5840 bytes) on a cwnd-limited
connection. -/
def stretchAck : AckInput := { ack := 105840, now := 1010, cwnd_limited := true }

/-- The end of a recovery that did not bring the window down: the transport
has `snd_ssthresh = 19`, the value returned at the loss, the window is still
40, and the controller has seen `CA_EVENT_COMPLETE_CWR`. -/
def undoneRecovery : sock :=
  tcp_siad_cwnd_event
    { traceAtLoss.2 with tp := { traceAtLoss.2.tp with snd_ssthresh := 19, snd_una := 43800 } }
    tcp_ca_event.CA_EVENT_COMPLETE_CWR

/-- One ACK for a single segment with a delay of 30 ticks. -/
def lateSample : AckInput := { ack := 45260, now := 1030, cwnd_limited := true }

/-- The state after `lateSample` in `undoneRecovery`: the minimum filter has
reset `min_delay` to the sample 30 while `curr_delay` is the smaller of the
last two samples, 10. -/
def resetMinState : sock :=
  { tp := { snd_cwnd := 40, snd_ssthresh := 19, snd_cwnd_cnt := 1,
            snd_cwnd_clamp := 4294967295, snd_una := 43800, mss_cache := 1460, srtt := 0,
            saw_tstamp := true, rcv_tsecr := 1000 }
    ca := { config_num_rtt := 0, default_num_rtt := 2, default_num_ms := 0, curr_num_rtt := 2,
            increase := 11, prev_max_cwnd := 20, incthresh := 30, prior_snd_una := 45260,
            prev_delay := 30, curr_delay := 10, min_delay := 30, curr_min_delay := 30,
            dec_cnt := 0, min_delay_seen := 1, increase_performed := 0,
            prev_min_delay1 := 10, prev_min_delay2 := 0, prev_min_delay3 := 0 } }

end Siad

/-! ## LoLa (`tcp_lola.c`) -/

namespace Lola

/-- `#define BICTCP_BETA_SCALE 1024`. -/
def BICTCP_BETA_SCALE : Nat := 1024

/-- `#define HYSTART_ACK_TRAIN 1`. -/
def HYSTART_ACK_TRAIN : Nat := 1

/-- `#define HYSTART_DELAY 2`. -/
def HYSTART_DELAY : Nat := 2

/-- `#define LOLA_LOSS_SAMPLING_LOCKED 4`. -/
def LOLA_LOSS_SAMPLING_LOCKED : Nat := 4

/-- `#define LOLA_RED_LOCKED 8`. -/
def LOLA_RED_LOCKED : Nat := 8

/-- `#define LOLA_IN_FAIR_FLOW_BALANCING 16`. -/
def LOLA_IN_FAIR_FLOW_BALANCING : Nat := 16

/-- `#define LOLA_IN_CWND_HOLD 32`. -/
def LOLA_IN_CWND_HOLD : Nat := 32

/-- `#define LOLA_BASE_REDUCED 128`. -/
def LOLA_BASE_REDUCED : Nat := 128

/-- `#define LOLA_TCP_PARAMETER_SHIFT 10`, as the divisor `2^10`. -/
def LOLA_TCP_PARAMETER_SCALE : Nat := 1024

/-- `#define LOLA_DO_PRECAUTIONARY_DECONGESTION 1`. -/
def LOLA_DO_PRECAUTIONARY_DECONGESTION : Nat := 1

/-- `#define LOLA_DO_FAIR_FLOW_BALANCING 2`. -/
def LOLA_DO_FAIR_FLOW_BALANCING : Nat := 2

/-- `#define LOLA_DO_FAST_CONVERGENCE 4`. -/
def LOLA_DO_FAST_CONVERGENCE : Nat := 4

/-- `#define LOLA_DO_CWND_HOLD 8`. -/
def LOLA_DO_CWND_HOLD : Nat := 8

/-- The kernel constant `USEC_PER_MSEC` (`1000L`). -/
def USEC_PER_MSEC : Nat := 1000

/-- The module parameters of `tcp_lola.c` (all `static int`). -/
structure Params where
  fast_convergence : Int
  beta : Int
  initial_ssthresh : Int
  bic_scale : Int
  tcp_friendliness : Int
  hystart : Int
  hystart_detect : Int
  hystart_low_window : Int
  hystart_ack_delta : Int
  lola_mode : Int
  lola_queue_max : Int
  lola_delta : Int
  lola_gamma : Int
  lola_cwnd_min : Int
  lola_base_timeout : Int
  lola_base_delay_epsilon : Int
  lola_fair_flow_balancing_start_delay : Int
  lola_fair_flow_balancing_curve_factor : Int
  lola_hold_time : Int
  lola_min_samples : Int
  lola_measurement_time : Int
  lola_slow_start_exit : Int

/-- What the module takes from the kernel at compile time: the tick rate `HZ`
and the function `msecs_to_jiffies`. -/
structure Kernel where
  HZ : Nat
  msecs_to_jiffies : Nat → Nat

/-- `struct lolatcp`. `cnt` is `s32`; `id`, `base_invalidation_count` and
`flags` are `u8`; everything else is `u32`. -/
structure lolatcp where
  cnt : Int
  last_max_cwnd : Nat
  loss_cwnd : Nat
  last_time : Nat
  bic_origin_point : Nat
  bic_K : Nat
  epoch_start : Nat
  ack_cnt : Nat
  tcp_cwnd : Nat
  sample_cnt : Nat
  delay_min : Nat
  id : Nat
  base_invalidation_count : Nat
  flags : Nat
  end_seq : Nat
  last_ack : Nat
  curr_rtt : Nat
  end_measurement : Nat
  deriving DecidableEq

/-- The fields of `struct tcp_sock` that `tcp_lola.c` reads or writes. -/
structure tcp_sock where
  snd_cwnd : Nat
  snd_ssthresh : Nat
  snd_cwnd_cnt : Nat
  snd_cwnd_clamp : Nat
  snd_nxt : Nat
  lsndtime : Nat
  max_packets_out : Nat
  deriving DecidableEq

/-- A socket: the transport part and the controller's private block. -/
structure sock where
  tp : tcp_sock
  ca : lolatcp
  deriving DecidableEq

/-- The test `x & mask` of a C condition. -/
def has_bit (x mask : Nat) : Bool := x &&& mask ≠ 0

/-- The statement `flags &= ~mask` on a `u8`. -/
def clear_bits (flags mask : Nat) : Nat := flags &&& (255 - mask)

/-- The statement `flags |= mask` on a `u8`. -/
def set_bits (flags mask : Nat) : Nat := (flags ||| mask) % 256

/-- The test `lola_mode & bit` on the `int` module parameter. -/
def mode_has (p : Params) (bit : Nat) : Bool := has_bit (toU32 p.lola_mode) bit

/-- `lola_get_target(time)`: `((tcp_time_stamp - time) / sigma)^3`, computed in
`u64` and divided by the `u32` value of `curve_factor^3` with `do_div`. -/
def lola_get_target (p : Params) (now time : Nat) : Except Fault Nat := do
  let f := toU32 ((now : Int) - time)
  let cube := (f * ((f * f) % 18446744073709551616)) % 18446744073709551616
  let cf := p.lola_fair_flow_balancing_curve_factor
  let q ← udiv cube (toU32 (toS32 (toS32 (cf * cf) * cf)))
  pure (q % 4294967296)

/-- Which way one evaluation of `lolatcp_precautionary_decongestion` went:
the entry condition failed (`skipped`); the hold interval was started and the
function returned early (`held`); the window was reduced (`reduced`); or the
measurement interval was closed without a reduction (`measured`). -/
inductive Outcome where
  | skipped
  | held
  | reduced
  | measured
  deriving DecidableEq

/-- The entry condition of `lolatcp_precautionary_decongestion` (lines
336-354). -/
def gate_open (p : Params) (k : Kernel) (now : Nat) (s : sock) : Bool :=
  let ca := s.ca
  mode_has p LOLA_DO_PRECAUTIONARY_DECONGESTION && decide (ca.delay_min ≠ 0) &&
  decide (ca.curr_rtt ≠ 0) &&
  ((decide (ca.epoch_start ≠ 0) && !has_bit ca.flags LOLA_IN_CWND_HOLD &&
    (has_bit ca.flags (LOLA_IN_FAIR_FLOW_BALANCING ||| HYSTART_DELAY ||| LOLA_BASE_REDUCED) ||
      decide (toU32 ((now : Int) - ca.epoch_start)
        > ((2 * ca.curr_rtt) % 4294967296) / USEC_PER_MSEC)) &&
    ((decide (ca.end_measurement ≤ now) || has_bit ca.flags HYSTART_DELAY) &&
      decide (ca.sample_cnt ≥ toU32 p.lola_min_samples)) &&
    decide (s.tp.snd_cwnd ≥ toU32 p.lola_cwnd_min)) ||
   (has_bit ca.flags LOLA_IN_CWND_HOLD &&
    decide (toU32 ((now : Int) - ca.epoch_start) > k.msecs_to_jiffies (toU32 p.lola_hold_time))))

/-- Lines 382-418: the fair-flow-balancing update of `cnt`, run while
`LOLA_IN_FAIR_FLOW_BALANCING` is set. -/
def balancing_cnt (p : Params) (now : Nat) (tp : tcp_sock) (ca : lolatcp) (queue_delay : Nat) :
    Except Fault Int := do
  let target_queue ← lola_get_target p now ca.epoch_start
  let packets_in_queue ← udiv ((tp.snd_cwnd * queue_delay) % 18446744073709551616) ca.curr_rtt
  let cnt1 ←
    if packets_in_queue < target_queue then do
      let t2 ← lola_get_target p now ((ca.epoch_start + ca.delay_min / USEC_PER_MSEC) % 4294967296)
      let a := (toU32 ((target_queue : Int) - t2) * 4) % 4294967296
      let q ← udiv tp.snd_cwnd (toU32 ca.cnt)
      let b := (q * 2) % 4294967296
      let c := toU32 ((target_queue : Int) - packets_in_queue % 4294967296)
      let m := max (min (max a b) c) 1
      let num := ((tp.snd_cwnd * toU32 p.lola_measurement_time) % 4294967296) * USEC_PER_MSEC
      let r ← udiv num ((m * ca.curr_rtt) % 4294967296)
      pure (toS32 r)
    else
      pure (toS32 (100 * tp.snd_cwnd))
  pure (toS32 (max (toU32 cnt1) 4))

/-- Conversion of an `int` to `u64` (sign extension, then reduction modulo
`2^64`). -/
def toU64 (x : Int) : Nat := (x % 18446744073709551616).toNat

/-- Lines 474-483: the new window, computed in `u64`:
`cwnd = snd_cwnd * delay_min * gamma; do_div(cwnd, curr_rtt); cwnd >>= 10;
cwnd = max(lola_cwnd_min, cwnd)`. -/
def reduced_cwnd (p : Params) (snd_cwnd delay_min curr_rtt : Nat) : Except Fault Nat := do
  let prod := (((snd_cwnd * delay_min) % 18446744073709551616) * toU64 p.lola_gamma)
                % 18446744073709551616
  let q ← udiv prod curr_rtt
  let cwnd := q / LOLA_TCP_PARAMETER_SCALE
  pure (max (toU64 p.lola_cwnd_min) cwnd)

/-- Lines 447-527: the precautionary reduction itself. -/
def reduce_window (p : Params) (tp : tcp_sock) (ca : lolatcp) (queue_delay : Nat) :
    Except Fault sock := do
  let ca := if has_bit ca.flags LOLA_IN_CWND_HOLD then
              { ca with flags := clear_bits ca.flags LOLA_BASE_REDUCED } else ca
  let ca := if queue_delay > toU32 p.lola_queue_max then
              { ca with flags := clear_bits ca.flags LOLA_BASE_REDUCED } else ca
  let mask := LOLA_IN_CWND_HOLD ||| LOLA_IN_FAIR_FLOW_BALANCING ||| HYSTART_DELAY
  let ca := { ca with flags := clear_bits ca.flags mask }
  let cwnd ← reduced_cwnd p tp.snd_cwnd ca.delay_min ca.curr_rtt
  let ca :=
    if mode_has p LOLA_DO_FAST_CONVERGENCE ∧ tp.snd_cwnd < ca.last_max_cwnd then
      { ca with last_max_cwnd :=
          ((tp.snd_cwnd * toU32 p.lola_delta) % 4294967296) / LOLA_TCP_PARAMETER_SCALE }
    else
      { ca with last_max_cwnd := tp.snd_cwnd }
  let ca := { ca with flags := clear_bits ca.flags LOLA_BASE_REDUCED }
  let tp := { tp with snd_cwnd := cwnd % 4294967296 }
  let ca :=
    if p.lola_base_timeout ≠ 0 then
      let n : Nat := (ca.base_invalidation_count + 1) % 256
      if (n : Int) > p.lola_base_timeout then
        { ca with delay_min := 0, base_invalidation_count := 0 }
      else
        { ca with base_invalidation_count := n }
    else ca
  pure { tp := tp, ca := ca }

/-- Lines 357-372: clear bit 64 and, when the queuing delay exceeds the
start delay, enter fair flow balancing. -/
def enter_balancing (p : Params) (now : Nat) (ca : lolatcp) (queue_delay : Nat) : lolatcp :=
  let ca := { ca with flags := clear_bits ca.flags 64 }
  if mode_has p LOLA_DO_FAIR_FLOW_BALANCING ∧ ¬ has_bit ca.flags LOLA_IN_CWND_HOLD ∧
      queue_delay > toU32 p.lola_fair_flow_balancing_start_delay ∧
      ¬ has_bit ca.flags LOLA_IN_FAIR_FLOW_BALANCING then
    { ca with flags := set_bits ca.flags LOLA_IN_FAIR_FLOW_BALANCING, epoch_start := now }
  else ca

/-- Lines 382-418: while in fair flow balancing, recompute `cnt`. -/
def balancing (p : Params) (now : Nat) (tp : tcp_sock) (ca : lolatcp) (queue_delay : Nat) :
    Except Fault lolatcp :=
  if has_bit ca.flags LOLA_IN_FAIR_FLOW_BALANCING then do
    let c ← balancing_cnt p now tp ca queue_delay
    pure { ca with cnt := c }
  else pure ca

/-- Lines 539-545: close the measurement interval. -/
def close_interval (p : Params) (k : Kernel) (now : Nat) (ca : lolatcp) : lolatcp :=
  { ca with sample_cnt := 0, curr_rtt := 0,
            end_measurement :=
              (now + k.msecs_to_jiffies (toU32 p.lola_measurement_time)) % 4294967296 }

/-- Lines 426-545: hold, reduce or just close the measurement interval. -/
def decongest (p : Params) (k : Kernel) (now : Nat) (tp : tcp_sock) (ca : lolatcp)
    (queue_delay : Nat) : Except Fault (Outcome × sock) :=
  if queue_delay > toU32 p.lola_queue_max ∨
      has_bit ca.flags (LOLA_IN_CWND_HOLD ||| LOLA_BASE_REDUCED ||| HYSTART_DELAY) then
    let ca := { ca with flags := clear_bits ca.flags LOLA_IN_FAIR_FLOW_BALANCING }
    if mode_has p LOLA_DO_PRECAUTIONARY_DECONGESTION then
      if mode_has p LOLA_DO_CWND_HOLD ∧
          ¬ has_bit ca.flags (LOLA_IN_CWND_HOLD ||| LOLA_BASE_REDUCED ||| HYSTART_DELAY) then
        let fl := set_bits ca.flags LOLA_IN_CWND_HOLD
        let fl := (fl ^^^ (fl &&& LOLA_IN_FAIR_FLOW_BALANCING)) % 256
        pure (Outcome.held,
          { tp := tp
            ca := { ca with flags := fl, cnt := toS32 (100 * tp.snd_cwnd), epoch_start := now } })
      else do
        let s1 ← reduce_window p tp ca queue_delay
        let ca := { s1.ca with epoch_start := 0 }
        let tp := { s1.tp with snd_ssthresh := min s1.tp.snd_cwnd s1.tp.snd_ssthresh }
        pure (Outcome.reduced, { tp := tp, ca := close_interval p k now ca })
    else
      let ca := { ca with epoch_start := 0 }
      let tp := { tp with snd_ssthresh := min tp.snd_cwnd tp.snd_ssthresh }
      pure (Outcome.measured, { tp := tp, ca := close_interval p k now ca })
  else
    pure (Outcome.measured, { tp := tp, ca := close_interval p k now ca })

/-- `lolatcp_precautionary_decongestion` at clock reading `now`
(`tcp_time_stamp`), together with the way the evaluation went. -/
def precautionary_step (p : Params) (k : Kernel) (now : Nat) (s : sock) :
    Except Fault (Outcome × sock) :=
  if gate_open p k now s then do
    let queue_delay := toU32 ((s.ca.curr_rtt : Int) - s.ca.delay_min)
    let ca := enter_balancing p now s.ca queue_delay
    let ca ← balancing p now s.tp ca queue_delay
    decongest p k now s.tp ca queue_delay
  else
    pure (Outcome.skipped, s)

/-- `lolatcp_precautionary_decongestion`. -/
def lolatcp_precautionary_decongestion (p : Params) (k : Kernel) (now : Nat) (s : sock) :
    Except Fault sock := do
  let r ← precautionary_step p k now s
  pure r.2

/-- `bictcp_recalc_ssthresh`: returns the new threshold and the updated
socket. -/
def bictcp_recalc_ssthresh (p : Params) (s : sock) : Nat × sock :=
  let tp := s.tp
  let ca := s.ca
  let ca := { ca with loss_cwnd := tp.snd_cwnd, cnt := toS32 (tp.snd_cwnd * 100) }
  let ca :=
    if tp.snd_cwnd < ca.last_max_cwnd ∧ p.fast_convergence ≠ 0 then
      { ca with last_max_cwnd :=
          ((tp.snd_cwnd * toU32 ((BICTCP_BETA_SCALE : Int) + p.beta)) % 4294967296)
            / toU32 (2 * BICTCP_BETA_SCALE) }
    else
      { ca with last_max_cwnd := tp.snd_cwnd }
  let ca := { ca with flags := set_bits ca.flags LOLA_LOSS_SAMPLING_LOCKED }
  let ca := { ca with epoch_start := 0, curr_rtt := 0, sample_cnt := 0 }
  let ca := { ca with flags := clear_bits ca.flags (LOLA_IN_CWND_HOLD ||| LOLA_IN_FAIR_FLOW_BALANCING) }
  (max (((tp.snd_cwnd * toU32 p.beta) % 4294967296) / BICTCP_BETA_SCALE) 2, { tp := tp, ca := ca })

/-- `bictcp_undo_cwnd` at clock reading `now`: returns the restored window and
the updated socket. -/
def bictcp_undo_cwnd (now : Nat) (s : sock) : Nat × sock :=
  let ca := s.ca
  let ca :=
    if ca.epoch_start = 0 ∨
        toU32 ((now : Int) - ca.epoch_start) < (ca.delay_min / USEC_PER_MSEC) / 2 then
      { ca with epoch_start := 0 }
    else ca
  let ca := { ca with flags := clear_bits ca.flags LOLA_LOSS_SAMPLING_LOCKED }
  (max s.tp.snd_cwnd ca.loss_cwnd, { tp := s.tp, ca := ca })

/-- The default module parameters of `tcp_lola.c`. -/
def defaultParams : Params :=
  { fast_convergence := 1, beta := 717, initial_ssthresh := 0, bic_scale := 41,
    tcp_friendliness := 1, hystart := 1, hystart_detect := 3, hystart_low_window := 16,
    hystart_ack_delta := 2, lola_mode := 11, lola_queue_max := 5000, lola_delta := 900,
    lola_gamma := 927, lola_cwnd_min := 5, lola_base_timeout := 10,
    lola_base_delay_epsilon := 100, lola_fair_flow_balancing_start_delay := 500,
    lola_fair_flow_balancing_curve_factor := 75, lola_hold_time := 250,
    lola_min_samples := 20, lola_measurement_time := 40, lola_slow_start_exit := 1000 }

/-- A kernel with `HZ = 1000`, where `msecs_to_jiffies` is the identity. -/
def kernelHz1000 : Kernel := { HZ := 1000, msecs_to_jiffies := fun m => m }

/-- A connection in the hold interval since tick 1000: window 8,
`delay_min = 10000` us and `curr_rtt = 20000` us. -/
def holdSmallWindow : sock :=
  { tp := { snd_cwnd := 8, snd_ssthresh := 8, snd_cwnd_cnt := 0, snd_cwnd_clamp := 4294967295,
            snd_nxt := 0, lsndtime := 0, max_packets_out := 0 }
    ca := { cnt := 800, last_max_cwnd := 0, loss_cwnd := 0, last_time := 0,
            bic_origin_point := 0, bic_K := 0, epoch_start := 1000, ack_cnt := 0, tcp_cwnd := 0,
            sample_cnt := 20, delay_min := 10000, id := 0, base_invalidation_count := 0,
            flags := 32, end_seq := 0, last_ack := 0, curr_rtt := 20000,
            end_measurement := 1040 } }

/-- The scenario of the default parameters outside slow start: window 100 over
a threshold of 50, `delay_min = 10000` us, `curr_rtt = 20000` us, 20 samples,
the measurement interval ended at tick 1040, the epoch started at tick 900, no
flag set. -/
def defaultScenario : sock :=
  { tp := { snd_cwnd := 100, snd_ssthresh := 50, snd_cwnd_cnt := 0,
            snd_cwnd_clamp := 4294967295, snd_nxt := 0, lsndtime := 0, max_packets_out := 0 }
    ca := { cnt := 100, last_max_cwnd := 0, loss_cwnd := 0, last_time := 0,
            bic_origin_point := 0, bic_K := 0, epoch_start := 900, ack_cnt := 0, tcp_cwnd := 0,
            sample_cnt := 20, delay_min := 10000, id := 0, base_invalidation_count := 0,
            flags := 0, end_seq := 0, last_ack := 0, curr_rtt := 20000,
            end_measurement := 1040 } }

/-- The default scenario right after slow start was left on the delay
criterion: `HYSTART_DELAY` is still set. -/
def afterSlowStartExit : sock :=
  { defaultScenario with ca := { defaultScenario.ca with flags := HYSTART_DELAY } }

/-- The default scenario with a window of 30 million packets. -/
def hugeWindowScenario : sock :=
  { defaultScenario with tp := { defaultScenario.tp with snd_cwnd := 30000000 } }

/-- The default parameters with fast convergence switched on in `lola_mode`
(`11 | LOLA_DO_FAST_CONVERGENCE = 15`). -/
def fastConvergenceParams : Params := { defaultParams with lola_mode := 15 }

/-- The default scenario in hold since tick 1100, with the window of the
previous reduction remembered as `last_max_cwnd = 120`. -/
def heldScenario : sock :=
  { defaultScenario with
    ca := { defaultScenario.ca with
              flags := LOLA_IN_CWND_HOLD, epoch_start := 1100, last_max_cwnd := 120 } }

/-- A loss at a window of three million packets that is below the previous
maximum of four million, with no flag set. -/
def millionsWindowLoss : sock :=
  { tp := { defaultScenario.tp with snd_cwnd := 3000000, snd_ssthresh := 1000000 }
    ca := { defaultScenario.ca with last_max_cwnd := 4000000 } }

/-- The number of bits of `a`, looking at no more than `fuel` of them. -/
def fls_loop : Nat → Nat → Nat
  | 0, _ => 0
  | fuel + 1, a => if a = 0 then 0 else fls_loop fuel (a / 2) + 1

/-- The kernel helper `fls64(x)` (include/asm-generic/bitops/fls64.h): the
position of the most significant set bit of a 64-bit word, counted from 1,
and 0 for `x = 0`. -/
def fls64 (a : Nat) : Nat := fls_loop 64 a

/-- The 64-entry table `v` of `cubic_root`. -/
def cubic_root_table : List Nat :=
  [  0,  54,  54,  54, 118, 118, 118, 118,
   123, 129, 134, 138, 143, 147, 151, 156,
   157, 161, 164, 168, 170, 173, 176, 179,
   181, 185, 187, 190, 192, 194, 197, 199,
   200, 202, 204, 206, 209, 211, 213, 215,
   217, 219, 221, 222, 224, 225, 227, 229,
   231, 232, 234, 236, 237, 239, 240, 242,
   244, 245, 246, 248, 250, 251, 252, 254]

/-- The read `v[i]`; an index outside the table is a fault. -/
def table_read (i : Nat) : Except Fault Nat :=
  match cubic_root_table[i]? with
  | some x => Except.ok x
  | none => Except.error Fault.outOfBounds

/-- Line 281 of `cubic_root`: `b = ((b * 84) >> 8) - 1` on `u32`, for
`b = fls64(a)`. -/
def cubic_root_b (a : Nat) : Nat := toU32 ((((fls64 a * 84) % 4294967296 / 256 : Nat) : Int) - 1)

/-- Line 282 of `cubic_root`: `shift = (a >> (b * 3))`, stored in a `u32`. -/
def cubic_root_shift (a : Nat) : Nat := (a / 2 ^ (cubic_root_b a * 3)) % 4294967296

/-- Line 284 of `cubic_root`: the initial estimate
`x = ((u32)(((u32)v[shift] + 10) << b)) >> 6` for the table entry `t`. -/
def cubic_root_estimate (a t : Nat) : Nat := (((t + 10) * 2 ^ cubic_root_b a) % 4294967296) / 64

/-- `cubic_root(a)` for a `u64` argument. -/
def cubic_root (a : Nat) : Except Fault Nat :=
  if fls64 a < 7 then do
    let t ← table_read (a % 4294967296)
    pure ((t + 35) / 64)
  else do
    let t ← table_read (cubic_root_shift a)
    let x := cubic_root_estimate a t
    let d ← udiv a (x * toU32 ((x : Int) - 1))
    let x1 := (2 * x + d % 4294967296) % 4294967296
    pure (((x1 * 341) % 4294967296) / 1024)

/-- `#define HYSTART_MIN_SAMPLES 16`. -/
def HYSTART_MIN_SAMPLES : Nat := 16

/-- `bictcp_hystart_reset(sk)`; `clock` is the value of `bictcp_clock()`. -/
def bictcp_hystart_reset (clock : Nat) (s : sock) : sock :=
  { s with ca := { s.ca with
      epoch_start := clock
      last_ack := clock
      end_seq := s.tp.snd_nxt
      curr_rtt := 0
      sample_cnt := 0
      flags := clear_bits s.ca.flags (LOLA_IN_CWND_HOLD ||| LOLA_IN_FAIR_FLOW_BALANCING) } }

/-- `lolatcp_reset(ca)`. -/
def lolatcp_reset (ca : lolatcp) : lolatcp :=
  { ca with cnt := 0, last_max_cwnd := 0, last_time := 0, bic_origin_point := 0, bic_K := 0,
            delay_min := 0, epoch_start := 0, ack_cnt := 0, tcp_cwnd := 0, flags := 0,
            sample_cnt := 0, curr_rtt := 0 }

/-- `lolatcp_init(sk)` on the socket memory `s`; `id` is the byte drawn by
`get_random_bytes` and `clock` the value of `bictcp_clock()`. -/
def lolatcp_init (p : Params) (clock id : Nat) (s : sock) : sock :=
  let s1 : sock := { s with ca := { lolatcp_reset s.ca with loss_cwnd := 0, id := id } }
  let s2 := if p.hystart ≠ 0 then bictcp_hystart_reset clock s1 else s1
  if p.initial_ssthresh ≠ 0 then
    { s2 with tp := { s2.tp with snd_ssthresh := toU32 p.initial_ssthresh } }
  else s2

/-- Lines 810-826 of `hystart_update`: the ACK-train detector. -/
def ack_train_detect (p : Params) (clock : Nat) (s : sock) : sock :=
  if toS32 ((clock : Int) - s.ca.last_ack) ≤ p.hystart_ack_delta then
    let ca := { s.ca with last_ack := clock }
    if toS32 ((clock : Int) - ca.epoch_start) > ((ca.delay_min / USEC_PER_MSEC / 2 : Nat) : Int) then
      { tp := { s.tp with snd_ssthresh := s.tp.snd_cwnd }
        ca := { ca with flags := set_bits ca.flags HYSTART_ACK_TRAIN, epoch_start := 0 } }
    else { s with ca := ca }
  else s

/-- Lines 829-851 of `hystart_update`: the delay detector. -/
def delay_detect (p : Params) (s : sock) (delay : Nat) : sock :=
  if s.ca.sample_cnt < HYSTART_MIN_SAMPLES then
    let ca := if s.ca.curr_rtt = 0 ∨ s.ca.curr_rtt > delay then
                { s.ca with curr_rtt := delay } else s.ca
    { s with ca := { ca with sample_cnt := (ca.sample_cnt + 1) % 4294967296 } }
  else if s.ca.curr_rtt > (s.ca.delay_min + toU32 p.lola_slow_start_exit) % 4294967296 then
    let ca := { s.ca with flags := clear_bits s.ca.flags LOLA_IN_FAIR_FLOW_BALANCING }
    let ca := if ca.last_max_cwnd = 0 then
                { ca with flags := set_bits ca.flags HYSTART_DELAY, epoch_start := 0 } else ca
    { tp := { s.tp with snd_ssthresh := s.tp.snd_cwnd }, ca := ca }
  else s

/-- Lines 807-852 of `hystart_update`: nothing once a detection flag is set,
else the two detectors that `hystart_detect` enables, one after the other. -/
def hystart_detectors (p : Params) (clock : Nat) (s : sock) (delay : Nat) : sock :=
  if has_bit s.ca.flags (toU32 p.hystart_detect) then s
  else
    let s1 := if has_bit (toU32 p.hystart_detect) HYSTART_ACK_TRAIN then
                ack_train_detect p clock s else s
    if has_bit (toU32 p.hystart_detect) HYSTART_DELAY then delay_detect p s1 delay else s1

/-- `hystart_update(sk, delay)`; `now` is `tcp_time_stamp` and `clock` the
value of `bictcp_clock()`. -/
def hystart_update (p : Params) (now clock : Nat) (s : sock) (delay : Nat) : sock :=
  hystart_detectors p clock
    (if s.ca.epoch_start = 0 then { s with ca := { s.ca with epoch_start := now } } else s) delay

/-- The test of line 875 of `lolatcp_acked`: the delay sample is discarded
right after fast recovery. `in_slow_start` is the answer of the kernel helper
`tcp_in_slow_start(tp)`. -/
def sample_discarded (now : Nat) (in_slow_start : Bool) (ca : lolatcp) : Bool :=
  has_bit ca.flags LOLA_LOSS_SAMPLING_LOCKED && !in_slow_start &&
    (decide (ca.epoch_start = 0) ||
      decide (toS32 ((now : Int) - ca.epoch_start) < ((ca.delay_min / USEC_PER_MSEC : Nat) : Int)))

/-- Lines 879-882 of `lolatcp_acked`: the first sample that is not discarded
ends the lock. -/
def unlock_sampling (ca : lolatcp) : lolatcp :=
  if has_bit ca.flags LOLA_LOSS_SAMPLING_LOCKED then
    { ca with flags := clear_bits ca.flags LOLA_LOSS_SAMPLING_LOCKED } else ca

/-- Lines 887-895 of `lolatcp_acked`: outside a hold, the sample goes into
`curr_rtt` and `sample_cnt`. -/
def record_rtt (p : Params) (ca : lolatcp) (pkts_acked delay : Nat) : lolatcp :=
  if mode_has p LOLA_DO_PRECAUTIONARY_DECONGESTION ∧ ¬ has_bit ca.flags LOLA_IN_CWND_HOLD then
    let ca1 := if ca.curr_rtt = 0 ∨ ca.curr_rtt > delay then { ca with curr_rtt := delay }
               else ca
    { ca1 with sample_cnt := (ca1.sample_cnt + pkts_acked) % 4294967296 }
  else ca

/-- Lines 897-901 of `lolatcp_acked`: the first sample, or a smaller one,
becomes `delay_min`. -/
def record_base (p : Params) (ca : lolatcp) (delay : Nat) : lolatcp :=
  if ca.delay_min = 0 ∨ ca.delay_min > delay then
    let ca1 := if toU32 ((ca.delay_min : Int) - delay) > toU32 p.lola_base_delay_epsilon then
                 { ca with flags := set_bits ca.flags LOLA_BASE_REDUCED } else ca
    { ca1 with delay_min := delay }
  else ca

/-- Lines 904-905 of `lolatcp_acked`: a sample close to `delay_min` resets the
invalidation counter. -/
def reset_invalidation (p : Params) (ca : lolatcp) (delay : Nat) : lolatcp :=
  if toU32 ((delay : Int) - ca.delay_min) < toU32 p.lola_base_delay_epsilon then
    { ca with base_invalidation_count := 0 }
  else ca

/-- Lines 879-906 of `lolatcp_acked`: the sample `delay` is taken into
`curr_rtt`, `sample_cnt` and `delay_min`. -/
def take_sample (p : Params) (ca : lolatcp) (pkts_acked delay : Nat) : lolatcp :=
  reset_invalidation p (record_base p (record_rtt p (unlock_sampling ca) pkts_acked delay) delay)
    delay

/-- `lolatcp_acked(sk, pkts_acked, rtt_us)`; `now` is `tcp_time_stamp`,
`clock` the value of `bictcp_clock()` and `in_slow_start` the answer of
`tcp_in_slow_start(tp)`. -/
def lolatcp_acked (p : Params) (now clock : Nat) (in_slow_start : Bool) (s : sock)
    (pkts_acked : Nat) (rtt_us : Int) : sock :=
  if rtt_us ≤ 0 then s
  else if sample_discarded now in_slow_start s.ca then s
  else
    let delay := toU32 rtt_us
    let s1 : sock := { s with ca := take_sample p s.ca pkts_acked delay }
    if p.hystart ≠ 0 ∧ in_slow_start ∧ s1.tp.snd_cwnd ≥ toU32 p.hystart_low_window then
      hystart_update p now clock s1 delay
    else s1

/-- The states of a LoLa connection: `lolatcp_init` on any socket memory, then
any sequence of `lolatcp_acked` (which calls `hystart_update`),
`lolatcp_precautionary_decongestion`, `bictcp_recalc_ssthresh`,
`bictcp_undo_cwnd` and `bictcp_hystart_reset` calls; between the calls the
transport may rewrite the fields it owns. `rtt_us` is an `s32`. -/
inductive Reachable (p : Params) (k : Kernel) : sock → Prop where
  | init (clock id : Nat) (s : sock) : Reachable p k (lolatcp_init p clock id s)
  | transport (s : sock) (tp : tcp_sock) : Reachable p k s → Reachable p k { s with tp := tp }
  | acked (s : sock) (now clock : Nat) (in_slow_start : Bool) (pkts_acked : Nat) (rtt_us : Int) :
      Reachable p k s → rtt_us ≤ 2147483647 →
      Reachable p k (lolatcp_acked p now clock in_slow_start s pkts_acked rtt_us)
  | decongestion (s s1 : sock) (now : Nat) : Reachable p k s →
      lolatcp_precautionary_decongestion p k now s = Except.ok s1 → Reachable p k s1
  | recalc_ssthresh (s : sock) : Reachable p k s → Reachable p k (bictcp_recalc_ssthresh p s).2
  | undo_cwnd (s : sock) (now : Nat) : Reachable p k s → Reachable p k (bictcp_undo_cwnd now s).2
  | hystart_reset (s : sock) (clock : Nat) : Reachable p k s →
      Reachable p k (bictcp_hystart_reset clock s)

/-- The default scenario after a loss: `LOLA_LOSS_SAMPLING_LOCKED` set. -/
def lockedScenario : sock :=
  { defaultScenario with ca := { defaultScenario.ca with flags := LOLA_LOSS_SAMPLING_LOCKED } }

/-- The default scenario in slow start with the detectors armed: 16 samples,
`curr_rtt = 20000` us over `delay_min = 10000` us, no flag set. -/
def slowStartScenario : sock :=
  { defaultScenario with ca := { defaultScenario.ca with sample_cnt := 16 } }

/-- The default scenario in slow start with 3 samples, `curr_rtt = 20000`. -/
def earlySlowStartScenario : sock :=
  { defaultScenario with ca := { defaultScenario.ca with sample_cnt := 3 } }

/-- The default parameters with `beta = -1`, a value the `int` module
parameter `beta` (mode 0644) accepts. -/
def negativeBetaParams : Params := { defaultParams with beta := -1 }

/-- The default scenario with a window of 2 packets. -/
def twoPacketWindow : sock :=
  { defaultScenario with tp := { defaultScenario.tp with snd_cwnd := 2 } }

/-- The default parameters with `lola_slow_start_exit = -1000`, a value the
`int` module parameter (mode 0644) accepts. -/
def negativeExitParams : Params := { defaultParams with lola_slow_start_exit := -1000 }

/-- Slow start with the detectors armed on a short path: 16 samples,
`curr_rtt = 600` us over `delay_min = 500` us, no flag set. -/
def shortPathSlowStart : sock :=
  { slowStartScenario with ca := { slowStartScenario.ca with delay_min := 500, curr_rtt := 600 } }

/-- The default parameters with `lola_fair_flow_balancing_curve_factor = 0`, a
value the `int` module parameter (mode 0644) accepts. -/
def zeroCurveParams : Params := { defaultParams with lola_fair_flow_balancing_curve_factor := 0 }

/-- The default parameters with `lola_gamma = 4096`, a value the `int` module
parameter (mode 0644) accepts. -/
def wideGammaParams : Params := { defaultParams with lola_gamma := 4096 }

/-- The default parameters with `lola_gamma = -1`, a value the `int` module
parameter (mode 0644) accepts. -/
def negativeGammaParams : Params := { defaultParams with lola_gamma := -1 }

/-- Socket memory before `lolatcp_init`: the controller block zeroed, the
transport block with window `w`, threshold 50 and no clamp. -/
def freshSocket (w : Nat) : sock :=
  { tp := { snd_cwnd := w, snd_ssthresh := 50, snd_cwnd_cnt := 0,
            snd_cwnd_clamp := 4294967295, snd_nxt := 0, lsndtime := 0, max_packets_out := 0 }
    ca := { cnt := 0, last_max_cwnd := 0, loss_cwnd := 0, last_time := 0,
            bic_origin_point := 0, bic_K := 0, epoch_start := 0, ack_cnt := 0, tcp_cwnd := 0,
            sample_cnt := 0, delay_min := 0, id := 0, base_invalidation_count := 0,
            flags := 0, end_seq := 0, last_ack := 0, curr_rtt := 0,
            end_measurement := 0 } }

/-- A connection after `lolatcp_init` at tick 1 and a first ACK at tick 5,
outside slow start, for 20 packets with an RTT sample of `rtt` us. -/
def firstSamples (p : Params) (w : Nat) (rtt : Int) : sock :=
  lolatcp_acked p 5 5 false (lolatcp_init p 1 0 (freshSocket w)) 20 rtt

end Lola

/-! ## RED (`red_packet_queue.hh`) -/

namespace Red

/-- The constant `W = 0.002`, the weight of the moving average. -/
def W : ℚ := 2 / 1000

/-- The constant `packet_rate_ = 800`. -/
def packet_rate_ : ℚ := 800

/-- Conversion of an integer value to `unsigned long` (64 bits). -/
def toULong (x : Int) : Nat := (x % 18446744073709551616).toNat

/-- The data members of `RedPacketQueue`, with the `double`s as exact
rationals. `internal_queue_` holds the sizes `contents.size()` of the queued
packets, front first. -/
structure RedPacketQueue where
  internal_queue_ : List Nat
  queue_size_in_bytes_ : Int
  min_queue_size_threshold_in_bytes_ : Int
  max_queue_size_threshold_in_bytes_ : Int
  average_queue_size_in_bytes_ : ℚ
  drop_probability_ : ℚ
  count_ : Int
  q_time_ : Int

/-- The constructor, from the three values that `get_arg` returns
(`unsigned int`, converted to `int` for the two thresholds); `none` is the
`runtime_error` for a drop percentage outside `[0, 1]`. -/
def RedPacketQueue.new (min_bytes max_bytes drop_percentage : Nat) : Option RedPacketQueue :=
  let dp : ℚ := (drop_percentage : ℚ) / 100
  if dp < 0 ∨ dp > 1 then none
  else some
    { internal_queue_ := []
      queue_size_in_bytes_ := 0
      min_queue_size_threshold_in_bytes_ := toS32 min_bytes
      max_queue_size_threshold_in_bytes_ := toS32 max_bytes
      average_queue_size_in_bytes_ := 0
      drop_probability_ := dp
      count_ := 0
      q_time_ := 0 }

/-- Lines 85-94 of `enqueue`: the new average queue size; `curr_time` is the
clock in milliseconds. With an empty queue the exponent
`m = packet_rate_ * (curr_time - q_time_)` is a whole number and `pow` is an
integer power. -/
def updated_average (q : RedPacketQueue) (curr_time : Nat) : ℚ :=
  if q.queue_size_in_bytes_ > 0 then
    (1 - W) * q.average_queue_size_in_bytes_ + W * q.queue_size_in_bytes_
  else
    (1 - W) ^ (800 * toULong ((curr_time : Int) - q.q_time_)) * q.average_queue_size_in_bytes_

/-- Lines 102-106 of `enqueue`: `p_b` for the average `avg` and a packet of
`size` bytes. -/
def p_b (q : RedPacketQueue) (avg : ℚ) (size : Nat) : ℚ :=
  q.drop_probability_ * (avg - q.min_queue_size_threshold_in_bytes_) /
    ((q.max_queue_size_threshold_in_bytes_ - q.min_queue_size_threshold_in_bytes_ : Int) : ℚ)
    * size / 1500

/-- Line 107 of `enqueue`: `p_a = p_b / (1 - count_ * p_b)`, for the value of
`count_` after the increment of line 100. (Where the denominator is zero the
rational quotient is 0 by convention; `draw_below` treats that case as the
floating-point division does.) -/
def p_a (pb : ℚ) (count : Int) : ℚ := pb / (1 - count * pb)

/-- The test `r < p_a` of line 110. A zero denominator makes the `double`
quotient `+inf` for `p_b > 0` (the test holds) and `NaN` for `p_b = 0` (it
fails). -/
def draw_below (r pb : ℚ) (count : Int) : Bool :=
  if 1 - count * pb = 0 then decide (0 < pb) else decide (r < p_a pb count)

/-- What `enqueue` did with the packet. -/
inductive Verdict where
  | forced_drop
  | early_drop
  | queued
  deriving DecidableEq, Repr

/-- Lines 116-119 of `enqueue`: accept the packet. -/
def accept (q : RedPacketQueue) (size : Nat) : RedPacketQueue :=
  { q with count_ := -1
           queue_size_in_bytes_ := toS32 (q.queue_size_in_bytes_ + size)
           internal_queue_ := q.internal_queue_ ++ [size] }

/-- `RedPacketQueue::enqueue` for a packet of `size` bytes at clock reading
`curr_time`, with `r` the uniform draw `rand() / RAND_MAX`. -/
def enqueue (q : RedPacketQueue) (size : Nat) (curr_time : Nat) (r : ℚ) :
    Verdict × RedPacketQueue :=
  let avg := updated_average q curr_time
  let q := { q with average_queue_size_in_bytes_ := avg }
  if avg ≥ q.max_queue_size_threshold_in_bytes_ then
    (Verdict.forced_drop, { q with count_ := 0 })
  else if avg ≥ q.min_queue_size_threshold_in_bytes_ then
    let q := { q with count_ := toS32 (q.count_ + 1) }
    if draw_below r (p_b q avg size) q.count_ then
      (Verdict.early_drop, { q with count_ := 0 })
    else
      (Verdict.queued, accept q size)
  else
    (Verdict.queued, accept q size)

/-- `RedPacketQueue::dequeue` at clock reading `curr_time`: the size of the
packet at the front and the new state; `none` is the failed `assert` on an
empty queue. -/
def dequeue (q : RedPacketQueue) (curr_time : Nat) : Option (Nat × RedPacketQueue) :=
  match q.internal_queue_ with
  | [] => none
  | size :: rest =>
    let qs := toS32 (q.queue_size_in_bytes_ - size)
    some (size, { q with internal_queue_ := rest
                         queue_size_in_bytes_ := qs
                         q_time_ := if qs = 0 then (curr_time : Int) else q.q_time_ })

/-- `RedPacketQueue::empty`. -/
def empty (q : RedPacketQueue) : Bool := q.internal_queue_.isEmpty

/-- A queue built with `min_bytes=50000`, `max_bytes=150000`,
`drop_percentage=10`, holding 100 packets of 1000 bytes, with the average at
100000 bytes and `count_ = 0` (the value left by a dropped packet). -/
def halfwayQueue : RedPacketQueue :=
  { internal_queue_ := List.replicate 100 1000
    queue_size_in_bytes_ := 100000
    min_queue_size_threshold_in_bytes_ := 50000
    max_queue_size_threshold_in_bytes_ := 150000
    average_queue_size_in_bytes_ := 100000
    drop_probability_ := 1 / 10
    count_ := 0
    q_time_ := 0 }

/-- The queue of `halfwayQueue` after 29 packets in a row were let through
without `count_` being reset. -/
def longRunQueue : RedPacketQueue := { halfwayQueue with count_ := 29 }

/-- The queue of `halfwayQueue` built with `drop_percentage=100`. -/
def certainDropQueue : RedPacketQueue := { halfwayQueue with drop_probability_ := 1 }

/-- One call on a `RedPacketQueue`: `enqueue` of a packet of `size` bytes at
clock reading `curr_time` with the uniform draw `r`, or `dequeue` at clock
reading `curr_time`. -/
inductive Op where
  | enq (size curr_time : Nat) (r : ℚ)
  | deq (curr_time : Nat)

/-- A sequence of calls, run from the state `q`. The result is the sizes of
the packets that `enqueue` appended, in call order, the sizes that `dequeue`
returned, in call order, and the final state; `none` when `dequeue` is called
on an empty queue (the failed `assert`). -/
def run : RedPacketQueue → List Op → Option (List Nat × List Nat × RedPacketQueue)
  | q, [] => some ([], [], q)
  | q, Op.enq size curr_time r :: rest =>
    match run (enqueue q size curr_time r).2 rest with
    | none => none
    | some (acc, out, qf) =>
      some (if (enqueue q size curr_time r).1 = Verdict.queued then size :: acc else acc, out, qf)
  | q, Op.deq curr_time :: rest =>
    match dequeue q curr_time with
    | none => none
    | some (size, q1) =>
      match run q1 rest with
      | none => none
      | some (acc, out, qf) => some (acc, size :: out, qf)

/-- A fresh queue with both thresholds at `INT_MAX` bytes. -/
def wideQueue : RedPacketQueue :=
  { internal_queue_ := []
    queue_size_in_bytes_ := 0
    min_queue_size_threshold_in_bytes_ := 2147483647
    max_queue_size_threshold_in_bytes_ := 2147483647
    average_queue_size_in_bytes_ := 0
    drop_probability_ := 1 / 10
    count_ := 0
    q_time_ := 0 }

end Red

/-! ## Theorems: LEDBAT -/

namespace Ledbat

theorem window_update_bounds (p : Params) (tp : tcp_sock) (c : ledbat) (qd acked : Nat)
    (s1 : sock) (h : window_update p tp c qd acked = Except.ok s1) :
    2 ≤ s1.tp.snd_cwnd ∧ s1.tp.snd_cwnd ≤ max 2 (tp.packets_out + acked + 1) := by
  unfold window_update at h
  simp only [bind, Except.bind, pure, Except.pure] at h
  split at h
  · split at h
    · exact absurd h (by simp)
    · split at h
      · exact absurd h (by simp)
      · injection h with h
        subst h
        simp only [MIN_CWND, ALLOWED_INCREASE]
        omega
  · injection h with h
    subst h
    simp only [MIN_CWND, ALLOWED_INCREASE]
    omega

theorem window_update_ok (p : Params) (tp : tcp_sock) (c : ledbat) (qd acked : Nat)
    (ht : p.target ≠ 0) (hw : tp.snd_cwnd ≠ 0) :
    ∃ s1, window_update p tp c qd acked = Except.ok s1 := by
  have hw2 : (tp.snd_cwnd : Int) ≠ 0 := by exact_mod_cast hw
  unfold window_update
  simp only [bind, Except.bind, pure, Except.pure, sdiv, if_neg ht, if_neg hw2]
  split <;> exact ⟨_, rfl⟩

/-- C1. Every `tcp_ledbat_cong_avoid` call that reaches the window update
(`gate` hands on `acked1`, the value the variable `acked` has at line 263) with
`target > 0` ends, whenever it returns, with
`MIN_CWND ≤ snd_cwnd ≤ max(MIN_CWND, packets_out + acked + ALLOWED_INCREASE)`,
for every prior window, `cwnd_cnt`, `packets_out` and `acked`; and it does
return whenever the window it updates is non-zero. -/
theorem ledbat_cong_avoid_cwnd_bounds (p : Params)
    (slow_start : tcp_sock → Nat → tcp_sock × Nat) (s : sock) (inp : AckInput)
    (c : ledbat) (d qd : Nat) (tp1 : tcp_sock) (acked1 : Nat)
    (htarget : 0 < p.target)
    (hdelay : delay_stage p s inp = Except.ok (c, d, qd))
    (hgate : gate slow_start s.tp inp = (tp1, some acked1)) :
    (∀ s1, tcp_ledbat_cong_avoid p slow_start s inp = Except.ok s1 →
      MIN_CWND ≤ s1.tp.snd_cwnd ∧
      s1.tp.snd_cwnd ≤ max MIN_CWND (tp1.packets_out + acked1 + ALLOWED_INCREASE)) ∧
    (0 < tp1.snd_cwnd → ∃ s1, tcp_ledbat_cong_avoid p slow_start s inp = Except.ok s1) := by
  have hrun : tcp_ledbat_cong_avoid p slow_start s inp = window_update p tp1 c qd acked1 := by
    unfold tcp_ledbat_cong_avoid
    simp only [bind, Except.bind, hdelay, hgate]
  rw [hrun]
  refine ⟨fun s1 h => window_update_bounds p tp1 c qd acked1 s1 h, fun hw => ?_⟩
  exact window_update_ok p tp1 c qd acked1 (by omega) (by omega)

/-- Witness for C1: the first ACK after `tcp_ledbat_init` with the default
parameters, window 20 above `ssthresh` 10. -/
theorem ledbat_cong_avoid_cwnd_bounds_witness :
    ∃ s1, tcp_ledbat_cong_avoid defaultParams linux_tcp_slow_start sockAfterInit
        { acked := 1, now_sec := 100, cwnd_limited := true } = Except.ok s1 ∧
      MIN_CWND ≤ s1.tp.snd_cwnd ∧ s1.tp.snd_cwnd ≤ max MIN_CWND (20 + 1 + ALLOWED_INCREASE) := by
  have h := ledbat_cong_avoid_cwnd_bounds defaultParams linux_tcp_slow_start sockAfterInit
    { acked := 1, now_sec := 100, cwnd_limited := true }
    _ _ _ sockAfterInit.tp 1 (by decide) rfl rfl
  obtain ⟨s1, hs1⟩ := h.2 (by decide)
  exact ⟨s1, hs1, h.1 s1 hs1⟩

theorem linux_tcp_slow_start_clamp (tp : tcp_sock) (a : Nat) :
    (linux_tcp_slow_start tp a).1.snd_cwnd ≤ (linux_tcp_slow_start tp a).1.snd_cwnd_clamp := by
  simp only [linux_tcp_slow_start]
  omega

theorem gate_none_clamp (slow_start : tcp_sock → Nat → tcp_sock × Nat) (tp tp1 : tcp_sock)
    (inp : AckInput) (hclamp : tp.snd_cwnd ≤ tp.snd_cwnd_clamp)
    (hss : ∀ t a, (slow_start t a).1.snd_cwnd ≤ (slow_start t a).1.snd_cwnd_clamp)
    (hgate : gate slow_start tp inp = (tp1, none)) :
    tp1.snd_cwnd ≤ tp1.snd_cwnd_clamp := by
  unfold gate at hgate
  split at hgate
  · injection hgate with h1 h2
    subst h1
    exact hclamp
  · split at hgate
    · simp only at hgate
      split at hgate
      · injection hgate with h1 h2
        subst h1
        exact hss _ _
      · injection hgate with h1 h2
        exact absurd h2 (by simp)
    · injection hgate with h1 h2
      exact absurd h2 (by simp)

theorem window_update_clamp (p : Params) (tp : tcp_sock) (c : ledbat) (qd acked : Nat)
    (s1 : sock) (h : window_update p tp c qd acked = Except.ok s1) :
    s1.tp.snd_cwnd_clamp = tp.snd_cwnd_clamp := by
  unfold window_update at h
  simp only [bind, Except.bind, pure, Except.pure] at h
  split at h
  · split at h
    · exact absurd h (by simp)
    · split at h
      · exact absurd h (by simp)
      · injection h with h
        subst h
        rfl
  · injection h with h
    subst h
    rfl

/-- C2 (counterexample). With `snd_cwnd = snd_cwnd_clamp = 20` before the
call, one stretch ACK for 20 packets at zero queuing delay makes
`tcp_ledbat_cong_avoid` raise `snd_cwnd` to 21, above the clamp 20. -/
theorem ledbat_cong_avoid_exceeds_clamp :
    sockAfterInit.tp.snd_cwnd ≤ sockAfterInit.tp.snd_cwnd_clamp ∧
    (tcp_ledbat_cong_avoid defaultParams linux_tcp_slow_start sockAfterInit stretchAck).map
      (fun s1 => (s1.tp.snd_cwnd, s1.tp.snd_cwnd_clamp)) = Except.ok (21, 20) := by
  exact ⟨by decide, rfl⟩

/-- C2 (amended). From a state with `snd_cwnd ≤ snd_cwnd_clamp`, and with a
slow start helper that respects the clamp: a `tcp_ledbat_cong_avoid` call that
ends before the window update returns with `snd_cwnd ≤ snd_cwnd_clamp`; a call
that reaches the window update returns (for `target > 0` and a non-zero
window) and then has `snd_cwnd ≤ snd_cwnd_clamp` whenever
`MIN_CWND ≤ snd_cwnd_clamp` and the flight-size cap
`packets_out + acked + ALLOWED_INCREASE` is at most the clamp. -/
theorem ledbat_cong_avoid_clamp_amended (p : Params)
    (slow_start : tcp_sock → Nat → tcp_sock × Nat) (s : sock) (inp : AckInput)
    (c : ledbat) (d qd : Nat) (tp1 : tcp_sock) (r : Option Nat)
    (hclamp : s.tp.snd_cwnd ≤ s.tp.snd_cwnd_clamp)
    (hss : ∀ t a, (slow_start t a).1.snd_cwnd ≤ (slow_start t a).1.snd_cwnd_clamp)
    (hdelay : delay_stage p s inp = Except.ok (c, d, qd))
    (hgate : gate slow_start s.tp inp = (tp1, r)) :
    (r = none →
      tcp_ledbat_cong_avoid p slow_start s inp = Except.ok { tp := tp1, ca := c } ∧
      tp1.snd_cwnd ≤ tp1.snd_cwnd_clamp) ∧
    (∀ acked1, r = some acked1 →
      (0 < p.target → 0 < tp1.snd_cwnd →
        ∃ s1, tcp_ledbat_cong_avoid p slow_start s inp = Except.ok s1) ∧
      (MIN_CWND ≤ tp1.snd_cwnd_clamp →
        tp1.packets_out + acked1 + ALLOWED_INCREASE ≤ tp1.snd_cwnd_clamp →
        ∀ s1, tcp_ledbat_cong_avoid p slow_start s inp = Except.ok s1 →
          s1.tp.snd_cwnd ≤ s1.tp.snd_cwnd_clamp)) := by
  constructor
  · intro hr
    subst hr
    refine ⟨?_, gate_none_clamp slow_start s.tp tp1 inp hclamp hss hgate⟩
    unfold tcp_ledbat_cong_avoid
    simp only [bind, Except.bind, hdelay, hgate, pure, Except.pure]
  · intro acked1 hr
    subst hr
    have hrun : tcp_ledbat_cong_avoid p slow_start s inp
        = window_update p tp1 c qd acked1 := by
      unfold tcp_ledbat_cong_avoid
      simp only [bind, Except.bind, hdelay, hgate]
    rw [hrun]
    refine ⟨fun ht hw => window_update_ok p tp1 c qd acked1 (by omega) (by omega), ?_⟩
    intro hmin hcap s1 hs1
    have hb := (window_update_bounds p tp1 c qd acked1 s1 hs1).2
    rw [window_update_clamp p tp1 c qd acked1 s1 hs1]
    simp only [MIN_CWND, ALLOWED_INCREASE] at hmin hcap
    omega

/-- Witness for C2 (amended): the stretch ACK of the counterexample on a
connection clamped at 50 instead of 20. -/
theorem ledbat_cong_avoid_clamp_amended_witness :
    ∃ s1, tcp_ledbat_cong_avoid defaultParams linux_tcp_slow_start sockWideClamp stretchAck
        = Except.ok s1 ∧ s1.tp.snd_cwnd ≤ s1.tp.snd_cwnd_clamp := by
  have h := (ledbat_cong_avoid_clamp_amended defaultParams linux_tcp_slow_start sockWideClamp
    stretchAck _ _ _ sockWideClamp.tp (some 20) (by decide) linux_tcp_slow_start_clamp
    rfl rfl).2 20 rfl
  obtain ⟨s1, hs1⟩ := h.1 (by decide) (by decide)
  exact ⟨s1, hs1, h.2 (by decide) (by decide) s1 hs1⟩

/-- C8 (the code at the failing input). After a `tcp_ledbat_init` in which
either `kmalloc` failed, the first `tcp_ledbat_cong_avoid` call does not
complete: the filter update of line 229 or 230 writes through the null
buffer before the null test of line 234 is reached. -/
theorem ledbat_cong_avoid_null_buffer_fault :
    tcp_ledbat_cong_avoid defaultParams linux_tcp_slow_start
      (tcp_ledbat_init defaultParams sockAfterInit.tp true false) oneAck
      = Except.error Fault.nullDeref ∧
    tcp_ledbat_cong_avoid defaultParams linux_tcp_slow_start
      (tcp_ledbat_init defaultParams sockAfterInit.tp false true) oneAck
      = Except.error Fault.nullDeref := by
  exact ⟨rfl, rfl⟩

theorem toU32_toS32 (x : Nat) (hx : x ≤ UINT_MAX) : toU32 (toS32 x) = x := by
  simp only [UINT_MAX] at hx
  simp only [toU32, toS32]
  omega

theorem drop_set_succ (b : List Nat) (n x : Nat) :
    (b.set n x).drop (n + 1) = b.drop (n + 1) := by
  induction b generalizing n with
  | nil => simp
  | cons a t ih =>
    cases n with
    | zero => simp
    | succ k => simpa using ih k

theorem take_set_succ (b : List Nat) (n x : Nat) (h : n < b.length) :
    (b.set n x).take (n + 1) = b.take n ++ [x] := by
  induction b generalizing n with
  | nil => simp at h
  | cons a t ih =>
    cases n with
    | zero => simp
    | succ k =>
      have hk : k < t.length := by simpa using h
      simpa using ih k hk

theorem tail_rotate (b : List Nat) (n : Nat) (h : n < b.length) :
    (b.rotate n).tail = b.drop (n + 1) ++ b.take n := by
  rw [List.rotate_eq_drop_append_take (le_of_lt h)]
  have hne : b.drop n ≠ [] := by
    intro h0
    have := congrArg List.length h0
    simp at this
    omega
  rw [List.tail_append_of_ne_nil hne]
  simp

/-- Overwriting the slot at the cursor and advancing the cursor slides the
window held by a ring: the oldest entry leaves, the new one enters. -/
theorem set_rotate_succ (b : List Nat) (n x : Nat) (h : n < b.length) :
    (b.set n x).rotate (n + 1) = (b.rotate n).tail ++ [x] := by
  have hl : n + 1 ≤ (b.set n x).length := by simpa using h
  rw [List.rotate_eq_drop_append_take hl, drop_set_succ, take_set_succ b n x h,
    tail_rotate b n h, List.append_assoc]

/-- One `tcp_ledbat_update_current_delay` on a well-formed ring of capacity
`current_filter` succeeds and slides the window by one sample. -/
theorem update_current_delay_window (p : Params) (l : ledbat_list) (b : List Nat) (x : Nat)
    (hN2 : p.current_filter ≤ 255)
    (hb : l.buffer = some b) (hlen : (b.length : Int) = p.current_filter)
    (hnext : l.next < b.length) (hl : l.len = b.length) (hx : x ≤ UINT_MAX) :
    ∃ l1 b1, tcp_ledbat_update_current_delay p l (toS32 x) = Except.ok l1 ∧
      l1.buffer = some b1 ∧ b1.length = b.length ∧ l1.next < b1.length ∧
      l1.len = b1.length ∧ b1.rotate l1.next = (b.rotate l.next).tail ++ [x] := by
  have hmod : (l.next + 1) % 256 = l.next + 1 := by omega
  unfold tcp_ledbat_update_current_delay list_write
  simp only [hb, hnext, if_true, bind, Except.bind, pure, Except.pure, toU32_toS32 x hx, hmod]
  by_cases hw : ((l.next + 1 : Nat) : Int) = p.current_filter
  · rw [if_pos hw]
    refine ⟨_, _, rfl, rfl, by simp, by simp; omega, by simp [hl], ?_⟩
    have hfull : l.next + 1 = (b.set l.next x).length := by simp; omega
    have := set_rotate_succ b l.next x hnext
    rw [hfull, List.rotate_length] at this
    simpa using this
  · rw [if_neg hw]
    refine ⟨_, _, rfl, rfl, by simp, by simp; omega, by simp [hl], ?_⟩
    exact set_rotate_succ b l.next x hnext

theorem drop_window_cons (w xs : List Nat) (x : Nat) (hw : w ≠ []) :
    (w.tail ++ [x] ++ xs).drop xs.length = (w ++ x :: xs).drop (x :: xs).length := by
  cases w with
  | nil => exact absurd rfl hw
  | cons a t => simp

/-- Feeding samples to a well-formed ring succeeds; afterwards the ring, read
from the cursor, is the last `capacity` entries of the old window followed by
the samples. -/
theorem insert_samples_window (p : Params) (hN1 : 1 ≤ p.current_filter)
    (hN2 : p.current_filter ≤ 255) (samples : List Nat) :
    ∀ (l : ledbat_list) (b : List Nat), l.buffer = some b →
      (b.length : Int) = p.current_filter → l.next < b.length → l.len = b.length →
      (∀ x ∈ samples, x ≤ UINT_MAX) →
      ∃ l1 b1, insert_samples p l samples = Except.ok l1 ∧
        l1.buffer = some b1 ∧ b1.length = b.length ∧ l1.next < b1.length ∧
        l1.len = b1.length ∧
        b1.rotate l1.next = (b.rotate l.next ++ samples).drop samples.length := by
  induction samples with
  | nil =>
    intro l b hb hlen hnext hl _
    exact ⟨l, b, rfl, hb, rfl, hnext, hl, by simp⟩
  | cons x xs ih =>
    intro l b hb hlen hnext hl hs
    obtain ⟨l1, b1, h1, hb1, hlen1, hnext1, hl1, hrot1⟩ :=
      update_current_delay_window p l b x hN2 hb hlen hnext hl (hs x (by simp))
    obtain ⟨l2, b2, h2, hb2, hlen2, hnext2, hl2, hrot2⟩ :=
      ih l1 b1 hb1 (by rw [hlen1]; exact hlen) hnext1 hl1
        (fun y hy => hs y (by simp [hy]))
    refine ⟨l2, b2, ?_, hb2, by omega, hnext2, hl2, ?_⟩
    · simp only [insert_samples, bind, Except.bind, h1, h2]
    · rw [hrot2, hrot1]
      apply drop_window_cons
      apply List.ne_nil_of_length_pos
      rw [List.length_rotate]
      omega

theorem min_loop_eq_foldl (l : ledbat_list) (b : List Nat) (hb : l.buffer = some b) :
    ∀ (k i acc : Nat), i + k ≤ b.length →
      min_loop l k i acc
        = Except.ok (((b.drop i).take k).foldl (fun a v => min v a) acc) := by
  intro k
  induction k with
  | zero => intro i acc _; simp [min_loop]
  | succ k ih =>
    intro i acc h
    have hi : i < b.length := by omega
    have hd : b.drop i = b[i] :: b.drop (i + 1) := List.drop_eq_getElem_cons hi
    simp only [min_loop, list_read, hb, hi, dite_true, bind, Except.bind]
    rw [ih (i + 1) _ (by omega), hd]
    rfl

theorem foldl_min_spec (xs : List Nat) :
    ∀ acc : Nat, xs.foldl (fun a v => min v a) acc ≤ acc ∧
      (∀ x ∈ xs, xs.foldl (fun a v => min v a) acc ≤ x) ∧
      (xs.foldl (fun a v => min v a) acc = acc ∨ xs.foldl (fun a v => min v a) acc ∈ xs) := by
  induction xs with
  | nil => intro acc; simp
  | cons a t ih =>
    intro acc
    obtain ⟨h1, h2, h3⟩ := ih (min a acc)
    simp only [List.foldl_cons, List.mem_cons]
    refine ⟨by omega, ?_, ?_⟩
    · intro x hx
      rcases hx with rfl | hx
      · omega
      · exact h2 x hx
    · rcases h3 with h3 | h3
      · by_cases hle : a ≤ acc
        · right; left; rw [h3]; omega
        · left; rw [h3]; omega
      · right; right; exact h3

/-- On a ring whose `len` is the allocated length, the scan of
`tcp_ledbat_get_min_from_list` returns a lower bound of every slot that is
either a slot value or the initial `UINT_MAX`. -/
theorem get_min_from_list_spec (l : ledbat_list) (b : List Nat) (hb : l.buffer = some b)
    (hl : l.len = b.length) :
    ∃ m, tcp_ledbat_get_min_from_list l = Except.ok m ∧ m ≤ UINT_MAX ∧
      (∀ x ∈ b, m ≤ x) ∧ (m = UINT_MAX ∨ m ∈ b) := by
  refine ⟨b.foldl (fun a v => min v a) UINT_MAX, ?_, foldl_min_spec b UINT_MAX⟩
  unfold tcp_ledbat_get_min_from_list
  rw [min_loop_eq_foldl l b hb l.len 0 UINT_MAX (by omega)]
  simp only [List.drop_zero, hl, List.take_length]

/-- C10. For a capacity `N = current_filter` with `1 ≤ N ≤ 255` and any `u32`
samples fed with `tcp_ledbat_update_current_delay` to the list that
`ledbat_init_list` sets up (all slots `UINT_MAX`): the inserts succeed; with at
least `N` samples the ring read from the cursor is exactly the `N` most recent
samples, so every slot holds an inserted sample, and
`tcp_ledbat_get_min_from_list` returns their minimum; with fewer than `N`
samples it returns the minimum of the samples inserted so far (`UINT_MAX` when
there is none). -/
theorem current_delay_filter_min (p : Params) (samples : List Nat)
    (hN1 : 1 ≤ p.current_filter) (hN2 : p.current_filter ≤ 255)
    (hs : ∀ x ∈ samples, x ≤ UINT_MAX) :
    ∃ l b m, insert_samples p (ledbat_init_list p.current_filter true) samples = Except.ok l ∧
      l.buffer = some b ∧ tcp_ledbat_get_min_from_list l = Except.ok m ∧
      (p.current_filter.toNat ≤ samples.length →
        b.rotate l.next = samples.drop (samples.length - p.current_filter.toNat) ∧
        (∀ v ∈ b, v ∈ samples) ∧
        IsMinOf m (samples.drop (samples.length - p.current_filter.toNat))) ∧
      (samples.length < p.current_filter.toNat → samples ≠ [] → IsMinOf m samples) ∧
      (samples = [] → m = UINT_MAX) := by
  have hn : ((p.current_filter.toNat : Nat) : Int) = p.current_filter := by omega
  have hinit : ledbat_init_list p.current_filter true
      = { buffer := some (List.replicate p.current_filter.toNat UINT_MAX),
          next := 0, len := p.current_filter.toNat } := by
    have h0 : (0 : Int) ≤ p.current_filter := by omega
    have h8 : toU8 p.current_filter = p.current_filter.toNat := by
      simp only [toU8]; omega
    simp [ledbat_init_list, h0, h8]
  rw [hinit]
  obtain ⟨l1, b1, h1, hb1, hlen1, hnext1, hl1, hrot⟩ :=
    insert_samples_window p hN1 hN2 samples
      { buffer := some (List.replicate p.current_filter.toNat UINT_MAX),
        next := 0, len := p.current_filter.toNat }
      (List.replicate p.current_filter.toNat UINT_MAX) rfl (by simpa using hn)
      (by simp; omega) (by simp) hs
  obtain ⟨m, hm, _, hlow, hmem⟩ := get_min_from_list_spec l1 b1 hb1 hl1
  simp only [List.rotate_zero, List.length_replicate] at hrot hlen1
  have hmemw : ∀ v, v ∈ b1 ↔
      v ∈ (List.replicate p.current_filter.toNat UINT_MAX ++ samples).drop samples.length := by
    intro v
    rw [← hrot, List.mem_rotate]
  have hpos : 0 < p.current_filter.toNat := by omega
  refine ⟨l1, b1, m, h1, hb1, hm, ?_, ?_, ?_⟩
  · intro hk
    have hw : (List.replicate p.current_filter.toNat UINT_MAX ++ samples).drop samples.length
        = samples.drop (samples.length - p.current_filter.toNat) := by
      rw [List.drop_append_eq_append_drop, List.length_replicate,
        List.drop_eq_nil_of_le (by simpa using hk), List.nil_append]
    rw [hw] at hrot hmemw
    have hsub : ∀ v ∈ b1, v ∈ samples := fun v hv =>
      List.mem_of_mem_drop ((hmemw v).1 hv)
    refine ⟨hrot, hsub, ?_, fun x hx => hlow x ((hmemw x).2 hx)⟩
    rcases hmem with hmax | hin
    · have hne : b1 ≠ [] := List.ne_nil_of_length_pos (by omega)
      obtain ⟨y, hy⟩ := List.exists_mem_of_ne_nil b1 hne
      have h1 := hlow y hy
      have h2 := hs y (hsub y hy)
      have : y = m := by omega
      rw [← this]
      exact (hmemw y).1 hy
    · exact (hmemw m).1 hin
  · intro hk hne
    have h0 : samples.length - p.current_filter.toNat = 0 := by omega
    have hall : ∀ x ∈ samples, x ∈ b1 := by
      intro x hx
      rw [hmemw, List.drop_append_eq_append_drop]
      apply List.mem_append_right
      simpa [h0] using hx
    refine ⟨?_, fun x hx => hlow x (hall x hx)⟩
    obtain ⟨y, hy⟩ := List.exists_mem_of_ne_nil samples hne
    have h1 := hlow y (hall y hy)
    have h2 := hs y hy
    rcases hmem with hmax | hin
    · have : y = m := by omega
      rw [← this]
      exact hy
    · rw [hmemw, List.drop_append_eq_append_drop, List.mem_append] at hin
      rcases hin with hin | hin
      · have hr := List.eq_of_mem_replicate (List.mem_of_mem_drop hin)
        have : y = m := by omega
        rw [← this]
        exact hy
      · exact List.mem_of_mem_drop hin
  · intro he
    subst he
    rcases hmem with hmax | hin
    · exact hmax
    · rw [hmemw] at hin
      simp at hin
      exact hin.2

/-- Witness for C10: capacity 2, samples 30, 10, 20. -/
theorem current_delay_filter_min_witness :
    ∃ l b m, insert_samples defaultParams (ledbat_init_list 2 true) [30, 10, 20] = Except.ok l ∧
      l.buffer = some b ∧ tcp_ledbat_get_min_from_list l = Except.ok m ∧
      (2 ≤ 3 → b.rotate l.next = [10, 20] ∧ (∀ v ∈ b, v ∈ [30, 10, 20]) ∧
        IsMinOf m [10, 20]) ∧
      (3 < 2 → [30, 10, 20] ≠ [] → IsMinOf m [30, 10, 20]) ∧
      (([30, 10, 20] : List Nat) = [] → m = UINT_MAX) :=
  current_delay_filter_min defaultParams [30, 10, 20] (by decide) (by decide) (by decide)

theorem update_base_delay_null (p : Params) (l : ledbat_list) (ro now d : Nat)
    (h : l.buffer = none) :
    tcp_ledbat_update_base_delay p l ro now d = Except.error Fault.nullDeref := by
  unfold tcp_ledbat_update_base_delay list_write list_read
  split <;> simp [h, bind, Except.bind]

theorem update_current_delay_null (p : Params) (l : ledbat_list) (d : Int)
    (h : l.buffer = none) :
    tcp_ledbat_update_current_delay p l d = Except.error Fault.nullDeref := by
  unfold tcp_ledbat_update_current_delay list_write
  simp [h, bind, Except.bind]

/-- With a null filter buffer no `tcp_ledbat_cong_avoid` call ever returns. -/
theorem cong_avoid_null_buffer_never_ok (p : Params)
    (slow_start : tcp_sock → Nat → tcp_sock × Nat) (s : sock) (inp : AckInput)
    (h : s.ca.current_delays.buffer = none ∨ s.ca.base_delays.buffer = none) (s1 : sock) :
    tcp_ledbat_cong_avoid p slow_start s inp ≠ Except.ok s1 := by
  have hd : ∀ r, delay_stage p s inp ≠ Except.ok r := by
    intro r hr
    unfold delay_stage at hr
    simp only [bind, Except.bind] at hr
    split at hr
    · exact absurd hr (by simp)
    · split at hr
      · exact absurd hr (by simp)
      · rcases h with h | h
        · split at hr
          · exact absurd hr (by simp)
          · rw [update_current_delay_null] at hr
            · exact absurd hr (by simp)
            · split <;> split <;> exact h
        · rw [update_base_delay_null] at hr
          · exact absurd hr (by simp)
          · split <;> split <;> exact h
  intro hr
  unfold tcp_ledbat_cong_avoid at hr
  simp only [bind, Except.bind] at hr
  split at hr
  · exact absurd hr (by simp)
  · rename_i r hok
    exact hd r hok

/-- One `tcp_ledbat_update_base_delay` on a well-formed list, without 32-bit
wrap of the clock: it returns; on a rollover (`now_sec ≥ last_rollover + 60`)
the cursor advances by one slot (cyclically) and `last_rollover = now_sec`;
otherwise the cursor and `last_rollover` are unchanged. -/
theorem update_base_delay_cursor (p : Params) (l : ledbat_list) (ro t d : Nat)
    (hwf : base_wf p l) (hro : ro + 60 < 4294967296) (ht : t < 4294967296) :
    ∃ l1 ro1, tcp_ledbat_update_base_delay p l ro t d = Except.ok (l1, ro1) ∧
      base_wf p l1 ∧
      (ro + 60 ≤ t → (l1.next : Int) = (l.next + 1) % p.base_history ∧
        l1.next ≠ l.next ∧ ro1 = t) ∧
      (t < ro + 60 → l1.next = l.next ∧ ro1 = ro) := by
  obtain ⟨h2, h255, b, hb, hlen, hnext⟩ := hwf
  have hmod : (ro + 60) % 4294967296 = ro + 60 := Nat.mod_eq_of_lt hro
  unfold tcp_ledbat_update_base_delay
  rw [hmod]
  by_cases hroll : t ≥ ro + 60
  · rw [if_pos hroll]
    have h1 : (l.next + 1) % 256 = l.next + 1 := by omega
    simp only [h1, bind, Except.bind, pure, Except.pure, list_write, hb]
    by_cases hw : ((l.next + 1 : Nat) : Int) = p.base_history
    · have hpos : 0 < b.length := by omega
      simp only [if_pos hw, hpos, if_true]
      refine ⟨_, _, rfl, ⟨h2, h255, _, rfl, by simpa using hlen, by simpa using hpos⟩, ?_, ?_⟩
      · intro _
        refine ⟨?_, ?_, Nat.mod_eq_of_lt ht⟩
        · push_cast
          rw [show (l.next : Int) + 1 = p.base_history from by exact_mod_cast hw]
          simp
        · simp only; omega
      · intro h; omega
    · have hlt : l.next + 1 < b.length := by omega
      simp only [if_neg hw, hlt, if_true]
      refine ⟨_, _, rfl, ⟨h2, h255, _, rfl, by simpa using hlen, by simpa using hlt⟩, ?_, ?_⟩
      · intro _
        refine ⟨?_, by simp, Nat.mod_eq_of_lt ht⟩
        push_cast
        rw [Int.emod_eq_of_lt (by omega) (by omega)]
      · intro h; omega
  · rw [if_neg hroll]
    simp only [bind, Except.bind, pure, Except.pure, list_read, list_write, hb, hnext,
      dite_true, if_true]
    refine ⟨_, _, rfl, ⟨h2, h255, _, rfl, by simpa using hlen, by simpa using hnext⟩, ?_, ?_⟩
    · intro h; omega
    · intro _; exact ⟨rfl, rfl⟩

theorem base_feed_advances (p : Params) (inputs : List (Nat × Nat)) :
    ∀ (l : ledbat_list) (ro : Nat), base_wf p l → ro + 60 < 4294967296 →
      (∀ x ∈ inputs, x.1 + 60 < 4294967296) →
      ∃ adv lf rof, base_feed p l ro inputs = Except.ok (adv, lf, rof) ∧
        adv.Pairwise (fun a b => a + 60 ≤ b) ∧ (∀ a ∈ adv, ro + 60 ≤ a) := by
  induction inputs with
  | nil =>
    intro l ro _ _ _
    exact ⟨[], l, ro, rfl, List.Pairwise.nil, by simp⟩
  | cons x rest ih =>
    intro l ro hwf hro hin
    obtain ⟨t, d⟩ := x
    have ht : t + 60 < 4294967296 := hin (t, d) (by simp)
    obtain ⟨l1, ro1, h1, hwf1, hadv, hstay⟩ :=
      update_base_delay_cursor p l ro t d hwf hro (by omega)
    have hro1 : ro1 + 60 < 4294967296 := by
      by_cases hc : ro + 60 ≤ t
      · rw [(hadv hc).2.2]; exact ht
      · rw [(hstay (by omega)).2]; exact hro
    obtain ⟨adv, lf, rof, h2, hpw, hge⟩ :=
      ih l1 ro1 hwf1 hro1 (fun y hy => hin y (by simp [hy]))
    refine ⟨if l1.next ≠ l.next then t :: adv else adv, lf, rof, ?_, ?_, ?_⟩
    · simp only [base_feed, bind, Except.bind, h1, h2, pure, Except.pure]
    · by_cases hc : ro + 60 ≤ t
      · obtain ⟨_, hne, hro1t⟩ := hadv hc
        rw [if_pos hne]
        refine List.Pairwise.cons (fun b hb => ?_) hpw
        have := hge b hb
        omega
      · obtain ⟨heq, _⟩ := hstay (by omega)
        rw [if_neg (by simp [heq])]
        exact hpw
    · by_cases hc : ro + 60 ≤ t
      · obtain ⟨_, hne, hro1t⟩ := hadv hc
        rw [if_pos hne]
        intro a ha
        rcases List.mem_cons.mp ha with rfl | ha
        · exact hc
        · have := hge a ha
          omega
      · obtain ⟨heq, hro1e⟩ := hstay (by omega)
        rw [if_neg (by simp [heq])]
        intro a ha
        have := hge a ha
        omega

/-- C11. On a well-formed base-delay list and without 32-bit wrap of the
clock, a `tcp_ledbat_update_base_delay` call moves the cursor, by exactly one
slot, iff `now_sec ≥ last_rollover + 60`; and in any sequence of calls the
clock readings of any two calls that moved the cursor are at least 60
seconds apart. -/
theorem base_cursor_once_per_minute (p : Params) (l : ledbat_list) (ro : Nat)
    (inputs : List (Nat × Nat)) (hwf : base_wf p l) (hro : ro + 60 < 4294967296)
    (hin : ∀ x ∈ inputs, x.1 + 60 < 4294967296) :
    (∀ t d, t < 4294967296 →
      ∃ l1 ro1, tcp_ledbat_update_base_delay p l ro t d = Except.ok (l1, ro1) ∧
        (l1.next ≠ l.next ↔ ro + 60 ≤ t) ∧
        (ro + 60 ≤ t → (l1.next : Int) = (l.next + 1) % p.base_history ∧ ro1 = t) ∧
        (t < ro + 60 → l1.next = l.next ∧ ro1 = ro)) ∧
    ∃ adv lf rof, base_feed p l ro inputs = Except.ok (adv, lf, rof) ∧
      adv.Pairwise (fun a b => a + 60 ≤ b) := by
  constructor
  · intro t d ht
    obtain ⟨l1, ro1, h1, _, hadv, hstay⟩ := update_base_delay_cursor p l ro t d hwf hro ht
    refine ⟨l1, ro1, h1, ⟨fun hne => ?_, fun hc => (hadv hc).2.1⟩,
      fun hc => ⟨(hadv hc).1, (hadv hc).2.2⟩, hstay⟩
    by_contra hc
    exact hne (hstay (by omega)).1
  · obtain ⟨adv, lf, rof, h, hpw, _⟩ := base_feed_advances p inputs l ro hwf hro hin
    exact ⟨adv, lf, rof, h, hpw⟩

/-- Witness for C11: the list set up by `tcp_ledbat_init` with the default
`base_history = 2`, fed at seconds 100, 130, 160, 161 and 230; the cursor moves
at 100, 160 and 230. -/
theorem base_cursor_once_per_minute_witness :
    ∃ lf rof, base_feed defaultParams sockAfterInit.ca.base_delays 0
        [(100, 5), (130, 4), (160, 7), (161, 3), (230, 9)]
        = Except.ok ([100, 160, 230], lf, rof) ∧
      ([100, 160, 230] : List Nat).Pairwise (fun a b => a + 60 ≤ b) := by
  obtain ⟨_, adv, lf, rof, h, hpw⟩ :=
    base_cursor_once_per_minute defaultParams sockAfterInit.ca.base_delays 0
      [(100, 5), (130, 4), (160, 7), (161, 3), (230, 9)]
      ⟨by decide, by decide, _, rfl, by decide, by decide⟩ (by decide) (by decide)
  have hev : (base_feed defaultParams sockAfterInit.ca.base_delays 0
      [(100, 5), (130, 4), (160, 7), (161, 3), (230, 9)]).map Prod.fst
      = Except.ok [100, 160, 230] := rfl
  rw [h] at hev
  injection hev with hev
  simp only at hev
  subst hev
  exact ⟨lf, rof, h, hpw⟩

/-- Truncating division of `-(w * t)` by `t`. -/
theorem tdiv_neg_mul (w : Nat) (t : Int) (ht : 0 < t) : Int.tdiv (-((w : Int) * t)) t = -w := by
  rw [Int.neg_tdiv, Int.mul_tdiv_cancel _ (by omega)]

/-- Truncating division of `-w` by `w`. -/
theorem tdiv_neg_self (w : Nat) (hw : 0 < w) : Int.tdiv (-(w : Int)) w = -1 := by
  rw [Int.neg_tdiv, Int.tdiv_self (by omega)]

/-- One window update at `queuing_delay = 2 * target` and `acked = 1` from
window `w` with `cwnd_cnt = -k * target`, `k < w`: the count goes on to
`k + 1`, and when it reaches `w` the window becomes `max(2, w - 1)` and the
count 0. -/
theorem window_update_double_target (p : Params) (tp : tcp_sock) (l : ledbat) (w k : Nat)
    (ht : 0 < p.target) (hw2 : 2 ≤ w) (hk : k < w) (hov : (w : Int) * p.target < 2147483648)
    (hcw : tp.snd_cwnd = w) (hcnt : l.cwnd_cnt = -((k : Int) * p.target))
    (hss : tp.snd_ssthresh < w) (hcap : w ≤ tp.packets_out + 2)
    (hcap2 : tp.packets_out + 2 < 4294967296) :
    ∃ s1, window_update p tp l (2 * p.target.toNat) 1 = Except.ok s1 ∧
      s1.tp.packets_out = tp.packets_out ∧ s1.tp.snd_ssthresh < s1.tp.snd_cwnd ∧
      (k + 1 < w → s1.tp.snd_cwnd = w ∧ s1.ca.cwnd_cnt = -(((k + 1 : Nat) : Int) * p.target)) ∧
      (k + 1 = w → s1.tp.snd_cwnd = max 2 (w - 1) ∧ s1.ca.cwnd_cnt = 0) := by
  obtain ⟨T, hT⟩ := Int.eq_ofNat_of_zero_le (le_of_lt ht)
  have hTpos : 0 < T := by omega
  have hkT : (k + 1) * T ≤ w * T := Nat.mul_le_mul_right _ hk
  have hwT : w * T < 2147483648 := by
    rw [hT] at hov
    exact_mod_cast hov
  have hTle : T ≤ w * T := Nat.le_mul_of_pos_left _ (by omega)
  have hoff : toS32 ((toU32 p.target : Int) - ((2 * p.target.toNat : Nat) : Int)) = -(T : Int) := by
    rw [hT]
    simp only [toS32, toU32, Int.toNat_ofNat]
    omega
  have hcnt1 : toS32 (l.cwnd_cnt + GAIN * (-(T : Int)) * ((1 : Nat) : Int))
      = -(((k + 1) * T : Nat) : Int) := by
    have e1 : ((k : Int) * (T : Int)) = ((k * T : Nat) : Int) := (Nat.cast_mul k T).symm
    have e2 : (k + 1) * T = k * T + T := Nat.succ_mul k T
    rw [hcnt, hT, e1, e2]
    rw [e2] at hkT
    generalize k * T = X at hkT
    simp only [toS32, GAIN, Nat.cast_one, one_mul, mul_one]
    omega
  have habs : kabs (-(((k + 1) * T : Nat) : Int)) = (k + 1) * T := by
    simp only [kabs, Int.natAbs_neg, Int.natAbs_ofNat]
  have hrhs : (tp.snd_cwnd * toU32 p.target) % 4294967296 = w * T := by
    rw [hcw, hT]
    simp only [toU32]
    have : ((T : Int) % 4294967296).toNat = T := by omega
    rw [this]
    omega
  unfold window_update
  simp only [bind, Except.bind, pure, Except.pure, hoff, hcnt1, habs, hrhs]
  by_cases hlast : k + 1 < w
  · have hlt : ¬ ((k + 1) * T ≥ w * T) :=
      not_le.mpr (Nat.mul_lt_mul_of_pos_right hlast hTpos)
    simp only [if_neg hlt, MIN_CWND, ALLOWED_INCREASE, hcw]
    have hnew : max 2 (min w ((tp.packets_out + 1 + 1) % 4294967296)) = w := by omega
    refine ⟨_, rfl, rfl, ?_, ?_, ?_⟩
    · simp only [hnew]
      split
      · simp only [toU32]
        omega
      · omega
    · intro _
      refine ⟨hnew, ?_⟩
      show -(((k + 1) * T : Nat) : Int) = -(((k + 1 : Nat) : Int) * p.target)
      rw [hT]
      push_cast
      rfl
    · intro h
      omega
  · have hkw : k + 1 = w := by omega
    have hT0 : p.target ≠ 0 := by omega
    have hw0 : (w : Int) ≠ 0 := by omega
    have hq : Int.tdiv (-(((k + 1) * T : Nat) : Int)) p.target = -(w : Int) := by
      rw [hkw, hT, Nat.cast_mul]
      exact tdiv_neg_mul w T (by omega)
    have hinc : Int.tdiv (-(w : Int)) w = -1 := tdiv_neg_self w (by omega)
    have hcnt2 : toS32 (-(((k + 1) * T : Nat) : Int) - (-1) * (w : Int) * p.target) = 0 := by
      rw [hkw, hT, Nat.cast_mul]
      have e : (-1 : Int) * (w : Int) * (T : Int) = -((w : Int) * (T : Int)) := by ring
      rw [e]
      simp only [toS32]
      generalize (w : Int) * (T : Int) = A
      omega
    simp only [if_pos (ge_of_eq (by rw [hkw] : (k + 1) * T = w * T)), sdiv, if_neg hT0, hq, hcw,
      if_neg hw0, hinc, hcnt2, MIN_CWND, ALLOWED_INCREASE]
    have hw1 : toU32 ((w : Int) + -1) = w - 1 := by
      simp only [toU32]
      omega
    have hnew : max 2 (min (toU32 ((w : Int) + -1)) ((tp.packets_out + 1 + 1) % 4294967296))
        = max 2 (w - 1) := by
      rw [hw1]
      omega
    refine ⟨_, rfl, rfl, ?_, ?_, ?_⟩
    · simp only [hnew]
      split
      · simp only [toU32]
        omega
      · omega
    · intro h
      omega
    · intro _
      exact ⟨hnew, rfl⟩

theorem ca_run_add (p : Params) (qd a : Nat) (m n : Nat) :
    ∀ s, ca_run p qd a (m + n) s = (ca_run p qd a m s) >>= (ca_run p qd a n) := by
  induction m with
  | zero =>
    intro s
    rw [Nat.zero_add]
    rfl
  | succ m ih =>
    intro s
    rw [Nat.succ_add]
    simp only [ca_run, bind, Except.bind]
    cases window_update p s.tp s.ca qd a with
    | error e => rfl
    | ok s1 => exact ih s1

theorem dt_step (p : Params) (c po : Nat) (s : sock) (w k : Nat)
    (ht : 0 < p.target) (hov : (c : Int) * p.target < 2147483648)
    (hcap : c ≤ po + 2) (hcap2 : po + 2 < 4294967296)
    (hi : dt_inv p po s w k) (hw2 : 2 ≤ w) (hk : k < w) (hwc : w ≤ c) :
    ∃ s1, window_update p s.tp s.ca (2 * p.target.toNat) 1 = Except.ok s1 ∧
      ((k + 1 < w ∧ dt_inv p po s1 w (k + 1)) ∨
       (k + 1 = w ∧ dt_inv p po s1 (max 2 (w - 1)) 0)) := by
  obtain ⟨i1, i2, i3, i4⟩ := hi
  have hov2 : (w : Int) * p.target < 2147483648 :=
    lt_of_le_of_lt (Int.mul_le_mul_of_nonneg_right (by exact_mod_cast hwc) (le_of_lt ht)) hov
  obtain ⟨s1, h1, h2, h3, h4, h5⟩ := window_update_double_target p s.tp s.ca w k ht hw2 hk
    hov2 i1 i2 i4 (by omega) (by omega)
  refine ⟨s1, h1, ?_⟩
  by_cases hl : k + 1 < w
  · obtain ⟨a, b⟩ := h4 hl
    exact Or.inl ⟨hl, a, b, by rw [h2, i3], by rw [← a]; exact h3⟩
  · have hkw : k + 1 = w := by omega
    obtain ⟨a, b⟩ := h5 hkw
    refine Or.inr ⟨hkw, a, ?_, by rw [h2, i3], by rw [← a]; exact h3⟩
    rw [b]
    simp

theorem dt_run_inv (p : Params) (c po : Nat)
    (ht : 0 < p.target) (hov : (c : Int) * p.target < 2147483648)
    (hcap : c ≤ po + 2) (hcap2 : po + 2 < 4294967296) (n : Nat) :
    ∀ s w k, dt_inv p po s w k → 2 ≤ w → k < w → w ≤ c →
      ∃ s1 w1 k1, ca_run p (2 * p.target.toNat) 1 n s = Except.ok s1 ∧ dt_inv p po s1 w1 k1 ∧
        2 ≤ w1 ∧ k1 < w1 ∧ w1 ≤ w := by
  induction n with
  | zero =>
    intro s w k hi hw2 hk hwc
    exact ⟨s, w, k, rfl, hi, hw2, hk, le_refl _⟩
  | succ n ih =>
    intro s w k hi hw2 hk hwc
    obtain ⟨s1, h1, h2⟩ := dt_step p c po s w k ht hov hcap hcap2 hi hw2 hk hwc
    simp only [ca_run, bind, Except.bind, h1]
    rcases h2 with ⟨hl, hi1⟩ | ⟨hl, hi1⟩
    · obtain ⟨s2, w2, k2, r1, r2, r3, r4, r5⟩ := ih s1 w (k + 1) hi1 hw2 hl hwc
      exact ⟨s2, w2, k2, r1, r2, r3, r4, r5⟩
    · obtain ⟨s2, w2, k2, r1, r2, r3, r4, r5⟩ :=
        ih s1 (max 2 (w - 1)) 0 hi1 (by omega) (by omega) (by omega)
      exact ⟨s2, w2, k2, r1, r2, r3, r4, by omega⟩

theorem dt_run_stay (p : Params) (c po : Nat)
    (ht : 0 < p.target) (hov : (c : Int) * p.target < 2147483648)
    (hcap : c ≤ po + 2) (hcap2 : po + 2 < 4294967296) (w : Nat) (hw2 : 2 ≤ w) (hwc : w ≤ c)
    (m : Nat) :
    ∀ s k, dt_inv p po s w k → k + m < w →
      ∃ s1, ca_run p (2 * p.target.toNat) 1 m s = Except.ok s1 ∧ dt_inv p po s1 w (k + m) := by
  induction m with
  | zero =>
    intro s k hi _
    exact ⟨s, rfl, hi⟩
  | succ m ih =>
    intro s k hi hkm
    obtain ⟨s1, h1, h2⟩ := dt_step p c po s w k ht hov hcap hcap2 hi hw2 (by omega) hwc
    simp only [ca_run, bind, Except.bind, h1]
    rcases h2 with ⟨_, hi1⟩ | ⟨hl, _⟩
    · obtain ⟨s2, r1, r2⟩ := ih s1 (k + 1) hi1 (by omega)
      refine ⟨s2, r1, ?_⟩
      have e : k + (m + 1) = k + 1 + m := by omega
      rw [e]
      exact r2
    · omega

theorem dt_run_epoch (p : Params) (c po : Nat)
    (ht : 0 < p.target) (hov : (c : Int) * p.target < 2147483648)
    (hcap : c ≤ po + 2) (hcap2 : po + 2 < 4294967296) (w : Nat) (hw3 : 3 ≤ w) (hwc : w ≤ c)
    (s : sock) (hi : dt_inv p po s w 0) :
    ∃ s1, ca_run p (2 * p.target.toNat) 1 w s = Except.ok s1 ∧ dt_inv p po s1 (w - 1) 0 := by
  obtain ⟨s1, r1, r2⟩ := dt_run_stay p c po ht hov hcap hcap2 w (by omega) hwc (w - 1) s 0 hi
    (by omega)
  obtain ⟨s2, h1, h2⟩ := dt_step p c po s1 w (0 + (w - 1)) ht hov hcap hcap2 r2 (by omega)
    (by omega) hwc
  have e : w = (w - 1) + 1 := by omega
  refine ⟨s2, ?_, ?_⟩
  · rw [e, ca_run_add, r1]
    simp only [bind, Except.bind, ca_run, h1, pure, Except.pure]
  · rcases h2 with ⟨hl, _⟩ | ⟨_, hi2⟩
    · omega
    · have e2 : max 2 (w - 1) = w - 1 := by omega
      rw [e2] at hi2
      exact hi2

theorem dt_run_epochs (p : Params) (c po : Nat)
    (ht : 0 < p.target) (hov : (c : Int) * p.target < 2147483648)
    (hcap : c ≤ po + 2) (hcap2 : po + 2 < 4294967296)
    (s : sock) (hi : dt_inv p po s c 0) (j : Nat) :
    j + 2 ≤ c →
      ∃ s1, ca_run p (2 * p.target.toNat) 1 (epoch_calls c j) s = Except.ok s1 ∧
        dt_inv p po s1 (c - j) 0 := by
  induction j with
  | zero =>
    intro _
    exact ⟨s, rfl, hi⟩
  | succ j ih =>
    intro hj
    obtain ⟨s1, r1, r2⟩ := ih (by omega)
    obtain ⟨s2, e1, e2⟩ := dt_run_epoch p c po ht hov hcap hcap2 (c - j) (by omega) (by omega)
      s1 r2
    refine ⟨s2, ?_, ?_⟩
    · simp only [epoch_calls]
      rw [ca_run_add, r1]
      exact e1
    · have e : c - (j + 1) = c - j - 1 := by omega
      rw [e]
      exact e2

/-- With `target = 100` on a window of 21474837 packets the threshold
`snd_cwnd * target` exceeds every magnitude an `s32` `cwnd_cnt` can take, so
the window update at `queuing_delay = 200` changes nothing but `cwnd_cnt`. -/
theorem window_update_stuck (s : sock)
    (hc : s.tp.snd_cwnd = 21474837) (hss : s.tp.snd_ssthresh < 21474837)
    (hpo : s.tp.packets_out = 21474837) :
    ∃ s1, window_update defaultParams s.tp s.ca 200 1 = Except.ok s1 ∧
      s1.tp.snd_cwnd = 21474837 ∧ s1.tp.snd_ssthresh < 21474837 ∧
      s1.tp.packets_out = 21474837 := by
  have hoff : toS32 ((toU32 defaultParams.target : Int) - ((200 : Nat) : Int)) = -100 := rfl
  have hthr : (21474837 * toU32 defaultParams.target) % 4294967296 = 2147483700 := rfl
  have hlt : ¬ (kabs (toS32 (s.ca.cwnd_cnt + GAIN * (-100) * ((1 : Nat) : Int))) ≥ 2147483700) := by
    simp only [kabs, toS32, GAIN]
    omega
  unfold window_update
  simp only [bind, Except.bind, pure, Except.pure, hoff, hthr, if_neg hlt, hc, hpo, MIN_CWND,
    ALLOWED_INCREASE]
  refine ⟨_, rfl, ?_, ?_, rfl⟩
  · rfl
  · show (if _ then _ else _) < 21474837
    rw [if_neg (by omega)]
    exact hss

/-- On that window no number of such ACKs changes `snd_cwnd`. -/
theorem ca_run_stuck (n : Nat) :
    ∀ s : sock, s.tp.snd_cwnd = 21474837 → s.tp.snd_ssthresh < 21474837 →
      s.tp.packets_out = 21474837 →
      ∃ s1, ca_run defaultParams 200 1 n s = Except.ok s1 ∧ s1.tp.snd_cwnd = 21474837 := by
  induction n with
  | zero =>
    intro s hc _ _
    exact ⟨s, rfl, hc⟩
  | succ n ih =>
    intro s hc hss hpo
    obtain ⟨s1, h1, h2, h3, h4⟩ := window_update_stuck s hc hss hpo
    simp only [ca_run, bind, Except.bind, h1]
    exact ih s1 h2 h3 h4

/-- C14 (as stated, refuted): with the default `target = 100`, in congestion
avoidance from `cwnd_cnt = 0` and `snd_cwnd = c = 21474837` with the cap not
binding, `c` ACKs with `acked = 1` and `queuing_delay = 2 * target` leave
`snd_cwnd` at `c`: the threshold `c * target > 2^31` is beyond the reach of
the `s32` counter `cwnd_cnt`. -/
theorem ledbat_double_target_stuck :
    MIN_CWND < hugeWindowSock.tp.snd_cwnd ∧
    hugeWindowSock.tp.snd_ssthresh < hugeWindowSock.tp.snd_cwnd ∧
    hugeWindowSock.tp.snd_cwnd ≤ hugeWindowSock.tp.packets_out + 1 + ALLOWED_INCREASE ∧
    hugeWindowSock.ca.cwnd_cnt = 0 ∧
    (ca_run defaultParams (2 * defaultParams.target.toNat) 1 hugeWindowSock.tp.snd_cwnd
      hugeWindowSock).map (fun s => s.tp.snd_cwnd) = Except.ok hugeWindowSock.tp.snd_cwnd ∧
    hugeWindowSock.tp.snd_cwnd ≠ hugeWindowSock.tp.snd_cwnd - 1 := by
  obtain ⟨s1, h1, h2⟩ := ca_run_stuck 21474837 hugeWindowSock rfl (by decide) rfl
  refine ⟨by decide, by decide, by decide, rfl, ?_, by decide⟩
  show (ca_run defaultParams 200 1 21474837 hugeWindowSock).map (fun s => s.tp.snd_cwnd)
    = Except.ok 21474837
  rw [h1]
  show Except.ok s1.tp.snd_cwnd = Except.ok 21474837
  rw [h2]

/-- C14 (amended): in congestion avoidance (`snd_cwnd = c > MIN_CWND`,
`snd_cwnd > snd_ssthresh`, the cap `packets_out + acked + ALLOWED_INCREASE`
not below `c`), with `target > 0` and `c * target` within `s32`, from
`cwnd_cnt = 0` and with every ACK bringing `acked = 1` and
`queuing_delay = 2 * target`: every call returns and none increases
`snd_cwnd`, which stays at least `MIN_CWND` and above `snd_ssthresh`; the
window is `c` before the `c`-th call and `c - 1` after it; after
`c + (c - 1) + ... + (c - j + 1)` calls it is `c - j` with `cwnd_cnt = 0`, down
to `MIN_CWND`, where it stays for ever. -/
theorem ledbat_double_target_run (p : Params) (s : sock)
    (ht : 0 < p.target) (hc : MIN_CWND < s.tp.snd_cwnd)
    (hov : (s.tp.snd_cwnd : Int) * p.target < 2147483648)
    (hss : s.tp.snd_ssthresh < s.tp.snd_cwnd)
    (hcap : s.tp.snd_cwnd ≤ s.tp.packets_out + 1 + ALLOWED_INCREASE)
    (hcap2 : s.tp.packets_out + 1 + ALLOWED_INCREASE < 4294967296)
    (hcnt : s.ca.cwnd_cnt = 0) :
    (∀ n, ∃ a b, ca_run p (2 * p.target.toNat) 1 n s = Except.ok a ∧
        window_update p a.tp a.ca (2 * p.target.toNat) 1 = Except.ok b ∧
        ca_run p (2 * p.target.toNat) 1 (n + 1) s = Except.ok b ∧
        b.tp.snd_cwnd ≤ a.tp.snd_cwnd ∧ MIN_CWND ≤ b.tp.snd_cwnd ∧
        b.tp.snd_ssthresh < b.tp.snd_cwnd) ∧
    (∀ n, n < s.tp.snd_cwnd →
      ∃ a, ca_run p (2 * p.target.toNat) 1 n s = Except.ok a ∧
        a.tp.snd_cwnd = s.tp.snd_cwnd) ∧
    (∃ a, ca_run p (2 * p.target.toNat) 1 s.tp.snd_cwnd s = Except.ok a ∧
        a.tp.snd_cwnd = s.tp.snd_cwnd - 1) ∧
    (∀ j, j + 2 ≤ s.tp.snd_cwnd →
      ∃ a, ca_run p (2 * p.target.toNat) 1 (epoch_calls s.tp.snd_cwnd j) s = Except.ok a ∧
        a.tp.snd_cwnd = s.tp.snd_cwnd - j ∧ a.ca.cwnd_cnt = 0) ∧
    (∀ n, epoch_calls s.tp.snd_cwnd (s.tp.snd_cwnd - 2) ≤ n →
      ∃ a, ca_run p (2 * p.target.toNat) 1 n s = Except.ok a ∧ a.tp.snd_cwnd = MIN_CWND) := by
  simp only [MIN_CWND, ALLOWED_INCREASE] at hc hcap hcap2 ⊢
  have hi : dt_inv p s.tp.packets_out s s.tp.snd_cwnd 0 :=
    ⟨rfl, by rw [hcnt]; simp, rfl, hss⟩
  have hcapA : s.tp.snd_cwnd ≤ s.tp.packets_out + 2 := by omega
  have hcapB : s.tp.packets_out + 2 < 4294967296 := by omega
  refine ⟨?_, ?_, ?_, ?_, ?_⟩
  · intro n
    obtain ⟨a, w1, k1, r1, r2, r3, r4, r5⟩ := dt_run_inv p s.tp.snd_cwnd s.tp.packets_out ht hov
      hcapA hcapB n s s.tp.snd_cwnd 0 hi (by omega) (by omega) (le_refl _)
    obtain ⟨b, h1, h2⟩ := dt_step p s.tp.snd_cwnd s.tp.packets_out a w1 k1 ht hov hcapA hcapB
      r2 r3 r4 r5
    refine ⟨a, b, r1, h1, ?_, ?_⟩
    · rw [ca_run_add, r1]
      simp only [bind, Except.bind, ca_run, h1, pure, Except.pure]
    · rcases h2 with ⟨_, i1, _, _, i4⟩ | ⟨_, i1, _, _, i4⟩
      · rw [i1, r2.1]
        exact ⟨le_refl _, r3, i4⟩
      · rw [i1, r2.1]
        exact ⟨by omega, by omega, i4⟩
  · intro n hn
    obtain ⟨a, r1, r2⟩ := dt_run_stay p s.tp.snd_cwnd s.tp.packets_out ht hov hcapA hcapB
      s.tp.snd_cwnd (by omega) (le_refl _) n s 0 hi (by omega)
    exact ⟨a, r1, r2.1⟩
  · obtain ⟨a, r1, r2⟩ := dt_run_epoch p s.tp.snd_cwnd s.tp.packets_out ht hov hcapA hcapB
      s.tp.snd_cwnd (by omega) (le_refl _) s hi
    exact ⟨a, r1, r2.1⟩
  · intro j hj
    obtain ⟨a, r1, r2⟩ := dt_run_epochs p s.tp.snd_cwnd s.tp.packets_out ht hov hcapA hcapB
      s hi j hj
    refine ⟨a, r1, r2.1, ?_⟩
    rw [r2.2.1]
    simp
  · intro n hn
    obtain ⟨a, r1, r2⟩ := dt_run_epochs p s.tp.snd_cwnd s.tp.packets_out ht hov hcapA hcapB
      s hi (s.tp.snd_cwnd - 2) (by omega)
    have e2 : s.tp.snd_cwnd - (s.tp.snd_cwnd - 2) = 2 := by omega
    rw [e2] at r2
    obtain ⟨b, w1, k1, q1, q2, q3, q4, q5⟩ := dt_run_inv p s.tp.snd_cwnd s.tp.packets_out ht
      hov hcapA hcapB (n - epoch_calls s.tp.snd_cwnd (s.tp.snd_cwnd - 2)) a 2 0 r2 (le_refl _)
      (by omega) (by omega)
    have e3 : n = epoch_calls s.tp.snd_cwnd (s.tp.snd_cwnd - 2) +
        (n - epoch_calls s.tp.snd_cwnd (s.tp.snd_cwnd - 2)) := by omega
    refine ⟨b, ?_, ?_⟩
    · rw [e3, ca_run_add, r1]
      exact q1
    · rw [q2.1]
      omega

/-- The amended C14 on the connection of `sockAfterInit` (window 20,
`target = 100`): after 20 calls the window is 19. -/
theorem ledbat_double_target_run_witness :
    ∃ a, ca_run defaultParams (2 * defaultParams.target.toNat) 1 sockAfterInit.tp.snd_cwnd
        sockAfterInit = Except.ok a ∧
      a.tp.snd_cwnd = sockAfterInit.tp.snd_cwnd - 1 :=
  (ledbat_double_target_run defaultParams sockAfterInit (by decide) (by decide) (by decide)
    (by decide) (by decide) (by decide) rfl).2.2.1

/-- On a cwnd-limited flow above `snd_ssthresh` the call is the delay stage
followed by the window update with the `acked` of the ACK. -/
theorem cong_avoid_eq_window_update (p : Params)
    (slow_start : tcp_sock → Nat → tcp_sock × Nat) (s : sock) (inp : AckInput)
    (c : ledbat) (d qd : Nat)
    (hdelay : delay_stage p s inp = Except.ok (c, d, qd))
    (hlim : inp.cwnd_limited = true) (hss : s.tp.snd_ssthresh < s.tp.snd_cwnd) :
    tcp_ledbat_cong_avoid p slow_start s inp = window_update p s.tp c qd inp.acked := by
  have hgate : gate slow_start s.tp inp = (s.tp, some inp.acked) := by
    unfold gate
    simp only [hlim, Bool.not_true, Bool.false_eq_true, if_false, if_neg (not_le.mpr hss)]
  unfold tcp_ledbat_cong_avoid
  simp only [bind, Except.bind, hdelay, hgate]

theorem delay_stage_cwnd_cnt (p : Params) (s : sock) (inp : AckInput)
    (c : ledbat) (d qd : Nat) (h : delay_stage p s inp = Except.ok (c, d, qd)) :
    c.cwnd_cnt = s.ca.cwnd_cnt := by
  unfold delay_stage at h
  by_cases h1 : s.ca.remote_time_offset = 0 <;> by_cases h2 : s.ca.local_time_offset = 0 <;>
    simp only [h1, h2, if_true, if_false, bind, Except.bind, pure, Except.pure] at h <;>
    (repeat' (split at h)) <;>
    (cases h <;> rfl)

theorem window_update_at_target (p : Params) (tp : tcp_sock) (l : ledbat) (acked : Nat)
    (hrange : -2147483648 ≤ l.cwnd_cnt ∧ l.cwnd_cnt < 2147483648)
    (hsmall : kabs l.cwnd_cnt < (tp.snd_cwnd * toU32 p.target) % 4294967296) :
    ∃ s1, window_update p tp l (toU32 p.target) acked = Except.ok s1 ∧
      s1.ca = l ∧
      (MIN_CWND ≤ tp.snd_cwnd →
        tp.snd_cwnd ≤ (tp.packets_out + acked + ALLOWED_INCREASE) % 4294967296 →
        tp.snd_ssthresh < tp.snd_cwnd → s1.tp = tp) := by
  have hoff : toS32 ((toU32 p.target : Int) - ((toU32 p.target : Nat) : Int)) = 0 := by
    simp only [toS32]
    omega
  have hcnt1 : toS32 (l.cwnd_cnt + GAIN * 0 * (acked : Int)) = l.cwnd_cnt := by
    simp only [toS32, GAIN, mul_zero, zero_mul, add_zero]
    omega
  unfold window_update
  simp only [bind, Except.bind, pure, Except.pure, hoff, hcnt1, if_neg (not_le.mpr hsmall)]
  refine ⟨_, rfl, rfl, ?_⟩
  intro h2 hcap hss
  simp only [MIN_CWND] at h2 ⊢
  have hnew : max 2 (min tp.snd_cwnd ((tp.packets_out + acked + ALLOWED_INCREASE) % 4294967296))
      = tp.snd_cwnd := by omega
  simp only [hnew, if_neg (not_le.mpr hss)]

/-- C15 (as stated, refuted): in congestion avoidance with the queuing delay
equal to `target = 100`, a call that finds `cwnd_cnt = -950` on a window of 9
(so `|cwnd_cnt| ≥ snd_cwnd * target`) changes `cwnd_cnt` to -50 and the window
to 8. -/
theorem ledbat_at_target_cwnd_cnt_changes :
    (delay_stage defaultParams (delayedSock 9 4 9 (-950) 100) oneAck).map (fun r => r.2.2)
      = Except.ok (toU32 defaultParams.target) ∧
    oneAck.cwnd_limited = true ∧
    (delayedSock 9 4 9 (-950) 100).tp.snd_ssthresh < (delayedSock 9 4 9 (-950) 100).tp.snd_cwnd ∧
    (tcp_ledbat_cong_avoid defaultParams linux_tcp_slow_start
      (delayedSock 9 4 9 (-950) 100) oneAck).map
      (fun s1 => (s1.tp.snd_cwnd, s1.ca.cwnd_cnt)) = Except.ok (8, -50) :=
  ⟨rfl, rfl, by decide, rfl⟩

/-- C15 (amended): in congestion avoidance (flow cwnd-limited,
`snd_cwnd > snd_ssthresh`) with the queuing delay equal to `target`, a
`tcp_ledbat_cong_avoid` call that finds `|cwnd_cnt| < snd_cwnd * target`
returns and leaves `cwnd_cnt` unchanged; if moreover
`packets_out + acked + ALLOWED_INCREASE ≥ snd_cwnd ≥ MIN_CWND` it leaves the
transport block unchanged, and any number of such window updates leave the
whole state unchanged. -/
theorem ledbat_at_target_stationary_amended (p : Params)
    (slow_start : tcp_sock → Nat → tcp_sock × Nat) (s : sock) (inp : AckInput)
    (c : ledbat) (d : Nat)
    (hdelay : delay_stage p s inp = Except.ok (c, d, toU32 p.target))
    (hlim : inp.cwnd_limited = true) (hss : s.tp.snd_ssthresh < s.tp.snd_cwnd)
    (hrange : -2147483648 ≤ s.ca.cwnd_cnt ∧ s.ca.cwnd_cnt < 2147483648)
    (hsmall : kabs s.ca.cwnd_cnt < (s.tp.snd_cwnd * toU32 p.target) % 4294967296) :
    ∃ s1, tcp_ledbat_cong_avoid p slow_start s inp = Except.ok s1 ∧
      s1.ca.cwnd_cnt = s.ca.cwnd_cnt ∧
      (MIN_CWND ≤ s.tp.snd_cwnd →
        s.tp.snd_cwnd ≤ (s.tp.packets_out + inp.acked + ALLOWED_INCREASE) % 4294967296 →
        s1.tp = s.tp ∧
        ∀ n, ca_run p (toU32 p.target) inp.acked n s = Except.ok s) := by
  have hc := delay_stage_cwnd_cnt p s inp c d _ hdelay
  rw [cong_avoid_eq_window_update p slow_start s inp c d _ hdelay hlim hss]
  obtain ⟨s1, h1, h2, h3⟩ := window_update_at_target p s.tp c inp.acked
    (by rw [hc]; exact hrange) (by rw [hc]; exact hsmall)
  refine ⟨s1, h1, by rw [h2, hc], ?_⟩
  intro hmin hcap
  refine ⟨h3 hmin hcap hss, ?_⟩
  obtain ⟨s2, g1, g2, g3⟩ := window_update_at_target p s.tp s.ca inp.acked hrange hsmall
  have hfix : window_update p s.tp s.ca (toU32 p.target) inp.acked = Except.ok s := by
    rw [g1]
    have e : s2 = s := by
      have e1 := g3 hmin hcap hss
      cases s2
      cases s
      simp only at e1 g2
      rw [e1, g2]
    rw [e]
  intro n
  induction n with
  | zero => rfl
  | succ n ih =>
    simp only [ca_run, bind, Except.bind, hfix]
    exact ih

/-- The amended C15 on a window of 20 with `cwnd_cnt = -950`. -/
theorem ledbat_at_target_stationary_amended_witness :
    ∃ s1, tcp_ledbat_cong_avoid defaultParams linux_tcp_slow_start
        (delayedSock 20 10 20 (-950) 100) oneAck = Except.ok s1 ∧
      s1.ca.cwnd_cnt = -950 ∧ s1.tp.snd_cwnd = 20 := by
  obtain ⟨s1, h1, h2, h3⟩ := ledbat_at_target_stationary_amended defaultParams
    linux_tcp_slow_start (delayedSock 20 10 20 (-950) 100) oneAck
    (((delay_stage defaultParams (delayedSock 20 10 20 (-950) 100) oneAck).toOption).getD
      ((delayedSock 20 10 20 (-950) 100).ca, 0, 0)).1 100 rfl rfl (by decide)
    (by decide) (by decide)
  refine ⟨s1, h1, h2, ?_⟩
  rw [(h3 (by decide) (by decide)).1]
  rfl

/-- C16 (the code at the failing input): in congestion avoidance at the
minimum window (`snd_cwnd = 2 > snd_ssthresh = 1`, `cwnd_cnt = 0`, two
packets in flight), an ACK for one packet that measures a queuing delay of
700 ms against `target = 100` raises `snd_cwnd` to 4: `inc = -600/100/2 = -3`,
`cwnd += inc` wraps to `2^32 - 1`, and the flight-size cap
`packets_out + acked + 1 = 4` becomes the new window. -/
theorem ledbat_cong_avoid_grows_above_target :
    (delay_stage defaultParams (delayedSock 2 1 2 0 700) oneAck).map (fun r => r.2.2)
      = Except.ok 700 ∧
    toS32 ((toU32 defaultParams.target : Int) - 700) < 0 ∧
    (delayedSock 2 1 2 0 700).tp.snd_ssthresh < (delayedSock 2 1 2 0 700).tp.snd_cwnd ∧
    MIN_CWND ≤ (delayedSock 2 1 2 0 700).tp.snd_cwnd ∧
    (delayedSock 2 1 2 0 700).ca.cwnd_cnt ≤ 0 ∧
    (tcp_ledbat_cong_avoid defaultParams linux_tcp_slow_start (delayedSock 2 1 2 0 700)
      oneAck).map (fun s1 => s1.tp.snd_cwnd) = Except.ok 4 ∧
    ¬ (4 ≤ (delayedSock 2 1 2 0 700).tp.snd_cwnd) :=
  ⟨rfl, by decide, by decide, by decide, by decide, rfl, by decide⟩

/-- C21 (as stated, refuted): with `last_rollover = 2^32 - 6` and
`t_sec = 2^32 - 1`, so `t_sec < last_rollover + 60`, the call does not take the
minimum into the current slot: the `u32` sum `last_rollover + 60` wraps to 54,
the cursor advances and `last_rollover` becomes `t_sec`. -/
theorem base_delay_update_wraps :
    ¬ (4294967295 ≥ 4294967290 + 60) ∧
    tcp_ledbat_update_base_delay defaultParams twoSlotBase 4294967290 4294967295 3
      = Except.ok ({ buffer := some [5, 3], next := 1, len := 2 }, 4294967295) ∧
    ({ buffer := some [5, 3], next := 1, len := 2 } : ledbat_list).next ≠ twoSlotBase.next :=
  ⟨by decide, rfl, by decide⟩

/-- C21 (amended): on an allocated base ring of `base_history` slots
(`1 ≤ base_history ≤ 255`, cursor inside, `len` the allocated length) and
without 32-bit wrap of the clock (`t_sec < 2^32`, `last_rollover + 60 < 2^32`):
if `t_sec ≥ last_rollover + 60` the call returns with `last_rollover = t_sec`,
the cursor at `(cursor + 1) mod base_history`, `d` in the new slot and the
other slots as they were (`List.set`); otherwise `last_rollover` and the
cursor stay and only `slot[cursor]` changes, to `min(slot[cursor], d)`. In both
cases `tcp_ledbat_get_min_from_list` then returns a value `≤ d`. -/
theorem base_delay_update_slots (p : Params) (l : ledbat_list) (b : List Nat) (ro t d : Nat)
    (h1 : 1 ≤ p.base_history) (h255 : p.base_history ≤ 255)
    (hb : l.buffer = some b) (hlen : (b.length : Int) = p.base_history)
    (hnext : l.next < b.length) (hll : l.len = b.length)
    (hro : ro + 60 < 4294967296) (ht : t < 4294967296) :
    (ro + 60 ≤ t →
      ∃ l1 m, tcp_ledbat_update_base_delay p l ro t d = Except.ok (l1, t) ∧
        l1.next = (l.next + 1) % b.length ∧ l1.buffer = some (b.set l1.next d) ∧
        l1.len = l.len ∧
        tcp_ledbat_get_min_from_list l1 = Except.ok m ∧ m ≤ d) ∧
    (t < ro + 60 →
      ∃ l1 m old, tcp_ledbat_update_base_delay p l ro t d = Except.ok (l1, ro) ∧
        l1.next = l.next ∧ b[l.next]? = some old ∧
        l1.buffer = some (b.set l.next (min old d)) ∧ l1.len = l.len ∧
        tcp_ledbat_get_min_from_list l1 = Except.ok m ∧ m ≤ d) := by
  have hmod : (ro + 60) % 4294967296 = ro + 60 := Nat.mod_eq_of_lt hro
  have hmin : ∀ (l1 : ledbat_list) (c v : Nat), c < b.length → v ≤ d →
      l1.buffer = some (b.set c v) → l1.len = l.len →
      ∃ m, tcp_ledbat_get_min_from_list l1 = Except.ok m ∧ m ≤ d := by
    intro l1 c v hc hv hb1 hl1
    obtain ⟨m, hm, _, hall, _⟩ := get_min_from_list_spec l1 (b.set c v) hb1
      (by rw [hl1, hll, List.length_set])
    refine ⟨m, hm, le_trans (hall v ?_) hv⟩
    exact List.mem_iff_getElem.mpr ⟨c, by rw [List.length_set]; exact hc, by simp⟩
  constructor
  · intro hroll
    have hn1 : (l.next + 1) % 256 = l.next + 1 := by omega
    by_cases hw : ((l.next + 1 : Nat) : Int) = p.base_history
    · have hpos : 0 < b.length := by omega
      have hnew : (l.next + 1) % b.length = 0 := by
        have : l.next + 1 = b.length := by omega
        rw [this, Nat.mod_self]
      have hrun : tcp_ledbat_update_base_delay p l ro t d
          = Except.ok ({ l with next := 0, buffer := some (b.set 0 d) }, t) := by
        unfold tcp_ledbat_update_base_delay
        rw [hmod, if_pos hroll]
        simp only [hn1, bind, Except.bind, pure, Except.pure, list_write, hb, if_pos hw, hpos,
          if_true, Nat.mod_eq_of_lt ht]
      obtain ⟨m, hm, hmd⟩ := hmin { l with next := 0, buffer := some (b.set 0 d) } 0 d hpos
        (le_refl _) rfl rfl
      exact ⟨_, m, hrun, hnew.symm, rfl, rfl, hm, hmd⟩
    · have hlt : l.next + 1 < b.length := by omega
      have hnew : (l.next + 1) % b.length = l.next + 1 := Nat.mod_eq_of_lt hlt
      have hrun : tcp_ledbat_update_base_delay p l ro t d
          = Except.ok ({ l with next := l.next + 1, buffer := some (b.set (l.next + 1) d) }, t) := by
        unfold tcp_ledbat_update_base_delay
        rw [hmod, if_pos hroll]
        simp only [hn1, bind, Except.bind, pure, Except.pure, list_write, hb, if_neg hw, hlt,
          if_true, Nat.mod_eq_of_lt ht]
      obtain ⟨m, hm, hmd⟩ := hmin
        { l with next := l.next + 1, buffer := some (b.set (l.next + 1) d) } (l.next + 1) d hlt
        (le_refl _) rfl rfl
      exact ⟨_, m, hrun, hnew.symm, rfl, rfl, hm, hmd⟩
  · intro hstay
    have hrun : tcp_ledbat_update_base_delay p l ro t d
        = Except.ok ({ l with buffer := some (b.set l.next (min (b.get ⟨l.next, hnext⟩) d)) },
            ro) := by
      unfold tcp_ledbat_update_base_delay
      rw [hmod, if_neg (by omega)]
      simp only [bind, Except.bind, pure, Except.pure, list_read, list_write, hb, hnext,
        dif_pos, if_true]
    obtain ⟨m, hm, hmd⟩ := hmin
      { l with buffer := some (b.set l.next (min (b.get ⟨l.next, hnext⟩) d)) } l.next
      (min (b.get ⟨l.next, hnext⟩) d) hnext (min_le_right _ _) rfl rfl
    refine ⟨_, m, b.get ⟨l.next, hnext⟩, hrun, rfl, ?_, rfl, rfl, hm, hmd⟩
    simp [List.getElem?_eq_getElem hnext]

/-- The amended C21 on `twoSlotBase`: a rollover at second 160 after
`last_rollover = 100` with the sample 3. -/
theorem base_delay_update_slots_witness :
    ∃ l1 m, tcp_ledbat_update_base_delay defaultParams twoSlotBase 100 160 3
        = Except.ok (l1, 160) ∧
      l1.next = 1 ∧ l1.buffer = some [5, 3] ∧
      tcp_ledbat_get_min_from_list l1 = Except.ok m ∧ m ≤ 3 := by
  obtain ⟨l1, m, h1, h2, h3, _, h5, h6⟩ := (base_delay_update_slots defaultParams twoSlotBase
    [5, 7] 100 160 3 (by decide) (by decide) rfl rfl (by decide) rfl (by decide)
    (by decide)).1 (by decide)
  have h2b : l1.next = 1 := h2
  rw [h2b] at h3
  exact ⟨l1, m, h1, h2b, h3, h5, h6⟩

/-- C22 (the code at the failing input): with `remote_hz = HZ = 1000` and a
timestamp pair 4295000 and 4294950 ticks after the first pair, the true
millisecond deltas are `R = 4295000` and `L = 4294950`, so
`max(0, R - L) = 50`; but the `u32` product `4295000 * 1000` of line 223 wraps
to 32704, the code computes `time = 32`, and the one-way delay it feeds to the
filters is 0. -/
theorem ledbat_delay_product_wraps :
    longLivedSock.ca.remote_hz = defaultParams.HZ ∧
    longLivedSock.ca.remote_time_offset ≤ longLivedSock.tp.rcv_tsval ∧
    longLivedSock.ca.local_time_offset ≤ longLivedSock.tp.rcv_tsecr ∧
    (longLivedSock.tp.rcv_tsval - longLivedSock.ca.remote_time_offset) * 1000
      / defaultParams.HZ = 4295000 ∧
    (longLivedSock.tp.rcv_tsecr - longLivedSock.ca.local_time_offset) * 1000
      / defaultParams.HZ = 4294950 ∧
    (delay_stage defaultParams longLivedSock
      { acked := 1, now_sec := 4395, cwnd_limited := true }).map (fun r => r.2.1)
      = Except.ok 0 ∧
    ¬ (0 = 4295000 - 4294950) :=
  ⟨rfl, by decide, by decide, by decide, by decide, rfl, by decide⟩

/-- Two successive truncating divisions by positive divisors are one
truncating division by the product. -/
theorem tdiv_tdiv_pos (a t w : Int) (ht : 0 < t) (hw : 0 < w) :
    Int.tdiv (Int.tdiv a t) w = Int.tdiv a (t * w) := by
  obtain ⟨T, rfl⟩ := Int.eq_ofNat_of_zero_le (le_of_lt ht)
  obtain ⟨W, rfl⟩ := Int.eq_ofNat_of_zero_le (le_of_lt hw)
  have key : ∀ m : Int, 0 ≤ m →
      Int.tdiv (Int.tdiv m (T : Int)) (W : Int) = Int.tdiv m ((T : Int) * (W : Int)) := by
    intro m hm
    obtain ⟨M, rfl⟩ := Int.eq_ofNat_of_zero_le hm
    rw [← Int.ofNat_tdiv, ← Int.ofNat_tdiv, ← Int.ofNat_mul, ← Int.ofNat_tdiv,
      Nat.div_div_eq_div_mul]
  rcases le_or_lt 0 a with ha | ha
  · exact key a ha
  · have h := key (-a) (by omega)
    rw [Int.neg_tdiv, Int.neg_tdiv, Int.neg_tdiv] at h
    omega

/-- The residual of a truncating division by a positive divisor is smaller in
magnitude than the divisor and has the sign of the dividend, or is zero. -/
theorem tdiv_residual (a b : Int) (hb : 0 < b) :
    (a - Int.tdiv a b * b).natAbs < b.natAbs ∧
    (0 ≤ a → 0 ≤ a - Int.tdiv a b * b) ∧ (a ≤ 0 → a - Int.tdiv a b * b ≤ 0) := by
  have key : ∀ m : Int, 0 ≤ m → 0 ≤ m - Int.tdiv m b * b ∧ m - Int.tdiv m b * b < b := by
    intro m hm
    have h1 : m - Int.tdiv m b * b = Int.tmod m b := by
      rw [Int.tmod_def, Int.mul_comm]
    rw [h1]
    exact ⟨Int.tmod_nonneg b hm, Int.tmod_lt_of_pos m hb⟩
  rcases le_or_lt 0 a with ha | ha
  · obtain ⟨k1, k2⟩ := key a ha
    refine ⟨by omega, fun _ => k1, fun h0 => ?_⟩
    have : a = 0 := by omega
    subst this
    simp
  · obtain ⟨k1, k2⟩ := key (-a) (by omega)
    rw [Int.neg_tdiv] at k1 k2
    have e : -a - -(Int.tdiv a b) * b = -(a - Int.tdiv a b * b) := by ring
    rw [e] at k1 k2
    refine ⟨by omega, fun h0 => by omega, fun _ => by omega⟩

/-- C23: in the window update, for `target > 0`, `snd_cwnd > 0` and the value
`a` of `cwnd_cnt` after line 255 with `|a| ≥ snd_cwnd * target` (the product
within `u32`): the call returns; the increment of line 257, two successive
truncating divisions, is the single truncating quotient
`a / (target * snd_cwnd)`; and the residual stored on line 259 is
`a - inc * snd_cwnd * target`, smaller in magnitude than `snd_cwnd * target`
and of the sign of `a`, or zero. -/
theorem ledbat_inc_single_quotient (p : Params) (tp : tcp_sock) (c : ledbat)
    (qd acked : Nat) (a : Int)
    (ha : a = toS32 (c.cwnd_cnt + GAIN * toS32 ((toU32 p.target : Int) - (qd : Int)) * acked))
    (ht : 0 < p.target) (hw : 0 < tp.snd_cwnd)
    (hnov : (tp.snd_cwnd : Int) * p.target < 4294967296)
    (hbig : (tp.snd_cwnd : Int) * p.target ≤ |a|) :
    ∃ inc r s1, apply_inc p tp.snd_cwnd a
        = Except.ok (inc, toU32 ((tp.snd_cwnd : Int) + inc), r) ∧
      window_update p tp c qd acked = Except.ok s1 ∧ s1.ca.cwnd_cnt = r ∧
      inc = Int.tdiv a (p.target * tp.snd_cwnd) ∧
      r = a - inc * tp.snd_cwnd * p.target ∧
      |r| < (tp.snd_cwnd : Int) * p.target ∧
      (r = 0 ∨ (0 < r ∧ 0 < a) ∨ (r < 0 ∧ a < 0)) := by
  have hrange : -2147483648 ≤ a ∧ a < 2147483648 := by
    rw [ha]
    simp only [toS32]
    omega
  have hwI : (0 : Int) < (tp.snd_cwnd : Int) := by exact_mod_cast hw
  have hpos : 0 < p.target * (tp.snd_cwnd : Int) := Int.mul_pos ht hwI
  have hq : Int.tdiv (Int.tdiv a p.target) (tp.snd_cwnd : Int)
      = Int.tdiv a (p.target * tp.snd_cwnd) := tdiv_tdiv_pos a _ _ ht hwI
  obtain ⟨r1, r2, r3⟩ := tdiv_residual a (p.target * tp.snd_cwnd) hpos
  have hre : a - Int.tdiv a (p.target * tp.snd_cwnd) * (p.target * tp.snd_cwnd)
      = a - Int.tdiv a (p.target * tp.snd_cwnd) * tp.snd_cwnd * p.target := by ring
  have hcomm : (tp.snd_cwnd : Int) * p.target = p.target * tp.snd_cwnd := Int.mul_comm _ _
  rw [hcomm, Int.abs_eq_natAbs] at hbig
  rw [hcomm] at hnov
  rw [hre] at r1 r2 r3
  have hRs : toS32 (a - Int.tdiv a (p.target * tp.snd_cwnd) * tp.snd_cwnd * p.target)
      = a - Int.tdiv a (p.target * tp.snd_cwnd) * tp.snd_cwnd * p.target := by
    simp only [toS32]
    omega
  have ht0 : p.target ≠ 0 := by omega
  have hw0 : (tp.snd_cwnd : Int) ≠ 0 := by omega
  have hinc : apply_inc p tp.snd_cwnd a
      = Except.ok (Int.tdiv a (p.target * tp.snd_cwnd),
          toU32 ((tp.snd_cwnd : Int) + Int.tdiv a (p.target * tp.snd_cwnd)),
          a - Int.tdiv a (p.target * tp.snd_cwnd) * tp.snd_cwnd * p.target) := by
    simp only [apply_inc, sdiv, if_neg ht0, if_neg hw0, bind, Except.bind, pure, Except.pure, hq,
      hRs]
  have ht32 : p.target < 4294967296 := by
    have : p.target ≤ p.target * (tp.snd_cwnd : Int) :=
      le_mul_of_one_le_right (le_of_lt ht) (by omega)
    omega
  have hthr : kabs a ≥ (tp.snd_cwnd * toU32 p.target) % 4294967296 := by
    have e1 : ((tp.snd_cwnd * toU32 p.target : Nat) : Int) = p.target * tp.snd_cwnd := by
      have e2 : ((toU32 p.target : Nat) : Int) = p.target := by
        simp only [toU32]
        omega
      rw [Nat.cast_mul, e2, Int.mul_comm]
    simp only [kabs]
    generalize tp.snd_cwnd * toU32 p.target = N at e1
    omega
  have hrun : ∃ s1, window_update p tp c qd acked = Except.ok s1 ∧
      s1.ca.cwnd_cnt = a - Int.tdiv a (p.target * tp.snd_cwnd) * tp.snd_cwnd * p.target := by
    unfold window_update
    simp only [bind, Except.bind, pure, Except.pure, ← ha, if_pos hthr, sdiv, if_neg ht0,
      if_neg hw0, hq, hRs]
    exact ⟨_, rfl, rfl⟩
  obtain ⟨s1, hs1, hs2⟩ := hrun
  refine ⟨_, _, s1, hinc, hs1, hs2, rfl, rfl, ?_, ?_⟩
  · rw [hcomm, Int.abs_eq_natAbs]
    omega
  · omega

/-- C23 on a window of 9 with `cwnd_cnt = -950` at `target = 100` and
`queuing_delay = 100`: `inc = -950 / 900 = -1` and the residual is -50. -/
theorem ledbat_inc_single_quotient_witness :
    ∃ inc r s1, apply_inc defaultParams 9 (-950)
        = Except.ok (inc, toU32 ((9 : Int) + inc), r) ∧
      window_update defaultParams (delayedSock 9 4 9 (-950) 100).tp
        (delayedSock 9 4 9 (-950) 100).ca 100 1 = Except.ok s1 ∧
      s1.ca.cwnd_cnt = r ∧ inc = -1 ∧ r = -50 := by
  obtain ⟨inc, r, s1, h1, h2, h3, h4, h5, _, _⟩ := ledbat_inc_single_quotient defaultParams
    (delayedSock 9 4 9 (-950) 100).tp (delayedSock 9 4 9 (-950) 100).ca 100 1 (-950)
    (by decide)
    (by decide) (by decide) (by decide) (by decide)
  have e1 : inc = -1 := by
    rw [h4]
    decide
  have e2 : r = -50 := by
    rw [h5, e1]
    decide
  exact ⟨inc, r, s1, h1, h2, h3, e1, e2⟩

/-- The kernel slow start leaves `snd_ssthresh` alone. -/
theorem linux_tcp_slow_start_ssthresh (tp : tcp_sock) (a : Nat) :
    (linux_tcp_slow_start tp a).1.snd_ssthresh = tp.snd_ssthresh := rfl

/-- The gate hands on the `snd_ssthresh` it found when the slow start helper
leaves it alone. -/
theorem gate_ssthresh (slow_start : tcp_sock → Nat → tcp_sock × Nat) (tp tp1 : tcp_sock)
    (inp : AckInput) (r : Option Nat)
    (hss : ∀ t a, (slow_start t a).1.snd_ssthresh = t.snd_ssthresh)
    (hgate : gate slow_start tp inp = (tp1, r)) :
    tp1.snd_ssthresh = tp.snd_ssthresh := by
  unfold gate at hgate
  split at hgate
  · injection hgate with h1 _
    rw [← h1]
  · split at hgate
    · simp only at hgate
      split at hgate
      · injection hgate with h1 _
        rw [← h1]
        exact hss _ _
      · injection hgate with h1 _
        rw [← h1]
        exact hss _ _
    · injection hgate with h1 _
      rw [← h1]

/-- What the window update does to `snd_ssthresh` (lines 268-274). -/
theorem window_update_ssthresh (p : Params) (tp : tcp_sock) (c : ledbat) (qd acked : Nat)
    (s1 : sock) (h : window_update p tp c qd acked = Except.ok s1) :
    (s1.tp.snd_cwnd ≤ tp.snd_ssthresh →
      (s1.tp.snd_ssthresh : Int) = (s1.tp.snd_cwnd : Int) - 1) ∧
    (tp.snd_ssthresh < s1.tp.snd_cwnd → s1.tp.snd_ssthresh = tp.snd_ssthresh) ∧
    s1.tp.snd_ssthresh < s1.tp.snd_cwnd := by
  unfold window_update at h
  simp only [bind, Except.bind, pure, Except.pure] at h
  split at h
  · split at h
    · exact absurd h (by simp)
    · split at h
      · exact absurd h (by simp)
      · injection h with h
        subst h
        simp only [MIN_CWND, ALLOWED_INCREASE, toU32]
        refine ⟨fun hle => ?_, fun hlt => ?_, ?_⟩
        · rw [if_pos hle]
          omega
        · rw [if_neg (by omega)]
        · split <;> omega
  · injection h with h
    subst h
    simp only [MIN_CWND, ALLOWED_INCREASE, toU32]
    refine ⟨fun hle => ?_, fun hlt => ?_, ?_⟩
    · rw [if_pos hle]
      omega
    · rw [if_neg (by omega)]
    · split <;> omega

/-- C24: after a `tcp_ledbat_cong_avoid` call that reaches the window update
(`gate` hands on `acked1`; the slow start helper leaves `snd_ssthresh` alone):
if the new `snd_cwnd` is at most the prior `snd_ssthresh` then
`snd_ssthresh = snd_cwnd - 1`, computed without wrap; otherwise `snd_ssthresh`
is unchanged; in both cases `snd_ssthresh < snd_cwnd`. The call returns
whenever `target ≠ 0` and the window it updates is non-zero. -/
theorem ledbat_ssthresh_below_cwnd (p : Params)
    (slow_start : tcp_sock → Nat → tcp_sock × Nat) (s : sock) (inp : AckInput)
    (c : ledbat) (d qd : Nat) (tp1 : tcp_sock) (acked1 : Nat)
    (hss : ∀ t a, (slow_start t a).1.snd_ssthresh = t.snd_ssthresh)
    (hdelay : delay_stage p s inp = Except.ok (c, d, qd))
    (hgate : gate slow_start s.tp inp = (tp1, some acked1)) :
    (∀ s1, tcp_ledbat_cong_avoid p slow_start s inp = Except.ok s1 →
      (s1.tp.snd_cwnd ≤ s.tp.snd_ssthresh →
        (s1.tp.snd_ssthresh : Int) = (s1.tp.snd_cwnd : Int) - 1) ∧
      (s.tp.snd_ssthresh < s1.tp.snd_cwnd → s1.tp.snd_ssthresh = s.tp.snd_ssthresh) ∧
      s1.tp.snd_ssthresh < s1.tp.snd_cwnd) ∧
    (p.target ≠ 0 → tp1.snd_cwnd ≠ 0 →
      ∃ s1, tcp_ledbat_cong_avoid p slow_start s inp = Except.ok s1) := by
  have hrun : tcp_ledbat_cong_avoid p slow_start s inp = window_update p tp1 c qd acked1 := by
    unfold tcp_ledbat_cong_avoid
    simp only [bind, Except.bind, hdelay, hgate]
  have hth := gate_ssthresh slow_start s.tp tp1 inp _ hss hgate
  rw [hrun, ← hth]
  exact ⟨fun s1 h => window_update_ssthresh p tp1 c qd acked1 s1 h,
    fun ht hw => window_update_ok p tp1 c qd acked1 ht hw⟩

/-- C24 on the counterexample state of C15 (window 9 over a threshold of 4):
the call returns, the threshold ends below the window, and it stays 4 when
the new window is above 4. -/
theorem ledbat_ssthresh_below_cwnd_witness :
    ∃ s1, tcp_ledbat_cong_avoid defaultParams linux_tcp_slow_start
        (delayedSock 9 4 9 (-950) 100) oneAck = Except.ok s1 ∧
      (s1.tp.snd_cwnd ≤ 4 → (s1.tp.snd_ssthresh : Int) = (s1.tp.snd_cwnd : Int) - 1) ∧
      (4 < s1.tp.snd_cwnd → s1.tp.snd_ssthresh = 4) ∧
      s1.tp.snd_ssthresh < s1.tp.snd_cwnd := by
  have h := ledbat_ssthresh_below_cwnd defaultParams linux_tcp_slow_start
    (delayedSock 9 4 9 (-950) 100) oneAck
    (((delay_stage defaultParams (delayedSock 9 4 9 (-950) 100) oneAck).toOption).getD
      ((delayedSock 9 4 9 (-950) 100).ca, 0, 0)).1 100 100
    (delayedSock 9 4 9 (-950) 100).tp 1 linux_tcp_slow_start_ssthresh rfl rfl
  obtain ⟨s1, hs1⟩ := h.2 (by decide) (by decide)
  exact ⟨s1, hs1, h.1 s1 hs1⟩

/-- A member of a dropped singleton list: nothing was dropped. -/
theorem mem_drop_singleton (d y n : Nat) (h : y ∈ ([d] : List Nat).drop n) : y = d ∧ n = 0 := by
  cases n with
  | zero => simpa using h
  | succ k => simp at h

/-- Dropping one entry more keeps members members. -/
theorem mem_drop_of_mem_drop_succ (l : List Nat) (i x : Nat) (h : x ∈ l.drop (i + 1)) :
    x ∈ l.drop i := by
  have : l.drop (i + 1) = (l.drop i).drop 1 := by rw [List.drop_drop]
  rw [this] at h
  exact List.mem_of_mem_drop h

/-- A rollover of the base filter keeps the cover: both windows lose their
oldest entry and take the sample. -/
theorem covers_roll (cv bv : List Nat) (d : Nat) (hK : cv.length ≤ bv.length)
    (h : covers cv bv) : covers (cv.tail ++ [d]) (bv.tail ++ [d]) := by
  intro i y hy
  rw [List.drop_append_eq_append_drop, List.mem_append] at hy
  rw [List.drop_append_eq_append_drop]
  rcases hy with hy | hy
  · rw [← List.drop_one, List.drop_drop] at hy
    obtain ⟨x, hx, hxy⟩ := h (1 + i) y hy
    refine ⟨x, List.mem_append_left _ ?_, hxy⟩
    rw [← List.drop_one, List.drop_drop]
    exact hx
  · obtain ⟨hyd, h0⟩ := mem_drop_singleton d y _ hy
    refine ⟨d, List.mem_append_right _ ?_, by omega⟩
    have : i - bv.tail.length = 0 := by
      simp only [List.length_tail] at h0 ⊢
      omega
    rw [this]
    simp

/-- Without a rollover the newest base slot takes the minimum with the sample,
which keeps the cover. -/
theorem covers_stay (cv T : List Nat) (old d : Nat) (hK : cv.length ≤ T.length + 1)
    (h : covers cv (T ++ [old])) : covers (cv.tail ++ [d]) (T ++ [min old d]) := by
  intro i y hy
  rw [List.drop_append_eq_append_drop, List.mem_append] at hy
  rw [List.drop_append_eq_append_drop]
  rcases hy with hy | hy
  · rw [← List.drop_one, List.drop_drop] at hy
    obtain ⟨x, hx, hxy⟩ := h (1 + i) y hy
    rw [List.drop_append_eq_append_drop, List.mem_append] at hx
    rcases hx with hx | hx
    · refine ⟨x, List.mem_append_left _ ?_, hxy⟩
      exact mem_drop_of_mem_drop_succ T i x (by rw [Nat.add_comm]; exact hx)
    · obtain ⟨hxo, h0⟩ := mem_drop_singleton old x _ hx
      refine ⟨min old d, List.mem_append_right _ ?_, by omega⟩
      have : i - T.length = 0 := by omega
      rw [this]
      simp
  · obtain ⟨hyd, h0⟩ := mem_drop_singleton d y _ hy
    refine ⟨min old d, List.mem_append_right _ ?_, by omega⟩
    have : i - T.length = 0 := by
      simp only [List.length_tail] at h0
      omega
    rw [this]
    simp

/-- The windows that `tcp_ledbat_init` sets up (all slots `UINT_MAX`) are
covered. -/
theorem covers_init (K H m n : Nat) (hKH : K ≤ H) :
    covers ((List.replicate K UINT_MAX).rotate m) ((List.replicate H UINT_MAX).rotate n) := by
  intro i y hy
  rw [List.rotate_replicate, List.drop_replicate] at hy
  rw [List.rotate_replicate, List.drop_replicate]
  obtain ⟨hne, hy⟩ := List.mem_replicate.mp hy
  exact ⟨UINT_MAX, List.mem_replicate.mpr ⟨by omega, rfl⟩, by omega⟩

/-- One `tcp_ledbat_update_base_delay` on an allocated list of `base_history`
slots (`1 ≤ base_history ≤ 255`), whatever the clock: it returns, the list
keeps its shape, and the window read oldest minute first either loses its
oldest entry and takes the sample (rollover) or has its newest entry replaced
by the minimum with the sample. -/
theorem update_base_delay_view (p : Params) (l : ledbat_list) (b : List Nat) (ro t d : Nat)
    (h1 : 1 ≤ p.base_history) (h255 : p.base_history ≤ 255)
    (hb : l.buffer = some b) (hlen : (b.length : Int) = p.base_history)
    (hnext : l.next < b.length) (hl : l.len = b.length) :
    ∃ l1 b1 ro1, tcp_ledbat_update_base_delay p l ro t d = Except.ok (l1, ro1) ∧
      l1.buffer = some b1 ∧ b1.length = b.length ∧ l1.next < b1.length ∧
      l1.len = b1.length ∧
      (b1.rotate (l1.next + 1) = (b.rotate (l.next + 1)).tail ++ [d] ∨
        ∃ T old, b.rotate (l.next + 1) = T ++ [old] ∧
          b1.rotate (l1.next + 1) = T ++ [min old d]) := by
  unfold tcp_ledbat_update_base_delay
  by_cases hroll : t ≥ (ro + 60) % 4294967296
  · rw [if_pos hroll]
    have h1 : (l.next + 1) % 256 = l.next + 1 := by omega
    simp only [h1, bind, Except.bind, pure, Except.pure, list_write, hb]
    by_cases hw : ((l.next + 1 : Nat) : Int) = p.base_history
    · have hpos : 0 < b.length := by omega
      simp only [if_pos hw, hpos, if_true]
      refine ⟨_, _, _, rfl, rfl, by simp, by simpa using hpos, by simp [hl], Or.inl ?_⟩
      have hfull : l.next + 1 = b.length := by omega
      have := set_rotate_succ b 0 d hpos
      rw [hfull, List.rotate_length]
      simpa using this
    · have hlt : l.next + 1 < b.length := by omega
      simp only [if_neg hw, hlt, if_true]
      refine ⟨_, _, _, rfl, rfl, by simp, by simpa using hlt, by simp [hl], Or.inl ?_⟩
      exact set_rotate_succ b (l.next + 1) d hlt
  · rw [if_neg hroll]
    simp only [bind, Except.bind, pure, Except.pure, list_read, list_write, hb, hnext,
      dite_true, if_true]
    refine ⟨_, _, _, rfl, rfl, by simp, by simpa using hnext, by simp [hl],
      Or.inr ⟨(b.rotate l.next).tail, b.get ⟨l.next, hnext⟩, ?_, ?_⟩⟩
    · have := set_rotate_succ b l.next (b.get ⟨l.next, hnext⟩) hnext
      rw [← this]
      congr 1
      apply List.ext_getElem
      · simp
      · intro i h1 h2
        rw [List.getElem_set]
        split
        · rename_i he
          subst he
          rfl
        · rfl
    · exact set_rotate_succ b l.next _ hnext

/-- The two filter updates of lines 229-230 with the same `u32` sample, on
filters that are in order (`1 ≤ current_filter ≤ base_history ≤ 255`): both
return, the filters stay in order, both minimum scans return, and the
current-delay minimum is not below the base-history minimum. -/
theorem filters_step (p : Params) (cl0 bl0 : ledbat_list) (cb bb : List Nat) (ro t d : Nat)
    (h2 : p.current_filter ≤ p.base_history)
    (h3 : p.base_history ≤ 255) (hd : d ≤ UINT_MAX)
    (hcb : cl0.buffer = some cb) (hbb : bl0.buffer = some bb)
    (hcl : (cb.length : Int) = p.current_filter) (hbl : (bb.length : Int) = p.base_history)
    (hcn : cl0.next < cb.length) (hbn : bl0.next < bb.length)
    (hcll : cl0.len = cb.length) (hbll : bl0.len = bb.length)
    (hcov : covers (cb.rotate cl0.next) (bb.rotate (bl0.next + 1))) :
    ∃ bl ro1 cl cb1 bb1 a b,
      tcp_ledbat_update_base_delay p bl0 ro t d = Except.ok (bl, ro1) ∧
      tcp_ledbat_update_current_delay p cl0 (toS32 d) = Except.ok cl ∧
      cl.buffer = some cb1 ∧ bl.buffer = some bb1 ∧
      (cb1.length : Int) = p.current_filter ∧ (bb1.length : Int) = p.base_history ∧
      cl.next < cb1.length ∧ bl.next < bb1.length ∧
      cl.len = cb1.length ∧ bl.len = bb1.length ∧
      covers (cb1.rotate cl.next) (bb1.rotate (bl.next + 1)) ∧
      tcp_ledbat_get_min_from_list cl = Except.ok a ∧
      tcp_ledbat_get_min_from_list bl = Except.ok b ∧ b ≤ a ∧ a ≤ UINT_MAX := by
  obtain ⟨bl, bb1, ro1, e1, e2, e3, e4, e5, e6⟩ :=
    update_base_delay_view p bl0 bb ro t d (by omega) h3 hbb hbl hbn hbll
  obtain ⟨cl, cb1, f1, f2, f3, f4, f5, f6⟩ :=
    update_current_delay_window p cl0 cb d (by omega) hcb hcl hcn hcll hd
  have hlen : (cb.rotate cl0.next).length ≤ (bb.rotate (bl0.next + 1)).length := by
    rw [List.length_rotate, List.length_rotate]
    omega
  have hcov1 : covers (cb1.rotate cl.next) (bb1.rotate (bl.next + 1)) := by
    rw [f6]
    rcases e6 with e6 | ⟨T, old, e6, e7⟩
    · rw [e6]
      exact covers_roll _ _ d hlen hcov
    · rw [e7]
      rw [e6] at hcov hlen
      exact covers_stay _ T old d (by simpa using hlen) hcov
  obtain ⟨a, ha, ha1, ha2, ha3⟩ := get_min_from_list_spec cl cb1 f2 f5
  obtain ⟨b, hb, hb1, hb2, hb3⟩ := get_min_from_list_spec bl bb1 e2 e5
  refine ⟨bl, ro1, cl, cb1, bb1, a, b, e1, f1, f2, e2, by omega, by omega, f4, e4, f5, e5,
    hcov1, ha, hb, ?_, ha1⟩
  rcases ha3 with ha3 | ha3
  · omega
  · have hm : a ∈ (cb1.rotate cl.next).drop 0 := by
      rw [List.drop_zero, List.mem_rotate]
      exact ha3
    obtain ⟨x, hx, hxa⟩ := hcov1 0 a hm
    rw [List.drop_zero, List.mem_rotate] at hx
    exact le_trans (hb2 x hx) hxa

/-- Lines 215-239 of `tcp_ledbat_cong_avoid` on a connection whose filters are
in order (`1 ≤ current_filter ≤ base_history ≤ 255`, `HZ ≠ 0`): the delay
stage returns, the filters stay in order, and the current-delay minimum `a` is
not below the base-history minimum `b`, so `queuing_delay` is `a - b`. -/
theorem delay_stage_filters (p : Params) (s : sock) (inp : AckInput)
    (h2 : p.current_filter ≤ p.base_history)
    (h3 : p.base_history ≤ 255) (hz : p.HZ ≠ 0) (hinv : filters_inv p s.ca) :
    ∃ c delay qd a b, delay_stage p s inp = Except.ok (c, delay, qd) ∧
      filters_inv p c ∧
      tcp_ledbat_get_min_from_list c.current_delays = Except.ok a ∧
      tcp_ledbat_get_min_from_list c.base_delays = Except.ok b ∧
      b ≤ a ∧ qd = a - b := by
  obtain ⟨cb, bb, hcb, hbb, hcl, hbl, hcn, hbn, hcll, hbll, hhz, hcov⟩ := hinv
  obtain ⟨D, hD, hDle⟩ : ∃ D : Nat, D =
      (if (toU32 ((s.tp.rcv_tsval : Int) -
            (if s.ca.remote_time_offset = 0 then s.tp.rcv_tsval else s.ca.remote_time_offset))
              * 1000) % 4294967296 / p.HZ >
          (toU32 ((s.tp.rcv_tsecr : Int) -
            (if s.ca.local_time_offset = 0 then s.tp.rcv_tsecr else s.ca.local_time_offset))
              * 1000) % 4294967296 / p.HZ
       then (toU32 ((s.tp.rcv_tsval : Int) -
            (if s.ca.remote_time_offset = 0 then s.tp.rcv_tsval else s.ca.remote_time_offset))
              * 1000) % 4294967296 / p.HZ -
          (toU32 ((s.tp.rcv_tsecr : Int) -
            (if s.ca.local_time_offset = 0 then s.tp.rcv_tsecr else s.ca.local_time_offset))
              * 1000) % 4294967296 / p.HZ
       else 0) ∧ D ≤ UINT_MAX := by
    refine ⟨_, rfl, ?_⟩
    have : ∀ x : Nat, x % 4294967296 / p.HZ ≤ 4294967295 := fun x =>
      le_trans (Nat.div_le_self _ _) (by omega)
    have gen : ∀ x y : Nat, x ≤ 4294967295 → (if x > y then x - y else 0) ≤ UINT_MAX := by
      intro x y hx
      simp only [UINT_MAX]
      split <;> omega
    exact gen _ _ (this _)
  obtain ⟨bl, ro1, cl, cb1, bb1, a, b, e1, e2, e3, e4, e5, e6, e7, e8, e9, e10, e11, e12, e13,
    e14, e15⟩ := filters_step p s.ca.current_delays s.ca.base_delays cb bb s.ca.last_rollover
      inp.now_sec D h2 h3 hDle hcb hbb hcl hbl hcn hbn hcll hbll hcov
  unfold delay_stage
  by_cases g1 : s.ca.remote_time_offset = 0 <;> by_cases g2 : s.ca.local_time_offset = 0 <;>
    simp only [g1, g2, if_true, if_false, bind, Except.bind, pure, Except.pure, udiv, hhz,
      if_neg hz] at hD ⊢ <;>
    rw [← hD] <;>
    simp only [e1, e2, e3, e4, Option.isSome_some, Bool.and_self, if_true, e12, e13] <;>
    refine ⟨_, _, _, a, b, rfl, ⟨cb1, bb1, e3, e4, e5, e6, e7, e8, e9, e10, rfl, e11⟩,
      e12, e13, e14, ?_⟩ <;>
    simp only [toU32, UINT_MAX] at e15 ⊢ <;>
    omega

/-- The window update of lines 252-274 writes `cwnd_cnt` only in the controller
block. -/
theorem window_update_filters (p : Params) (tp : tcp_sock) (c : ledbat) (qd acked : Nat)
    (s1 : sock) (h : window_update p tp c qd acked = Except.ok s1) :
    s1.ca.current_delays = c.current_delays ∧ s1.ca.base_delays = c.base_delays ∧
      s1.ca.remote_hz = c.remote_hz := by
  unfold window_update at h
  simp only [bind, Except.bind, pure, Except.pure] at h
  split at h
  · split at h
    · exact absurd h (by simp)
    · split at h
      · exact absurd h (by simp)
      · injection h with h
        rw [← h]
        exact ⟨rfl, rfl, rfl⟩
  · injection h with h
    rw [← h]
    exact ⟨rfl, rfl, rfl⟩

/-- A returning `tcp_ledbat_cong_avoid` leaves the filters and `remote_hz` as
its delay stage left them. -/
theorem cong_avoid_filters (p : Params) (slow_start : tcp_sock → Nat → tcp_sock × Nat)
    (s s1 : sock) (inp : AckInput) (h : tcp_ledbat_cong_avoid p slow_start s inp = Except.ok s1) :
    ∃ c d qd, delay_stage p s inp = Except.ok (c, d, qd) ∧
      s1.ca.current_delays = c.current_delays ∧ s1.ca.base_delays = c.base_delays ∧
      s1.ca.remote_hz = c.remote_hz := by
  unfold tcp_ledbat_cong_avoid at h
  cases hd : delay_stage p s inp with
  | error e =>
    rw [hd] at h
    exact absurd h (by simp [bind, Except.bind])
  | ok r =>
    obtain ⟨c, d, qd⟩ := r
    rw [hd] at h
    refine ⟨c, d, qd, rfl, ?_⟩
    simp only [bind, Except.bind] at h
    split at h
    · injection h with h
      rw [← h]
      exact ⟨rfl, rfl, rfl⟩
    · exact window_update_filters p _ c qd _ s1 h

/-- The filters of every reachable state are in order when
`1 ≤ current_filter ≤ base_history ≤ 255`. -/
theorem reachable_filters (p : Params) (slow_start : tcp_sock → Nat → tcp_sock × Nat)
    (s : sock) (h1 : 1 ≤ p.current_filter) (h2 : p.current_filter ≤ p.base_history)
    (h3 : p.base_history ≤ 255) (hz : p.HZ ≠ 0) (hr : Reachable p slow_start s) :
    filters_inv p s.ca := by
  induction hr with
  | init tp =>
    have hK : (0 : Int) ≤ p.current_filter := by omega
    have hH : (0 : Int) ≤ p.base_history := by omega
    refine ⟨List.replicate p.current_filter.toNat UINT_MAX,
      List.replicate p.base_history.toNat UINT_MAX, ?_, ?_, ?_, ?_, ?_, ?_, ?_, ?_, rfl, ?_⟩
    · simp [tcp_ledbat_init, ledbat_init_list, hK]
    · simp [tcp_ledbat_init, ledbat_init_list, hH]
    · simp only [List.length_replicate]; omega
    · simp only [List.length_replicate]; omega
    · simp only [tcp_ledbat_init, ledbat_init_list, List.length_replicate]; omega
    · simp only [tcp_ledbat_init, ledbat_init_list, List.length_replicate]; omega
    · simp only [tcp_ledbat_init, ledbat_init_list, List.length_replicate, toU8]; omega
    · simp only [tcp_ledbat_init, ledbat_init_list, List.length_replicate, toU8]; omega
    · exact covers_init _ _ _ _ (by omega)
  | transport s tp _ ih => exact ih
  | cong_avoid s s1 inp _ hstep ih =>
    obtain ⟨c, d, qd, hd, k1, k2, k3⟩ := cong_avoid_filters p slow_start s s1 inp hstep
    obtain ⟨c', d', qd', a, b, hd', hinv, _⟩ := delay_stage_filters p s inp h2 h3 hz ih
    rw [hd] at hd'
    injection hd' with hd'
    injection hd' with hc _
    rw [← hc] at hinv
    obtain ⟨cb, bb, i1, i2, i3, i4, i5, i6, i7, i8, i9, i10⟩ := hinv
    exact ⟨cb, bb, by rw [k1]; exact i1, by rw [k2]; exact i2, i3, i4, by rw [k1]; exact i5,
      by rw [k2]; exact i6, by rw [k1]; exact i7, by rw [k2]; exact i8, by rw [k3]; exact i9,
      by rw [k1, k2]; exact i10⟩

/-- C35: with both filter buffers allocated and
`1 <= current_filter <= base_history <= 255` (and `HZ` non-zero), in every
`tcp_ledbat_cong_avoid` call of a connection, whatever the clock reads, the
delay update (base filter, then current filter, fed with the same sample)
returns, and after it the current-delay minimum `a` is not below the
base-history minimum `b`: `queuing_delay = a - b` without wrap. -/
theorem ledbat_queuing_delay_never_wraps (p : Params)
    (slow_start : tcp_sock → Nat → tcp_sock × Nat) (s : sock) (inp : AckInput)
    (h1 : 1 ≤ p.current_filter) (h2 : p.current_filter ≤ p.base_history)
    (h3 : p.base_history ≤ 255) (hz : p.HZ ≠ 0) (hr : Reachable p slow_start s) :
    ∃ c delay qd a b, delay_stage p s inp = Except.ok (c, delay, qd) ∧
      tcp_ledbat_get_min_from_list c.current_delays = Except.ok a ∧
      tcp_ledbat_get_min_from_list c.base_delays = Except.ok b ∧
      b ≤ a ∧ (qd : Int) = (a : Int) - b := by
  obtain ⟨c, d, qd, a, b, e1, _, e3, e4, e5, e6⟩ :=
    delay_stage_filters p s inp h2 h3 hz (reachable_filters p slow_start s h1 h2 h3 hz hr)
  exact ⟨c, d, qd, a, b, e1, e3, e4, e5, by omega⟩

/-- C35 on the first ACK of `sockAfterInit` (default parameters, `HZ = 1000`). -/
theorem ledbat_queuing_delay_never_wraps_witness :
    ∃ c delay qd a b, delay_stage defaultParams sockAfterInit oneAck = Except.ok (c, delay, qd) ∧
      tcp_ledbat_get_min_from_list c.current_delays = Except.ok a ∧
      tcp_ledbat_get_min_from_list c.base_delays = Except.ok b ∧
      b ≤ a ∧ (qd : Int) = (a : Int) - b :=
  ledbat_queuing_delay_never_wraps defaultParams linux_tcp_slow_start sockAfterInit oneAck
    (by decide) (by decide) (by decide) (by decide) (Reachable.init _)

end Ledbat

/-! ## Theorems: SIAD -/

namespace Siad

/-- When the sysctl override is set, `tcp_siad_init` clamps it to `MIN_RTT`. -/
theorem siad_init_sysctl_clamped (p : Params) (tp : tcp_sock)
    (h0 : p.sysctl_tcp_siad_num_rtt ≠ 0) (h1 : p.sysctl_tcp_siad_num_rtt ≤ 2147483647) :
    2 ≤ (tcp_siad_init p tp).ca.default_num_rtt ∧ 2 ≤ (tcp_siad_init p tp).ca.curr_num_rtt := by
  simp only [tcp_siad_init, if_pos h0, toU32, MIN_RTT]
  omega

/-- C9 (the code at the failing input). With the module parameter
`num_rtt = 1` and no sysctl override, `tcp_siad_init` stores 1 in
`default_num_rtt` and `curr_num_rtt`, below `MIN_RTT = 2`: only the sysctl
path is clamped. -/
theorem siad_init_num_rtt_unclamped :
    (tcp_siad_init smallNumRttParams connStart).ca.default_num_rtt = 1 ∧
    (tcp_siad_init smallNumRttParams connStart).ca.curr_num_rtt = 1 ∧
    (1 : Int) < MIN_RTT := by
  decide

/-- The estimate of the pre-loss window never divides by zero: the branches
that divide by `curr_num_rtt` are reached only when
`increase < snd_cwnd * curr_num_rtt`, which a zero `curr_num_rtt` excludes. -/
theorem est_cwnd_ok (tp : tcp_sock) (c : siad) : ∃ w, est_cwnd tp c = Except.ok w := by
  unfold est_cwnd
  by_cases hp : c.increase_performed = 1
  · simp only [if_pos hp]
    by_cases h1 : c.increase ≥ (tp.snd_cwnd * c.curr_num_rtt) % 4294967296 ∨
        tp.snd_cwnd ≤ tp.snd_ssthresh
    · rw [if_pos h1]; exact ⟨_, rfl⟩
    · rw [if_neg h1]
      have hn : c.curr_num_rtt ≠ 0 := by
        intro h0
        apply h1
        left
        rw [h0]
        simp
      simp only [udiv, if_neg hn, bind, Except.bind, pure, Except.pure]
      split
      · exact ⟨_, rfl⟩
      · split
        · exact ⟨_, rfl⟩
        · split <;> exact ⟨_, rfl⟩
  · simp only [if_neg hp]; exact ⟨_, rfl⟩

/-- C4 (counterexample). At a loss with `snd_cwnd = 1000000` and
`min_delay = curr_delay = 5000` the 32-bit product `min_delay * cwnd` wraps and
`tcp_siad_ssthresh` returns 141005, not `max(5000 * 1000000 / 5000 - 1, 2) =
999999`; and with `num_ms` in use and `min_delay = curr_delay = 2^31` the
divisor `curr_delay + min_delay` wraps to 0 and the call divides by zero. -/
theorem siad_ssthresh_formula_fails :
    bigWindowLoss.ca.min_delay ≠ INT_MAX ∧ bigWindowLoss.ca.curr_delay ≠ 0 ∧
    est_cwnd { bigWindowLoss.tp with snd_cwnd_cnt := 0 } bigWindowLoss.ca = Except.ok 1000000 ∧
    (tcp_siad_ssthresh bigWindowLoss).map Prod.fst = Except.ok 141005 ∧
    max (5000 * 1000000 / 5000 - OFFSET) MIN_CWND = 999999 ∧
    tcp_siad_ssthresh wrapDelayLoss = Except.error Fault.divByZero := by
  refine ⟨by decide, by decide, rfl, rfl, by decide, rfl⟩

theorem trend_update_frame (c : siad) :
    (trend_update c).config_num_rtt = c.config_num_rtt ∧
    (trend_update c).default_num_ms = c.default_num_ms ∧
    (trend_update c).default_num_rtt = c.default_num_rtt ∧
    (trend_update c).curr_delay = c.curr_delay ∧
    (trend_update c).prev_max_cwnd = c.prev_max_cwnd := by
  unfold trend_update
  split
  · exact ⟨rfl, rfl, rfl, rfl, rfl⟩
  · split
    · split
      · exact ⟨rfl, rfl, rfl, rfl, rfl⟩
      · split
        · exact ⟨rfl, rfl, rfl, rfl, rfl⟩
        · split
          · split
            · exact ⟨rfl, rfl, rfl, rfl, rfl⟩
            · split <;> exact ⟨rfl, rfl, rfl, rfl, rfl⟩
          · exact ⟨rfl, rfl, rfl, rfl, rfl⟩
    · exact ⟨rfl, rfl, rfl, rfl, rfl⟩

/-- The threshold computed on lines 375-390, as a closed formula. -/
theorem new_ssthresh_value (c : siad) (w : Nat) :
    ∃ r, new_ssthresh c w = Except.ok r ∧ MIN_CWND ≤ r ∧
      (c.min_delay ≠ INT_MAX ∧ c.curr_delay ≠ 0 →
        (r : Int) = max ((((c.min_delay * w) % 4294967296 / c.curr_delay : Nat) : Int) - OFFSET)
          MIN_CWND) ∧
      (¬ (c.min_delay ≠ INT_MAX ∧ c.curr_delay ≠ 0) →
        (r : Int) = max (((w / 2 : Nat) : Int) - OFFSET) MIN_CWND) := by
  unfold new_ssthresh
  by_cases h : c.min_delay ≠ INT_MAX ∧ c.curr_delay ≠ 0
  · simp only [if_pos h, udiv, if_neg h.2, bind, Except.bind, pure, Except.pure,
      MIN_CWND, OFFSET]
    generalize (c.min_delay * w) % 4294967296 / c.curr_delay = x
    split
    · refine ⟨_, rfl, by omega, fun _ => by omega, fun hn => absurd h hn⟩
    · refine ⟨_, rfl, by omega, fun _ => by omega, fun hn => absurd h hn⟩
  · simp only [if_neg h, bind, Except.bind, pure, Except.pure, MIN_CWND, OFFSET]
    generalize w / 2 = x
    split
    · refine ⟨_, rfl, by omega, fun hp => absurd hp h, fun _ => by omega⟩
    · refine ⟨_, rfl, by omega, fun hp => absurd hp h, fun _ => by omega⟩

/-- C4 (amended). With `w` the estimated pre-loss window, `m` the minimum
delay left by the trend detector and `d = curr_delay`: unless `Num_ms` is in
use while `d + m` wraps to 0 in 32 bits, `tcp_siad_ssthresh` returns
`max(trunc((m * w mod 2^32) / d) - OFFSET, MIN_CWND)` when `m ≠ INT_MAX` and
`d ≠ 0` (which is the exact quotient whenever `m * w < 2^32`), and
`max((w >> 1) - OFFSET, MIN_CWND)` otherwise; the value is `≥ MIN_CWND` and
no division by zero occurs. -/
theorem siad_ssthresh_value_amended (s : sock)
    (hdiv : s.ca.config_num_rtt = 0 → s.ca.default_num_ms ≠ 0 →
      (trend_update s.ca).min_delay ≠ INT_MAX → s.ca.curr_delay ≠ 0 →
      (s.ca.curr_delay + (trend_update s.ca).min_delay) % 4294967296 ≠ 0) :
    ∃ w r s1, est_cwnd { s.tp with snd_cwnd_cnt := 0 } s.ca = Except.ok w ∧
      tcp_siad_ssthresh s = Except.ok (r, s1) ∧ MIN_CWND ≤ r ∧
      s1.ca.min_delay = (trend_update s.ca).min_delay ∧
      (s1.ca.min_delay ≠ INT_MAX ∧ s.ca.curr_delay ≠ 0 →
        (r : Int) = max ((((s1.ca.min_delay * w) % 4294967296 / s.ca.curr_delay : Nat) : Int)
          - OFFSET) MIN_CWND ∧
        (s1.ca.min_delay * w < 4294967296 →
          (r : Int) = max (((s1.ca.min_delay * w / s.ca.curr_delay : Nat) : Int) - OFFSET)
            MIN_CWND)) ∧
      (¬ (s1.ca.min_delay ≠ INT_MAX ∧ s.ca.curr_delay ≠ 0) →
        (r : Int) = max (((w / 2 : Nat) : Int) - OFFSET) MIN_CWND) := by
  obtain ⟨w, hw⟩ := est_cwnd_ok { s.tp with snd_cwnd_cnt := 0 } s.ca
  obtain ⟨r, hr, hmin, h1, h2⟩ := new_ssthresh_value (trend_update s.ca) w
  obtain ⟨hf1, hf2, hf3, hf4, hf5⟩ := trend_update_frame s.ca
  have hn : ∃ n, next_num_rtt (trend_update s.ca) = Except.ok n := by
    unfold next_num_rtt
    by_cases hc : (trend_update s.ca).config_num_rtt ≠ 0
    · rw [if_pos hc]; exact ⟨_, rfl⟩
    · rw [if_neg hc]
      by_cases hm : (trend_update s.ca).default_num_ms ≠ 0 ∧
          (trend_update s.ca).min_delay ≠ INT_MAX ∧ (trend_update s.ca).curr_delay ≠ 0
      · rw [if_pos hm]
        have hz := hdiv (by rw [← hf1]; exact not_not.mp hc) (by rw [← hf2]; exact hm.1)
          hm.2.1 (by rw [← hf4]; exact hm.2.2)
        rw [← hf4] at hz
        simp only [udiv, if_neg hz, bind, Except.bind, pure, Except.pure]
        exact ⟨_, rfl⟩
      · rw [if_neg hm]; exact ⟨_, rfl⟩
  obtain ⟨n, hn⟩ := hn
  have hrun : ∃ s1, tcp_siad_ssthresh s = Except.ok (r, s1) ∧
      s1.ca.min_delay = (trend_update s.ca).min_delay := by
    unfold tcp_siad_ssthresh
    simp only [hw, hr, hn, bind, Except.bind, pure, Except.pure]
    exact ⟨_, rfl, rfl⟩
  obtain ⟨s1, hs1, hmd⟩ := hrun
  rw [← hmd] at h1 h2
  refine ⟨w, r, s1, hw, hs1, hmin, hmd, ?_, ?_⟩
  · intro hc
    rw [hf4] at h1
    have h := h1 hc
    refine ⟨h, fun hlt => ?_⟩
    have hmod : s1.ca.min_delay * w % 4294967296 = s1.ca.min_delay * w :=
      Nat.mod_eq_of_lt hlt
    rw [hmod] at h
    exact h
  · intro hc
    rw [hf4] at h2
    exact h2 hc

/-- Witness for C4 (amended): a loss at window 40 with `min_delay = 10` and
`curr_delay = 20`, which returns `10 * 40 / 20 - 1 = 19`. -/
theorem siad_ssthresh_value_amended_witness :
    ∃ w r s1, est_cwnd { connStart with snd_cwnd := 40, snd_cwnd_cnt := 0 }
        { (tcp_siad_init defaultParams connStart).ca with min_delay := 10, curr_delay := 20 }
        = Except.ok w ∧
      tcp_siad_ssthresh
        { tp := { connStart with snd_cwnd := 40 }
          ca := { (tcp_siad_init defaultParams connStart).ca with
                    min_delay := 10, curr_delay := 20 } } = Except.ok (r, s1) ∧
      r = 19 := by
  obtain ⟨w, r, s1, hw, hr, _, _, h1, _⟩ := siad_ssthresh_value_amended
    { tp := { connStart with snd_cwnd := 40 }
      ca := { (tcp_siad_init defaultParams connStart).ca with
                min_delay := 10, curr_delay := 20 } }
    (fun _ h => absurd rfl h)
  refine ⟨w, r, s1, hw, hr, ?_⟩
  have hr2 : tcp_siad_ssthresh
        { tp := { connStart with snd_cwnd := 40 }
          ca := { (tcp_siad_init defaultParams connStart).ca with
                    min_delay := 10, curr_delay := 20 } } = Except.ok (r, s1) := hr
  have hev : (tcp_siad_ssthresh
        { tp := { connStart with snd_cwnd := 40 }
          ca := { (tcp_siad_init defaultParams connStart).ca with
                    min_delay := 10, curr_delay := 20 } }).map Prod.fst = Except.ok 19 := rfl
  rw [hr2] at hev
  injection hev

/-- The additional decrease that uses up the last permitted slot
(`dec_cnt = curr_num_rtt - 2` on entry) divides by
`curr_num_rtt - dec_cnt - 1 = 0` on line 195 whenever the window computed on
line 178 exceeds `MIN_CWND + OFFSET`. -/
theorem additional_decrease_last_faults (tp : tcp_sock) (c : siad)
    (hlast : c.dec_cnt + 2 = c.curr_num_rtt) (hr : c.curr_num_rtt ≤ UINT_MAX)
    (hd : c.curr_delay ≠ 0)
    (hw : (c.min_delay * tp.snd_ssthresh) % 4294967296 / c.curr_delay > MIN_CWND + OFFSET) :
    additional_decrease tp c = Except.error Fault.divByZero := by
  simp only [UINT_MAX] at hr
  have h1 : (c.dec_cnt + 1) % 4294967296 = c.dec_cnt + 1 := by omega
  have h2 : toU32 ((c.curr_num_rtt : Int) - ((c.dec_cnt + 1 : Nat) : Int) - 1) = 0 := by
    simp only [toU32]; omega
  unfold additional_decrease decrease_window
  simp only [udiv, if_neg hd, bind, Except.bind, pure, Except.pure, if_pos hw, recalc_increase,
    h1, h2, if_true]

/-- C3 (the code at the failing input). With `num_rtt = 2`, the state
`lastDecreaseState` is reached from `tcp_siad_init` by a slow-start ACK, a
loss, the end of recovery and one more ACK; it has
`MIN_CWND ≤ snd_cwnd ≤ snd_cwnd_clamp`; and the next `tcp_siad_cong_avoid`
call takes the additional-decrease branch and divides by zero instead of
returning. -/
theorem siad_cong_avoid_last_decrease_traps :
    2 ≤ twoRttParams.num_rtt ∧
    Reachable twoRttParams lastDecreaseState ∧
    MIN_CWND ≤ lastDecreaseState.tp.snd_cwnd ∧
    lastDecreaseState.tp.snd_cwnd ≤ lastDecreaseState.tp.snd_cwnd_clamp ∧
    tcp_siad_cong_avoid lastDecreaseState lastDecreaseAck
      = Except.error Fault.divByZero := by
  refine ⟨by decide, ?_, by decide, by decide, rfl⟩
  have h0 : Reachable twoRttParams (tcp_siad_init twoRttParams connStart) :=
    Reachable.init connStart (by unfold tcp_sock.wf; decide)
  have h1 : Reachable twoRttParams traceAfterSlowStart :=
    Reachable.cong_avoid _ traceAfterSlowStart
      { ack := 43800, now := 1010, cwnd_limited := true } h0 (by decide) (by decide) rfl
  have h2 : Reachable twoRttParams traceAtLoss.2 :=
    Reachable.ssthresh traceAfterSlowStart traceAtLoss.2 19 h1 rfl
  have h3 : Reachable twoRttParams
      { traceAtLoss.2 with
        tp := { traceAtLoss.2.tp with snd_cwnd := 19, snd_ssthresh := 19, snd_una := 43800 } } :=
    Reachable.transport traceAtLoss.2 _ h2 (by unfold tcp_sock.wf; decide)
  have h4 : Reachable twoRttParams traceAfterRecovery :=
    Reachable.cwnd_event _ tcp_ca_event.CA_EVENT_COMPLETE_CWR h3
  exact Reachable.cong_avoid traceAfterRecovery lastDecreaseState
    { ack := 87600, now := 1020, cwnd_limited := true } h4 (by decide) (by decide) rfl

theorem min_filter_frame (tp : tcp_sock) (c c1 : siad) (delay : Nat)
    (h : min_filter tp c delay = Except.ok c1) :
    c1.config_num_rtt = c.config_num_rtt ∧ c1.default_num_rtt = c.default_num_rtt ∧
    c1.default_num_ms = c.default_num_ms ∧ c1.curr_num_rtt = c.curr_num_rtt ∧
    c1.dec_cnt = c.dec_cnt ∧ c1.increase = c.increase ∧ c1.incthresh = c.incthresh := by
  unfold min_filter at h
  split at h
  · injection h with h; subst h; exact ⟨rfl, rfl, rfl, rfl, rfl, rfl, rfl⟩
  · split at h
    · unfold udiv at h
      simp only [bind, Except.bind, pure, Except.pure] at h
      split at h
      · cases h
      · split at h <;>
          (injection h with h; subst h; exact ⟨rfl, rfl, rfl, rfl, rfl, rfl, rfl⟩)
    · injection h with h; subst h; exact ⟨rfl, rfl, rfl, rfl, rfl, rfl, rfl⟩

/-- The delay update of lines 125-159 leaves the epoch bookkeeping alone. -/
theorem delay_update_frame (s : sock) (inp : AckInput) (c : siad) (b : Nat)
    (h : delay_update s inp = Except.ok (c, b)) :
    c.config_num_rtt = s.ca.config_num_rtt ∧ c.default_num_rtt = s.ca.default_num_rtt ∧
    c.default_num_ms = s.ca.default_num_ms ∧ c.curr_num_rtt = s.ca.curr_num_rtt ∧
    c.dec_cnt = s.ca.dec_cnt ∧ c.increase = s.ca.increase ∧ c.incthresh = s.ca.incthresh := by
  unfold delay_update at h
  simp only [bind, Except.bind, pure, Except.pure] at h
  split at h
  · cases h
  · rename_i c1 hc1
    have hf := min_filter_frame _ _ _ _ hc1
    simp only [Except.ok.injEq, Prod.mk.injEq] at h
    obtain ⟨h1, _⟩ := h
    subst h1
    split <;> exact hf

theorem recalc_increase_ge (c : siad) (w d v : Nat)
    (h : recalc_increase c w d = Except.ok v) : c.curr_num_rtt ≤ v ∧ d ≠ 0 := by
  unfold recalc_increase udiv at h
  simp only [bind, Except.bind, pure, Except.pure] at h
  split at h
  · cases h
  · rename_i q hq
    split at hq
    · cases hq
    · rename_i hd
      injection h with h
      subst h
      exact ⟨le_max_left _ _, hd⟩

/-- The further reductions of lines 180-235 leave the epoch bookkeeping alone
and end with `increase ≥ curr_num_rtt`. -/
theorem decrease_window_frame (c c1 : siad) (w0 w : Nat)
    (h : decrease_window c w0 = Except.ok (w, c1)) :
    c1.config_num_rtt = c.config_num_rtt ∧ c1.default_num_rtt = c.default_num_rtt ∧
    c1.default_num_ms = c.default_num_ms ∧ c1.curr_num_rtt = c.curr_num_rtt ∧
    c1.dec_cnt = c.dec_cnt ∧ c1.incthresh = c.incthresh ∧ c.curr_num_rtt ≤ c1.increase := by
  unfold decrease_window at h
  simp only [bind, Except.bind, pure, Except.pure] at h
  repeat' (split at h)
  all_goals
    cases h <;>
      (refine ⟨rfl, rfl, rfl, rfl, rfl, rfl, ?_⟩
       exact (recalc_increase_ge _ _ _ _ (by assumption)).1)

/-- The adaptation of lines 277-302 keeps `increase ≥ curr_num_rtt` as long as
`2 * snd_cwnd * curr_num_rtt` fits 32 bits. -/
theorem adapt_increase_ge (tp : tcp_sock) (c : siad) (inc : Nat)
    (hinv : c.curr_num_rtt ≤ c.increase) (h1 : 1 ≤ tp.snd_cwnd)
    (hnw : 2 * (tp.snd_cwnd * c.curr_num_rtt) < 4294967296) (hinc : inc ≤ tp.snd_cwnd) :
    c.curr_num_rtt ≤ adapt_increase tp c inc := by
  have hA : inc * c.curr_num_rtt ≤ tp.snd_cwnd * c.curr_num_rtt :=
    Nat.mul_le_mul_right _ hinc
  have hB : tp.snd_cwnd / 2 * c.curr_num_rtt ≤ tp.snd_cwnd * c.curr_num_rtt :=
    Nat.mul_le_mul_right _ (Nat.div_le_self _ _)
  have hC : c.curr_num_rtt ≤ tp.snd_cwnd * c.curr_num_rtt :=
    Nat.le_mul_of_pos_left _ h1
  unfold adapt_increase
  simp only
  generalize inc * c.curr_num_rtt = X at hA
  generalize tp.snd_cwnd / 2 * c.curr_num_rtt = Y at hB
  generalize tp.snd_cwnd * c.curr_num_rtt = A at hA hB hC hnw
  split
  · exact le_max_left _ _
  · split
    · exact le_refl _
    · split
      · rename_i h3
        omega
      · split
        · omega
        · exact hinv

theorem grow_window_frame (tp : tcp_sock) (c : siad) (a n : Nat) :
    (grow_window tp c a n).ca.config_num_rtt = c.config_num_rtt ∧
    (grow_window tp c a n).ca.default_num_rtt = c.default_num_rtt ∧
    (grow_window tp c a n).ca.default_num_ms = c.default_num_ms ∧
    (grow_window tp c a n).ca.curr_num_rtt = c.curr_num_rtt ∧
    (grow_window tp c a n).ca.dec_cnt = c.dec_cnt ∧
    (grow_window tp c a n).ca.incthresh = c.incthresh := by
  unfold grow_window
  split
  · simp only
    split <;> exact ⟨rfl, rfl, rfl, rfl, rfl, rfl⟩
  · exact ⟨rfl, rfl, rfl, rfl, rfl, rfl⟩

theorem grow_window_increase_ge (tp : tcp_sock) (c : siad) (a n : Nat)
    (hinv : c.curr_num_rtt ≤ c.increase) (hclamp : tp.snd_cwnd_clamp ≤ UINT_MAX)
    (h1 : 1 ≤ (grow_window tp c a n).tp.snd_cwnd)
    (hnw : 2 * ((grow_window tp c a n).tp.snd_cwnd * c.curr_num_rtt) < 4294967296) :
    c.curr_num_rtt ≤ (grow_window tp c a n).ca.increase := by
  simp only [UINT_MAX] at hclamp
  by_cases hge : tp.snd_cwnd_cnt ≥ n
  · by_cases hlt : tp.snd_cwnd < tp.snd_cwnd_clamp
    · simp only [grow_window, if_pos hge, if_pos hlt] at h1 hnw ⊢
      refine adapt_increase_ge _ _ _ hinv h1 hnw ?_
      simp only
      omega
    · simp only [grow_window, if_pos hge, if_neg hlt]
      exact hinv
  · simp only [grow_window, if_neg hge]
    exact hinv

theorem additional_decrease_frame (tp : tcp_sock) (c : siad) (s1 : sock)
    (h : additional_decrease tp c = Except.ok s1) :
    s1.ca.config_num_rtt = c.config_num_rtt ∧ s1.ca.default_num_rtt = c.default_num_rtt ∧
    s1.ca.default_num_ms = c.default_num_ms ∧ s1.ca.curr_num_rtt = c.curr_num_rtt ∧
    s1.ca.dec_cnt = (c.dec_cnt + 1) % 4294967296 ∧ s1.ca.incthresh = c.incthresh ∧
    c.curr_num_rtt ≤ s1.ca.increase := by
  unfold additional_decrease at h
  simp only [bind, Except.bind, pure, Except.pure] at h
  split at h
  · cases h
  · split at h
    · cases h
    · rename_i r hr
      obtain ⟨w, c1⟩ := r
      have hf := decrease_window_frame _ _ _ _ hr
      injection h with h
      subst h
      simp only
      split <;> exact hf

theorem regular_increase_frame (tp : tcp_sock) (c : siad) (b : Nat) (s1 : sock)
    (h : regular_increase tp c b = Except.ok s1) (hcfg : c.config_num_rtt = 0) :
    s1.ca.config_num_rtt = c.config_num_rtt ∧ s1.ca.default_num_rtt = c.default_num_rtt ∧
    s1.ca.default_num_ms = c.default_num_ms ∧ s1.ca.curr_num_rtt = c.curr_num_rtt ∧
    s1.ca.dec_cnt = c.dec_cnt ∧ s1.ca.incthresh = c.incthresh ∧
    (c.curr_num_rtt ≤ c.increase → tp.snd_cwnd_clamp ≤ UINT_MAX → 1 ≤ s1.tp.snd_cwnd →
      2 * (s1.tp.snd_cwnd * c.curr_num_rtt) < 4294967296 → c.curr_num_rtt ≤ s1.ca.increase) := by
  have hac : apply_config c = c := by
    unfold apply_config
    rw [if_neg (by simp [hcfg])]
  unfold regular_increase at h
  simp only [bind, Except.bind, pure, Except.pure, hac] at h
  split at h
  · cases h
  · split at h
    · cases h
    · injection h with h
      subst h
      obtain ⟨f1, f2, f3, f4, f5, f6⟩ := grow_window_frame
        { tp with snd_cwnd_cnt := (tp.snd_cwnd_cnt + (if b % tp.mss_cache ≠ 0 ∨ _ = 0
            then (_ + 1) % 4294967296 else _)) % 4294967296 } c _ _
      refine ⟨f1, f2, f3, f4, f5, f6, ?_⟩
      intro hinv hclamp h1 hnw
      exact grow_window_increase_ge _ c _ _ hinv hclamp h1 hnw

/-- What one `tcp_siad_cong_avoid` does to the epoch bookkeeping when no
socket option is set: `curr_num_rtt` and the defaults stay; `dec_cnt` stays or,
in the additional decrease (entered with `dec_cnt < curr_num_rtt - 1`), grows
by one; `increase ≥ curr_num_rtt` is kept as long as the new
`2 * snd_cwnd * curr_num_rtt` fits 32 bits. -/
theorem cong_avoid_epoch (s : sock) (inp : AckInput) (s1 : sock)
    (h : tcp_siad_cong_avoid s inp = Except.ok s1) (hcfg : s.ca.config_num_rtt = 0) :
    s1.ca.config_num_rtt = 0 ∧ s1.ca.default_num_rtt = s.ca.default_num_rtt ∧
    s1.ca.default_num_ms = s.ca.default_num_ms ∧ s1.ca.curr_num_rtt = s.ca.curr_num_rtt ∧
    (s1.ca.dec_cnt = s.ca.dec_cnt ∨
      (s.ca.dec_cnt < toU32 ((s.ca.curr_num_rtt : Int) - 1) ∧
        s1.ca.dec_cnt = (s.ca.dec_cnt + 1) % 4294967296)) ∧
    (s.ca.curr_num_rtt ≤ s.ca.increase → s.tp.snd_cwnd_clamp ≤ UINT_MAX →
      1 ≤ s1.tp.snd_cwnd → 2 * (s1.tp.snd_cwnd * s1.ca.curr_num_rtt) < 4294967296 →
      s1.ca.curr_num_rtt ≤ s1.ca.increase) := by
  unfold tcp_siad_cong_avoid at h
  simp only [bind, Except.bind, pure, Except.pure] at h
  split at h
  · cases h
  · rename_i r hr
    obtain ⟨c, b⟩ := r
    obtain ⟨d1, d2, d3, d4, d5, d6, _⟩ := delay_update_frame s inp c b hr
    simp only at h
    split at h
    · injection h with h
      subst h
      refine ⟨by rw [d1, hcfg], d2, d3, d4, Or.inl d5, ?_⟩
      intro hinv _ _ _
      show c.curr_num_rtt ≤ c.increase
      rw [d4, d6]
      exact hinv
    · split at h
      · cases h
      · split at h
        · rename_i hbr
          obtain ⟨a1, a2, a3, a4, a5, _, a7⟩ := additional_decrease_frame _ _ _ h
          refine ⟨by rw [a1, d1, hcfg], by rw [a2, d2], by rw [a3, d3], by rw [a4, d4],
            Or.inr ⟨?_, by rw [a5, d5]⟩, ?_⟩
          · rw [← d5, ← d4]
            exact hbr.2.2
          · intro _ _ _ _
            rw [a4]
            exact a7
        · obtain ⟨r1, r2, r3, r4, r5, _, r7⟩ :=
            regular_increase_frame _ _ _ _ h (by rw [d1, hcfg])
          refine ⟨by rw [r1, d1, hcfg], by rw [r2, d2], by rw [r3, d3], by rw [r4, d4],
            Or.inl (by rw [r5, d5]), ?_⟩
          intro hinv hclamp h1 hnw
          rw [r4]
          rw [r4] at hnw
          exact r7 (by rw [d4, d6]; exact hinv) hclamp h1 hnw

theorem trend_update_dec_cnt (c : siad) : (trend_update c).dec_cnt = c.dec_cnt := by
  unfold trend_update
  repeat' split
  all_goals rfl

/-- What `tcp_siad_ssthresh` does to the epoch bookkeeping: the defaults and
`dec_cnt` stay, `curr_num_rtt` is recomputed by `next_num_rtt`, and
`increase ≥ curr_num_rtt` holds afterwards. -/
theorem ssthresh_epoch (s : sock) (r : Nat) (s1 : sock)
    (h : tcp_siad_ssthresh s = Except.ok (r, s1)) :
    s1.ca.config_num_rtt = s.ca.config_num_rtt ∧ s1.ca.default_num_rtt = s.ca.default_num_rtt ∧
    s1.ca.default_num_ms = s.ca.default_num_ms ∧ s1.ca.dec_cnt = s.ca.dec_cnt ∧
    next_num_rtt (trend_update s.ca) = Except.ok s1.ca.curr_num_rtt ∧
    s1.ca.curr_num_rtt ≤ s1.ca.increase := by
  obtain ⟨hf1, hf2, hf3, _, _⟩ := trend_update_frame s.ca
  have hf4 := trend_update_dec_cnt s.ca
  unfold tcp_siad_ssthresh at h
  simp only [bind, Except.bind, pure, Except.pure] at h
  split at h
  · cases h
  · split at h
    · cases h
    · split at h
      · cases h
      · rename_i n hn
        simp only [Except.ok.injEq, Prod.mk.injEq] at h
        obtain ⟨_, h2⟩ := h
        subst h2
        exact ⟨hf1, hf3, hf2, hf4, hn, le_max_left _ _⟩

/-- C13 (as stated, refuted): `tcp_siad_init` with `num_rtt = 2` on a window of
`2^31` packets computes `increase = 2^31 * 2 mod 2^32 = 0`, below
`curr_num_rtt = 2`. -/
theorem siad_increase_floor_fails :
    1 ≤ hugeWindowStart.snd_cwnd ∧ 2 ≤ twoRttParams.num_rtt ∧
    Reachable twoRttParams (tcp_siad_init twoRttParams hugeWindowStart) ∧
    (tcp_siad_init twoRttParams hugeWindowStart).ca.increase = 0 ∧
    (tcp_siad_init twoRttParams hugeWindowStart).ca.curr_num_rtt = 2 ∧
    ¬ ((tcp_siad_init twoRttParams hugeWindowStart).ca.increase ≥
        (tcp_siad_init twoRttParams hugeWindowStart).ca.curr_num_rtt) :=
  ⟨by decide, by decide, Reachable.init hugeWindowStart (by unfold tcp_sock.wf; decide),
    rfl, rfl, by decide⟩

/-- C13 (amended): in every state reachable from `tcp_siad_init` by the SIAD
callbacks on which the window arithmetic does not wrap (`ReachableNoWrap`),
`increase ≥ curr_num_rtt`. -/
theorem siad_increase_floor_amended (p : Params) (s : sock) (h : ReachableNoWrap p s) :
    s.ca.curr_num_rtt ≤ s.ca.increase := by
  have key : s.ca.config_num_rtt = 0 ∧ s.ca.curr_num_rtt ≤ s.ca.increase := by
    induction h with
    | init tp _ h1 hnw =>
      refine ⟨rfl, ?_⟩
      show (tcp_siad_init p tp).ca.default_num_rtt ≤
        (tp.snd_cwnd * (tcp_siad_init p tp).ca.default_num_rtt) % 4294967296
      rw [Nat.mod_eq_of_lt hnw]
      exact Nat.le_mul_of_pos_left _ h1
    | transport s tp _ _ ih => exact ih
    | cong_avoid s s1 inp _ _ _ hstep hclamp h1 hnw ih =>
      obtain ⟨e1, _, _, _, _, e6⟩ := cong_avoid_epoch s inp s1 hstep ih.1
      exact ⟨e1, e6 ih.2 hclamp h1 hnw⟩
    | ssthresh s s1 r _ hstep ih =>
      obtain ⟨e1, _, _, _, _, e6⟩ := ssthresh_epoch s r s1 hstep
      exact ⟨by rw [e1]; exact ih.1, e6⟩
    | undo_cwnd s _ ih => exact ih
    | cwnd_event s ev _ ih =>
      cases ev
      all_goals exact ih
  exact key.2

/-- The amended C13 at the connection of `traceAfterRecovery`: init on a
window of 10, one ACK (window 40), a loss, the end of recovery. -/
theorem siad_increase_floor_amended_witness :
    ReachableNoWrap twoRttParams traceAfterRecovery ∧
    traceAfterRecovery.ca.curr_num_rtt ≤ traceAfterRecovery.ca.increase := by
  have h0 : ReachableNoWrap twoRttParams (tcp_siad_init twoRttParams connStart) :=
    ReachableNoWrap.init connStart (by unfold tcp_sock.wf; decide) (by decide) (by decide)
  have h1 : ReachableNoWrap twoRttParams traceAfterSlowStart :=
    ReachableNoWrap.cong_avoid _ _ { ack := 43800, now := 1010, cwnd_limited := true } h0
      (by decide) (by decide) rfl (by decide) (by decide) (by decide)
  have h2 : ReachableNoWrap twoRttParams traceAtLoss.2 :=
    ReachableNoWrap.ssthresh _ _ traceAtLoss.1 h1 rfl
  have h3 : ReachableNoWrap twoRttParams traceAfterRecovery :=
    ReachableNoWrap.cwnd_event _ tcp_ca_event.CA_EVENT_COMPLETE_CWR
      (ReachableNoWrap.transport _ _ h2 (by unfold tcp_sock.wf; decide))
  exact ⟨h3, siad_increase_floor_amended twoRttParams traceAfterRecovery h3⟩

/-- With at least two epoch slots left after the increment of `dec_cnt`, the
further reductions of lines 180-235 return a window between `MIN_CWND` and
`max(MIN_CWND, w0 - 1)`. -/
theorem decrease_window_bounds (c : siad) (w0 : Nat)
    (h2 : c.dec_cnt + 2 ≤ c.curr_num_rtt) (hc : c.curr_num_rtt ≤ UINT_MAX)
    (hw : w0 < 4294967296) :
    ∃ w c1, decrease_window c w0 = Except.ok (w, c1) ∧ MIN_CWND ≤ w ∧
      w ≤ max MIN_CWND (w0 - 1) ∧ c1.dec_cnt = c.dec_cnt := by
  simp only [UINT_MAX] at hc
  have e1 : toU32 ((c.curr_num_rtt : Int) - c.dec_cnt - 1) = c.curr_num_rtt - c.dec_cnt - 1 := by
    simp only [toU32]
    omega
  have e2 : toU32 ((c.curr_num_rtt : Int) - c.dec_cnt) = c.curr_num_rtt - c.dec_cnt := by
    simp only [toU32]
    omega
  have hd1 : c.curr_num_rtt - c.dec_cnt - 1 ≠ 0 := by omega
  have hd2 : c.curr_num_rtt - c.dec_cnt ≠ 0 := by omega
  have hd3 : c.curr_num_rtt ≠ 0 := by omega
  by_cases hw3 : w0 > MIN_CWND + OFFSET
  · simp only [decrease_window, if_pos hw3, recalc_increase, bind, Except.bind, pure,
      Except.pure, udiv, e1, e2, if_neg hd1, if_neg hd2, if_neg hd3]
    have hq : toU32 ((c.incthresh : Int) - ((w0 - OFFSET : Nat) : Int)) * c.curr_num_rtt
        % 4294967296 / (c.curr_num_rtt - c.dec_cnt - 1) < 4294967296 :=
      lt_of_le_of_lt (Nat.div_le_self _ _) (Nat.mod_lt _ (by decide))
    generalize toU32 ((c.incthresh : Int) - ((w0 - OFFSET : Nat) : Int)) * c.curr_num_rtt
        % 4294967296 / (c.curr_num_rtt - c.dec_cnt - 1) = q at hq ⊢
    have ha : 2 * ((max c.curr_num_rtt q) / c.curr_num_rtt) ≤ max c.curr_num_rtt q :=
      le_trans (by rw [Nat.mul_comm]; exact Nat.mul_le_mul_left _ (by omega))
        (Nat.div_mul_le_self _ _)
    generalize (max c.curr_num_rtt q) / c.curr_num_rtt = alpha at ha ⊢
    have hr : 2 * ((w0 - OFFSET) / (c.curr_num_rtt - c.dec_cnt)) ≤ w0 - OFFSET :=
      le_trans (by rw [Nat.mul_comm]; exact Nat.mul_le_mul_left _ (by omega))
        (Nat.div_mul_le_self _ _)
    generalize (w0 - OFFSET) / (c.curr_num_rtt - c.dec_cnt) = reduce at hr ⊢
    simp only [MIN_CWND, OFFSET, toU32] at *
    split
    · split
      · refine ⟨_, _, rfl, ?_, ?_, rfl⟩ <;> omega
      · refine ⟨_, _, rfl, ?_, ?_, rfl⟩ <;> omega
    · split
      · refine ⟨_, _, rfl, ?_, ?_, rfl⟩ <;> omega
      · refine ⟨_, _, rfl, ?_, ?_, rfl⟩ <;> omega
  · simp only [decrease_window, if_neg hw3, recalc_increase, bind, Except.bind, pure,
      Except.pure, udiv, e1, e2, if_neg hd1, if_neg hd2, if_neg hd3]
    refine ⟨_, _, rfl, le_refl _, le_max_left _ _, rfl⟩

/-- The additional decrease of lines 168-244 under the premises of C17. -/
theorem additional_decrease_step (tp : tcp_sock) (c : siad)
    (hcd : 0 < c.curr_delay) (hmin : c.min_delay ≤ c.curr_delay)
    (h3 : c.dec_cnt + 3 ≤ c.curr_num_rtt) (hrtt : c.curr_num_rtt ≤ UINT_MAX)
    (hmul : c.min_delay * tp.snd_ssthresh < 4294967296) :
    ∃ s1, additional_decrease tp c = Except.ok s1 ∧
      MIN_CWND ≤ s1.tp.snd_cwnd ∧ s1.tp.snd_cwnd ≤ max MIN_CWND (tp.snd_ssthresh - 1) ∧
      s1.ca.dec_cnt = c.dec_cnt + 1 ∧ s1.tp.snd_cwnd_cnt = 0 ∧
      s1.tp.snd_ssthresh = s1.tp.snd_cwnd - 1 := by
  have hw0 : c.min_delay * tp.snd_ssthresh / c.curr_delay ≤ tp.snd_ssthresh :=
    Nat.div_le_of_le_mul (Nat.mul_le_mul_right _ hmin)
  have hw0lt : c.min_delay * tp.snd_ssthresh / c.curr_delay < 4294967296 :=
    lt_of_le_of_lt (Nat.div_le_self _ _) hmul
  have hcd0 : c.curr_delay ≠ 0 := by omega
  have hdec : (c.dec_cnt + 1) % 4294967296 = c.dec_cnt + 1 := by
    simp only [UINT_MAX] at hrtt
    omega
  obtain ⟨w, c1, hdw, hw2, hwmax, hdc⟩ := decrease_window_bounds
    { c with dec_cnt := (c.dec_cnt + 1) % 4294967296 }
    (c.min_delay * tp.snd_ssthresh / c.curr_delay)
    (by show (c.dec_cnt + 1) % 4294967296 + 2 ≤ c.curr_num_rtt; omega) hrtt hw0lt
  simp only [additional_decrease, bind, Except.bind, pure, Except.pure, udiv, if_neg hcd0,
    Nat.mod_eq_of_lt hmul, hdw]
  simp only [MIN_CWND] at hw2 hwmax ⊢
  generalize c.min_delay * tp.snd_ssthresh / c.curr_delay = w0 at hw0 hw0lt hwmax
  have hdc1 : c1.dec_cnt = c.dec_cnt + 1 := by
    rw [hdc]
    exact hdec
  refine ⟨_, rfl, hw2, ?_, ?_, rfl, ?_⟩
  · show w ≤ max 2 (tp.snd_ssthresh - 1)
    omega
  · show (if _ then _ else _ : siad).dec_cnt = c.dec_cnt + 1
    split
    · exact hdc1
    · exact hdc1
  · show toU32 ((w : Int) - 1) = w - 1
    simp only [toU32]
    omega

/-- C17: when `tcp_siad_cong_avoid` takes the additional-decrease branch (flow
cwnd-limited, `snd_cwnd > snd_ssthresh + alpha + 2`, minimum delay not seen)
with, after the delay update, `0 < curr_delay` and `min_delay ≤ curr_delay`,
with `curr_num_rtt - dec_cnt ≥ 3` and no 32-bit overflow, the call returns, the
new `snd_cwnd` is at least `MIN_CWND` and strictly below the prior one,
`dec_cnt` grows by exactly one, `snd_cwnd_cnt` is 0 and
`snd_ssthresh = snd_cwnd - 1`. -/
theorem siad_additional_decrease_step (s : sock) (inp : AckInput) (c : siad) (b : Nat)
    (hd : delay_update s inp = Except.ok (c, b))
    (hlim : inp.cwnd_limited = true)
    (hgt : s.tp.snd_ssthresh + c.increase / c.curr_num_rtt + 2 < s.tp.snd_cwnd)
    (hseen : c.min_delay_seen = 0)
    (hcd : 0 < c.curr_delay) (hmin : c.min_delay ≤ c.curr_delay)
    (h3 : s.ca.dec_cnt + 3 ≤ s.ca.curr_num_rtt)
    (hcwnd : s.tp.snd_cwnd ≤ UINT_MAX) (hrtt : s.ca.curr_num_rtt ≤ UINT_MAX)
    (hmul : c.min_delay * s.tp.snd_ssthresh < 4294967296) :
    ∃ s1, tcp_siad_cong_avoid s inp = Except.ok s1 ∧
      MIN_CWND ≤ s1.tp.snd_cwnd ∧ s1.tp.snd_cwnd < s.tp.snd_cwnd ∧
      s1.ca.dec_cnt = s.ca.dec_cnt + 1 ∧ s1.tp.snd_cwnd_cnt = 0 ∧
      s1.tp.snd_ssthresh = s1.tp.snd_cwnd - 1 := by
  obtain ⟨_, _, _, d4, d5, _, _⟩ := delay_update_frame s inp c b hd
  rw [← d4] at h3 hrtt
  rw [← d5] at h3
  obtain ⟨s1, hs1, b1, b2, b3, b4, b5⟩ :=
    additional_decrease_step s.tp c hcd hmin h3 hrtt hmul
  have hc0 : c.curr_num_rtt ≠ 0 := by omega
  have hbr : s.tp.snd_cwnd > (s.tp.snd_ssthresh + c.increase / c.curr_num_rtt + 2) % 4294967296 ∧
      c.min_delay_seen = 0 ∧ c.dec_cnt < toU32 ((c.curr_num_rtt : Int) - 1) := by
    generalize c.increase / c.curr_num_rtt = alpha at hgt ⊢
    simp only [UINT_MAX, toU32] at hcwnd hrtt ⊢
    omega
  refine ⟨s1, ?_, b1, ?_, by rw [b3, d5], b4, b5⟩
  · simp only [tcp_siad_cong_avoid, hd, bind, Except.bind, pure, Except.pure, hlim, udiv,
      if_neg hc0, if_pos hbr, Bool.not_true]
    exact hs1
  · simp only [MIN_CWND] at b2
    generalize c.increase / c.curr_num_rtt = alpha at hgt
    omega

/-- C17 at `msBeforeDecrease` and `msDecreaseAck`. -/
theorem siad_additional_decrease_step_witness :
    msBeforeDecrease.tp.snd_cwnd = 24 ∧ msBeforeDecrease.ca.dec_cnt = 0 ∧
    msBeforeDecrease.ca.curr_num_rtt = 100 ∧
    ∃ s1, tcp_siad_cong_avoid msBeforeDecrease msDecreaseAck = Except.ok s1 ∧
      MIN_CWND ≤ s1.tp.snd_cwnd ∧ s1.tp.snd_cwnd < msBeforeDecrease.tp.snd_cwnd ∧
      s1.ca.dec_cnt = msBeforeDecrease.ca.dec_cnt + 1 ∧ s1.tp.snd_cwnd_cnt = 0 ∧
      s1.tp.snd_ssthresh = s1.tp.snd_cwnd - 1 :=
  ⟨rfl, rfl, rfl, siad_additional_decrease_step msBeforeDecrease msDecreaseAck
    msDecreaseDelays.1 msDecreaseDelays.2 rfl rfl (by decide) rfl (by decide) (by decide)
    (by decide) (by decide) (by decide) (by decide)⟩

/-- C25 (counterexample). At a loss right after `tcp_siad_init` with
`snd_cwnd = 2^31` the estimated window is `c = 2^31` and `p = prev_max_cwnd =
2^31 < 2 * c`, but the 32-bit product `2 * cwnd` wraps to 0, the test
`prev_max_cwnd < 2 * cwnd` fails, and `incthresh` becomes the returned
threshold `2^30 - 1` instead of `max(c + (c - p), s) = 2^31`. -/
theorem siad_incthresh_double_wraps :
    est_cwnd { (tcp_siad_init twoRttParams hugeWindowStart).tp with snd_cwnd_cnt := 0 }
      (tcp_siad_init twoRttParams hugeWindowStart).ca = Except.ok 2147483648 ∧
    (tcp_siad_init twoRttParams hugeWindowStart).ca.prev_max_cwnd = 2147483648 ∧
    (2147483648 : Nat) < 2 * 2147483648 ∧
    (tcp_siad_ssthresh (tcp_siad_init twoRttParams hugeWindowStart)).map
      (fun r => (r.1, r.2.ca.incthresh)) = Except.ok (1073741823, 1073741823) ∧
    (1073741823 : Int) ≠ max ((2147483648 : Int) + (2147483648 - 2147483648)) 1073741823 := by
  refine ⟨rfl, rfl, by decide, rfl, by decide⟩

/-- The threshold computed on lines 375-390 fits 32 bits when the estimated
window does. -/
theorem new_ssthresh_lt (c : siad) (w r : Nat) (hw : w < 4294967296)
    (h : new_ssthresh c w = Except.ok r) : r < 4294967296 := by
  obtain ⟨r1, hr1, _, h1, h2⟩ := new_ssthresh_value c w
  rw [hr1] at h
  injection h with h
  subst h
  by_cases hc : c.min_delay ≠ INT_MAX ∧ c.curr_delay ≠ 0
  · have e := h1 hc
    have hq : (c.min_delay * w) % 4294967296 / c.curr_delay < 4294967296 :=
      lt_of_le_of_lt (Nat.div_le_self _ _) (Nat.mod_lt _ (by decide))
    simp only [OFFSET, MIN_CWND] at e
    omega
  · have e := h2 hc
    simp only [OFFSET, MIN_CWND] at e
    omega

/-- C25 (amended). Let `c` be the estimated pre-loss window with
`2 * c < 2^32` and `p` the prior `prev_max_cwnd`. After `tcp_siad_ssthresh`
returns `r`: `incthresh = max(c + (c - p), r)` when `p < 2 * c` and
`incthresh = r` otherwise, so `incthresh ≥ r`;
`increase = max(curr_num_rtt, incthresh - r)` with `curr_num_rtt` the value
just recomputed by `next_num_rtt`; `prev_max_cwnd = c`; and
`snd_cwnd_cnt = 0`. The call returns unless `Num_ms` is in use while
`curr_delay + min_delay` wraps to 0 in 32 bits. -/
theorem siad_ssthresh_targets_amended (s : sock) (c : Nat)
    (hc : est_cwnd { s.tp with snd_cwnd_cnt := 0 } s.ca = Except.ok c)
    (hnw : 2 * c < 4294967296) :
    (∀ r s1, tcp_siad_ssthresh s = Except.ok (r, s1) →
      (s.ca.prev_max_cwnd < 2 * c →
        (s1.ca.incthresh : Int) = max ((c : Int) + ((c : Int) - s.ca.prev_max_cwnd)) r) ∧
      (2 * c ≤ s.ca.prev_max_cwnd → s1.ca.incthresh = r) ∧
      r ≤ s1.ca.incthresh ∧
      next_num_rtt (trend_update s.ca) = Except.ok s1.ca.curr_num_rtt ∧
      (s1.ca.increase : Int)
        = max (s1.ca.curr_num_rtt : Int) ((s1.ca.incthresh : Int) - r) ∧
      s1.ca.prev_max_cwnd = c ∧ s1.tp.snd_cwnd_cnt = 0) ∧
    ((s.ca.config_num_rtt = 0 → s.ca.default_num_ms ≠ 0 →
        (trend_update s.ca).min_delay ≠ INT_MAX → s.ca.curr_delay ≠ 0 →
        (s.ca.curr_delay + (trend_update s.ca).min_delay) % 4294967296 ≠ 0) →
      ∃ r s1, tcp_siad_ssthresh s = Except.ok (r, s1)) := by
  obtain ⟨_, _, _, _, hf5⟩ := trend_update_frame s.ca
  have h2c : (2 * c) % 4294967296 = 2 * c := Nat.mod_eq_of_lt hnw
  refine ⟨fun r s1 h => ?_, fun hdiv => ?_⟩
  · unfold tcp_siad_ssthresh at h
    simp only [hc, bind, Except.bind, pure, Except.pure] at h
    split at h
    · cases h
    · rename_i r0 hr0
      split at h
      · cases h
      · rename_i n hn
        simp only [Except.ok.injEq, Prod.mk.injEq] at h
        obtain ⟨hr, h2⟩ := h
        subst hr
        subst h2
        have hrlt := new_ssthresh_lt (trend_update s.ca) c r0 (by omega) hr0
        simp only [hf5, h2c]
        by_cases hp : s.ca.prev_max_cwnd < 2 * c
        · simp only [if_pos hp]
          have e1 : toU32 ((c : Int) + toS32 ((c : Int) - (s.ca.prev_max_cwnd : Int)))
              = 2 * c - s.ca.prev_max_cwnd := by
            simp only [toU32, toS32]
            omega
          rw [e1]
          have e2 : toU32 (((max (2 * c - s.ca.prev_max_cwnd) r0 : Nat) : Int) - (r0 : Int))
              = max (2 * c - s.ca.prev_max_cwnd) r0 - r0 := by
            simp only [toU32]
            omega
          rw [e2]
          refine ⟨fun _ => by omega, fun hge => by omega, le_max_right _ _, hn, by omega,
            trivial, trivial⟩
        · simp only [if_neg hp]
          have e2 : toU32 ((r0 : Int) - (r0 : Int)) = 0 := by
            simp only [toU32]
            omega
          rw [e2]
          refine ⟨fun h => absurd h hp, fun _ => trivial, le_refl _, hn, by omega,
            trivial, trivial⟩
  · obtain ⟨_, r, s1, _, hr, _⟩ := siad_ssthresh_value_amended s hdiv
    exact ⟨r, s1, hr⟩

/-- Witness for C25 (amended): the loss at window 40 after slow start from
`connStart`, with no earlier maximum above 10: the estimate is 20, the trend
`20 - 10`, and `incthresh = 30`. -/
theorem siad_ssthresh_targets_amended_witness :
    ∃ r s1, tcp_siad_ssthresh traceAfterSlowStart = Except.ok (r, s1) ∧
      s1.ca.incthresh = 30 ∧ s1.ca.prev_max_cwnd = 20 ∧ s1.tp.snd_cwnd_cnt = 0 := by
  have h := siad_ssthresh_targets_amended traceAfterSlowStart 20 rfl (by decide)
  obtain ⟨r, s1, hs1⟩ := h.2 (fun _ h0 => absurd rfl h0)
  obtain ⟨h1, _, _, _, _, h6, h7⟩ := h.1 r s1 hs1
  have hev : (tcp_siad_ssthresh traceAfterSlowStart).map (fun x => x.2.ca.incthresh)
      = Except.ok 30 := rfl
  rw [hs1] at hev
  injection hev with hev
  exact ⟨r, s1, hs1, hev, h6, h7⟩

/-- C26: `tcp_siad_cwnd_event` with `CA_EVENT_COMPLETE_CWR` sets `dec_cnt = 0`,
`curr_min_delay = INT_MAX`, `min_delay_seen = 0`, `increase_performed = 0` and
`prior_snd_una = snd_una`, and leaves every other field of the controller
block and the whole transport block (so `snd_cwnd` and `snd_ssthresh`)
unchanged; with each of the other six events the whole state is unchanged. -/
theorem siad_cwnd_event_frame (s : sock) :
    ((tcp_siad_cwnd_event s tcp_ca_event.CA_EVENT_COMPLETE_CWR).ca.dec_cnt = 0 ∧
     (tcp_siad_cwnd_event s tcp_ca_event.CA_EVENT_COMPLETE_CWR).ca.curr_min_delay = INT_MAX ∧
     (tcp_siad_cwnd_event s tcp_ca_event.CA_EVENT_COMPLETE_CWR).ca.min_delay_seen = 0 ∧
     (tcp_siad_cwnd_event s tcp_ca_event.CA_EVENT_COMPLETE_CWR).ca.increase_performed = 0 ∧
     (tcp_siad_cwnd_event s tcp_ca_event.CA_EVENT_COMPLETE_CWR).ca.prior_snd_una
       = s.tp.snd_una) ∧
    ((tcp_siad_cwnd_event s tcp_ca_event.CA_EVENT_COMPLETE_CWR).ca.min_delay = s.ca.min_delay ∧
     (tcp_siad_cwnd_event s tcp_ca_event.CA_EVENT_COMPLETE_CWR).ca.curr_delay = s.ca.curr_delay ∧
     (tcp_siad_cwnd_event s tcp_ca_event.CA_EVENT_COMPLETE_CWR).ca.prev_delay = s.ca.prev_delay ∧
     (tcp_siad_cwnd_event s tcp_ca_event.CA_EVENT_COMPLETE_CWR).ca.increase = s.ca.increase ∧
     (tcp_siad_cwnd_event s tcp_ca_event.CA_EVENT_COMPLETE_CWR).ca.incthresh = s.ca.incthresh ∧
     (tcp_siad_cwnd_event s tcp_ca_event.CA_EVENT_COMPLETE_CWR).ca.prev_max_cwnd
       = s.ca.prev_max_cwnd ∧
     (tcp_siad_cwnd_event s tcp_ca_event.CA_EVENT_COMPLETE_CWR).ca.curr_num_rtt
       = s.ca.curr_num_rtt ∧
     (tcp_siad_cwnd_event s tcp_ca_event.CA_EVENT_COMPLETE_CWR).ca.prev_min_delay1
       = s.ca.prev_min_delay1 ∧
     (tcp_siad_cwnd_event s tcp_ca_event.CA_EVENT_COMPLETE_CWR).ca.prev_min_delay2
       = s.ca.prev_min_delay2 ∧
     (tcp_siad_cwnd_event s tcp_ca_event.CA_EVENT_COMPLETE_CWR).ca.prev_min_delay3
       = s.ca.prev_min_delay3 ∧
     (tcp_siad_cwnd_event s tcp_ca_event.CA_EVENT_COMPLETE_CWR).ca.config_num_rtt
       = s.ca.config_num_rtt ∧
     (tcp_siad_cwnd_event s tcp_ca_event.CA_EVENT_COMPLETE_CWR).ca.default_num_rtt
       = s.ca.default_num_rtt ∧
     (tcp_siad_cwnd_event s tcp_ca_event.CA_EVENT_COMPLETE_CWR).ca.default_num_ms
       = s.ca.default_num_ms ∧
     (tcp_siad_cwnd_event s tcp_ca_event.CA_EVENT_COMPLETE_CWR).tp = s.tp) ∧
    (tcp_siad_cwnd_event s tcp_ca_event.CA_EVENT_TX_START = s ∧
     tcp_siad_cwnd_event s tcp_ca_event.CA_EVENT_CWND_RESTART = s ∧
     tcp_siad_cwnd_event s tcp_ca_event.CA_EVENT_FRTO = s ∧
     tcp_siad_cwnd_event s tcp_ca_event.CA_EVENT_LOSS = s ∧
     tcp_siad_cwnd_event s tcp_ca_event.CA_EVENT_FAST_ACK = s ∧
     tcp_siad_cwnd_event s tcp_ca_event.CA_EVENT_SLOW_ACK = s) :=
  ⟨⟨rfl, rfl, rfl, rfl, rfl⟩,
   ⟨rfl, rfl, rfl, rfl, rfl, rfl, rfl, rfl, rfl, rfl, rfl, rfl, rfl, rfl⟩,
   ⟨rfl, rfl, rfl, rfl, rfl, rfl⟩⟩

/-- C27 (the code at the failing input). From window 98 in fast increase with
`increase = 980 = (98 >> 1) * 20`, a stretch ACK for four segments (5840
bytes counted by `delay_update`) takes the regular-increase path, grows the
window by 2 to 100 (still above `incthresh = 50`) and, because the guard
`increase < (snd_cwnd >> 1) * curr_num_rtt` is tested before
`inc * curr_num_rtt` is added, leaves `increase = 1020`, above the cap
`(100 >> 1) * 20 = 1000`. -/
theorem siad_fast_increase_overshoots_cap :
    fastIncreaseAtCap.ca.increase
      ≤ (fastIncreaseAtCap.tp.snd_cwnd / 2) * fastIncreaseAtCap.ca.curr_num_rtt ∧
    (delay_update fastIncreaseAtCap stretchAck).map (fun r => (r.1.min_delay_seen, r.2))
      = Except.ok (1, 5840) ∧
    ((delay_update fastIncreaseAtCap stretchAck).bind
        (fun r => regular_increase fastIncreaseAtCap.tp r.1 r.2)).map
        (fun s => (s.tp.snd_cwnd, s.ca.incthresh, s.ca.curr_num_rtt, s.ca.increase))
      = Except.ok (100, 50, 20, 1020) ∧
    (tcp_siad_cong_avoid fastIncreaseAtCap stretchAck).map
        (fun s => (s.tp.snd_cwnd, s.ca.incthresh, s.ca.curr_num_rtt, s.ca.increase))
      = Except.ok (100, 50, 20, 1020) ∧
    (100 / 2) * 20 < 1020 := by
  refine ⟨by decide, rfl, rfl, rfl, by decide⟩

/-- The state `lastDecreaseState` is reached from `tcp_siad_init` (with
`num_rtt = 2`) by a slow-start ACK, a loss, the end of recovery and one more
ACK. -/
theorem lastDecreaseState_reachable : Reachable twoRttParams lastDecreaseState := by
  have h0 : Reachable twoRttParams (tcp_siad_init twoRttParams connStart) :=
    Reachable.init connStart (by unfold tcp_sock.wf; decide)
  have h1 : Reachable twoRttParams traceAfterSlowStart :=
    Reachable.cong_avoid _ traceAfterSlowStart
      { ack := 43800, now := 1010, cwnd_limited := true } h0 (by decide) (by decide) rfl
  have h2 : Reachable twoRttParams traceAtLoss.2 :=
    Reachable.ssthresh traceAfterSlowStart traceAtLoss.2 19 h1 rfl
  have h3 : Reachable twoRttParams
      { traceAtLoss.2 with
        tp := { traceAtLoss.2.tp with snd_cwnd := 19, snd_ssthresh := 19, snd_una := 43800 } } :=
    Reachable.transport traceAtLoss.2 _ h2 (by unfold tcp_sock.wf; decide)
  have h4 : Reachable twoRttParams traceAfterRecovery :=
    Reachable.cwnd_event _ tcp_ca_event.CA_EVENT_COMPLETE_CWR h3
  exact Reachable.cong_avoid traceAfterRecovery lastDecreaseState
    { ack := 87600, now := 1020, cwnd_limited := true } h4 (by decide) (by decide) rfl

/-- C36 (the code at the failing input). In the reachable state
`lastDecreaseState` (`curr_num_rtt = 2`, `dec_cnt = 0 < curr_num_rtt - 1`,
`min_delay_seen = 0`, all delay samples at most 30) the ACK `lastDecreaseAck`
takes the additional-decrease branch with `curr_delay = 20` non-zero, but
after `dec_cnt++` the divisor `curr_num_rtt - dec_cnt - 1` of line 195 is
`2 - 1 - 1 = 0` (the window of line 178 is `9 > MIN_CWND + OFFSET`), and the
call divides by zero. -/
theorem siad_additional_decrease_zero_divisor :
    Reachable twoRttParams lastDecreaseState ∧
    (delay_update lastDecreaseState lastDecreaseAck).map
      (fun r => (r.1.curr_num_rtt, r.1.dec_cnt, r.1.min_delay_seen, r.1.curr_delay,
        r.1.min_delay, r.1.increase))
      = Except.ok (2, 0, 0, 20, 10, 11) ∧
    lastDecreaseState.tp.snd_cwnd > (lastDecreaseState.tp.snd_ssthresh + 11 / 2 + 2) % 4294967296 ∧
    (0 : Nat) < toU32 ((2 : Int) - 1) ∧
    udiv ((10 * lastDecreaseState.tp.snd_ssthresh) % 4294967296) 20 = Except.ok 9 ∧
    9 > MIN_CWND + OFFSET ∧
    toU32 ((2 : Int) - ((0 + 1 : Nat) : Int) - 1) = 0 ∧
    tcp_siad_cong_avoid lastDecreaseState lastDecreaseAck = Except.error Fault.divByZero := by
  refine ⟨lastDecreaseState_reachable, rfl, by decide, by decide, rfl, by decide, by decide, rfl⟩

/-- The minimum filter of lines 138-152 leaves `prev_delay` and `curr_delay`
alone and ends with `min_delay` at most the sample or unchanged and below the
sample. -/
theorem min_filter_delays (tp : tcp_sock) (c c1 : siad) (delay : Nat)
    (h : min_filter tp c delay = Except.ok c1) :
    c1.prev_delay = c.prev_delay ∧ c1.curr_delay = c.curr_delay ∧
    (c1.min_delay = delay ∨ (c1.min_delay = c.min_delay ∧ c.min_delay < delay)) := by
  unfold min_filter at h
  split at h
  · injection h with h; subst h; exact ⟨rfl, rfl, Or.inl rfl⟩
  · rename_i hn
    have hlt : c.min_delay < delay := by
      have := not_or.mp hn
      omega
    split at h
    · unfold udiv at h
      simp only [bind, Except.bind, pure, Except.pure] at h
      split at h
      · cases h
      · split at h
        · injection h with h; subst h; exact ⟨rfl, rfl, Or.inl rfl⟩
        · injection h with h; subst h; exact ⟨rfl, rfl, Or.inr ⟨rfl, hlt⟩⟩
    · injection h with h; subst h; exact ⟨rfl, rfl, Or.inr ⟨rfl, hlt⟩⟩

/-- After the delay update of lines 125-159 `prev_delay` is the sample,
`curr_delay` is at most the sample, and `min_delay` is not above it. -/
theorem delay_update_delays (s : sock) (inp : AckInput) (c : siad) (b : Nat)
    (h : delay_update s inp = Except.ok (c, b)) :
    c.min_delay ≤ c.prev_delay ∧ c.curr_delay ≤ c.prev_delay := by
  unfold delay_update at h
  simp only [bind, Except.bind, pure, Except.pure] at h
  split at h
  · cases h
  · rename_i c1 hc1
    obtain ⟨f1, f2, f3⟩ := min_filter_delays _ _ _ _ hc1
    simp only at f1 f2 f3
    simp only [Except.ok.injEq, Prod.mk.injEq] at h
    obtain ⟨h1, _⟩ := h
    subst h1
    have e : ∀ x : siad, (if s.tp.snd_cwnd > c1.incthresh ∨ s.tp.snd_cwnd < s.tp.snd_ssthresh
        then { c1 with min_delay_seen := 1 } else c1) = x →
        x.min_delay = c1.min_delay ∧ x.prev_delay = c1.prev_delay ∧
        x.curr_delay = c1.curr_delay := by
      intro x hx
      subst hx
      split <;> exact ⟨rfl, rfl, rfl⟩
    obtain ⟨e1, e2, e3⟩ := e _ rfl
    simp only
    rw [e1, e2, e3, f1, f2]
    refine ⟨?_, Nat.min_le_left _ _⟩
    rcases f3 with g | ⟨g, g2⟩ <;> omega

/-- The further reductions of lines 180-235 leave the delay fields alone. -/
theorem decrease_window_delays (c c1 : siad) (w0 w : Nat)
    (h : decrease_window c w0 = Except.ok (w, c1)) :
    c1.min_delay = c.min_delay ∧ c1.prev_delay = c.prev_delay ∧
    c1.curr_delay = c.curr_delay := by
  unfold decrease_window at h
  simp only [bind, Except.bind, pure, Except.pure] at h
  repeat' (split at h)
  all_goals
    cases h <;> exact ⟨rfl, rfl, rfl⟩

/-- The additional decrease leaves the delay fields alone. -/
theorem additional_decrease_delays (tp : tcp_sock) (c : siad) (s1 : sock)
    (h : additional_decrease tp c = Except.ok s1) :
    s1.ca.min_delay = c.min_delay ∧ s1.ca.prev_delay = c.prev_delay ∧
    s1.ca.curr_delay = c.curr_delay := by
  unfold additional_decrease at h
  simp only [bind, Except.bind, pure, Except.pure] at h
  split at h
  · cases h
  · split at h
    · cases h
    · rename_i r hr
      obtain ⟨w, c1⟩ := r
      have hf := decrease_window_delays _ _ _ _ hr
      injection h with h
      subst h
      simp only
      split <;> exact hf

/-- The window growth of lines 267-306 leaves the delay fields alone. -/
theorem grow_window_delays (tp : tcp_sock) (c : siad) (a n : Nat) :
    (grow_window tp c a n).ca.min_delay = c.min_delay ∧
    (grow_window tp c a n).ca.prev_delay = c.prev_delay ∧
    (grow_window tp c a n).ca.curr_delay = c.curr_delay := by
  unfold grow_window
  split
  · simp only
    split <;> exact ⟨rfl, rfl, rfl⟩
  · exact ⟨rfl, rfl, rfl⟩

/-- The regular increase leaves the delay fields alone. -/
theorem regular_increase_delays (tp : tcp_sock) (c : siad) (b : Nat) (s1 : sock)
    (h : regular_increase tp c b = Except.ok s1) :
    s1.ca.min_delay = c.min_delay ∧ s1.ca.prev_delay = c.prev_delay ∧
    s1.ca.curr_delay = c.curr_delay := by
  have hac : (apply_config c).min_delay = c.min_delay ∧
      (apply_config c).prev_delay = c.prev_delay ∧
      (apply_config c).curr_delay = c.curr_delay := by
    unfold apply_config
    split <;> exact ⟨rfl, rfl, rfl⟩
  unfold regular_increase at h
  simp only [bind, Except.bind, pure, Except.pure] at h
  split at h
  · cases h
  · split at h
    · cases h
    · injection h with h
      subst h
      obtain ⟨f1, f2, f3⟩ := grow_window_delays
        { tp with snd_cwnd_cnt := (tp.snd_cwnd_cnt + (if b % tp.mss_cache ≠ 0 ∨ _ = 0
            then (_ + 1) % 4294967296 else _)) % 4294967296 } (apply_config c) _ _
      exact ⟨by rw [f1, hac.1], by rw [f2, hac.2.1], by rw [f3, hac.2.2]⟩

/-- After a returning `tcp_siad_cong_avoid`, `min_delay` and `curr_delay` are
both at most `prev_delay`, the sample of the call. -/
theorem cong_avoid_delays (s : sock) (inp : AckInput) (s1 : sock)
    (h : tcp_siad_cong_avoid s inp = Except.ok s1) :
    s1.ca.min_delay ≤ s1.ca.prev_delay ∧ s1.ca.curr_delay ≤ s1.ca.prev_delay := by
  unfold tcp_siad_cong_avoid at h
  simp only [bind, Except.bind, pure, Except.pure] at h
  split at h
  · cases h
  · rename_i r hr
    obtain ⟨c, b⟩ := r
    have hd := delay_update_delays s inp c b hr
    simp only at h
    split at h
    · injection h with h
      subst h
      exact hd
    · split at h
      · cases h
      · split at h
        · obtain ⟨f1, f2, f3⟩ := additional_decrease_delays _ _ _ h
          rw [f1, f2, f3]
          exact hd
        · obtain ⟨f1, f2, f3⟩ := regular_increase_delays _ _ _ _ h
          rw [f1, f2, f3]
          exact hd

/-- The trend detector of lines 350-373 never raises `min_delay` and leaves
`prev_delay` alone. -/
theorem trend_update_min_delay (c : siad) :
    (trend_update c).min_delay ≤ c.min_delay ∧ (trend_update c).prev_delay = c.prev_delay := by
  unfold trend_update
  split
  · exact ⟨le_refl _, rfl⟩
  · split
    · split
      · exact ⟨le_refl _, rfl⟩
      · split
        · exact ⟨le_refl _, rfl⟩
        · split
          · split
            · exact ⟨le_refl _, rfl⟩
            · split
              · rename_i h1 _ _ _ _ _
                exact ⟨by simp only; omega, rfl⟩
              · exact ⟨le_refl _, rfl⟩
          · exact ⟨le_refl _, rfl⟩
    · exact ⟨le_refl _, rfl⟩

/-- After a returning `tcp_siad_ssthresh`, `min_delay` is the one left by the
trend detector; `prev_delay` and `curr_delay` are unchanged. -/
theorem ssthresh_delays (s : sock) (r : Nat) (s1 : sock)
    (h : tcp_siad_ssthresh s = Except.ok (r, s1)) :
    s1.ca.min_delay = (trend_update s.ca).min_delay ∧ s1.ca.prev_delay = s.ca.prev_delay ∧
    s1.ca.curr_delay = s.ca.curr_delay := by
  obtain ⟨_, _, _, hf4, _⟩ := trend_update_frame s.ca
  obtain ⟨_, hf6⟩ := trend_update_min_delay s.ca
  unfold tcp_siad_ssthresh at h
  simp only [bind, Except.bind, pure, Except.pure] at h
  split at h
  · cases h
  · split at h
    · cases h
    · split at h
      · cases h
      · simp only [Except.ok.injEq, Prod.mk.injEq] at h
        obtain ⟨_, h2⟩ := h
        subst h2
        exact ⟨rfl, hf6, hf4⟩

/-- In every reachable state `min_delay` is at most `prev_delay`, the latest
delay sample (`INT_MAX` before the first). -/
theorem reachable_min_delay (p : Params) (s : sock) (h : Reachable p s) :
    s.ca.min_delay ≤ s.ca.prev_delay := by
  induction h with
  | init tp _ => exact le_refl _
  | transport s tp _ _ ih => exact ih
  | cong_avoid s s1 inp _ _ _ hstep _ => exact (cong_avoid_delays s inp s1 hstep).1
  | ssthresh s s1 r _ hstep ih =>
    obtain ⟨e1, e2, _⟩ := ssthresh_delays s r s1 hstep
    rw [e1, e2]
    exact le_trans (trend_update_min_delay s.ca).1 ih
  | undo_cwnd s _ ih => exact ih
  | cwnd_event s ev _ ih =>
    cases ev <;> exact ih

/-- The estimate of the pre-loss window is at most the window. -/
theorem est_cwnd_le (tp : tcp_sock) (c : siad) (w : Nat) (hw : tp.snd_cwnd ≤ UINT_MAX)
    (h : est_cwnd tp c = Except.ok w) : w ≤ tp.snd_cwnd := by
  simp only [UINT_MAX] at hw
  unfold est_cwnd at h
  by_cases hp : c.increase_performed = 1
  · simp only [if_pos hp] at h
    by_cases h1 : c.increase ≥ (tp.snd_cwnd * c.curr_num_rtt) % 4294967296 ∨
        tp.snd_cwnd ≤ tp.snd_ssthresh
    · rw [if_pos h1] at h
      injection h with h
      omega
    · rw [if_neg h1] at h
      have hn : c.curr_num_rtt ≠ 0 := by
        intro h0
        apply h1
        left
        rw [h0]
        simp
      have hlt : c.increase < tp.snd_cwnd * c.curr_num_rtt := by
        have := not_or.mp h1
        have h2 := Nat.mod_le (tp.snd_cwnd * c.curr_num_rtt) 4294967296
        omega
      have ha : c.increase / c.curr_num_rtt < tp.snd_cwnd :=
        (Nat.div_lt_iff_lt_mul (Nat.pos_of_ne_zero hn)).mpr hlt
      simp only [udiv, if_neg hn, bind, Except.bind, pure, Except.pure] at h
      generalize c.increase / c.curr_num_rtt = a at h ha
      split at h
      · injection h with h
        omega
      · split at h
        · rename_i h3
          injection h with h
          have hb := Nat.div_le_self (toU32 ((c.incthresh : Int) - tp.snd_ssthresh))
            c.curr_num_rtt
          have hc : toU32 ((c.incthresh : Int) - tp.snd_ssthresh) ≤ c.incthresh := by
            simp only [toU32]
            omega
          generalize toU32 ((c.incthresh : Int) - tp.snd_ssthresh) / c.curr_num_rtt = x at h hb
          generalize toU32 ((c.incthresh : Int) - tp.snd_ssthresh) = y at hb hc
          rw [← h]
          simp only [toU32]
          omega
        · split at h
          · injection h with h
            rw [← h]
            simp only [toU32, MIN_CWND]
            omega
          · injection h with h
            rw [← h]
            simp only [toU32, MIN_CWND]
            omega
  · simp only [if_neg hp] at h
    injection h with h
    omega

/-- With `min_delay` not above `curr_delay` the threshold of lines 375-390 is at
most `max(w, MIN_CWND)` for the estimated window `w`. -/
theorem new_ssthresh_le (c : siad) (w r : Nat)
    (hm : c.min_delay ≤ c.curr_delay ∨ c.curr_delay = 0)
    (h : new_ssthresh c w = Except.ok r) : r ≤ max w MIN_CWND := by
  obtain ⟨r1, hr1, _, h1, h2⟩ := new_ssthresh_value c w
  rw [hr1] at h
  injection h with h
  subst h
  by_cases hc : c.min_delay ≠ INT_MAX ∧ c.curr_delay ≠ 0
  · have e := h1 hc
    have hle : c.min_delay ≤ c.curr_delay := by
      rcases hm with g | g
      · exact g
      · exact absurd g hc.2
    have hq : (c.min_delay * w) % 4294967296 / c.curr_delay ≤ w := by
      apply Nat.div_le_of_le_mul
      calc (c.min_delay * w) % 4294967296 ≤ c.min_delay * w := Nat.mod_le _ _
        _ ≤ c.curr_delay * w := Nat.mul_le_mul_right _ hle
    generalize (c.min_delay * w) % 4294967296 / c.curr_delay = q at e hq
    simp only [OFFSET, MIN_CWND] at e ⊢
    omega
  · have e := h2 hc
    simp only [OFFSET, MIN_CWND] at e ⊢
    omega

/-- The value of `curr_num_rtt` for the next epoch is computed without a trap
when `min_delay ≤ curr_delay ≤ INT_MAX` or `curr_delay = 0`. -/
theorem next_num_rtt_ok (c : siad) (hm : c.min_delay ≤ c.curr_delay ∨ c.curr_delay = 0)
    (hd : c.curr_delay ≤ INT_MAX) : ∃ n, next_num_rtt c = Except.ok n := by
  simp only [INT_MAX] at hd
  unfold next_num_rtt
  split
  · exact ⟨_, rfl⟩
  · split
    · rename_i hg
      have hne : (c.curr_delay + c.min_delay) % 4294967296 ≠ 0 := by
        rcases hm with g | g
        · omega
        · exact absurd g hg.2.2
      simp only [udiv, if_neg hne, bind, Except.bind, pure, Except.pure]
      exact ⟨_, rfl⟩
    · exact ⟨_, rfl⟩

/-- C37 (counterexample). From `tcp_siad_init` a slow-start ACK with delay 10,
a loss, `CA_EVENT_COMPLETE_CWR` with the window still at 40 over
`snd_ssthresh = 19`, and an ACK with delay 30 lead to `resetMinState`: the
second branch of the minimum filter has reset `min_delay` to 30
(`30 <= curr_min_delay = INT_MAX`, `40 > 19 + 11/2 + 1`) while
`curr_delay = min(30, 10) = 10`. There `min_delay != INT_MAX` and
`min_delay > curr_delay`, and `tcp_siad_ssthresh` returns
`30 * 40 / 10 - 1 = 119 > max(40, MIN_CWND)`. Also, four `tcp_siad_ssthresh`
calls in a row right after `tcp_siad_init` make the trend detector set
`min_delay = 65535` while `curr_delay` is still 0. -/
theorem siad_min_delay_above_curr_delay :
    Reachable twoRttParams resetMinState ∧
    tcp_siad_cong_avoid undoneRecovery lateSample = Except.ok resetMinState ∧
    resetMinState.ca.min_delay ≠ INT_MAX ∧
    resetMinState.ca.curr_delay < resetMinState.ca.min_delay ∧
    (tcp_siad_ssthresh resetMinState).map Prod.fst = Except.ok 119 ∧
    max resetMinState.tp.snd_cwnd MIN_CWND < 119 ∧
    ((((tcp_siad_ssthresh (tcp_siad_init twoRttParams connStart)).bind
        (fun r => tcp_siad_ssthresh r.2)).bind
        (fun r => tcp_siad_ssthresh r.2)).bind
        (fun r => tcp_siad_ssthresh r.2)).map
      (fun r => (r.2.ca.min_delay, r.2.ca.curr_delay)) = Except.ok (65535, 0) := by
  have h0 : Reachable twoRttParams (tcp_siad_init twoRttParams connStart) :=
    Reachable.init connStart (by unfold tcp_sock.wf; decide)
  have h1 : Reachable twoRttParams traceAfterSlowStart :=
    Reachable.cong_avoid _ traceAfterSlowStart
      { ack := 43800, now := 1010, cwnd_limited := true } h0 (by decide) (by decide) rfl
  have h2 : Reachable twoRttParams traceAtLoss.2 :=
    Reachable.ssthresh traceAfterSlowStart traceAtLoss.2 19 h1 rfl
  have h3 : Reachable twoRttParams
      { traceAtLoss.2 with
        tp := { traceAtLoss.2.tp with snd_ssthresh := 19, snd_una := 43800 } } :=
    Reachable.transport traceAtLoss.2 _ h2 (by unfold tcp_sock.wf; decide)
  have h4 : Reachable twoRttParams undoneRecovery :=
    Reachable.cwnd_event _ tcp_ca_event.CA_EVENT_COMPLETE_CWR h3
  have h5 : tcp_siad_cong_avoid undoneRecovery lateSample = Except.ok resetMinState := rfl
  exact ⟨Reachable.cong_avoid undoneRecovery resetMinState lateSample h4 (by decide)
    (by decide) h5, h5, by decide, by decide, rfl, by decide, rfl⟩

/-- C37 (amended). In every state reachable from `tcp_siad_init` by
`tcp_siad_cong_avoid`, `tcp_siad_cwnd_event`, `tcp_siad_ssthresh` and
`tcp_siad_undo_cwnd` calls, `min_delay <= prev_delay`, the latest delay sample
(`INT_MAX` before the first); and when `min_delay <= curr_delay` or
`curr_delay = 0` in such a state (`curr_delay <= INT_MAX`, `snd_cwnd` a `u32`),
`tcp_siad_ssthresh` returns a value `<= max(snd_cwnd, MIN_CWND)`. -/
theorem siad_ssthresh_bound_amended (p : Params) (s : sock) (h : Reachable p s) :
    s.ca.min_delay ≤ s.ca.prev_delay ∧
    (s.tp.snd_cwnd ≤ UINT_MAX → s.ca.curr_delay ≤ INT_MAX →
      (s.ca.min_delay ≤ s.ca.curr_delay ∨ s.ca.curr_delay = 0) →
      ∃ r s1, tcp_siad_ssthresh s = Except.ok (r, s1) ∧ r ≤ max s.tp.snd_cwnd MIN_CWND) := by
  refine ⟨reachable_min_delay p s h, fun hw hd hm => ?_⟩
  obtain ⟨_, _, _, hf4, _⟩ := trend_update_frame s.ca
  have hm1 : (trend_update s.ca).min_delay ≤ (trend_update s.ca).curr_delay ∨
      (trend_update s.ca).curr_delay = 0 := by
    rw [hf4]
    rcases hm with g | g
    · exact Or.inl (le_trans (trend_update_min_delay s.ca).1 g)
    · exact Or.inr g
  obtain ⟨w, hw1⟩ := est_cwnd_ok { s.tp with snd_cwnd_cnt := 0 } s.ca
  have hwle : w ≤ s.tp.snd_cwnd := est_cwnd_le { s.tp with snd_cwnd_cnt := 0 } s.ca w hw hw1
  obtain ⟨r, hr, _⟩ := new_ssthresh_value (trend_update s.ca) w
  have hrle := new_ssthresh_le (trend_update s.ca) w r hm1 hr
  obtain ⟨n, hn⟩ := next_num_rtt_ok (trend_update s.ca) hm1 (by rw [hf4]; exact hd)
  have hret : ∃ s1, tcp_siad_ssthresh s = Except.ok (r, s1) := by
    unfold tcp_siad_ssthresh
    simp only [hw1, hr, hn, bind, Except.bind, pure, Except.pure]
    exact ⟨_, rfl⟩
  obtain ⟨s1, hs1⟩ := hret
  refine ⟨r, s1, hs1, ?_⟩
  simp only [MIN_CWND] at hrle ⊢
  omega

/-- C37 (amended) on `traceAfterSlowStart`, reached by one slow-start ACK with
delay 10: `min_delay = curr_delay = prev_delay = 10`, and the loss returns a
threshold of at most `max(40, MIN_CWND)`. -/
theorem siad_ssthresh_bound_amended_witness :
    traceAfterSlowStart.ca.min_delay ≤ traceAfterSlowStart.ca.prev_delay ∧
    ∃ r s1, tcp_siad_ssthresh traceAfterSlowStart = Except.ok (r, s1) ∧
      r ≤ max traceAfterSlowStart.tp.snd_cwnd MIN_CWND := by
  have h := siad_ssthresh_bound_amended twoRttParams traceAfterSlowStart
    (Reachable.cong_avoid _ traceAfterSlowStart
      { ack := 43800, now := 1010, cwnd_limited := true }
      (Reachable.init connStart (by unfold tcp_sock.wf; decide)) (by decide) (by decide) rfl)
  exact ⟨h.1, h.2 (by decide) (by decide) (Or.inl (by decide))⟩

end Siad

/-! ## Theorems: LoLa -/

namespace Lola

theorem clear_bits_cleared (f m : Nat) (h : (255 - m) &&& m = 0) :
    clear_bits f m &&& m = 0 := by
  unfold clear_bits
  rw [Nat.land_assoc, h, Nat.and_zero]

/-- The value of `bictcp_recalc_ssthresh` in terms of the unsigned value
`toU32 beta` that the C multiplication `tp->snd_cwnd * beta` uses: the result
is `≥ 2`, the transport block is left as it was, the result is
`max(floor(snd_cwnd * toU32 beta / BICTCP_BETA_SCALE), 2)` when that 32-bit
product does not overflow, and it does not exceed `snd_cwnd ≥ 2` when
`toU32 beta ≤ 1024`. -/
theorem recalc_ssthresh_unsigned (p : Params) (s : sock) :
    2 ≤ (bictcp_recalc_ssthresh p s).1 ∧
    (bictcp_recalc_ssthresh p s).2.tp = s.tp ∧
    (s.tp.snd_cwnd * toU32 p.beta < 4294967296 →
      (bictcp_recalc_ssthresh p s).1
        = max (s.tp.snd_cwnd * toU32 p.beta / BICTCP_BETA_SCALE) 2) ∧
    (2 ≤ s.tp.snd_cwnd → toU32 p.beta ≤ 1024 →
      (bictcp_recalc_ssthresh p s).1 ≤ s.tp.snd_cwnd) ∧
    (0 ≤ p.beta → p.beta < 4294967296 → (toU32 p.beta : Int) = p.beta) := by
  refine ⟨?_, rfl, ?_, ?_, ?_⟩
  · simp only [bictcp_recalc_ssthresh]
    omega
  · intro h
    simp only [bictcp_recalc_ssthresh, Nat.mod_eq_of_lt h]
  · intro h2 hb
    simp only [bictcp_recalc_ssthresh, BICTCP_BETA_SCALE]
    have h1 : s.tp.snd_cwnd * toU32 p.beta ≤ s.tp.snd_cwnd * 1024 :=
      Nat.mul_le_mul_left _ hb
    generalize s.tp.snd_cwnd * toU32 p.beta = x at h1
    omega
  · intro h0 h1
    simp only [toU32]
    omega

/-- C7. `bictcp_undo_cwnd` returns `max(snd_cwnd, loss_cwnd)` and clears
`LOLA_LOSS_SAMPLING_LOCKED`; hence after `bictcp_recalc_ssthresh` at window `W`,
whatever the transport then writes into its own block, `bictcp_undo_cwnd`
returns at least `W`. -/
theorem bictcp_undo_restores_loss_window (p : Params) (now : Nat) (s : sock) (tp1 : tcp_sock) :
    (bictcp_undo_cwnd now s).1 = max s.tp.snd_cwnd s.ca.loss_cwnd ∧
    (bictcp_undo_cwnd now s).2.ca.flags &&& LOLA_LOSS_SAMPLING_LOCKED = 0 ∧
    (bictcp_recalc_ssthresh p s).2.ca.loss_cwnd = s.tp.snd_cwnd ∧
    s.tp.snd_cwnd ≤
      (bictcp_undo_cwnd now { (bictcp_recalc_ssthresh p s).2 with tp := tp1 }).1 := by
  refine ⟨?_, ?_, ?_, ?_⟩
  · simp only [bictcp_undo_cwnd]
    split <;> rfl
  · simp only [bictcp_undo_cwnd]
    exact clear_bits_cleared _ _ (by decide)
  · simp only [bictcp_recalc_ssthresh]
    split <;> rfl
  · simp only [bictcp_undo_cwnd, bictcp_recalc_ssthresh]
    split <;> split <;> simp

theorem enter_balancing_frame (p : Params) (now : Nat) (ca : lolatcp) (qd : Nat) :
    (enter_balancing p now ca qd).delay_min = ca.delay_min ∧
    (enter_balancing p now ca qd).curr_rtt = ca.curr_rtt := by
  unfold enter_balancing
  simp only
  split <;> exact ⟨rfl, rfl⟩

theorem balancing_frame (p : Params) (now : Nat) (tp : tcp_sock) (ca ca1 : lolatcp) (qd : Nat)
    (h : balancing p now tp ca qd = Except.ok ca1) :
    ca1.delay_min = ca.delay_min ∧ ca1.curr_rtt = ca.curr_rtt := by
  unfold balancing at h
  split at h
  · simp only [bind, Except.bind, pure, Except.pure] at h
    split at h
    · exact absurd h (by simp)
    · injection h with h
      subst h
      exact ⟨rfl, rfl⟩
  · injection h with h
    subst h
    exact ⟨rfl, rfl⟩

/-- The window written by the precautionary reduction (lines 474-508) is the
`u64` value of `reduced_cwnd`, truncated to 32 bits. -/
theorem reduce_window_cwnd (p : Params) (tp : tcp_sock) (ca : lolatcp) (qd : Nat) (s1 : sock)
    (h : reduce_window p tp ca qd = Except.ok s1) :
    ∃ w, reduced_cwnd p tp.snd_cwnd ca.delay_min ca.curr_rtt = Except.ok w ∧
      s1.tp.snd_cwnd = w % 4294967296 := by
  unfold reduce_window at h
  simp only [bind, Except.bind, pure, Except.pure] at h
  split at h
  · exact absurd h (by simp)
  · rename_i w hw
    refine ⟨w, ?_, ?_⟩
    · rw [← hw]
      split <;> split <;> rfl
    · injection h with h
      subst h
      rfl

theorem decongest_reduced (p : Params) (k : Kernel) (now : Nat) (tp : tcp_sock) (ca : lolatcp)
    (qd : Nat) (s1 : sock) (h : decongest p k now tp ca qd = Except.ok (Outcome.reduced, s1)) :
    ∃ s2, reduce_window p tp
        { ca with flags := clear_bits ca.flags LOLA_IN_FAIR_FLOW_BALANCING } qd = Except.ok s2 ∧
      s1.tp.snd_cwnd = s2.tp.snd_cwnd := by
  unfold decongest at h
  split at h
  · simp only at h
    split at h
    · split at h
      · simp only [pure, Except.pure] at h
        injection h with h
        injection h with h1 h2
        exact absurd h1 (by decide)
      · simp only [bind, Except.bind, pure, Except.pure] at h
        split at h
        · exact absurd h (by simp)
        · rename_i s2 hs2
          injection h with h
          injection h with h1 h2
          subst h2
          exact ⟨s2, hs2, rfl⟩
    · simp only [pure, Except.pure] at h
      injection h with h
      injection h with h1 h2
      exact absurd h1 (by decide)
  · simp only [pure, Except.pure] at h
    injection h with h
    injection h with h1 h2
    exact absurd h1 (by decide)

/-- An evaluation that reduces the window writes the truncated value of
`reduced_cwnd` at the prior window, `delay_min` and `curr_rtt`. -/
theorem precautionary_step_reduced (p : Params) (k : Kernel) (now : Nat) (s s1 : sock)
    (h : precautionary_step p k now s = Except.ok (Outcome.reduced, s1)) :
    ∃ w, reduced_cwnd p s.tp.snd_cwnd s.ca.delay_min s.ca.curr_rtt = Except.ok w ∧
      s1.tp.snd_cwnd = w % 4294967296 := by
  unfold precautionary_step at h
  split at h
  · simp only [bind, Except.bind] at h
    split at h
    · exact absurd h (by simp)
    · rename_i ca1 hca1
      obtain ⟨s2, hs2, hcw⟩ := decongest_reduced p k now s.tp ca1 _ s1 h
      obtain ⟨w, hw, hw2⟩ := reduce_window_cwnd p s.tp _ _ s2 hs2
      obtain ⟨hb1, hb2⟩ := balancing_frame p now s.tp _ ca1 _ hca1
      obtain ⟨he1, he2⟩ := enter_balancing_frame p now s.ca
        (toU32 ((s.ca.curr_rtt : Int) - s.ca.delay_min))
      refine ⟨w, ?_, by rw [hcw, hw2]⟩
      rw [← hw]
      simp only [hb1, hb2, he1, he2]
  · simp only [pure, Except.pure] at h
    injection h with h
    injection h with h1 h2
    exact absurd h1 (by decide)

theorem reduced_cwnd_value (p : Params) (W dmin rtt w : Nat)
    (h : reduced_cwnd p W dmin rtt = Except.ok w) :
    rtt ≠ 0 ∧
    w = max (toU64 p.lola_cwnd_min)
      ((((W * dmin) % 18446744073709551616) * toU64 p.lola_gamma) % 18446744073709551616
        / rtt / LOLA_TCP_PARAMETER_SCALE) := by
  unfold reduced_cwnd udiv at h
  by_cases hr : rtt = 0
  · simp only [if_pos hr, bind, Except.bind] at h
    exact absurd h (by simp)
  · simp only [if_neg hr, bind, Except.bind, pure, Except.pure] at h
    injection h with h
    exact ⟨hr, h.symm⟩

/-- Truncating twice, by `rtt` and by 1024, and multiplying back by `rtt`
never exceeds the single quotient by 1024. -/
theorem div_div_mul_le (x rtt : Nat) : x / rtt / 1024 * rtt ≤ x / 1024 := by
  rw [Nat.div_div_eq_div_mul, Nat.mul_comm rtt 1024, ← Nat.div_div_eq_div_mul]
  exact Nat.div_mul_le_self _ _

/-- In the default scenario the entry condition of lines 336-354 holds. -/
theorem gate_open_default_first (k : Kernel) (now : Nat) (s : sock)
    (hcwnd : s.tp.snd_cwnd = 100) (hmin : s.ca.delay_min = 10000) (hrtt : s.ca.curr_rtt = 20000)
    (hsamp : 20 ≤ s.ca.sample_cnt) (hend : s.ca.end_measurement ≤ now)
    (hep : s.ca.epoch_start ≠ 0)
    (hold : toU32 ((now : Int) - s.ca.epoch_start) > 40) (hflags : s.ca.flags = 0) :
    gate_open defaultParams k now s = true := by
  have m1 : mode_has defaultParams LOLA_DO_PRECAUTIONARY_DECONGESTION = true := rfl
  have f1 : has_bit 0 LOLA_IN_CWND_HOLD = false := rfl
  have f2 : has_bit 0 (LOLA_IN_FAIR_FLOW_BALANCING ||| HYSTART_DELAY ||| LOLA_BASE_REDUCED) = false := rfl
  have f3 : has_bit 0 HYSTART_DELAY = false := rfl
  have e1 : ((2 * 20000) % 4294967296) / USEC_PER_MSEC = 40 := rfl
  have e2 : toU32 defaultParams.lola_min_samples = 20 := rfl
  have e3 : toU32 defaultParams.lola_cwnd_min = 5 := rfl
  simp only [gate_open, m1, hmin, hrtt, hflags, hcwnd, f1, f2, f3, e1, e2, e3]
  simp [hep, hold, hend, hsamp]

/-- In the default scenario the first evaluation starts the hold interval. -/
theorem step_default_first (k : Kernel) (now : Nat) (s : sock)
    (hcwnd : s.tp.snd_cwnd = 100) (hmin : s.ca.delay_min = 10000) (hrtt : s.ca.curr_rtt = 20000)
    (hsamp : 20 ≤ s.ca.sample_cnt) (hend : s.ca.end_measurement ≤ now)
    (hep : s.ca.epoch_start ≠ 0)
    (hold : toU32 ((now : Int) - s.ca.epoch_start) > 40) (hflags : s.ca.flags = 0) :
    precautionary_step defaultParams k now s = Except.ok (Outcome.held,
      { tp := s.tp
        ca := { s.ca with flags := LOLA_IN_CWND_HOLD, cnt := 10000, epoch_start := now } }) := by
  have hg := gate_open_default_first k now s hcwnd hmin hrtt hsamp hend hep hold hflags
  have q1 : toU32 ((s.ca.curr_rtt : Int) - s.ca.delay_min) = 10000 := by
    rw [hrtt, hmin]
    rfl
  have b1 : enter_balancing defaultParams now s.ca 10000
      = { s.ca with flags := LOLA_IN_FAIR_FLOW_BALANCING, epoch_start := now } := by
    simp only [enter_balancing, hflags]
    rfl
  have t0 : lola_get_target defaultParams now now = Except.ok 0 := by
    simp only [lola_get_target, sub_self]
    rfl
  have b2 : balancing defaultParams now s.tp
      { s.ca with flags := LOLA_IN_FAIR_FLOW_BALANCING, epoch_start := now } 10000
      = Except.ok { s.ca with flags := LOLA_IN_FAIR_FLOW_BALANCING, epoch_start := now,
                              cnt := 10000 } := by
    simp only [balancing, balancing_cnt, t0, hcwnd, hrtt, bind, Except.bind]
    rfl
  simp only [precautionary_step, hg, if_true, q1, b1, b2, bind, Except.bind]
  simp only [decongest, hcwnd]
  rfl

theorem clear_bits_hold (f : Nat) :
    clear_bits (clear_bits f (LOLA_IN_CWND_HOLD ||| LOLA_IN_FAIR_FLOW_BALANCING ||| HYSTART_DELAY))
      LOLA_BASE_REDUCED &&& LOLA_IN_CWND_HOLD = 0 := by
  unfold clear_bits
  rw [Nat.land_assoc, Nat.land_assoc]
  have e : (255 - (LOLA_IN_CWND_HOLD ||| LOLA_IN_FAIR_FLOW_BALANCING ||| HYSTART_DELAY)) &&&
      ((255 - LOLA_BASE_REDUCED) &&& LOLA_IN_CWND_HOLD) = 0 := by decide
  rw [e]
  exact Nat.and_zero f

theorem reduce_window_hold_clear (p : Params) (tp : tcp_sock) (ca : lolatcp) (qd : Nat)
    (s1 : sock) (h : reduce_window p tp ca qd = Except.ok s1) :
    s1.ca.flags &&& LOLA_IN_CWND_HOLD = 0 := by
  unfold reduce_window at h
  simp only [bind, Except.bind, pure, Except.pure] at h
  split at h
  · exact absurd h (by simp)
  · injection h with h
    subst h
    simp only
    repeat' split
    all_goals exact clear_bits_hold _

theorem decongest_reduced_flags (p : Params) (k : Kernel) (now : Nat) (tp : tcp_sock)
    (ca : lolatcp) (qd : Nat) (s1 : sock)
    (h : decongest p k now tp ca qd = Except.ok (Outcome.reduced, s1)) :
    ∃ s2, reduce_window p tp
        { ca with flags := clear_bits ca.flags LOLA_IN_FAIR_FLOW_BALANCING } qd = Except.ok s2 ∧
      s1.ca.flags = s2.ca.flags := by
  unfold decongest at h
  split at h
  · simp only at h
    split at h
    · split at h
      · simp only [pure, Except.pure] at h
        injection h with h
        injection h with h1 h2
        exact absurd h1 (by decide)
      · simp only [bind, Except.bind, pure, Except.pure] at h
        split at h
        · exact absurd h (by simp)
        · rename_i s2 hs2
          injection h with h
          injection h with h1 h2
          subst h2
          exact ⟨s2, hs2, rfl⟩
    · simp only [pure, Except.pure] at h
      injection h with h
      injection h with h1 h2
      exact absurd h1 (by decide)
  · simp only [pure, Except.pure] at h
    injection h with h
    injection h with h1 h2
    exact absurd h1 (by decide)

/-- An evaluation that reduces the window leaves `LOLA_IN_CWND_HOLD` clear. -/
theorem precautionary_step_reduced_hold_clear (p : Params) (k : Kernel) (now : Nat)
    (s s1 : sock) (h : precautionary_step p k now s = Except.ok (Outcome.reduced, s1)) :
    s1.ca.flags &&& LOLA_IN_CWND_HOLD = 0 := by
  unfold precautionary_step at h
  split at h
  · simp only [bind, Except.bind] at h
    split at h
    · exact absurd h (by simp)
    · obtain ⟨s2, hs2, hf⟩ := decongest_reduced_flags p k now s.tp _ _ s1 h
      rw [hf]
      exact reduce_window_hold_clear p s.tp _ _ s2 hs2
  · simp only [pure, Except.pure] at h
    injection h with h
    injection h with h1 h2
    exact absurd h1 (by decide)

/-- After the hold interval the evaluation reduces the window to 45. -/
theorem step_default_after_hold (k : Kernel) (now now2 : Nat) (s : sock)
    (hcwnd : s.tp.snd_cwnd = 100) (hmin : s.ca.delay_min = 10000) (hrtt : s.ca.curr_rtt = 20000)
    (hlater : toU32 ((now2 : Int) - now) > k.msecs_to_jiffies 250) :
    ∃ s2, precautionary_step defaultParams k now2
        { tp := s.tp
          ca := { s.ca with flags := LOLA_IN_CWND_HOLD, cnt := 10000, epoch_start := now } }
        = Except.ok (Outcome.reduced, s2) ∧
      s2.tp.snd_cwnd = 45 ∧ s2.ca.flags &&& LOLA_IN_CWND_HOLD = 0 := by
  have hg : gate_open defaultParams k now2
      { tp := s.tp
        ca := { s.ca with flags := LOLA_IN_CWND_HOLD, cnt := 10000, epoch_start := now } }
      = true := by
    have m1 : mode_has defaultParams LOLA_DO_PRECAUTIONARY_DECONGESTION = true := rfl
    have f1 : has_bit LOLA_IN_CWND_HOLD LOLA_IN_CWND_HOLD = true := rfl
    have e1 : toU32 defaultParams.lola_hold_time = 250 := rfl
    simp only [gate_open, m1, hmin, hrtt, f1, e1]
    simp [hlater]
  have q1 : toU32 ((s.ca.curr_rtt : Int) - s.ca.delay_min) = 10000 := by
    rw [hrtt, hmin]
    rfl
  have b1 : enter_balancing defaultParams now2
      { s.ca with flags := LOLA_IN_CWND_HOLD, cnt := 10000, epoch_start := now } 10000
      = { s.ca with flags := LOLA_IN_CWND_HOLD, cnt := 10000, epoch_start := now } := by
    simp only [enter_balancing]
    rfl
  have b2 : balancing defaultParams now2 s.tp
      { s.ca with flags := LOLA_IN_CWND_HOLD, cnt := 10000, epoch_start := now } 10000
      = Except.ok { s.ca with flags := LOLA_IN_CWND_HOLD, cnt := 10000, epoch_start := now } := by
    simp only [balancing]
    rfl
  have r1 : reduced_cwnd defaultParams 100 10000 20000 = Except.ok 45 := rfl
  have hex : ∃ s2, precautionary_step defaultParams k now2
      { tp := s.tp
        ca := { s.ca with flags := LOLA_IN_CWND_HOLD, cnt := 10000, epoch_start := now } }
      = Except.ok (Outcome.reduced, s2) := by
    simp only [precautionary_step, hg, if_true, q1, b1, b2, bind, Except.bind]
    simp only [decongest, reduce_window, hcwnd, hmin, hrtt, r1, bind, Except.bind, pure,
      Except.pure]
    exact ⟨_, rfl⟩
  obtain ⟨s2, h2⟩ := hex
  obtain ⟨w, hw, hcw⟩ := precautionary_step_reduced _ _ _ _ _ h2
  simp only [hcwnd, hmin, hrtt, r1, Except.ok.injEq] at hw
  refine ⟨s2, h2, ?_, precautionary_step_reduced_hold_clear _ _ _ _ _ h2⟩
  rw [hcw, ← hw]

/-- During the hold interval an evaluation is skipped. -/
theorem step_default_in_hold (k : Kernel) (now now1 : Nat) (s : sock)
    (hearly : toU32 ((now1 : Int) - now) ≤ k.msecs_to_jiffies 250) :
    precautionary_step defaultParams k now1
        { tp := s.tp
          ca := { s.ca with flags := LOLA_IN_CWND_HOLD, cnt := 10000, epoch_start := now } }
      = Except.ok (Outcome.skipped,
        { tp := s.tp
          ca := { s.ca with flags := LOLA_IN_CWND_HOLD, cnt := 10000, epoch_start := now } }) := by
  have hg : gate_open defaultParams k now1
      { tp := s.tp
        ca := { s.ca with flags := LOLA_IN_CWND_HOLD, cnt := 10000, epoch_start := now } }
      = false := by
    have f1 : has_bit LOLA_IN_CWND_HOLD LOLA_IN_CWND_HOLD = true := rfl
    have e1 : toU32 defaultParams.lola_hold_time = 250 := rfl
    simp only [gate_open, f1, e1]
    simp [not_lt.mpr hearly]
  simp only [precautionary_step, hg]
  rfl

/-- C18 (as stated, refuted): in the scenario of the claim, one evaluation by
`lolatcp_precautionary_decongestion` sets `LOLA_IN_CWND_HOLD` and returns with
`snd_cwnd` still 100, not 45. -/
theorem lola_default_first_evaluation_holds :
    defaultScenario.tp.snd_ssthresh < defaultScenario.tp.snd_cwnd ∧
    defaultScenario.tp.snd_cwnd = 100 ∧ defaultScenario.ca.delay_min = 10000 ∧
    defaultScenario.ca.curr_rtt = 20000 ∧ 20 ≤ defaultScenario.ca.sample_cnt ∧
    defaultScenario.ca.end_measurement ≤ 1100 ∧
    1100 - defaultScenario.ca.epoch_start > 2 * 20000 / USEC_PER_MSEC ∧
    defaultScenario.ca.flags = 0 ∧
    (lolatcp_precautionary_decongestion defaultParams kernelHz1000 1100 defaultScenario).map
      (fun s1 => (s1.tp.snd_cwnd, s1.ca.flags)) = Except.ok (100, LOLA_IN_CWND_HOLD) ∧
    ¬ ((100 : Nat) = 45) :=
  ⟨by decide, rfl, rfl, rfl, by decide, by decide, by decide, rfl, rfl, by decide⟩

/-- C18 (amended): with the default parameters, from a state with
`snd_cwnd = 100`, `delay_min = 10000` us, `curr_rtt = 20000` us,
`sample_cnt ≥ 20`, the measurement interval ended, the epoch older than two
RTTs and no flag set, one evaluation at tick `now` sets `LOLA_IN_CWND_HOLD`
(with `cnt = 100 * snd_cwnd` and `epoch_start = now`) and leaves `snd_cwnd` at
100; evaluations up to `lola_hold_time` (250 ms) later change nothing; the
first evaluation after that, on the same measurements, reduces `snd_cwnd` to 45
and clears `LOLA_IN_CWND_HOLD`. -/
theorem lola_default_hold_then_reduce (k : Kernel) (now now2 : Nat) (s : sock)
    (hcwnd : s.tp.snd_cwnd = 100) (hmin : s.ca.delay_min = 10000) (hrtt : s.ca.curr_rtt = 20000)
    (hsamp : 20 ≤ s.ca.sample_cnt) (hend : s.ca.end_measurement ≤ now)
    (hep : s.ca.epoch_start ≠ 0)
    (hold : toU32 ((now : Int) - s.ca.epoch_start) > 2 * 20000 / USEC_PER_MSEC)
    (hflags : s.ca.flags = 0)
    (hlater : toU32 ((now2 : Int) - now) > k.msecs_to_jiffies 250) :
    ∃ s1 s2, lolatcp_precautionary_decongestion defaultParams k now s = Except.ok s1 ∧
      s1.tp.snd_cwnd = 100 ∧ s1.ca.flags = LOLA_IN_CWND_HOLD ∧ s1.ca.cnt = 10000 ∧
      s1.ca.epoch_start = now ∧
      (∀ now1 : Nat, toU32 ((now1 : Int) - now) ≤ k.msecs_to_jiffies 250 →
        lolatcp_precautionary_decongestion defaultParams k now1 s1 = Except.ok s1) ∧
      lolatcp_precautionary_decongestion defaultParams k now2 s1 = Except.ok s2 ∧
      s2.tp.snd_cwnd = 45 ∧ s2.ca.flags &&& LOLA_IN_CWND_HOLD = 0 := by
  have h1 := step_default_first k now s hcwnd hmin hrtt hsamp hend hep hold hflags
  obtain ⟨s2, h2, h3, h4⟩ := step_default_after_hold k now now2 s hcwnd hmin hrtt hlater
  refine ⟨{ tp := s.tp
            ca := { s.ca with flags := LOLA_IN_CWND_HOLD, cnt := 10000, epoch_start := now } },
    s2, ?_, hcwnd, rfl, rfl, rfl, ?_, ?_, h3, h4⟩
  · simp only [lolatcp_precautionary_decongestion, h1, bind, Except.bind, pure, Except.pure]
  · intro now1 hearly
    simp only [lolatcp_precautionary_decongestion, step_default_in_hold k now now1 s hearly,
      bind, Except.bind, pure, Except.pure]
  · simp only [lolatcp_precautionary_decongestion, h2, bind, Except.bind, pure, Except.pure]

/-- The amended C18 at `defaultScenario` on a kernel with `HZ = 1000`: first
evaluation at tick 1100, the next one after the hold at tick 1351. -/
theorem lola_default_hold_then_reduce_witness :
    ∃ s1 s2, lolatcp_precautionary_decongestion defaultParams kernelHz1000 1100 defaultScenario
        = Except.ok s1 ∧
      s1.tp.snd_cwnd = 100 ∧ s1.ca.flags = LOLA_IN_CWND_HOLD ∧
      lolatcp_precautionary_decongestion defaultParams kernelHz1000 1351 s1 = Except.ok s2 ∧
      s2.tp.snd_cwnd = 45 ∧ s2.ca.flags &&& LOLA_IN_CWND_HOLD = 0 := by
  obtain ⟨s1, s2, h1, h2, h3, _, _, _, h7, h8, h9⟩ := lola_default_hold_then_reduce
    kernelHz1000 1100 1351 defaultScenario rfl rfl rfl (by decide) (by decide) (by decide)
    (by decide) rfl (by decide)
  exact ⟨s1, s2, h1, h2, h3, h7, h8, h9⟩

set_option maxRecDepth 100000 in
/-- The flag byte written on hold entry has `LOLA_IN_CWND_HOLD` set and
`LOLA_IN_FAIR_FLOW_BALANCING` clear. -/
theorem hold_bits : ∀ x : Nat, x < 256 →
    has_bit ((set_bits x LOLA_IN_CWND_HOLD ^^^
      (set_bits x LOLA_IN_CWND_HOLD &&& LOLA_IN_FAIR_FLOW_BALANCING)) % 256)
        LOLA_IN_CWND_HOLD = true ∧
    has_bit ((set_bits x LOLA_IN_CWND_HOLD ^^^
      (set_bits x LOLA_IN_CWND_HOLD &&& LOLA_IN_FAIR_FLOW_BALANCING)) % 256)
        LOLA_IN_FAIR_FLOW_BALANCING = false := by
  decide

set_option maxRecDepth 100000 in
/-- Clearing bit 64 and setting or clearing `LOLA_IN_FAIR_FLOW_BALANCING`
does not touch the three bits tested before a hold is started. -/
theorem hold_test_bits : ∀ f : Nat, f < 256 →
    has_bit f (LOLA_IN_CWND_HOLD ||| LOLA_BASE_REDUCED ||| HYSTART_DELAY) = false →
    has_bit (clear_bits (clear_bits f 64) LOLA_IN_FAIR_FLOW_BALANCING)
      (LOLA_IN_CWND_HOLD ||| LOLA_BASE_REDUCED ||| HYSTART_DELAY) = false ∧
    has_bit (clear_bits (set_bits (clear_bits f 64) LOLA_IN_FAIR_FLOW_BALANCING)
      LOLA_IN_FAIR_FLOW_BALANCING)
      (LOLA_IN_CWND_HOLD ||| LOLA_BASE_REDUCED ||| HYSTART_DELAY) = false ∧
    (has_bit f LOLA_IN_FAIR_FLOW_BALANCING = false →
      has_bit (clear_bits f 64) LOLA_IN_FAIR_FLOW_BALANCING = false) := by
  decide

/-- What lines 357-372 leave alone, and the two values `flags` can take. -/
theorem enter_balancing_fields (p : Params) (now : Nat) (ca : lolatcp) (qd : Nat) :
    (enter_balancing p now ca qd).last_max_cwnd = ca.last_max_cwnd ∧
    (enter_balancing p now ca qd).sample_cnt = ca.sample_cnt ∧
    (enter_balancing p now ca qd).delay_min = ca.delay_min ∧
    (enter_balancing p now ca qd).curr_rtt = ca.curr_rtt ∧
    (((enter_balancing p now ca qd).flags = clear_bits ca.flags 64 ∧
      (enter_balancing p now ca qd).epoch_start = ca.epoch_start) ∨
     ((enter_balancing p now ca qd).flags
        = set_bits (clear_bits ca.flags 64) LOLA_IN_FAIR_FLOW_BALANCING ∧
      (enter_balancing p now ca qd).epoch_start = now)) := by
  unfold enter_balancing
  simp only
  split
  · exact ⟨rfl, rfl, rfl, rfl, Or.inr ⟨rfl, rfl⟩⟩
  · exact ⟨rfl, rfl, rfl, rfl, Or.inl ⟨rfl, rfl⟩⟩

/-- Lines 382-418 write `cnt` only. -/
theorem balancing_fields (p : Params) (now : Nat) (tp : tcp_sock) (ca ca1 : lolatcp) (qd : Nat)
    (h : balancing p now tp ca qd = Except.ok ca1) :
    ∃ c, ca1 = { ca with cnt := c } := by
  unfold balancing at h
  split at h
  · simp only [bind, Except.bind, pure, Except.pure] at h
    split at h
    · exact absurd h (by simp)
    · injection h with h
      exact ⟨_, h.symm⟩
  · injection h with h
    exact ⟨ca.cnt, h.symm⟩

/-- Lines 426-443: the hold entry. -/
theorem decongest_held (p : Params) (k : Kernel) (now : Nat) (tp : tcp_sock) (ca : lolatcp)
    (qd : Nat) (hq : qd > toU32 p.lola_queue_max)
    (hprec : mode_has p LOLA_DO_PRECAUTIONARY_DECONGESTION = true)
    (hmode : mode_has p LOLA_DO_CWND_HOLD = true)
    (hclear : has_bit (clear_bits ca.flags LOLA_IN_FAIR_FLOW_BALANCING)
      (LOLA_IN_CWND_HOLD ||| LOLA_BASE_REDUCED ||| HYSTART_DELAY) = false) :
    decongest p k now tp ca qd = Except.ok (Outcome.held,
      { tp := tp
        ca := { ca with
          flags := (set_bits (clear_bits ca.flags LOLA_IN_FAIR_FLOW_BALANCING) LOLA_IN_CWND_HOLD
            ^^^ (set_bits (clear_bits ca.flags LOLA_IN_FAIR_FLOW_BALANCING) LOLA_IN_CWND_HOLD
              &&& LOLA_IN_FAIR_FLOW_BALANCING)) % 256
          cnt := toS32 (100 * tp.snd_cwnd)
          epoch_start := now } }) := by
  unfold decongest
  rw [if_pos (Or.inl hq)]
  simp only [hprec, hmode, hclear, if_true, true_and, Bool.false_eq_true, not_false_eq_true]
  rfl

/-- An open gate means precautionary decongestion is enabled and both delay
measurements are there. -/
theorem gate_open_measured (p : Params) (k : Kernel) (now : Nat) (s : sock)
    (h : gate_open p k now s = true) :
    mode_has p LOLA_DO_PRECAUTIONARY_DECONGESTION = true ∧ s.ca.delay_min ≠ 0 ∧
    s.ca.curr_rtt ≠ 0 := by
  unfold gate_open at h
  simp only [Bool.and_eq_true, decide_eq_true_eq] at h
  exact ⟨h.1.1.1, h.1.1.2, h.1.2⟩

/-- The evaluation of `lolatcp_precautionary_decongestion` is that of
`precautionary_step` without the outcome tag. -/
theorem decongestion_of_step (p : Params) (k : Kernel) (now : Nat) (s : sock) :
    lolatcp_precautionary_decongestion p k now s
      = (precautionary_step p k now s).map Prod.snd := by
  unfold lolatcp_precautionary_decongestion
  cases precautionary_step p k now s <;> rfl

/-- A fresh fair-flow-balancing epoch (`epoch_start = now`) has target 0, so
the update of `cnt` returns when `curve_factor^3` and `curr_rtt` are
non-zero. -/
theorem balancing_fresh_ok (p : Params) (now : Nat) (tp : tcp_sock) (ca : lolatcp) (qd : Nat)
    (hep : ca.epoch_start = now) (hrtt : ca.curr_rtt ≠ 0)
    (hcf : toU32 (toS32 (toS32 (p.lola_fair_flow_balancing_curve_factor
      * p.lola_fair_flow_balancing_curve_factor) * p.lola_fair_flow_balancing_curve_factor)) ≠ 0) :
    ∃ ca1, balancing p now tp ca qd = Except.ok ca1 := by
  have z : toU32 0 = 0 := rfl
  have t0 : lola_get_target p now ca.epoch_start = Except.ok 0 := by
    simp only [lola_get_target, hep, sub_self, udiv, if_neg hcf, bind, Except.bind, pure,
      Except.pure, z, Nat.zero_mul, Nat.zero_mod, Nat.zero_div]
  unfold balancing
  split
  · simp only [balancing_cnt, t0, udiv, if_neg hrtt, bind, Except.bind, pure, Except.pure,
      Nat.not_lt_zero, if_false]
    exact ⟨_, rfl⟩
  · exact ⟨_, rfl⟩

/-- After lines 447-452 and 511 the bit `LOLA_IN_FAIR_FLOW_BALANCING` is
clear. -/
theorem clear_bits_balancing (f : Nat) :
    clear_bits (clear_bits f (LOLA_IN_CWND_HOLD ||| LOLA_IN_FAIR_FLOW_BALANCING ||| HYSTART_DELAY))
      LOLA_BASE_REDUCED &&& LOLA_IN_FAIR_FLOW_BALANCING = 0 := by
  unfold clear_bits
  rw [Nat.land_assoc, Nat.land_assoc]
  have e : (255 - (LOLA_IN_CWND_HOLD ||| LOLA_IN_FAIR_FLOW_BALANCING ||| HYSTART_DELAY)) &&&
      ((255 - LOLA_BASE_REDUCED) &&& LOLA_IN_FAIR_FLOW_BALANCING) = 0 := by decide
  rw [e]
  exact Nat.and_zero f

/-- What the precautionary reduction of lines 447-527 writes: the truncated
`u64` window, `last_max_cwnd` from the window it found, and a flag byte
without the hold and balancing bits; `snd_ssthresh` is not touched. -/
theorem reduce_window_state (p : Params) (tp : tcp_sock) (ca : lolatcp) (qd : Nat) (s2 : sock)
    (h : reduce_window p tp ca qd = Except.ok s2) :
    ∃ w, reduced_cwnd p tp.snd_cwnd ca.delay_min ca.curr_rtt = Except.ok w ∧
      s2.tp.snd_cwnd = w % 4294967296 ∧ s2.tp.snd_ssthresh = tp.snd_ssthresh ∧
      s2.ca.last_max_cwnd
        = (if mode_has p LOLA_DO_FAST_CONVERGENCE ∧ tp.snd_cwnd < ca.last_max_cwnd then
            ((tp.snd_cwnd * toU32 p.lola_delta) % 4294967296) / LOLA_TCP_PARAMETER_SCALE
          else tp.snd_cwnd) ∧
      s2.ca.flags &&& LOLA_IN_CWND_HOLD = 0 ∧
      s2.ca.flags &&& LOLA_IN_FAIR_FLOW_BALANCING = 0 := by
  obtain ⟨w, hw, hcw⟩ := reduce_window_cwnd p tp ca qd s2 h
  have hh := reduce_window_hold_clear p tp ca qd s2 h
  refine ⟨w, hw, hcw, ?_, ?_, hh, ?_⟩
  all_goals
    unfold reduce_window at h
    simp only [bind, Except.bind, pure, Except.pure] at h
    split at h
    · exact absurd h (by simp)
    · injection h with h
      subst h
      simp only
      repeat' split
      all_goals first | rfl | exact clear_bits_balancing _

/-- The `u64` computation of lines 474-483 returns for a non-zero divisor. -/
theorem reduced_cwnd_ok (p : Params) (W dmin rtt : Nat) (h : rtt ≠ 0) :
    ∃ w, reduced_cwnd p W dmin rtt = Except.ok w := by
  unfold reduced_cwnd udiv
  simp only [if_neg h, bind, Except.bind, pure, Except.pure]
  exact ⟨_, rfl⟩

/-- The reduction of lines 447-527 returns whenever `curr_rtt` is non-zero. -/
theorem reduce_window_ok (p : Params) (tp : tcp_sock) (ca : lolatcp) (qd : Nat)
    (hrtt : ca.curr_rtt ≠ 0) : ∃ s2, reduce_window p tp ca qd = Except.ok s2 := by
  obtain ⟨w, hw⟩ := reduced_cwnd_ok p tp.snd_cwnd ca.delay_min ca.curr_rtt hrtt
  unfold reduce_window
  by_cases h1 : has_bit ca.flags LOLA_IN_CWND_HOLD = true
  · by_cases h2 : qd > toU32 p.lola_queue_max
    · simp only [if_pos h1, if_pos h2, hw, bind, Except.bind, pure, Except.pure]
      exact ⟨_, rfl⟩
    · simp only [if_pos h1, if_neg h2, hw, bind, Except.bind, pure, Except.pure]
      exact ⟨_, rfl⟩
  · by_cases h2 : qd > toU32 p.lola_queue_max
    · simp only [if_neg h1, if_pos h2, hw, bind, Except.bind, pure, Except.pure]
      exact ⟨_, rfl⟩
    · simp only [if_neg h1, if_neg h2, hw, bind, Except.bind, pure, Except.pure]
      exact ⟨_, rfl⟩

/-- An evaluation of lines 426-545 that reduced the window: the reduction of
lines 447-527 ran on the flags without `LOLA_IN_FAIR_FLOW_BALANCING`, then
`epoch_start`, `sample_cnt` and `curr_rtt` were cleared and `snd_ssthresh`
was set to `min(snd_cwnd, snd_ssthresh)`. -/
theorem decongest_reduced_state (p : Params) (k : Kernel) (now : Nat) (tp : tcp_sock)
    (ca : lolatcp) (qd : Nat) (s1 : sock)
    (h : decongest p k now tp ca qd = Except.ok (Outcome.reduced, s1)) :
    ∃ s2, reduce_window p tp
        { ca with flags := clear_bits ca.flags LOLA_IN_FAIR_FLOW_BALANCING } qd = Except.ok s2 ∧
      s1.tp.snd_cwnd = s2.tp.snd_cwnd ∧
      s1.tp.snd_ssthresh = min s2.tp.snd_cwnd s2.tp.snd_ssthresh ∧
      s1.ca.flags = s2.ca.flags ∧ s1.ca.last_max_cwnd = s2.ca.last_max_cwnd ∧
      s1.ca.epoch_start = 0 ∧ s1.ca.sample_cnt = 0 ∧ s1.ca.curr_rtt = 0 := by
  unfold decongest at h
  split at h
  · simp only at h
    split at h
    · split at h
      · simp only [pure, Except.pure] at h
        injection h with h
        injection h with h1 h2
        exact absurd h1 (by decide)
      · simp only [bind, Except.bind, pure, Except.pure] at h
        split at h
        · exact absurd h (by simp)
        · rename_i s2 hs2
          injection h with h
          injection h with h1 h2
          subst h2
          exact ⟨s2, hs2, rfl, rfl, rfl, rfl, rfl, rfl, rfl⟩
    · simp only [pure, Except.pure] at h
      injection h with h
      injection h with h1 h2
      exact absurd h1 (by decide)
  · simp only [pure, Except.pure] at h
    injection h with h
    injection h with h1 h2
    exact absurd h1 (by decide)

/-- The state after an evaluation of `lolatcp_precautionary_decongestion`
that reduced the window, in terms of the state before it. -/
theorem precautionary_step_reduced_state (p : Params) (k : Kernel) (now : Nat) (s s1 : sock)
    (h : precautionary_step p k now s = Except.ok (Outcome.reduced, s1)) :
    ∃ w, reduced_cwnd p s.tp.snd_cwnd s.ca.delay_min s.ca.curr_rtt = Except.ok w ∧
      s1.tp.snd_cwnd = w % 4294967296 ∧
      s1.tp.snd_ssthresh = min (w % 4294967296) s.tp.snd_ssthresh ∧
      s1.ca.last_max_cwnd
        = (if mode_has p LOLA_DO_FAST_CONVERGENCE ∧ s.tp.snd_cwnd < s.ca.last_max_cwnd then
            ((s.tp.snd_cwnd * toU32 p.lola_delta) % 4294967296) / LOLA_TCP_PARAMETER_SCALE
          else s.tp.snd_cwnd) ∧
      s1.ca.flags &&& LOLA_IN_CWND_HOLD = 0 ∧
      s1.ca.flags &&& LOLA_IN_FAIR_FLOW_BALANCING = 0 ∧
      s1.ca.epoch_start = 0 ∧ s1.ca.sample_cnt = 0 ∧ s1.ca.curr_rtt = 0 := by
  unfold precautionary_step at h
  split at h
  · simp only [bind, Except.bind] at h
    split at h
    · exact absurd h (by simp)
    · rename_i ca1 hca1
      obtain ⟨s2, hs2, d1, d2, d3, d4, d5, d6, d7⟩ :=
        decongest_reduced_state p k now s.tp ca1 _ s1 h
      obtain ⟨w, hw, r1, r2, r3, r4, r5⟩ := reduce_window_state p s.tp _ _ s2 hs2
      obtain ⟨c, hc⟩ := balancing_fields p now s.tp _ ca1 _ hca1
      obtain ⟨e1, _, e3, e4, _⟩ := enter_balancing_fields p now s.ca
        (toU32 ((s.ca.curr_rtt : Int) - s.ca.delay_min))
      have b1 : ca1.last_max_cwnd = s.ca.last_max_cwnd := by rw [hc]; exact e1
      have b3 : ca1.delay_min = s.ca.delay_min := by rw [hc]; exact e3
      have b4 : ca1.curr_rtt = s.ca.curr_rtt := by rw [hc]; exact e4
      have hw2 : reduced_cwnd p s.tp.snd_cwnd ca1.delay_min ca1.curr_rtt = Except.ok w := hw
      have r3b : s2.ca.last_max_cwnd
          = (if mode_has p LOLA_DO_FAST_CONVERGENCE ∧ s.tp.snd_cwnd < ca1.last_max_cwnd then
              ((s.tp.snd_cwnd * toU32 p.lola_delta) % 4294967296) / LOLA_TCP_PARAMETER_SCALE
            else s.tp.snd_cwnd) := r3
      rw [b3, b4] at hw2
      rw [b1] at r3b
      refine ⟨w, hw2, by rw [d1, r1], by rw [d2, r1, r2], by rw [d4, r3b], by rw [d3, r4],
        by rw [d3, r5], d5, d6, d7⟩
  · simp only [pure, Except.pure] at h
    injection h with h
    injection h with h1 h2
    exact absurd h1 (by decide)

set_option maxRecDepth 100000 in
/-- With `LOLA_IN_CWND_HOLD` set, clearing bit 64 and
`LOLA_IN_FAIR_FLOW_BALANCING` leaves the hold bit, and so the three-bit test
of lines 426 and 435, set. -/
theorem hold_kept_bits : ∀ f : Nat, f < 256 → has_bit f LOLA_IN_CWND_HOLD = true →
    has_bit (clear_bits f 64) LOLA_IN_CWND_HOLD = true ∧
    has_bit (clear_bits f 64) (LOLA_IN_CWND_HOLD ||| LOLA_BASE_REDUCED ||| HYSTART_DELAY) = true ∧
    has_bit (clear_bits (clear_bits f 64) LOLA_IN_FAIR_FLOW_BALANCING)
      (LOLA_IN_CWND_HOLD ||| LOLA_BASE_REDUCED ||| HYSTART_DELAY) = true ∧
    (has_bit f LOLA_IN_FAIR_FLOW_BALANCING = false →
      has_bit (clear_bits f 64) LOLA_IN_FAIR_FLOW_BALANCING = false) := by
  decide

/-- While the hold bit is set, lines 357-372 only clear bit 64. -/
theorem enter_balancing_in_hold (p : Params) (now : Nat) (ca : lolatcp) (qd : Nat)
    (h : has_bit (clear_bits ca.flags 64) LOLA_IN_CWND_HOLD = true) :
    enter_balancing p now ca qd = { ca with flags := clear_bits ca.flags 64 } := by
  unfold enter_balancing
  simp only [h, not_true_eq_false, false_and, and_false, if_false]

/-- Outside fair flow balancing, lines 382-418 do nothing. -/
theorem balancing_idle (p : Params) (now : Nat) (tp : tcp_sock) (ca : lolatcp) (qd : Nat)
    (h : has_bit ca.flags LOLA_IN_FAIR_FLOW_BALANCING = false) :
    balancing p now tp ca qd = Except.ok ca := by
  unfold balancing
  simp only [h, Bool.false_eq_true, if_false]
  rfl

/-- With one of the three bits set, lines 426-545 go to the reduction. -/
theorem decongest_in_hold (p : Params) (k : Kernel) (now : Nat) (tp : tcp_sock) (ca : lolatcp)
    (qd : Nat) (hprec : mode_has p LOLA_DO_PRECAUTIONARY_DECONGESTION = true)
    (h1 : has_bit ca.flags (LOLA_IN_CWND_HOLD ||| LOLA_BASE_REDUCED ||| HYSTART_DELAY) = true)
    (h2 : has_bit (clear_bits ca.flags LOLA_IN_FAIR_FLOW_BALANCING)
      (LOLA_IN_CWND_HOLD ||| LOLA_BASE_REDUCED ||| HYSTART_DELAY) = true) :
    decongest p k now tp ca qd
      = (reduce_window p tp
          { ca with flags := clear_bits ca.flags LOLA_IN_FAIR_FLOW_BALANCING } qd).bind
        (fun s1 => Except.ok (Outcome.reduced,
          { tp := { s1.tp with snd_ssthresh := min s1.tp.snd_cwnd s1.tp.snd_ssthresh }
            ca := close_interval p k now { s1.ca with epoch_start := 0 } })) := by
  unfold decongest
  rw [if_pos (Or.inr h1)]
  simp only [hprec, h2, if_true, not_true_eq_false, and_false, if_false]
  rfl

/-- The entry condition of lines 336-354 while the hold bit is set: the hold
interval is over. -/
theorem gate_open_in_hold (p : Params) (k : Kernel) (now : Nat) (s : sock)
    (hprec : mode_has p LOLA_DO_PRECAUTIONARY_DECONGESTION = true)
    (hhold : has_bit s.ca.flags LOLA_IN_CWND_HOLD = true)
    (hdm : s.ca.delay_min ≠ 0) (hrtt : s.ca.curr_rtt ≠ 0) :
    gate_open p k now s = decide (toU32 ((now : Int) - s.ca.epoch_start)
      > k.msecs_to_jiffies (toU32 p.lola_hold_time)) := by
  unfold gate_open
  simp only [hprec, hhold, hdm, hrtt, ne_eq, not_false_eq_true, decide_True, Bool.true_and,
    Bool.not_true, Bool.and_false, Bool.false_and, Bool.false_or]

/-- An evaluation in hold, after the hold interval, reduces the window; it
returns when `LOLA_IN_FAIR_FLOW_BALANCING` is clear. -/
theorem step_after_hold (p : Params) (k : Kernel) (now : Nat) (s : sock)
    (hprec : mode_has p LOLA_DO_PRECAUTIONARY_DECONGESTION = true)
    (hhold : has_bit s.ca.flags LOLA_IN_CWND_HOLD = true) (hfl : s.ca.flags < 256)
    (hrtt : s.ca.curr_rtt ≠ 0) (hgate : gate_open p k now s = true) :
    (∀ o s1, precautionary_step p k now s = Except.ok (o, s1) → o = Outcome.reduced) ∧
    (has_bit s.ca.flags LOLA_IN_FAIR_FLOW_BALANCING = false →
      ∃ s1, precautionary_step p k now s = Except.ok (Outcome.reduced, s1)) := by
  obtain ⟨k1, k2, k3, k4⟩ := hold_kept_bits s.ca.flags hfl hhold
  have heb := enter_balancing_in_hold p now s.ca
    (toU32 ((s.ca.curr_rtt : Int) - s.ca.delay_min)) k1
  have hstep : ∀ ca1, balancing p now s.tp
      (enter_balancing p now s.ca (toU32 ((s.ca.curr_rtt : Int) - s.ca.delay_min)))
      (toU32 ((s.ca.curr_rtt : Int) - s.ca.delay_min)) = Except.ok ca1 →
      ∃ s1, precautionary_step p k now s = Except.ok (Outcome.reduced, s1) := by
    intro ca1 hca1
    obtain ⟨c, hc⟩ := balancing_fields p now s.tp _ ca1 _ hca1
    have hfl1 : ca1.flags = clear_bits s.ca.flags 64 := by rw [hc, heb]
    have hr1 : ca1.curr_rtt = s.ca.curr_rtt := by rw [hc, heb]
    obtain ⟨s2, hs2⟩ := reduce_window_ok p s.tp
      { ca1 with flags := clear_bits ca1.flags LOLA_IN_FAIR_FLOW_BALANCING }
      (toU32 ((s.ca.curr_rtt : Int) - s.ca.delay_min)) (by rw [← hr1] at hrtt; exact hrtt)
    have hd := decongest_in_hold p k now s.tp ca1
      (toU32 ((s.ca.curr_rtt : Int) - s.ca.delay_min)) hprec (by rw [hfl1]; exact k2)
      (by rw [hfl1]; exact k3)
    rw [hs2] at hd
    unfold precautionary_step
    rw [if_pos hgate]
    simp only [bind, Except.bind, hca1]
    rw [hd]
    exact ⟨_, rfl⟩
  refine ⟨fun o s1 h => ?_, fun hffb => ?_⟩
  · cases hb : balancing p now s.tp
        (enter_balancing p now s.ca (toU32 ((s.ca.curr_rtt : Int) - s.ca.delay_min)))
        (toU32 ((s.ca.curr_rtt : Int) - s.ca.delay_min)) with
    | error e =>
      have hbad : precautionary_step p k now s = Except.error e := by
        unfold precautionary_step
        rw [if_pos hgate]
        simp only [bind, Except.bind, hb]
      rw [hbad] at h
      exact absurd h (by simp)
    | ok ca1 =>
      obtain ⟨s2, hs2⟩ := hstep ca1 hb
      rw [hs2] at h
      simp only [Except.ok.injEq, Prod.mk.injEq] at h
      exact h.1.symm
  · apply hstep
    rw [heb]
    exact balancing_idle p now s.tp _ _ (k4 hffb)

/-- The `u64` computation of lines 474-483 is the exact
`max(lola_cwnd_min, floor(floor(W * delay_min * gamma / curr_rtt) / 1024))`
when the product fits 64 bits and the two `int` parameters are not
negative. -/
theorem reduced_cwnd_exact (p : Params) (W dmin rtt w : Nat)
    (h : reduced_cwnd p W dmin rtt = Except.ok w)
    (hg : 0 ≤ p.lola_gamma) (hg2 : p.lola_gamma ≤ 2147483647)
    (hm : 0 ≤ p.lola_cwnd_min) (hm2 : p.lola_cwnd_min ≤ 2147483647)
    (hfit : W * dmin * p.lola_gamma.toNat < 18446744073709551616) :
    w = max p.lola_cwnd_min.toNat (W * dmin * p.lola_gamma.toNat / rtt / 1024) := by
  obtain ⟨_, hw⟩ := reduced_cwnd_value p W dmin rtt w h
  have e1 : toU64 p.lola_gamma = p.lola_gamma.toNat := by
    simp only [toU64]
    omega
  have e2 : toU64 p.lola_cwnd_min = p.lola_cwnd_min.toNat := by
    simp only [toU64]
    omega
  have e3 : ((W * dmin) % 18446744073709551616 * p.lola_gamma.toNat) % 18446744073709551616
      = W * dmin * p.lola_gamma.toNat := by
    rw [Nat.mod_mul_mod]
    exact Nat.mod_eq_of_lt hfit
  rw [hw, e1, e2, e3]
  rfl

/-- The evaluation at the end of a hold. With precautionary decongestion
enabled, `LOLA_IN_CWND_HOLD` set in the `u8` flags and `delay_min`, `curr_rtt`
non-zero: while the 32-bit difference `now - epoch_start` is at most
`msecs_to_jiffies(lola_hold_time)` the evaluation returns with the whole
state unchanged; once it is larger, an evaluation that returns has performed
the reduction: `snd_cwnd` is the `u64` value
`max(lola_cwnd_min, floor(floor((snd_cwnd * delay_min * gamma mod 2^64) / curr_rtt) / 1024))`
truncated to 32 bits (the untruncated exact value when the product fits 64
bits, the result fits 32 bits and the two parameters are not negative), the
hold and balancing flags are clear, and `epoch_start`, `sample_cnt` and
`curr_rtt` are 0; and it returns when `LOLA_IN_FAIR_FLOW_BALANCING` is
clear. -/
theorem hold_exit_evaluation (p : Params) (k : Kernel) (now : Nat) (s : sock)
    (hprec : mode_has p LOLA_DO_PRECAUTIONARY_DECONGESTION = true)
    (hhold : has_bit s.ca.flags LOLA_IN_CWND_HOLD = true) (hfl : s.ca.flags < 256)
    (hdm : s.ca.delay_min ≠ 0) (hrtt : s.ca.curr_rtt ≠ 0) :
    (toU32 ((now : Int) - s.ca.epoch_start) ≤ k.msecs_to_jiffies (toU32 p.lola_hold_time) →
      precautionary_step p k now s = Except.ok (Outcome.skipped, s) ∧
      lolatcp_precautionary_decongestion p k now s = Except.ok s) ∧
    (toU32 ((now : Int) - s.ca.epoch_start) > k.msecs_to_jiffies (toU32 p.lola_hold_time) →
      (∀ s1, lolatcp_precautionary_decongestion p k now s = Except.ok s1 →
        precautionary_step p k now s = Except.ok (Outcome.reduced, s1) ∧
        s1.tp.snd_cwnd = max (toU64 p.lola_cwnd_min)
          ((((s.tp.snd_cwnd * s.ca.delay_min) % 18446744073709551616) * toU64 p.lola_gamma)
            % 18446744073709551616 / s.ca.curr_rtt / LOLA_TCP_PARAMETER_SCALE) % 4294967296 ∧
        (0 ≤ p.lola_gamma → p.lola_gamma ≤ 2147483647 →
          0 ≤ p.lola_cwnd_min → p.lola_cwnd_min ≤ 2147483647 →
          s.tp.snd_cwnd * s.ca.delay_min * p.lola_gamma.toNat < 18446744073709551616 →
          max p.lola_cwnd_min.toNat
            (s.tp.snd_cwnd * s.ca.delay_min * p.lola_gamma.toNat / s.ca.curr_rtt / 1024)
            < 4294967296 →
          s1.tp.snd_cwnd = max p.lola_cwnd_min.toNat
            (s.tp.snd_cwnd * s.ca.delay_min * p.lola_gamma.toNat / s.ca.curr_rtt / 1024)) ∧
        has_bit s1.ca.flags LOLA_IN_CWND_HOLD = false ∧
        has_bit s1.ca.flags LOLA_IN_FAIR_FLOW_BALANCING = false ∧
        s1.ca.epoch_start = 0 ∧ s1.ca.sample_cnt = 0 ∧ s1.ca.curr_rtt = 0) ∧
      (has_bit s.ca.flags LOLA_IN_FAIR_FLOW_BALANCING = false →
        ∃ s1, lolatcp_precautionary_decongestion p k now s = Except.ok s1)) := by
  have hg := gate_open_in_hold p k now s hprec hhold hdm hrtt
  refine ⟨fun hle => ?_, fun hgt => ⟨fun s1 h => ?_, fun hffb => ?_⟩⟩
  · have hclosed : gate_open p k now s = false := by
      rw [hg]
      exact decide_eq_false (not_lt.mpr hle)
    have hs : precautionary_step p k now s = Except.ok (Outcome.skipped, s) := by
      unfold precautionary_step
      rw [hclosed]
      rfl
    refine ⟨hs, ?_⟩
    rw [decongestion_of_step, hs]
    rfl
  · have hopen : gate_open p k now s = true := by
      rw [hg]
      exact decide_eq_true hgt
    obtain ⟨hred, _⟩ := step_after_hold p k now s hprec hhold hfl hrtt hopen
    rw [decongestion_of_step] at h
    cases hst : precautionary_step p k now s with
    | error e =>
      rw [hst] at h
      exact absurd h (by simp [Except.map])
    | ok r =>
      obtain ⟨o, s2⟩ := r
      have ho := hred o s2 hst
      subst ho
      rw [hst] at h
      simp only [Except.map, Except.ok.injEq] at h
      subst h
      obtain ⟨w, hw, c1, _, _, c4, c5, c6, c7, c8⟩ :=
        precautionary_step_reduced_state p k now s s2 hst
      obtain ⟨_, hwv⟩ := reduced_cwnd_value p _ _ _ w hw
      refine ⟨rfl, by rw [c1, hwv], ?_, ?_, ?_, c6, c7, c8⟩
      · intro g1 g2 m1 m2 hfit hres
        have hex := reduced_cwnd_exact p _ _ _ w hw g1 g2 m1 m2 hfit
        rw [c1, hex]
        exact Nat.mod_eq_of_lt hres
      · simp only [has_bit, c4, ne_eq, not_true_eq_false, decide_False]
      · simp only [has_bit, c5, ne_eq, not_true_eq_false, decide_False]
  · have hopen : gate_open p k now s = true := by
      rw [hg]
      exact decide_eq_true hgt
    obtain ⟨_, htot⟩ := step_after_hold p k now s hprec hhold hfl hrtt hopen
    obtain ⟨s1, hs1⟩ := htot hffb
    rw [decongestion_of_step, hs1]
    exact ⟨_, rfl⟩

/-- C30 (counterexample). At the end of the hold of `heldScenario` the window
goes from 100 to `n = 45`. With the default `lola_mode = 11` (no fast
convergence) `last_max_cwnd` becomes the prior window 100, not `n = 45`; with
fast convergence enabled (`45 < 120`) it becomes `floor(100 * 900 / 1024) = 87`,
not `floor(45 * 900 / 1024) = 39`. -/
theorem lola_last_max_cwnd_not_from_new_window :
    mode_has defaultParams LOLA_DO_FAST_CONVERGENCE = false ∧
    (precautionary_step defaultParams kernelHz1000 1351 heldScenario).map
      (fun r => (decide (r.1 = Outcome.reduced), r.2.tp.snd_cwnd, r.2.ca.last_max_cwnd))
      = Except.ok (true, 45, 100) ∧
    (100 : Nat) ≠ 45 ∧
    mode_has fastConvergenceParams LOLA_DO_FAST_CONVERGENCE = true ∧
    45 < heldScenario.ca.last_max_cwnd ∧
    (precautionary_step fastConvergenceParams kernelHz1000 1351 heldScenario).map
      (fun r => (decide (r.1 = Outcome.reduced), r.2.tp.snd_cwnd, r.2.ca.last_max_cwnd))
      = Except.ok (true, 45, 87) ∧
    (87 : Nat) ≠ 45 * 900 / 1024 := by
  refine ⟨rfl, rfl, by decide, rfl, by decide, rfl, by decide⟩

/-- C30 (amended). After a precautionary reduction by
`lolatcp_precautionary_decongestion` from the prior window `W` to the new
window `n`: if fast convergence is enabled in `lola_mode` and `W` is below the
prior `last_max_cwnd` then `last_max_cwnd = floor((W * lola_delta mod 2^32) / 1024)`
(which is `floor(W * lola_delta / 1024)` when the 32-bit product does not
overflow), otherwise `last_max_cwnd = W`; in addition `epoch_start = 0` and
`snd_ssthresh = min(n, prior snd_ssthresh)`. -/
theorem lola_reduction_bookkeeping_amended (p : Params) (k : Kernel) (now : Nat) (s s1 : sock)
    (h : precautionary_step p k now s = Except.ok (Outcome.reduced, s1)) :
    lolatcp_precautionary_decongestion p k now s = Except.ok s1 ∧
    (mode_has p LOLA_DO_FAST_CONVERGENCE = true → s.tp.snd_cwnd < s.ca.last_max_cwnd →
      s1.ca.last_max_cwnd
        = ((s.tp.snd_cwnd * toU32 p.lola_delta) % 4294967296) / LOLA_TCP_PARAMETER_SCALE ∧
      (0 ≤ p.lola_delta → s.tp.snd_cwnd * p.lola_delta.toNat < 4294967296 →
        s1.ca.last_max_cwnd = s.tp.snd_cwnd * p.lola_delta.toNat / 1024)) ∧
    (¬ (mode_has p LOLA_DO_FAST_CONVERGENCE = true ∧ s.tp.snd_cwnd < s.ca.last_max_cwnd) →
      s1.ca.last_max_cwnd = s.tp.snd_cwnd) ∧
    s1.ca.epoch_start = 0 ∧
    s1.tp.snd_ssthresh = min s1.tp.snd_cwnd s.tp.snd_ssthresh := by
  obtain ⟨w, _, c1, c2, c3, _, _, c6, _, _⟩ := precautionary_step_reduced_state p k now s s1 h
  refine ⟨?_, fun hfc hlt => ?_, fun hn => ?_, c6, by rw [c2, c1]⟩
  · rw [decongestion_of_step, h]
    rfl
  · rw [if_pos ⟨hfc, hlt⟩] at c3
    refine ⟨c3, fun hd hfit => ?_⟩
    rw [c3]
    by_cases hz : s.tp.snd_cwnd = 0
    · rw [hz]
      simp
    · have hdl : p.lola_delta.toNat < 4294967296 :=
        lt_of_le_of_lt (Nat.le_mul_of_pos_left _ (Nat.pos_of_ne_zero hz)) hfit
      have e : toU32 p.lola_delta = p.lola_delta.toNat := by
        simp only [toU32]
        omega
      rw [e, Nat.mod_eq_of_lt hfit]
      rfl
  · rw [if_neg hn] at c3
    exact c3

/-- Witness for C30 (amended): the end of the hold of `heldScenario` with
fast convergence enabled leaves `last_max_cwnd = floor(100 * 900 / 1024) = 87`,
`epoch_start = 0` and `snd_ssthresh = min(45, 50) = 45`. -/
theorem lola_reduction_bookkeeping_amended_witness :
    ∃ s1, lolatcp_precautionary_decongestion fastConvergenceParams kernelHz1000 1351
        heldScenario = Except.ok s1 ∧
      s1.ca.last_max_cwnd = 100 * 900 / 1024 ∧ s1.ca.epoch_start = 0 ∧
      s1.tp.snd_ssthresh = min s1.tp.snd_cwnd 50 := by
  have h := lola_reduction_bookkeeping_amended fastConvergenceParams kernelHz1000 1351
    heldScenario ((precautionary_step fastConvergenceParams kernelHz1000 1351
      heldScenario).toOption.getD (Outcome.skipped, heldScenario)).2 rfl
  exact ⟨_, h.1, (h.2.1 rfl (by decide)).2 (by decide) (by decide), h.2.2.2.1, h.2.2.2.2⟩

/-- C31 (counterexample). With the default `beta = 717` and fast convergence
on, a loss at `W = 3000000 < last_max_cwnd = 4000000` leaves
`last_max_cwnd = 453140`: the `u32` product `W * (1024 + 717)` wraps, and the
result is not `floor(W * (BICTCP_BETA_SCALE + beta) / (2 * BICTCP_BETA_SCALE)) =
2550292`. -/
theorem lola_loss_last_max_cwnd_wraps :
    defaultParams.fast_convergence ≠ 0 ∧
    millionsWindowLoss.tp.snd_cwnd < millionsWindowLoss.ca.last_max_cwnd ∧
    (bictcp_recalc_ssthresh defaultParams millionsWindowLoss).2.ca.last_max_cwnd = 453140 ∧
    3000000 * (1024 + 717) / (2 * 1024) = 2550292 ∧ (453140 : Nat) ≠ 2550292 := by
  refine ⟨by decide, by decide, rfl, by decide, by decide⟩

set_option maxRecDepth 100000 in
/-- The flag byte after `flags |= LOLA_LOSS_SAMPLING_LOCKED` and
`flags &= ~(LOLA_IN_CWND_HOLD | LOLA_IN_FAIR_FLOW_BALANCING)`: the lock is set,
the two bits are clear, the other five bits are as before. -/
theorem loss_flag_bits : ∀ f : Nat, f < 256 →
    has_bit (clear_bits (set_bits f LOLA_LOSS_SAMPLING_LOCKED)
      (LOLA_IN_CWND_HOLD ||| LOLA_IN_FAIR_FLOW_BALANCING)) LOLA_LOSS_SAMPLING_LOCKED = true ∧
    has_bit (clear_bits (set_bits f LOLA_LOSS_SAMPLING_LOCKED)
      (LOLA_IN_CWND_HOLD ||| LOLA_IN_FAIR_FLOW_BALANCING)) LOLA_IN_CWND_HOLD = false ∧
    has_bit (clear_bits (set_bits f LOLA_LOSS_SAMPLING_LOCKED)
      (LOLA_IN_CWND_HOLD ||| LOLA_IN_FAIR_FLOW_BALANCING)) LOLA_IN_FAIR_FLOW_BALANCING = false ∧
    (∀ b ∈ [HYSTART_ACK_TRAIN, HYSTART_DELAY, LOLA_RED_LOCKED, 64, LOLA_BASE_REDUCED],
      has_bit (clear_bits (set_bits f LOLA_LOSS_SAMPLING_LOCKED)
        (LOLA_IN_CWND_HOLD ||| LOLA_IN_FAIR_FLOW_BALANCING)) b = has_bit f b) := by
  decide

/-- C31 (amended). `bictcp_recalc_ssthresh` at window `W` with fast
convergence on and `u8` flags: `last_max_cwnd` becomes
`floor((W * (BICTCP_BETA_SCALE + beta) mod 2^32) / (2 * BICTCP_BETA_SCALE))`
if `W` is below the prior `last_max_cwnd` (which is
`floor(W * (BICTCP_BETA_SCALE + beta) / (2 * BICTCP_BETA_SCALE))` when
`0 ≤ beta` and the 32-bit product does not overflow) and `W` otherwise;
`loss_cwnd = W`, `epoch_start = 0`, `curr_rtt = 0`, `sample_cnt = 0`;
`LOLA_LOSS_SAMPLING_LOCKED` is set, `LOLA_IN_CWND_HOLD` and
`LOLA_IN_FAIR_FLOW_BALANCING` are clear; `delay_min`, every other flag and the
transport block are unchanged. -/
theorem lola_loss_bookkeeping_amended (p : Params) (s : sock)
    (hfc : p.fast_convergence ≠ 0) (hfl : s.ca.flags < 256) :
    (s.tp.snd_cwnd < s.ca.last_max_cwnd →
      (bictcp_recalc_ssthresh p s).2.ca.last_max_cwnd
        = ((s.tp.snd_cwnd * toU32 ((BICTCP_BETA_SCALE : Int) + p.beta)) % 4294967296)
            / toU32 (2 * BICTCP_BETA_SCALE) ∧
      (0 ≤ p.beta → s.tp.snd_cwnd * (BICTCP_BETA_SCALE + p.beta.toNat) < 4294967296 →
        (bictcp_recalc_ssthresh p s).2.ca.last_max_cwnd
          = s.tp.snd_cwnd * (BICTCP_BETA_SCALE + p.beta.toNat) / (2 * BICTCP_BETA_SCALE))) ∧
    (¬ s.tp.snd_cwnd < s.ca.last_max_cwnd →
      (bictcp_recalc_ssthresh p s).2.ca.last_max_cwnd = s.tp.snd_cwnd) ∧
    (bictcp_recalc_ssthresh p s).2.ca.loss_cwnd = s.tp.snd_cwnd ∧
    (bictcp_recalc_ssthresh p s).2.ca.epoch_start = 0 ∧
    (bictcp_recalc_ssthresh p s).2.ca.curr_rtt = 0 ∧
    (bictcp_recalc_ssthresh p s).2.ca.sample_cnt = 0 ∧
    has_bit (bictcp_recalc_ssthresh p s).2.ca.flags LOLA_LOSS_SAMPLING_LOCKED = true ∧
    has_bit (bictcp_recalc_ssthresh p s).2.ca.flags LOLA_IN_CWND_HOLD = false ∧
    has_bit (bictcp_recalc_ssthresh p s).2.ca.flags LOLA_IN_FAIR_FLOW_BALANCING = false ∧
    (∀ b ∈ [HYSTART_ACK_TRAIN, HYSTART_DELAY, LOLA_RED_LOCKED, 64, LOLA_BASE_REDUCED],
      has_bit (bictcp_recalc_ssthresh p s).2.ca.flags b = has_bit s.ca.flags b) ∧
    (bictcp_recalc_ssthresh p s).2.ca.delay_min = s.ca.delay_min ∧
    (bictcp_recalc_ssthresh p s).2.tp = s.tp := by
  obtain ⟨b1, b2, b3, b4⟩ := loss_flag_bits s.ca.flags hfl
  have hflags : (bictcp_recalc_ssthresh p s).2.ca.flags
      = clear_bits (set_bits s.ca.flags LOLA_LOSS_SAMPLING_LOCKED)
          (LOLA_IN_CWND_HOLD ||| LOLA_IN_FAIR_FLOW_BALANCING) := by
    simp only [bictcp_recalc_ssthresh]
    split <;> rfl
  have hlast : (bictcp_recalc_ssthresh p s).2.ca.last_max_cwnd
      = if s.tp.snd_cwnd < s.ca.last_max_cwnd ∧ p.fast_convergence ≠ 0 then
          ((s.tp.snd_cwnd * toU32 ((BICTCP_BETA_SCALE : Int) + p.beta)) % 4294967296)
            / toU32 (2 * BICTCP_BETA_SCALE)
        else s.tp.snd_cwnd := by
    simp only [bictcp_recalc_ssthresh]
    split <;> rfl
  refine ⟨fun hlt => ?_, fun hge => ?_, ?_, ?_, ?_, ?_, by rw [hflags]; exact b1,
    by rw [hflags]; exact b2, by rw [hflags]; exact b3, by rw [hflags]; exact b4, ?_, rfl⟩
  · rw [hlast, if_pos ⟨hlt, hfc⟩]
    refine ⟨rfl, fun hb hfit => ?_⟩
    by_cases hz : s.tp.snd_cwnd = 0
    · rw [hz]
      simp
    · have hb2 : BICTCP_BETA_SCALE + p.beta.toNat < 4294967296 :=
        lt_of_le_of_lt (Nat.le_mul_of_pos_left _ (Nat.pos_of_ne_zero hz)) hfit
      have e1 : toU32 ((BICTCP_BETA_SCALE : Int) + p.beta)
          = BICTCP_BETA_SCALE + p.beta.toNat := by
        simp only [BICTCP_BETA_SCALE, toU32] at *
        omega
      have e2 : toU32 (2 * BICTCP_BETA_SCALE) = 2 * BICTCP_BETA_SCALE := rfl
      rw [e1, e2, Nat.mod_eq_of_lt hfit]
  · rw [hlast, if_neg (fun h => hge h.1)]
  all_goals
    simp only [bictcp_recalc_ssthresh]
    try (split <;> rfl)

/-- Witness for C31 (amended): a loss in the hold of `heldScenario` (window 100
below `last_max_cwnd = 120`, default `beta = 717`). -/
theorem lola_loss_bookkeeping_amended_witness :
    (bictcp_recalc_ssthresh defaultParams heldScenario).2.ca.last_max_cwnd
      = heldScenario.tp.snd_cwnd * (BICTCP_BETA_SCALE + defaultParams.beta.toNat)
          / (2 * BICTCP_BETA_SCALE) ∧
    has_bit (bictcp_recalc_ssthresh defaultParams heldScenario).2.ca.flags LOLA_IN_CWND_HOLD
      = false ∧
    (bictcp_recalc_ssthresh defaultParams heldScenario).2.ca.epoch_start = 0 := by
  have h := lola_loss_bookkeeping_amended defaultParams heldScenario (by decide) (by decide)
  exact ⟨(h.1 (by decide)).2 (by decide) (by decide), h.2.2.2.2.2.2.2.1, h.2.2.2.1⟩

/-- Every table index below 64 is read without fault, and the entries from
index 1 on lie between 54 and 254. -/
theorem table_read_ok (i : Nat) (hi : i < 64) :
    ∃ t, table_read i = Except.ok t ∧ t ≤ 254 ∧ (1 ≤ i → 54 ≤ t) := by
  interval_cases i <;> exact ⟨_, rfl, by decide, by decide⟩

/-- For a non-zero `a < 2^fuel` the loop returns the bit length `k` of `a`:
`2^(k-1) ≤ a < 2^k`. -/
theorem fls_loop_spec : ∀ (fuel a : Nat), a < 2 ^ fuel → a ≠ 0 →
    ∃ L, fls_loop fuel a = L + 1 ∧ 2 ^ L ≤ a ∧ a < 2 ^ (L + 1) := by
  intro fuel
  induction fuel with
  | zero =>
    intro a h h0
    simp at h
    omega
  | succ n ih =>
    intro a h h0
    simp only [fls_loop, if_neg h0]
    by_cases h2 : a / 2 = 0
    · refine ⟨0, ?_, by simp; omega, by simp; omega⟩
      rw [h2]
      cases n <;> simp [fls_loop]
    · have hlt : a / 2 < 2 ^ n := by
        rw [Nat.pow_succ] at h
        omega
      obtain ⟨L, hL, h1, h3⟩ := ih (a / 2) hlt h2
      refine ⟨L + 1, by rw [hL], ?_, ?_⟩
      · rw [Nat.pow_succ]
        omega
      · rw [Nat.pow_succ]
        omega

/-- For `a ≥ 64` below `2^64`, `fls64(a)` is `L + 1` with `6 ≤ L ≤ 63` and
`2^L ≤ a < 2^(L+1)`; for `a < 64` it is below 7. -/
theorem fls64_bounds (a : Nat) (ha : a < 18446744073709551616) :
    (a < 64 → fls64 a < 7) ∧
    (64 ≤ a → ∃ L, fls64 a = L + 1 ∧ 6 ≤ L ∧ L ≤ 63 ∧ 2 ^ L ≤ a ∧ a < 2 ^ (L + 1)) := by
  have hmono : ∀ i j : Nat, 2 ^ i ≤ a → a < 2 ^ j → i < j := by
    intro i j h1 h2
    by_contra hc
    have := Nat.pow_le_pow_right (by decide : 0 < 2) (not_lt.mp hc)
    omega
  by_cases h0 : a = 0
  · subst h0
    exact ⟨fun _ => by decide, fun h => by omega⟩
  · obtain ⟨L, hL, h1, h2⟩ := fls_loop_spec 64 a (by norm_num; exact ha) h0
    refine ⟨fun h => ?_, fun h => ⟨L, hL, ?_, ?_, h1, h2⟩⟩
    · have := hmono L 6 h1 (by norm_num; exact h)
      unfold fls64
      omega
    · have := hmono 6 (L + 1) (by norm_num; exact h) h2
      omega
    · have := hmono L 64 h1 (by norm_num; exact ha)
      omega

/-- The exponent of line 281 for `fls64(a) = L + 1`, `6 ≤ L ≤ 63`: it lies in
`1..20`, and `3 * b ≤ L < 3 * b + 6`. -/
theorem cubic_root_b_bounds : ∀ L : Nat, L < 64 → 6 ≤ L →
    1 ≤ toU32 (((((L + 1) * 84) % 4294967296 / 256 : Nat) : Int) - 1) ∧
    toU32 (((((L + 1) * 84) % 4294967296 / 256 : Nat) : Int) - 1) ≤ 20 ∧
    toU32 (((((L + 1) * 84) % 4294967296 / 256 : Nat) : Int) - 1) * 3 ≤ L ∧
    L + 1 ≤ toU32 (((((L + 1) * 84) % 4294967296 / 256 : Nat) : Int) - 1) * 3 + 6 ∧
    (toU32 (((((L + 1) * 84) % 4294967296 / 256 : Nat) : Int) - 1) : Int)
      = ((((L + 1) * 84 / 256 : Nat) : Int)) - 1 := by
  intro L h1 h2
  interval_cases L <;> decide

/-- For `64 ≤ a < 2^64`: the table index of line 282 is in `1..63`, the entry
read gives an initial estimate `x ≥ 2`, and `x - 1` does not wrap. -/
theorem cubic_root_estimate_ok (a : Nat) (h64 : 64 ≤ a) (ha : a < 18446744073709551616) :
    7 ≤ fls64 a ∧ 1 ≤ cubic_root_b a ∧ cubic_root_b a ≤ 20 ∧
    (cubic_root_b a : Int) = ((fls64 a * 84 / 256 : Nat) : Int) - 1 ∧
    cubic_root_shift a = a / 2 ^ (cubic_root_b a * 3) ∧
    1 ≤ cubic_root_shift a ∧ cubic_root_shift a < 64 ∧
    ∃ t, table_read (cubic_root_shift a) = Except.ok t ∧ 2 ≤ cubic_root_estimate a t ∧
      cubic_root_estimate a t < 4294967296 ∧
      toU32 ((cubic_root_estimate a t : Int) - 1) = cubic_root_estimate a t - 1 := by
  obtain ⟨L, hL, h6, h63, hlo, hhi⟩ := (fls64_bounds a ha).2 h64
  obtain ⟨b1, b2, b3, b4, b5⟩ := cubic_root_b_bounds L (by omega) h6
  have hb : cubic_root_b a
      = toU32 (((((L + 1) * 84) % 4294967296 / 256 : Nat) : Int) - 1) := by
    unfold cubic_root_b
    rw [hL]
  rw [← hb] at b1 b2 b3 b4
  have hbi : (cubic_root_b a : Int) = ((fls64 a * 84 / 256 : Nat) : Int) - 1 := by
    rw [hb, hL]
    exact b5
  have hpos : 0 < 2 ^ (cubic_root_b a * 3) := Nat.two_pow_pos _
  have hp1 : 2 ^ (cubic_root_b a * 3) ≤ 2 ^ L := Nat.pow_le_pow_right (by decide) b3
  have hp2 : 2 ^ (L + 1) ≤ 2 ^ (cubic_root_b a * 3 + 6) :=
    Nat.pow_le_pow_right (by decide) b4
  have hp3 : 2 ^ (cubic_root_b a * 3 + 6) = 2 ^ (cubic_root_b a * 3) * 64 := by
    rw [Nat.pow_add]
  have hs1 : 1 ≤ a / 2 ^ (cubic_root_b a * 3) :=
    (Nat.le_div_iff_mul_le hpos).2 (by omega)
  have hs2 : a / 2 ^ (cubic_root_b a * 3) < 64 :=
    (Nat.div_lt_iff_lt_mul hpos).2 (by omega)
  have hshift : cubic_root_shift a = a / 2 ^ (cubic_root_b a * 3) := by
    unfold cubic_root_shift
    exact Nat.mod_eq_of_lt (by omega)
  obtain ⟨t, ht, ht254, ht54⟩ := table_read_ok (cubic_root_shift a) (by rw [hshift]; exact hs2)
  have ht54b := ht54 (by rw [hshift]; exact hs1)
  have hq1 : 2 ^ 1 ≤ 2 ^ cubic_root_b a := Nat.pow_le_pow_right (by decide) b1
  have hq2 : 2 ^ cubic_root_b a ≤ 2 ^ 20 := Nat.pow_le_pow_right (by decide) b2
  have hP1 : 64 * 2 ^ 1 ≤ (t + 10) * 2 ^ cubic_root_b a := Nat.mul_le_mul (by omega) hq1
  have hP2 : (t + 10) * 2 ^ cubic_root_b a ≤ 264 * 2 ^ 20 := Nat.mul_le_mul (by omega) hq2
  have hx : cubic_root_estimate a t = (t + 10) * 2 ^ cubic_root_b a / 64 := by
    unfold cubic_root_estimate
    rw [Nat.mod_eq_of_lt (lt_of_le_of_lt hP2 (by norm_num))]
  have hx2 : 2 ≤ cubic_root_estimate a t := by
    rw [hx]
    norm_num at hP1
    omega
  have hx3 : cubic_root_estimate a t < 4294967296 := by
    rw [hx]
    norm_num at hP2
    omega
  refine ⟨by omega, b1, b2, hbi, hshift, by rw [hshift]; exact hs1, by rw [hshift]; exact hs2,
    t, ht, hx2, hx3, ?_⟩
  simp only [toU32]
  omega

/-- C40: for every 64-bit input `a`, `cubic_root` reads its 64-entry table only
at an index in `0..63`: the index `a` itself when `a < 64` (`fls64(a) < 7`),
and `a >> (3 * b)` with `b = ((fls64(a) * 84) >> 8) - 1` otherwise; for every
`a ≥ 64` the initial estimate `x` is at least 2, so the Newton-Raphson divisor
`x * (x - 1)` is non-zero; and the call returns. -/
theorem cubic_root_reads_in_table (a : Nat) (ha : a < 18446744073709551616) :
    cubic_root_table.length = 64 ∧
    (a < 64 → fls64 a < 7 ∧ a % 4294967296 = a ∧ a < cubic_root_table.length) ∧
    (64 ≤ a → 7 ≤ fls64 a ∧
      (cubic_root_b a : Int) = ((fls64 a * 84 / 256 : Nat) : Int) - 1 ∧
      cubic_root_shift a = a / 2 ^ (cubic_root_b a * 3) ∧
      cubic_root_shift a < cubic_root_table.length ∧
      ∃ t, table_read (cubic_root_shift a) = Except.ok t ∧ 2 ≤ cubic_root_estimate a t ∧
        cubic_root_estimate a t * toU32 ((cubic_root_estimate a t : Int) - 1) ≠ 0) ∧
    ∃ r, cubic_root a = Except.ok r := by
  have hlen : cubic_root_table.length = 64 := rfl
  have hsmall : a < 64 → fls64 a < 7 := (fls64_bounds a ha).1
  refine ⟨hlen, fun h => ⟨hsmall h, Nat.mod_eq_of_lt (by omega), by rw [hlen]; exact h⟩,
    fun h64 => ?_, ?_⟩
  · obtain ⟨h7, _, _, hbi, hshift, _, hs2, t, ht, hx2, hx3, hx1⟩ :=
      cubic_root_estimate_ok a h64 ha
    refine ⟨h7, hbi, hshift, by rw [hlen]; exact hs2, t, ht, hx2, ?_⟩
    rw [hx1]
    exact Nat.mul_ne_zero (by omega) (by omega)
  · by_cases h64 : a < 64
    · obtain ⟨t, ht, _, _⟩ := table_read_ok a h64
      unfold cubic_root
      rw [if_pos (hsmall h64), Nat.mod_eq_of_lt (by omega)]
      simp only [ht, bind, Except.bind, pure, Except.pure]
      exact ⟨_, rfl⟩
    · obtain ⟨h7, _, _, _, _, _, _, t, ht, hx2, hx3, hx1⟩ :=
        cubic_root_estimate_ok a (by omega) ha
      have hd : cubic_root_estimate a t * toU32 ((cubic_root_estimate a t : Int) - 1) ≠ 0 := by
        rw [hx1]
        exact Nat.mul_ne_zero (by omega) (by omega)
      unfold cubic_root
      rw [if_neg (by omega)]
      simp only [ht, udiv, if_neg hd, bind, Except.bind, pure, Except.pure]
      exact ⟨_, rfl⟩

/-- C40 at `a = 1000000`: `fls64 = 20`, `b = 5`, the table is read at index
`1000000 >> 15 = 30`, and the call returns 100. -/
theorem cubic_root_reads_in_table_witness :
    cubic_root_shift 1000000 = 30 ∧ cubic_root 1000000 = Except.ok 100 ∧
    ∃ r, cubic_root 1000000 = Except.ok r := by
  have h := cubic_root_reads_in_table 1000000 (by decide)
  exact ⟨by decide, rfl, h.2.2.2⟩

set_option maxRecDepth 100000 in
/-- The flag operations of `lolatcp_acked` and `hystart_update` and the bit
`LOLA_LOSS_SAMPLING_LOCKED`: clearing it clears it; the other operations
leave it as it is. -/
theorem lock_bit_ops : ∀ f : Nat, f < 256 →
    has_bit (clear_bits f LOLA_LOSS_SAMPLING_LOCKED) LOLA_LOSS_SAMPLING_LOCKED = false ∧
    has_bit (set_bits f HYSTART_ACK_TRAIN) LOLA_LOSS_SAMPLING_LOCKED
      = has_bit f LOLA_LOSS_SAMPLING_LOCKED ∧
    has_bit (set_bits f HYSTART_DELAY) LOLA_LOSS_SAMPLING_LOCKED
      = has_bit f LOLA_LOSS_SAMPLING_LOCKED ∧
    has_bit (set_bits f LOLA_BASE_REDUCED) LOLA_LOSS_SAMPLING_LOCKED
      = has_bit f LOLA_LOSS_SAMPLING_LOCKED ∧
    has_bit (clear_bits f LOLA_IN_FAIR_FLOW_BALANCING) LOLA_LOSS_SAMPLING_LOCKED
      = has_bit f LOLA_LOSS_SAMPLING_LOCKED := by
  decide

/-- A flag byte stays a byte under `flags |= mask`. -/
theorem set_bits_lt (f m : Nat) : set_bits f m < 256 := Nat.mod_lt _ (by decide)

/-- A flag byte stays a byte under `flags &= ~mask`. -/
theorem clear_bits_lt (f m : Nat) : clear_bits f m < 256 :=
  lt_of_le_of_lt Nat.and_le_right (by omega)

/-- Lines 879-882 clear the lock and touch no delay field. -/
theorem unlock_sampling_effect (ca : lolatcp) (hfl : ca.flags < 256) :
    (unlock_sampling ca).flags < 256 ∧
    has_bit (unlock_sampling ca).flags LOLA_LOSS_SAMPLING_LOCKED = false ∧
    (unlock_sampling ca).delay_min = ca.delay_min ∧
    (unlock_sampling ca).curr_rtt = ca.curr_rtt := by
  unfold unlock_sampling
  by_cases hb : has_bit ca.flags LOLA_LOSS_SAMPLING_LOCKED = true
  · rw [if_pos hb]
    exact ⟨clear_bits_lt _ _, (lock_bit_ops ca.flags hfl).1, rfl, rfl⟩
  · rw [if_neg hb]
    exact ⟨hfl, by simpa using hb, rfl, rfl⟩

/-- Lines 887-895 touch `curr_rtt` and `sample_cnt` only; `curr_rtt` is
unchanged or becomes the sample. -/
theorem record_rtt_effect (p : Params) (ca : lolatcp) (pk d : Nat) :
    (record_rtt p ca pk d).flags = ca.flags ∧
    (record_rtt p ca pk d).delay_min = ca.delay_min ∧
    ((record_rtt p ca pk d).curr_rtt = ca.curr_rtt ∨ (record_rtt p ca pk d).curr_rtt = d) := by
  unfold record_rtt
  simp only
  split
  · split
    · exact ⟨rfl, rfl, Or.inr rfl⟩
    · exact ⟨rfl, rfl, Or.inl rfl⟩
  · exact ⟨rfl, rfl, Or.inl rfl⟩

/-- Lines 897-901 leave the lock bit and `curr_rtt` alone; `delay_min` becomes
the sample if it was unset or larger. -/
theorem record_base_effect (p : Params) (ca : lolatcp) (d : Nat) (hfl : ca.flags < 256) :
    (record_base p ca d).flags < 256 ∧
    has_bit (record_base p ca d).flags LOLA_LOSS_SAMPLING_LOCKED
      = has_bit ca.flags LOLA_LOSS_SAMPLING_LOCKED ∧
    (record_base p ca d).delay_min
      = (if ca.delay_min = 0 ∨ ca.delay_min > d then d else ca.delay_min) ∧
    (record_base p ca d).curr_rtt = ca.curr_rtt := by
  unfold record_base
  simp only
  split
  · split
    · exact ⟨set_bits_lt _ _, (lock_bit_ops ca.flags hfl).2.2.2.1, rfl, rfl⟩
    · exact ⟨hfl, rfl, rfl, rfl⟩
  · exact ⟨hfl, rfl, rfl, rfl⟩

/-- Lines 904-905 touch `base_invalidation_count` only. -/
theorem reset_invalidation_effect (p : Params) (ca : lolatcp) (d : Nat) :
    (reset_invalidation p ca d).flags = ca.flags ∧
    (reset_invalidation p ca d).delay_min = ca.delay_min ∧
    (reset_invalidation p ca d).curr_rtt = ca.curr_rtt := by
  unfold reset_invalidation
  split <;> exact ⟨rfl, rfl, rfl⟩

/-- What lines 879-906 of `lolatcp_acked` do with a sample: the lock bit is
clear afterwards, `delay_min` is the sample if it was unset or larger and
unchanged otherwise, and `curr_rtt` is unchanged or the sample. -/
theorem take_sample_effect (p : Params) (ca : lolatcp) (pk d : Nat) (hfl : ca.flags < 256) :
    (take_sample p ca pk d).flags < 256 ∧
    has_bit (take_sample p ca pk d).flags LOLA_LOSS_SAMPLING_LOCKED = false ∧
    (take_sample p ca pk d).delay_min
      = (if ca.delay_min = 0 ∨ ca.delay_min > d then d else ca.delay_min) ∧
    ((take_sample p ca pk d).curr_rtt = ca.curr_rtt ∨ (take_sample p ca pk d).curr_rtt = d) := by
  obtain ⟨u1, u2, u3, u4⟩ := unlock_sampling_effect ca hfl
  obtain ⟨r1, r2, r3⟩ := record_rtt_effect p (unlock_sampling ca) pk d
  have hfl2 : (record_rtt p (unlock_sampling ca) pk d).flags < 256 := by rw [r1]; exact u1
  obtain ⟨b1, b2, b3, b4⟩ := record_base_effect p (record_rtt p (unlock_sampling ca) pk d) d hfl2
  obtain ⟨i1, i2, i3⟩ := reset_invalidation_effect p
    (record_base p (record_rtt p (unlock_sampling ca) pk d) d) d
  unfold take_sample
  refine ⟨by rw [i1]; exact b1, by rw [i1, b2, r1]; exact u2, by rw [i2, b3, r2, u3], ?_⟩
  rw [i3, b4]
  rcases r3 with h | h
  · exact Or.inl (by rw [h, u4])
  · exact Or.inr h

set_option maxRecDepth 100000 in
/-- The two detection bits are not the lock bit and keep the byte a byte. -/
theorem ack_train_detect_effect (p : Params) (clock : Nat) (s : sock) (hfl : s.ca.flags < 256) :
    (ack_train_detect p clock s).ca.flags < 256 ∧
    has_bit (ack_train_detect p clock s).ca.flags LOLA_LOSS_SAMPLING_LOCKED
      = has_bit s.ca.flags LOLA_LOSS_SAMPLING_LOCKED ∧
    (ack_train_detect p clock s).ca.delay_min = s.ca.delay_min ∧
    (ack_train_detect p clock s).ca.curr_rtt = s.ca.curr_rtt ∧
    (ack_train_detect p clock s).ca.sample_cnt = s.ca.sample_cnt ∧
    (ack_train_detect p clock s).ca.last_max_cwnd = s.ca.last_max_cwnd ∧
    (ack_train_detect p clock s).tp.snd_cwnd = s.tp.snd_cwnd ∧
    ((ack_train_detect p clock s).tp.snd_ssthresh = s.tp.snd_ssthresh ∨
      (ack_train_detect p clock s).tp.snd_ssthresh = s.tp.snd_cwnd) := by
  unfold ack_train_detect
  simp only
  split
  · split
    · exact ⟨set_bits_lt _ _, (lock_bit_ops s.ca.flags hfl).2.1, rfl, rfl, rfl, rfl, rfl,
        Or.inr rfl⟩
    · exact ⟨hfl, rfl, rfl, rfl, rfl, rfl, rfl, Or.inl rfl⟩
  · exact ⟨hfl, rfl, rfl, rfl, rfl, rfl, rfl, Or.inl rfl⟩

/-- The delay detector: the lock bit and `delay_min` stay; `curr_rtt` is
unchanged or becomes the sample. -/
theorem delay_detect_effect (p : Params) (s : sock) (d : Nat) (hfl : s.ca.flags < 256) :
    (delay_detect p s d).ca.flags < 256 ∧
    has_bit (delay_detect p s d).ca.flags LOLA_LOSS_SAMPLING_LOCKED
      = has_bit s.ca.flags LOLA_LOSS_SAMPLING_LOCKED ∧
    (delay_detect p s d).ca.delay_min = s.ca.delay_min ∧
    ((delay_detect p s d).ca.curr_rtt = s.ca.curr_rtt ∨ (delay_detect p s d).ca.curr_rtt = d) ∧
    (delay_detect p s d).tp.snd_cwnd = s.tp.snd_cwnd := by
  have k := lock_bit_ops s.ca.flags hfl
  have k2 := lock_bit_ops (clear_bits s.ca.flags LOLA_IN_FAIR_FLOW_BALANCING) (clear_bits_lt _ _)
  unfold delay_detect
  simp only
  split
  · split
    · exact ⟨hfl, rfl, rfl, Or.inr rfl, rfl⟩
    · exact ⟨hfl, rfl, rfl, Or.inl rfl, rfl⟩
  · split
    · split
      · exact ⟨set_bits_lt _ _, by rw [k2.2.2.1, k.2.2.2.2], rfl, Or.inl rfl, rfl⟩
      · exact ⟨clear_bits_lt _ _, k.2.2.2.2, rfl, Or.inl rfl, rfl⟩
    · exact ⟨hfl, rfl, rfl, Or.inl rfl, rfl⟩

/-- The detectors of `hystart_update` leave the lock bit, `delay_min` and
`snd_cwnd` alone; `curr_rtt` is unchanged or becomes the sample. -/
theorem hystart_detectors_effect (p : Params) (clock : Nat) (s : sock) (d : Nat)
    (hfl : s.ca.flags < 256) :
    (hystart_detectors p clock s d).ca.flags < 256 ∧
    has_bit (hystart_detectors p clock s d).ca.flags LOLA_LOSS_SAMPLING_LOCKED
      = has_bit s.ca.flags LOLA_LOSS_SAMPLING_LOCKED ∧
    (hystart_detectors p clock s d).ca.delay_min = s.ca.delay_min ∧
    ((hystart_detectors p clock s d).ca.curr_rtt = s.ca.curr_rtt ∨
      (hystart_detectors p clock s d).ca.curr_rtt = d) ∧
    (hystart_detectors p clock s d).tp.snd_cwnd = s.tp.snd_cwnd := by
  obtain ⟨a1, a2, a3, a4, _, _, a7, _⟩ := ack_train_detect_effect p clock s hfl
  obtain ⟨d1, d2, d3, d4, d5⟩ := delay_detect_effect p s d hfl
  obtain ⟨e1, e2, e3, e4, e5⟩ := delay_detect_effect p (ack_train_detect p clock s) d a1
  unfold hystart_detectors
  simp only
  split
  · exact ⟨hfl, rfl, rfl, Or.inl rfl, rfl⟩
  · split
    · split
      · refine ⟨e1, by rw [e2, a2], by rw [e3, a3], ?_, by rw [e5, a7]⟩
        rcases e4 with h | h
        · exact Or.inl (by rw [h, a4])
        · exact Or.inr h
      · exact ⟨d1, d2, d3, d4, d5⟩
    · split
      · exact ⟨a1, a2, a3, Or.inl a4, a7⟩
      · exact ⟨hfl, rfl, rfl, Or.inl rfl, rfl⟩

/-- `hystart_update` leaves the lock bit, `delay_min` and `snd_cwnd` alone;
`curr_rtt` is unchanged or becomes the sample. -/
theorem hystart_update_effect (p : Params) (now clock : Nat) (s : sock) (d : Nat)
    (hfl : s.ca.flags < 256) :
    (hystart_update p now clock s d).ca.flags < 256 ∧
    has_bit (hystart_update p now clock s d).ca.flags LOLA_LOSS_SAMPLING_LOCKED
      = has_bit s.ca.flags LOLA_LOSS_SAMPLING_LOCKED ∧
    (hystart_update p now clock s d).ca.delay_min = s.ca.delay_min ∧
    ((hystart_update p now clock s d).ca.curr_rtt = s.ca.curr_rtt ∨
      (hystart_update p now clock s d).ca.curr_rtt = d) ∧
    (hystart_update p now clock s d).tp.snd_cwnd = s.tp.snd_cwnd := by
  unfold hystart_update
  by_cases h0 : s.ca.epoch_start = 0
  · rw [if_pos h0]
    exact hystart_detectors_effect p clock
      { s with ca := { s.ca with epoch_start := now } } d hfl
  · rw [if_neg h0]
    exact hystart_detectors_effect p clock s d hfl

/-- `lolatcp_acked` on a sample it does not discard (`rtt_us > 0` as an `s32`):
the lock bit is clear afterwards, `delay_min` is the sample if it was unset or
larger and unchanged otherwise, and `curr_rtt` is unchanged or the sample. -/
theorem acked_effect (p : Params) (now clock : Nat) (iss : Bool) (s : sock) (pk : Nat)
    (rtt_us : Int) (hfl : s.ca.flags < 256) (hpos : 0 < rtt_us)
    (hkeep : sample_discarded now iss s.ca = false) :
    (lolatcp_acked p now clock iss s pk rtt_us).ca.flags < 256 ∧
    has_bit (lolatcp_acked p now clock iss s pk rtt_us).ca.flags LOLA_LOSS_SAMPLING_LOCKED
      = false ∧
    (lolatcp_acked p now clock iss s pk rtt_us).ca.delay_min
      = (if s.ca.delay_min = 0 ∨ s.ca.delay_min > toU32 rtt_us then toU32 rtt_us
         else s.ca.delay_min) ∧
    ((lolatcp_acked p now clock iss s pk rtt_us).ca.curr_rtt = s.ca.curr_rtt ∨
      (lolatcp_acked p now clock iss s pk rtt_us).ca.curr_rtt = toU32 rtt_us) := by
  obtain ⟨t1, t2, t3, t4⟩ := take_sample_effect p s.ca pk (toU32 rtt_us) hfl
  obtain ⟨h1, h2, h3, h4, _⟩ := hystart_update_effect p now clock
    { s with ca := take_sample p s.ca pk (toU32 rtt_us) } (toU32 rtt_us) t1
  unfold lolatcp_acked
  rw [if_neg (not_le.mpr hpos), hkeep]
  simp only [Bool.false_eq_true, if_false]
  split
  · refine ⟨h1, by rw [h2]; exact t2, by rw [h3]; exact t3, ?_⟩
    rcases h4 with h | h
    · rcases t4 with g | g
      · exact Or.inl (by rw [h]; exact g)
      · exact Or.inr (by rw [h]; exact g)
    · exact Or.inr h
  · exact ⟨t1, t2, t3, t4⟩

/-- C32: `lolatcp_acked` returns with the whole state (so `delay_min`,
`curr_rtt`, `sample_cnt`, `flags`, `base_invalidation_count`, `epoch_start`)
unchanged when `rtt_us ≤ 0`, and also when `LOLA_LOSS_SAMPLING_LOCKED` is set,
the connection is not in slow start and either `epoch_start = 0` or
`now - epoch_start < delay_min / 1000` (the difference as the code takes it, as
a signed 32-bit value, which is the plain difference within `±2^31`). In every
other case with the lock set (`rtt_us` a positive `s32`, `flags` a `u8`) the
call clears `LOLA_LOSS_SAMPLING_LOCKED`, and afterwards `delay_min` is non-zero
and at most the sample. -/
theorem lola_acked_sample_filter (p : Params) (now clock : Nat) (in_slow_start : Bool)
    (s : sock) (pkts_acked : Nat) (rtt_us : Int) (hfl : s.ca.flags < 256) :
    (rtt_us ≤ 0 → lolatcp_acked p now clock in_slow_start s pkts_acked rtt_us = s) ∧
    (has_bit s.ca.flags LOLA_LOSS_SAMPLING_LOCKED = true → in_slow_start = false →
      (s.ca.epoch_start = 0 ∨
        toS32 ((now : Int) - s.ca.epoch_start) < ((s.ca.delay_min / 1000 : Nat) : Int)) →
      lolatcp_acked p now clock in_slow_start s pkts_acked rtt_us = s) ∧
    (has_bit s.ca.flags LOLA_LOSS_SAMPLING_LOCKED = true → 0 < rtt_us → rtt_us ≤ 2147483647 →
      ¬ (in_slow_start = false ∧ (s.ca.epoch_start = 0 ∨
        toS32 ((now : Int) - s.ca.epoch_start) < ((s.ca.delay_min / 1000 : Nat) : Int))) →
      has_bit (lolatcp_acked p now clock in_slow_start s pkts_acked rtt_us).ca.flags
        LOLA_LOSS_SAMPLING_LOCKED = false ∧
      (lolatcp_acked p now clock in_slow_start s pkts_acked rtt_us).ca.delay_min ≠ 0 ∧
      ((lolatcp_acked p now clock in_slow_start s pkts_acked rtt_us).ca.delay_min : Int)
        ≤ rtt_us) ∧
    (-2147483648 ≤ (now : Int) - s.ca.epoch_start → (now : Int) - s.ca.epoch_start < 2147483648 →
      toS32 ((now : Int) - s.ca.epoch_start) = (now : Int) - s.ca.epoch_start) := by
  refine ⟨fun h => ?_, fun hl hss hc => ?_, fun hl hpos hmax hn => ?_, fun h1 h2 => ?_⟩
  · unfold lolatcp_acked
    rw [if_pos h]
  · have hd : sample_discarded now in_slow_start s.ca = true := by
      unfold sample_discarded
      rw [hl, hss]
      simp only [Bool.not_false, Bool.true_and, Bool.and_true, Bool.or_eq_true,
        decide_eq_true_eq, USEC_PER_MSEC]
      exact hc
    unfold lolatcp_acked
    rw [hd]
    simp
  · have hd : sample_discarded now in_slow_start s.ca = false := by
      unfold sample_discarded
      rw [hl]
      cases in_slow_start
      · have h2 : ¬ (s.ca.epoch_start = 0 ∨
            toS32 ((now : Int) - s.ca.epoch_start) < ((s.ca.delay_min / 1000 : Nat) : Int)) :=
          fun h => hn ⟨rfl, h⟩
        simp only [Bool.not_false, Bool.true_and, Bool.and_true, USEC_PER_MSEC]
        rw [Bool.eq_false_iff]
        intro hh
        simp only [Bool.or_eq_true, decide_eq_true_eq] at hh
        exact h2 hh
      · simp
    obtain ⟨_, a2, a3, _⟩ := acked_effect p now clock in_slow_start s pkts_acked rtt_us hfl
      hpos hd
    have hu : (toU32 rtt_us : Int) = rtt_us := by
      simp only [toU32]
      omega
    refine ⟨a2, ?_, ?_⟩
    · rw [a3]
      split
      · omega
      · rename_i hc
        exact fun h0 => hc (Or.inl h0)
    · rw [a3]
      split
      · omega
      · rename_i hc
        have := not_or.mp hc
        omega
  · simp only [toS32]
    omega

/-- C32 on `lockedScenario` (epoch started at tick 900, `delay_min = 10000`
us): a sample at tick 905 is discarded, a sample of 12000 us at tick 1000 ends
the lock. -/
theorem lola_acked_sample_filter_witness :
    lolatcp_acked defaultParams 905 905 false lockedScenario 1 12000 = lockedScenario ∧
    has_bit (lolatcp_acked defaultParams 1000 1000 false lockedScenario 1 12000).ca.flags
      LOLA_LOSS_SAMPLING_LOCKED = false ∧
    (lolatcp_acked defaultParams 1000 1000 false lockedScenario 1 12000).ca.delay_min ≠ 0 := by
  have h1 := (lola_acked_sample_filter defaultParams 905 905 false lockedScenario 1 12000
    (by decide)).2.1 rfl rfl (Or.inr (by decide))
  have h2 := (lola_acked_sample_filter defaultParams 1000 1000 false lockedScenario 1 12000
    (by decide)).2.2.1 rfl (by decide) (by decide) (by decide)
  exact ⟨h1, h2.1, h2.2.1⟩

/-- The delay detector on fewer than `HYSTART_MIN_SAMPLES` samples: `curr_rtt`
becomes the sample if it was unset or larger, `sample_cnt` goes up by one, and
nothing else changes. -/
theorem delay_detect_sampling (p : Params) (s : sock) (delay : Nat)
    (h : s.ca.sample_cnt < 16) :
    delay_detect p s delay =
      { s with ca := { s.ca with
          curr_rtt := if s.ca.curr_rtt = 0 then delay else min s.ca.curr_rtt delay,
          sample_cnt := s.ca.sample_cnt + 1 } } := by
  have hm : (s.ca.sample_cnt + 1) % 4294967296 = s.ca.sample_cnt + 1 := by omega
  unfold delay_detect
  rw [if_pos (by simpa [HYSTART_MIN_SAMPLES] using h)]
  by_cases h0 : s.ca.curr_rtt = 0
  · simp only [h0, true_or, if_true, hm]
  · by_cases h1 : s.ca.curr_rtt > delay
    · have : min s.ca.curr_rtt delay = delay := by omega
      simp only [h0, h1, false_or, if_true, if_false, hm, this]
    · have : min s.ca.curr_rtt delay = s.ca.curr_rtt := by omega
      simp only [h0, h1, false_or, if_false, hm, this]

/-- The delay detector with enough samples and `curr_rtt` above
`delay_min + lola_slow_start_exit` (computed in 32 bits): the threshold
becomes the window, which stays. -/
theorem delay_detect_exit (p : Params) (s : sock) (delay : Nat)
    (h : 16 ≤ s.ca.sample_cnt)
    (hx : s.ca.curr_rtt > (s.ca.delay_min + toU32 p.lola_slow_start_exit) % 4294967296) :
    (delay_detect p s delay).tp.snd_ssthresh = s.tp.snd_cwnd ∧
    (delay_detect p s delay).tp.snd_cwnd = s.tp.snd_cwnd := by
  unfold delay_detect
  rw [if_neg (by simpa [HYSTART_MIN_SAMPLES] using h), if_pos hx]
  exact ⟨rfl, rfl⟩

/-- What lines 879-906 of `lolatcp_acked` do with the two delay fields, for
any `flags`: `delay_min` is the sample if it was unset or larger and unchanged
otherwise, and `curr_rtt` is unchanged or the sample. -/
theorem take_sample_delays (p : Params) (ca : lolatcp) (pk d : Nat) :
    (take_sample p ca pk d).delay_min
      = (if ca.delay_min = 0 ∨ ca.delay_min > d then d else ca.delay_min) ∧
    ((take_sample p ca pk d).curr_rtt = ca.curr_rtt ∨ (take_sample p ca pk d).curr_rtt = d) := by
  have u : (unlock_sampling ca).delay_min = ca.delay_min ∧
      (unlock_sampling ca).curr_rtt = ca.curr_rtt := by
    unfold unlock_sampling
    split <;> exact ⟨rfl, rfl⟩
  obtain ⟨_, r2, r3⟩ := record_rtt_effect p (unlock_sampling ca) pk d
  have b : ∀ c : lolatcp, (record_base p c d).delay_min
      = (if c.delay_min = 0 ∨ c.delay_min > d then d else c.delay_min) ∧
      (record_base p c d).curr_rtt = c.curr_rtt := by
    intro c
    unfold record_base
    simp only
    split
    · split <;> exact ⟨rfl, rfl⟩
    · exact ⟨rfl, rfl⟩
  obtain ⟨b3, b4⟩ := b (record_rtt p (unlock_sampling ca) pk d)
  obtain ⟨_, i2, i3⟩ := reset_invalidation_effect p
    (record_base p (record_rtt p (unlock_sampling ca) pk d) d) d
  unfold take_sample
  refine ⟨by rw [i2, b3, r2, u.1], ?_⟩
  rw [i3, b4]
  rcases r3 with h | h
  · exact Or.inl (by rw [h, u.2])
  · exact Or.inr h

/-- What `hystart_update` does with the two delay fields, for any `flags`:
`delay_min` stays and `curr_rtt` is unchanged or becomes the sample. -/
theorem hystart_update_delays (p : Params) (now clock : Nat) (s : sock) (d : Nat) :
    (hystart_update p now clock s d).ca.delay_min = s.ca.delay_min ∧
    ((hystart_update p now clock s d).ca.curr_rtt = s.ca.curr_rtt ∨
      (hystart_update p now clock s d).ca.curr_rtt = d) := by
  have a : ∀ t : sock, (ack_train_detect p clock t).ca.delay_min = t.ca.delay_min ∧
      (ack_train_detect p clock t).ca.curr_rtt = t.ca.curr_rtt := by
    intro t
    unfold ack_train_detect
    simp only
    split
    · split <;> exact ⟨rfl, rfl⟩
    · exact ⟨rfl, rfl⟩
  have dd : ∀ t : sock, (delay_detect p t d).ca.delay_min = t.ca.delay_min ∧
      ((delay_detect p t d).ca.curr_rtt = t.ca.curr_rtt ∨
        (delay_detect p t d).ca.curr_rtt = d) := by
    intro t
    unfold delay_detect
    simp only
    split
    · split
      · exact ⟨rfl, Or.inr rfl⟩
      · exact ⟨rfl, Or.inl rfl⟩
    · split
      · split <;> exact ⟨rfl, Or.inl rfl⟩
      · exact ⟨rfl, Or.inl rfl⟩
  have hd : ∀ t : sock, (hystart_detectors p clock t d).ca.delay_min = t.ca.delay_min ∧
      ((hystart_detectors p clock t d).ca.curr_rtt = t.ca.curr_rtt ∨
        (hystart_detectors p clock t d).ca.curr_rtt = d) := by
    intro t
    obtain ⟨a1, a2⟩ := a t
    obtain ⟨d1, d2⟩ := dd t
    obtain ⟨e1, e2⟩ := dd (ack_train_detect p clock t)
    unfold hystart_detectors
    simp only
    split
    · exact ⟨rfl, Or.inl rfl⟩
    · split
      · split
        · refine ⟨by rw [e1, a1], ?_⟩
          rcases e2 with h | h
          · exact Or.inl (by rw [h, a2])
          · exact Or.inr h
        · exact ⟨d1, d2⟩
      · split
        · exact ⟨a1, Or.inl a2⟩
        · exact ⟨rfl, Or.inl rfl⟩
  unfold hystart_update
  split
  · exact hd _
  · exact hd _

/-- What `lolatcp_acked` does with the two delay fields: nothing, or the sample
(positive) becomes `delay_min` if that was unset or larger, and `curr_rtt` is
unchanged or the sample. -/
theorem acked_delays (p : Params) (now clock : Nat) (iss : Bool) (s : sock) (pk : Nat)
    (rtt_us : Int) :
    lolatcp_acked p now clock iss s pk rtt_us = s ∨
    (0 < rtt_us ∧
      (lolatcp_acked p now clock iss s pk rtt_us).ca.delay_min
        = (if s.ca.delay_min = 0 ∨ s.ca.delay_min > toU32 rtt_us then toU32 rtt_us
           else s.ca.delay_min) ∧
      ((lolatcp_acked p now clock iss s pk rtt_us).ca.curr_rtt = s.ca.curr_rtt ∨
        (lolatcp_acked p now clock iss s pk rtt_us).ca.curr_rtt = toU32 rtt_us)) := by
  obtain ⟨t3, t4⟩ := take_sample_delays p s.ca pk (toU32 rtt_us)
  obtain ⟨h3, h4⟩ := hystart_update_delays p now clock
    { s with ca := take_sample p s.ca pk (toU32 rtt_us) } (toU32 rtt_us)
  unfold lolatcp_acked
  split
  · exact Or.inl rfl
  · rename_i hpos
    split
    · exact Or.inl rfl
    · refine Or.inr ⟨not_le.mp hpos, ?_⟩
      simp only
      split
      · refine ⟨by rw [h3]; exact t3, ?_⟩
        rcases h4 with h | h
        · rcases t4 with g | g
          · exact Or.inl (by rw [h]; exact g)
          · exact Or.inr (by rw [h]; exact g)
        · exact Or.inr h
      · exact ⟨t3, t4⟩

/-- Lines 426-545 close the measurement interval (`curr_rtt = 0` afterwards)
or, on entering the hold, leave `curr_rtt` and `delay_min` as they were. -/
theorem decongest_delays (p : Params) (k : Kernel) (now : Nat) (tp : tcp_sock) (ca : lolatcp)
    (qd : Nat) (r : Outcome × sock) (h : decongest p k now tp ca qd = Except.ok r) :
    r.2.ca.curr_rtt = 0 ∨ (r.2.ca.curr_rtt = ca.curr_rtt ∧ r.2.ca.delay_min = ca.delay_min) := by
  by_cases hheld : mode_has p LOLA_DO_PRECAUTIONARY_DECONGESTION = true ∧
      (qd > toU32 p.lola_queue_max ∨
        has_bit ca.flags (LOLA_IN_CWND_HOLD ||| LOLA_BASE_REDUCED ||| HYSTART_DELAY) = true) ∧
      mode_has p LOLA_DO_CWND_HOLD = true ∧
      ¬ has_bit (clear_bits ca.flags LOLA_IN_FAIR_FLOW_BALANCING)
        (LOLA_IN_CWND_HOLD ||| LOLA_BASE_REDUCED ||| HYSTART_DELAY) = true
  · obtain ⟨h1, h2, h3, h4⟩ := hheld
    have e : ∃ (fl : Nat) (c : Int), decongest p k now tp ca qd = Except.ok (Outcome.held,
        { tp := tp, ca := { ca with flags := fl, cnt := c, epoch_start := now } }) := by
      refine ⟨(set_bits (clear_bits ca.flags LOLA_IN_FAIR_FLOW_BALANCING) LOLA_IN_CWND_HOLD
            ^^^ (set_bits (clear_bits ca.flags LOLA_IN_FAIR_FLOW_BALANCING) LOLA_IN_CWND_HOLD
              &&& LOLA_IN_FAIR_FLOW_BALANCING)) % 256, toS32 (100 * tp.snd_cwnd), ?_⟩
      unfold decongest
      rw [if_pos h2]
      simp only [h1, h3, h4, if_true, true_and, not_false_eq_true]
      rfl
    obtain ⟨fl, c, e⟩ := e
    rw [e] at h
    injection h with h
    rw [← h]
    exact Or.inr ⟨rfl, rfl⟩
  · left
    unfold decongest at h
    simp only at h
    split at h
    · split at h
      · split at h
        · rename_i a1 a2 a3
          exact absurd ⟨a2, a1, a3.1, a3.2⟩ hheld
        · simp only [bind, Except.bind] at h
          split at h
          · exact absurd h (by simp)
          · injection h with h
            rw [← h]
            rfl
      · injection h with h
        rw [← h]
        rfl
    · injection h with h
      rw [← h]
      rfl

/-- An evaluation of `lolatcp_precautionary_decongestion` closes the
measurement interval (`curr_rtt = 0` afterwards) or leaves `curr_rtt` and
`delay_min` as they were. -/
theorem decongestion_delays (p : Params) (k : Kernel) (now : Nat) (s s1 : sock)
    (h : lolatcp_precautionary_decongestion p k now s = Except.ok s1) :
    s1.ca.curr_rtt = 0 ∨ (s1.ca.curr_rtt = s.ca.curr_rtt ∧ s1.ca.delay_min = s.ca.delay_min) := by
  rw [decongestion_of_step] at h
  cases hr : precautionary_step p k now s with
  | error e =>
    rw [hr] at h
    exact absurd h (by simp [Except.map])
  | ok r =>
    rw [hr] at h
    have h1 : r.2 = s1 := by
      simp only [Except.map] at h
      injection h
    rw [← h1]
    clear h h1
    unfold precautionary_step at hr
    split at hr
    · simp only at hr
      obtain ⟨_, _, e3, e4, _⟩ := enter_balancing_fields p now s.ca
        (toU32 ((s.ca.curr_rtt : Int) - s.ca.delay_min))
      generalize enter_balancing p now s.ca (toU32 ((s.ca.curr_rtt : Int) - s.ca.delay_min)) = ca0
        at hr e3 e4
      generalize toU32 ((s.ca.curr_rtt : Int) - s.ca.delay_min) = qd at hr
      cases hb : balancing p now s.tp ca0 qd with
      | error e =>
        rw [hb] at hr
        exact absurd hr (by simp [bind, Except.bind])
      | ok ca1 =>
        rw [hb] at hr
        obtain ⟨c, hc⟩ := balancing_fields p now s.tp ca0 ca1 qd hb
        have g3 : ca1.delay_min = s.ca.delay_min := by rw [hc]; exact e3
        have g4 : ca1.curr_rtt = s.ca.curr_rtt := by rw [hc]; exact e4
        have hd : decongest p k now s.tp ca1 qd = Except.ok r := hr
        rcases decongest_delays p k now s.tp ca1 qd r hd with g | ⟨ga, gb⟩
        · exact Or.inl g
        · exact Or.inr ⟨by rw [ga, g4], by rw [gb, g3]⟩
    · injection hr with hr
      rw [← hr]
      exact Or.inr ⟨rfl, rfl⟩

/-- The invariant behind `queue_delay`: `curr_rtt` is a `u32`, and when it is
set, `delay_min` is set and not above it. -/
theorem reachable_delays (p : Params) (k : Kernel) (s : sock) (h : Reachable p k s) :
    s.ca.curr_rtt < 4294967296 ∧
    (s.ca.curr_rtt ≠ 0 → s.ca.delay_min ≠ 0 ∧ s.ca.delay_min ≤ s.ca.curr_rtt) := by
  induction h with
  | init clock id s =>
    have e : (lolatcp_init p clock id s).ca.curr_rtt = 0 := by
      unfold lolatcp_init
      simp only
      split <;> split <;> rfl
    rw [e]
    exact ⟨by omega, fun h => absurd rfl h⟩
  | transport s tp _ ih => exact ih
  | acked s now clock iss pk rtt_us _ hmax ih =>
    rcases acked_delays p now clock iss s pk rtt_us with e | ⟨hpos, e1, e2⟩
    · rw [e]
      exact ih
    · have hu : (toU32 rtt_us : Int) = rtt_us := by
        simp only [toU32]
        omega
      have hlt : toU32 rtt_us < 4294967296 := by omega
      have hne : toU32 rtt_us ≠ 0 := by omega
      rw [e1]
      rcases e2 with e2 | e2
      · rw [e2]
        refine ⟨ih.1, fun hc => ?_⟩
        obtain ⟨i1, i2⟩ := ih.2 hc
        split
        · rename_i hcase
          exact ⟨hne, by omega⟩
        · exact ⟨i1, i2⟩
      · rw [e2]
        refine ⟨hlt, fun _ => ?_⟩
        split
        · exact ⟨hne, le_refl _⟩
        · rename_i hcase
          have := not_or.mp hcase
          exact ⟨this.1, by omega⟩
  | decongestion s s1 now _ hstep ih =>
    rcases decongestion_delays p k now s s1 hstep with e | ⟨e1, e2⟩
    · rw [e]
      exact ⟨by omega, fun h => absurd rfl h⟩
    · rw [e1, e2]
      exact ih
  | recalc_ssthresh s _ _ =>
    have e : (bictcp_recalc_ssthresh p s).2.ca.curr_rtt = 0 := by
      unfold bictcp_recalc_ssthresh
      simp only
    rw [e]
    exact ⟨by omega, fun h => absurd rfl h⟩
  | undo_cwnd s now _ ih =>
    have e : (bictcp_undo_cwnd now s).2.ca.curr_rtt = s.ca.curr_rtt ∧
        (bictcp_undo_cwnd now s).2.ca.delay_min = s.ca.delay_min := by
      unfold bictcp_undo_cwnd
      simp only
      split <;> exact ⟨rfl, rfl⟩
    rw [e.1, e.2]
    exact ih
  | hystart_reset s clock _ _ =>
    have e : (bictcp_hystart_reset clock s).ca.curr_rtt = 0 := rfl
    rw [e]
    exact ⟨by omega, fun h => absurd rfl h⟩

/-- C38: in every state reachable from `lolatcp_init` by `lolatcp_acked`
(which runs `hystart_update`), `lolatcp_precautionary_decongestion`,
`bictcp_recalc_ssthresh`, `bictcp_undo_cwnd` and `bictcp_hystart_reset`,
`curr_rtt != 0` and `delay_min != 0` give `delay_min <= curr_rtt`; so the
`u32` difference `queue_delay = curr_rtt - delay_min` of line 357, computed
when the entry test passes, is the true difference and does not wrap. -/
theorem lola_queue_delay_never_wraps (p : Params) (k : Kernel) (s : sock)
    (h : Reachable p k s) :
    (s.ca.curr_rtt ≠ 0 → s.ca.delay_min ≠ 0 → s.ca.delay_min ≤ s.ca.curr_rtt) ∧
    (∀ now : Nat, gate_open p k now s = true →
      s.ca.delay_min ≤ s.ca.curr_rtt ∧
      ((toU32 ((s.ca.curr_rtt : Int) - s.ca.delay_min) : Nat) : Int)
        = (s.ca.curr_rtt : Int) - s.ca.delay_min) := by
  obtain ⟨h1, h2⟩ := reachable_delays p k s h
  refine ⟨fun hc _ => (h2 hc).2, fun now hg => ?_⟩
  have hc : s.ca.curr_rtt ≠ 0 := by
    unfold gate_open at hg
    simp only [Bool.and_eq_true, decide_eq_true_eq] at hg
    exact hg.1.2
  have hle := (h2 hc).2
  refine ⟨hle, ?_⟩
  simp only [toU32]
  omega

/-- C38 on a connection that has seen two samples, 12000 us and then
15000 us: `delay_min = 12000 <= curr_rtt`. -/
theorem lola_queue_delay_never_wraps_witness :
    (lolatcp_acked defaultParams 6 6 false
      (lolatcp_acked defaultParams 5 5 false (lolatcp_init defaultParams 0 0 defaultScenario)
        1 12000) 1 15000).ca.delay_min
      ≤ (lolatcp_acked defaultParams 6 6 false
      (lolatcp_acked defaultParams 5 5 false (lolatcp_init defaultParams 0 0 defaultScenario)
        1 12000) 1 15000).ca.curr_rtt :=
  (lola_queue_delay_never_wraps defaultParams kernelHz1000 _
    (Reachable.acked _ 6 6 false 1 15000
      (Reachable.acked _ 5 5 false 1 12000 (Reachable.init 0 0 defaultScenario) (by decide))
      (by decide))).1 (by decide) (by decide)

/-- C5 (counterexample). With the module parameter `beta = -1` and a window of
2 packets the product `snd_cwnd * beta = -2` overflows nothing and
`max(floor(-2 / 1024), 2) = 2`, with `snd_cwnd ≥ 2` and `beta ≤ 1024`; but the
C multiplication of line 776 is unsigned and `bictcp_recalc_ssthresh` returns
`4194303`, which exceeds `snd_cwnd`. -/
theorem bictcp_recalc_ssthresh_negative_beta :
    twoPacketWindow.tp.snd_cwnd = 2 ∧ negativeBetaParams.beta = -1 ∧
    negativeBetaParams.beta ≤ 1024 ∧
    max ((twoPacketWindow.tp.snd_cwnd : Int) * negativeBetaParams.beta / BICTCP_BETA_SCALE) 2 = 2 ∧
    (bictcp_recalc_ssthresh negativeBetaParams twoPacketWindow).1 = 4194303 ∧
    ¬ ((bictcp_recalc_ssthresh negativeBetaParams twoPacketWindow).1
        ≤ twoPacketWindow.tp.snd_cwnd) := by
  refine ⟨rfl, rfl, by decide, by decide, rfl, by decide⟩

/-- C5 (amended). For every module parameter `beta`,
`bictcp_recalc_ssthresh` returns a value `≥ 2` and leaves the transport block,
hence `snd_cwnd`, as it was; and for `beta ≥ 0`: when `snd_cwnd * beta` does
not overflow 32 bits the value is
`max(floor(snd_cwnd * beta / BICTCP_BETA_SCALE), 2)`, and when `snd_cwnd ≥ 2`
and `beta ≤ 1024` it does not exceed `snd_cwnd`. -/
theorem bictcp_recalc_ssthresh_amended (p : Params) (s : sock) :
    2 ≤ (bictcp_recalc_ssthresh p s).1 ∧
    (bictcp_recalc_ssthresh p s).2.tp = s.tp ∧
    (0 ≤ p.beta → (s.tp.snd_cwnd : Int) * p.beta < 4294967296 →
      ((bictcp_recalc_ssthresh p s).1 : Int)
        = max ((s.tp.snd_cwnd : Int) * p.beta / BICTCP_BETA_SCALE) 2) ∧
    (0 ≤ p.beta → 2 ≤ s.tp.snd_cwnd → p.beta ≤ 1024 →
      (bictcp_recalc_ssthresh p s).1 ≤ s.tp.snd_cwnd) := by
  obtain ⟨h1, h2, h3, h4, _⟩ := recalc_ssthresh_unsigned p s
  refine ⟨h1, h2, fun hb hlt => ?_, fun hb hw hle => ?_⟩
  · by_cases hz : s.tp.snd_cwnd = 0
    · have e := h3 (by rw [hz]; simp)
      rw [e, hz]
      simp [BICTCP_BETA_SCALE]
    · have hpos : (1 : Int) ≤ s.tp.snd_cwnd := by omega
      have hbl : p.beta < 4294967296 := by nlinarith
      have hu : (toU32 p.beta : Int) = p.beta := by
        simp only [toU32]
        omega
      have hnat : s.tp.snd_cwnd * toU32 p.beta < 4294967296 := by
        have : ((s.tp.snd_cwnd * toU32 p.beta : Nat) : Int) < 4294967296 := by
          rw [Nat.cast_mul, hu]
          exact hlt
        exact_mod_cast this
      rw [h3 hnat]
      push_cast [hu]
      rfl
  · apply h4 hw
    simp only [toU32]
    omega

/-- Witness for C5 (amended): the default `beta = 717` at window 8, which
gives 5. -/
theorem bictcp_recalc_ssthresh_amended_witness :
    ((bictcp_recalc_ssthresh defaultParams holdSmallWindow).1 : Int)
      = max ((8 : Int) * 717 / 1024) 2 ∧
    (bictcp_recalc_ssthresh defaultParams holdSmallWindow).1 ≤ 8 := by
  have h := bictcp_recalc_ssthresh_amended defaultParams holdSmallWindow
  exact ⟨h.2.2.1 (by decide) (by decide), h.2.2.2 (by decide) (by decide) (by decide)⟩

/-- The connection of `firstSamples` is reachable: `lolatcp_init`, then one
`lolatcp_acked`. -/
theorem firstSamples_reachable (p : Params) (k : Kernel) (w : Nat) (rtt : Int)
    (h : rtt ≤ 2147483647) : Reachable p k (firstSamples p w rtt) :=
  Reachable.acked _ 5 5 false 20 rtt (Reachable.init 1 0 (freshSocket w)) h

/-- The `u64` value of lines 474-481 is at most the prior window when
`gamma ≤ 1024` and `delay_min ≤ curr_rtt`. -/
theorem reduced_quotient_le (W dmin rtt G : Nat) (hr : rtt ≠ 0) (hd : dmin ≤ rtt)
    (hG : G ≤ 1024) :
    (((W * dmin) % 18446744073709551616) * G) % 18446744073709551616 / rtt / 1024 ≤ W := by
  have hP : (((W * dmin) % 18446744073709551616) * G) % 18446744073709551616
      ≤ W * 1024 * rtt := by
    refine le_trans (Nat.mod_le _ _) ?_
    refine le_trans (Nat.mul_le_mul (Nat.mod_le _ _) hG) ?_
    rw [Nat.mul_right_comm]
    exact Nat.mul_le_mul_left _ hd
  have h1 : (((W * dmin) % 18446744073709551616) * G) % 18446744073709551616 / rtt
      ≤ W * 1024 := by
    refine le_trans (Nat.div_le_div_right hP) ?_
    rw [Nat.mul_div_cancel _ (Nat.pos_of_ne_zero hr)]
  refine le_trans (Nat.div_le_div_right h1) ?_
  rw [Nat.mul_div_cancel _ (by norm_num)]

/-- C6 (counterexample). With the default parameters, at the end of a hold
with prior window 8, `delay_min = 10000` and `curr_rtt = 20000`, the reduction
computes 3, the floor `lola_cwnd_min = 5` binds, and
`5 * 20000 > 8 * 10000 * 927 / 1024 + 1`; likewise on the first evaluation of a
connection with window 5 and `delay_min = curr_rtt = 10000`, where
`5 * 10000 > 5 * 10000 * 927 / 1024 + 1`. With the module parameter
`lola_gamma = 4096`, the first evaluation of a connection with a window of
`2^30` packets and `delay_min = curr_rtt = 10000` computes `2^32` and
stores 0, below `lola_cwnd_min = 5`. With `lola_gamma = -1`, the first
evaluation at window 100 stores 1848553924, while
`100 * 10000 * gamma / 1024 + 1` is negative. -/
theorem precautionary_reduction_bound_fails :
    (precautionary_step defaultParams kernelHz1000 1300 holdSmallWindow).map
      (fun r => (r.1, r.2.tp.snd_cwnd)) = Except.ok (Outcome.reduced, 5) ∧
    ¬ (5 * 20000 ≤ 8 * 10000 * 927 / 1024 + 1) ∧
    Reachable defaultParams kernelHz1000 (firstSamples defaultParams 5 10000) ∧
    ((firstSamples defaultParams 5 10000).tp.snd_cwnd,
      (firstSamples defaultParams 5 10000).ca.delay_min,
      (firstSamples defaultParams 5 10000).ca.curr_rtt) = (5, 10000, 10000) ∧
    (precautionary_step defaultParams kernelHz1000 10 (firstSamples defaultParams 5 10000)).map
      (fun r => (r.1, r.2.tp.snd_cwnd)) = Except.ok (Outcome.reduced, 5) ∧
    ¬ (5 * 10000 ≤ 5 * 10000 * 927 / 1024 + 1) ∧
    Reachable wideGammaParams kernelHz1000 (firstSamples wideGammaParams 1073741824 10000) ∧
    ((firstSamples wideGammaParams 1073741824 10000).tp.snd_cwnd,
      (firstSamples wideGammaParams 1073741824 10000).ca.delay_min,
      (firstSamples wideGammaParams 1073741824 10000).ca.curr_rtt)
      = (1073741824, 10000, 10000) ∧
    (precautionary_step wideGammaParams kernelHz1000 10
      (firstSamples wideGammaParams 1073741824 10000)).map
      (fun r => (r.1, r.2.tp.snd_cwnd)) = Except.ok (Outcome.reduced, 0) ∧
    ¬ (wideGammaParams.lola_cwnd_min ≤ 0) ∧
    Reachable negativeGammaParams kernelHz1000 (firstSamples negativeGammaParams 100 10000) ∧
    ((firstSamples negativeGammaParams 100 10000).tp.snd_cwnd,
      (firstSamples negativeGammaParams 100 10000).ca.delay_min,
      (firstSamples negativeGammaParams 100 10000).ca.curr_rtt) = (100, 10000, 10000) ∧
    (precautionary_step negativeGammaParams kernelHz1000 10
      (firstSamples negativeGammaParams 100 10000)).map
      (fun r => (r.1, r.2.tp.snd_cwnd)) = Except.ok (Outcome.reduced, 1848553924) ∧
    ¬ ((1848553924 : Int) * 10000
        ≤ 100 * 10000 * negativeGammaParams.lola_gamma / 1024 + 1) := by
  refine ⟨rfl, by decide, firstSamples_reachable _ _ _ _ (by decide), rfl, rfl, by decide,
    firstSamples_reachable _ _ _ _ (by decide), rfl, rfl, by decide,
    firstSamples_reachable _ _ _ _ (by decide), rfl, rfl, by decide⟩

/-- C6 (amended). After a precautionary reduction from `prior_cwnd` with a
module parameter `lola_gamma ≥ 0`, `curr_rtt ≠ 0`, and with `q` the value that
lines 474-481 compute in `u64` before the floor is applied
(`floor(floor((prior_cwnd * delay_min * gamma mod 2^64) / curr_rtt) / 1024)`;
line 508 stores the low 32 bits of `max(lola_cwnd_min, q)`): when
`lola_gamma ≤ 1024` and the prior window is a `u32`, on every reachable state
(and on every state with `delay_min ≤ curr_rtt`), `q` is at most the prior
window and `snd_cwnd ≥ lola_cwnd_min`; and when the floor does not bind
(`lola_cwnd_min ≤ q`),
`snd_cwnd * curr_rtt ≤ prior_cwnd * delay_min * gamma / 1024 (+ 1)`. -/
theorem precautionary_reduction_bounds_amended (p : Params) (k : Kernel) (now : Nat)
    (s s1 : sock) (hg : 0 ≤ p.lola_gamma)
    (hrun : precautionary_step p k now s = Except.ok (Outcome.reduced, s1)) :
    ∃ q, q = (((s.tp.snd_cwnd * s.ca.delay_min) % 18446744073709551616)
              * toU64 p.lola_gamma) % 18446744073709551616
              / s.ca.curr_rtt / LOLA_TCP_PARAMETER_SCALE ∧
      s.ca.curr_rtt ≠ 0 ∧
      s1.tp.snd_cwnd = max (toU64 p.lola_cwnd_min) q % 4294967296 ∧
      (p.lola_gamma ≤ 1024 → s.tp.snd_cwnd < 4294967296 → p.lola_cwnd_min ≤ 2147483647 →
        (Reachable p k s ∨ s.ca.delay_min ≤ s.ca.curr_rtt) →
        q ≤ s.tp.snd_cwnd ∧ p.lola_cwnd_min ≤ (s1.tp.snd_cwnd : Int)) ∧
      (toU64 p.lola_cwnd_min ≤ q →
        s1.tp.snd_cwnd * s.ca.curr_rtt
          ≤ s.tp.snd_cwnd * s.ca.delay_min * p.lola_gamma.toNat / 1024 ∧
        s1.tp.snd_cwnd * s.ca.curr_rtt
          ≤ s.tp.snd_cwnd * s.ca.delay_min * p.lola_gamma.toNat / 1024 + 1) := by
  obtain ⟨w, hw, hcw⟩ := precautionary_step_reduced p k now s s1 hrun
  obtain ⟨hr, hwv⟩ := reduced_cwnd_value p _ _ _ w hw
  refine ⟨_, rfl, hr, by rw [hcw, hwv], ?_, ?_⟩
  · intro hg1 hW hm hd0
    have hd : s.ca.delay_min ≤ s.ca.curr_rtt := by
      rcases hd0 with h | h
      · exact ((reachable_delays p k s h).2 hr).2
      · exact h
    have hG : toU64 p.lola_gamma ≤ 1024 := by
      simp only [toU64]; omega
    have hq := reduced_quotient_le s.tp.snd_cwnd s.ca.delay_min s.ca.curr_rtt
      (toU64 p.lola_gamma) hr hd hG
    refine ⟨hq, ?_⟩
    rw [hcw, hwv]
    change _ ≤ ((max (toU64 p.lola_cwnd_min) ((((s.tp.snd_cwnd * s.ca.delay_min)
      % 18446744073709551616) * toU64 p.lola_gamma) % 18446744073709551616
      / s.ca.curr_rtt / 1024) % 4294967296 : Nat) : Int)
    generalize (((s.tp.snd_cwnd * s.ca.delay_min) % 18446744073709551616)
      * toU64 p.lola_gamma) % 18446744073709551616 / s.ca.curr_rtt / 1024 = q at hq ⊢
    by_cases hneg : p.lola_cwnd_min < 0
    · omega
    · have hc : (toU64 p.lola_cwnd_min : Int) = p.lola_cwnd_min := by
        simp only [toU64]; omega
      have hle := le_max_left (toU64 p.lola_cwnd_min) q
      have hlt : max (toU64 p.lola_cwnd_min) q < 4294967296 := by
        apply max_lt <;> omega
      rw [Nat.mod_eq_of_lt hlt]
      omega
  · intro hfloor
    have hmax : max (toU64 p.lola_cwnd_min) ((((s.tp.snd_cwnd * s.ca.delay_min)
        % 18446744073709551616) * toU64 p.lola_gamma) % 18446744073709551616
        / s.ca.curr_rtt / LOLA_TCP_PARAMETER_SCALE) = (((s.tp.snd_cwnd * s.ca.delay_min)
        % 18446744073709551616) * toU64 p.lola_gamma) % 18446744073709551616
        / s.ca.curr_rtt / LOLA_TCP_PARAMETER_SCALE := max_eq_right hfloor
    have hval : s1.tp.snd_cwnd ≤ (((s.tp.snd_cwnd * s.ca.delay_min)
        % 18446744073709551616) * toU64 p.lola_gamma) % 18446744073709551616
        / s.ca.curr_rtt / LOLA_TCP_PARAMETER_SCALE := by
      rw [hcw, hwv, hmax]
      exact Nat.mod_le _ _
    have hgam : toU64 p.lola_gamma ≤ p.lola_gamma.toNat := by
      simp only [toU64]; omega
    have hprod : (((s.tp.snd_cwnd * s.ca.delay_min) % 18446744073709551616)
        * toU64 p.lola_gamma) % 18446744073709551616
        ≤ s.tp.snd_cwnd * s.ca.delay_min * p.lola_gamma.toNat := by
      refine le_trans (Nat.mod_le _ _) ?_
      exact Nat.mul_le_mul (Nat.mod_le _ _) hgam
    have hstep : s1.tp.snd_cwnd * s.ca.curr_rtt
        ≤ s.tp.snd_cwnd * s.ca.delay_min * p.lola_gamma.toNat / 1024 := by
      refine le_trans (Nat.mul_le_mul_right _ hval) ?_
      refine le_trans (div_div_mul_le _ _) ?_
      exact Nat.div_le_div_right hprod
    exact ⟨hstep, le_trans hstep (Nat.le_succ _)⟩

/-- Witness for C6 (amended): the first evaluation of a connection with the
default parameters, window 100 and `delay_min = curr_rtt = 10000`, which
reduces the window to 90. -/
theorem precautionary_reduction_bounds_amended_witness :
    ∃ s1, precautionary_step defaultParams kernelHz1000 10 (firstSamples defaultParams 100 10000)
        = Except.ok (Outcome.reduced, s1) ∧
      s1.tp.snd_cwnd = 90 ∧ (5 : Int) ≤ s1.tp.snd_cwnd ∧
      s1.tp.snd_cwnd * 10000 ≤ 100 * 10000 * 927 / 1024 + 1 := by
  have hrun : precautionary_step defaultParams kernelHz1000 10
        (firstSamples defaultParams 100 10000)
      = Except.ok (Outcome.reduced,
          ((precautionary_step defaultParams kernelHz1000 10
            (firstSamples defaultParams 100 10000)).toOption.getD
            (Outcome.skipped, freshSocket 0)).2) := rfl
  obtain ⟨q, hq, _, hcw, hlow, hb⟩ :=
    precautionary_reduction_bounds_amended defaultParams kernelHz1000 10 _ _ (by decide) hrun
  have hq90 : q = 90 := by rw [hq]; rfl
  refine ⟨_, hrun, rfl, ?_, ?_⟩
  · exact (hlow (by decide) (by decide) (by decide)
      (Or.inl (firstSamples_reachable _ _ _ _ (by decide)))).2
  · exact (hb (by rw [hq90]; decide)).2

/-- C28 (counterexample). In the default scenario with `HYSTART_DELAY` set
(hold enabled, `LOLA_IN_CWND_HOLD` clear, queuing delay 10000 > 5000) the
evaluation does not start a hold: it reduces the window from 100 to 45 and
leaves `LOLA_IN_CWND_HOLD` clear and `epoch_start = 0`. With a window of
30000000 packets the hold is started but the `s32` counter `cnt` holds the
wrapped value `-1294967296`, not `100 * snd_cwnd`. And with the module
parameter `lola_fair_flow_balancing_curve_factor = 0` the evaluation of the
default scenario (same conditions, no flag set) enters fair flow balancing
first and `lola_get_target` divides by `curve_factor^3 = 0`: the call does not
return. -/
theorem lola_hold_entry_fails :
    mode_has defaultParams LOLA_DO_CWND_HOLD = true ∧
    has_bit afterSlowStartExit.ca.flags LOLA_IN_CWND_HOLD = false ∧
    toU32 ((afterSlowStartExit.ca.curr_rtt : Int) - afterSlowStartExit.ca.delay_min)
      > toU32 defaultParams.lola_queue_max ∧
    gate_open defaultParams kernelHz1000 1100 afterSlowStartExit = true ∧
    (lolatcp_precautionary_decongestion defaultParams kernelHz1000 1100 afterSlowStartExit).map
      (fun s1 => (s1.tp.snd_cwnd, has_bit s1.ca.flags LOLA_IN_CWND_HOLD, s1.ca.epoch_start))
      = Except.ok (45, false, 0) ∧
    (lolatcp_precautionary_decongestion defaultParams kernelHz1000 1100 hugeWindowScenario).map
      (fun s1 => (has_bit s1.ca.flags LOLA_IN_CWND_HOLD, s1.ca.cnt))
      = Except.ok (true, -1294967296) ∧
    (-1294967296 : Int) ≠ 100 * 30000000 ∧
    mode_has zeroCurveParams LOLA_DO_CWND_HOLD = true ∧
    defaultScenario.ca.flags = 0 ∧
    toU32 ((defaultScenario.ca.curr_rtt : Int) - defaultScenario.ca.delay_min)
      > toU32 zeroCurveParams.lola_queue_max ∧
    gate_open zeroCurveParams kernelHz1000 1100 defaultScenario = true ∧
    (lolatcp_precautionary_decongestion zeroCurveParams kernelHz1000 1100 defaultScenario).map
      (fun s1 => s1.tp.snd_cwnd) = Except.error Fault.divByZero := by
  refine ⟨rfl, rfl, by decide, rfl, rfl, rfl, by decide, rfl, rfl, by decide, rfl, rfl⟩

/-- C28 (amended). Whenever an evaluation by
`lolatcp_precautionary_decongestion` (the entry condition holds) finds
`queue_delay = curr_rtt - delay_min > lola_queue_max` with hold enabled in
`lola_mode` and none of `LOLA_IN_CWND_HOLD`, `LOLA_BASE_REDUCED`,
`HYSTART_DELAY` set: if the fair-flow-balancing update of lines 382-418 divides
by zero, the call does not return; and if that update returns, as it does
whenever `LOLA_IN_FAIR_FLOW_BALANCING` was clear and `curve_factor^3` is
non-zero in 32 bits, the call returns having set `LOLA_IN_CWND_HOLD`, cleared
`LOLA_IN_FAIR_FLOW_BALANCING`, set `cnt` to the `s32` value of
`100 * snd_cwnd` (which is `100 * snd_cwnd` below `2^31`) and
`epoch_start = now`, and having left the transport block (`snd_cwnd`,
`snd_ssthresh`), `last_max_cwnd`, `delay_min`, `curr_rtt` and `sample_cnt`
unchanged. -/
theorem lola_hold_entry_amended (p : Params) (k : Kernel) (now : Nat) (s : sock)
    (hgate : gate_open p k now s = true)
    (hq : toU32 ((s.ca.curr_rtt : Int) - s.ca.delay_min) > toU32 p.lola_queue_max)
    (hmode : mode_has p LOLA_DO_CWND_HOLD = true)
    (hfl : s.ca.flags < 256)
    (hclear : has_bit s.ca.flags (LOLA_IN_CWND_HOLD ||| LOLA_BASE_REDUCED ||| HYSTART_DELAY)
      = false) :
    (∀ e, balancing p now s.tp
        (enter_balancing p now s.ca (toU32 ((s.ca.curr_rtt : Int) - s.ca.delay_min)))
        (toU32 ((s.ca.curr_rtt : Int) - s.ca.delay_min)) = Except.error e →
      lolatcp_precautionary_decongestion p k now s = Except.error e) ∧
    (((∃ ca1, balancing p now s.tp
        (enter_balancing p now s.ca (toU32 ((s.ca.curr_rtt : Int) - s.ca.delay_min)))
        (toU32 ((s.ca.curr_rtt : Int) - s.ca.delay_min)) = Except.ok ca1) ∨
      (has_bit s.ca.flags LOLA_IN_FAIR_FLOW_BALANCING = false ∧
        toU32 (toS32 (toS32 (p.lola_fair_flow_balancing_curve_factor
          * p.lola_fair_flow_balancing_curve_factor) * p.lola_fair_flow_balancing_curve_factor))
          ≠ 0)) →
      ∃ s1, lolatcp_precautionary_decongestion p k now s = Except.ok s1 ∧
        precautionary_step p k now s = Except.ok (Outcome.held, s1) ∧
        has_bit s1.ca.flags LOLA_IN_CWND_HOLD = true ∧
        has_bit s1.ca.flags LOLA_IN_FAIR_FLOW_BALANCING = false ∧
        s1.ca.cnt = toS32 (100 * s.tp.snd_cwnd) ∧
        (100 * s.tp.snd_cwnd < 2147483648 → s1.ca.cnt = 100 * s.tp.snd_cwnd) ∧
        s1.ca.epoch_start = now ∧ s1.tp = s.tp ∧
        s1.ca.last_max_cwnd = s.ca.last_max_cwnd ∧ s1.ca.delay_min = s.ca.delay_min ∧
        s1.ca.curr_rtt = s.ca.curr_rtt ∧ s1.ca.sample_cnt = s.ca.sample_cnt) := by
  obtain ⟨hprec, _, hrtt⟩ := gate_open_measured p k now s hgate
  obtain ⟨e1, e2, e3, e4, e5⟩ := enter_balancing_fields p now s.ca
    (toU32 ((s.ca.curr_rtt : Int) - s.ca.delay_min))
  obtain ⟨b1, b2, b3⟩ := hold_test_bits s.ca.flags hfl hclear
  have hstep : ∀ ca1, balancing p now s.tp
      (enter_balancing p now s.ca (toU32 ((s.ca.curr_rtt : Int) - s.ca.delay_min)))
      (toU32 ((s.ca.curr_rtt : Int) - s.ca.delay_min)) = Except.ok ca1 →
      ∃ (fl : Nat) (c : Int), precautionary_step p k now s = Except.ok (Outcome.held,
        { tp := s.tp, ca := { ca1 with flags := fl, cnt := c, epoch_start := now } }) ∧
      has_bit fl LOLA_IN_CWND_HOLD = true ∧ has_bit fl LOLA_IN_FAIR_FLOW_BALANCING = false ∧
      c = toS32 (100 * s.tp.snd_cwnd) ∧
      ca1.last_max_cwnd = s.ca.last_max_cwnd ∧ ca1.delay_min = s.ca.delay_min ∧
      ca1.curr_rtt = s.ca.curr_rtt ∧ ca1.sample_cnt = s.ca.sample_cnt := by
    intro ca1 hca1
    obtain ⟨c, hc⟩ := balancing_fields p now s.tp _ ca1 _ hca1
    have hfl1 : ca1.flags = (enter_balancing p now s.ca
        (toU32 ((s.ca.curr_rtt : Int) - s.ca.delay_min))).flags := by rw [hc]
    have hcl : has_bit (clear_bits ca1.flags LOLA_IN_FAIR_FLOW_BALANCING)
        (LOLA_IN_CWND_HOLD ||| LOLA_BASE_REDUCED ||| HYSTART_DELAY) = false := by
      rw [hfl1]
      rcases e5 with h | h
      · rw [h.1]; exact b1
      · rw [h.1]; exact b2
    have hx : clear_bits ca1.flags LOLA_IN_FAIR_FLOW_BALANCING < 256 := by
      unfold clear_bits
      exact lt_of_le_of_lt Nat.and_le_right (by decide)
    obtain ⟨g1, g2⟩ := hold_bits _ hx
    refine ⟨_, _, ?_, g1, g2, rfl, by rw [hc]; exact e1, by rw [hc]; exact e3,
      by rw [hc]; exact e4, by rw [hc]; exact e2⟩
    unfold precautionary_step
    rw [if_pos hgate]
    simp only [bind, Except.bind, hca1]
    exact decongest_held p k now s.tp ca1 _ hq hprec hmode hcl
  refine ⟨fun e hb => ?_, fun hret => ?_⟩
  · have hbad : precautionary_step p k now s = Except.error e := by
      unfold precautionary_step
      rw [if_pos hgate]
      simp only [bind, Except.bind, hb]
    rw [decongestion_of_step, hbad]
    rfl
  · have hb : ∃ ca1, balancing p now s.tp
        (enter_balancing p now s.ca (toU32 ((s.ca.curr_rtt : Int) - s.ca.delay_min)))
        (toU32 ((s.ca.curr_rtt : Int) - s.ca.delay_min)) = Except.ok ca1 := by
      rcases hret with hb | ⟨hffb, hcf⟩
      · exact hb
      · rcases e5 with h | h
        · unfold balancing
          rw [h.1, b3 hffb]
          exact ⟨_, rfl⟩
        · exact balancing_fresh_ok p now s.tp _ _ h.2 (by rw [e4]; exact hrtt) hcf
    obtain ⟨ca1, hca1⟩ := hb
    obtain ⟨fl, c, hs, g1, g2, hc, f1, f2, f3, f4⟩ := hstep ca1 hca1
    refine ⟨_, by rw [decongestion_of_step, hs]; rfl, hs, g1, g2, hc, fun hlt => ?_, rfl, rfl,
      f1, f2, f3, f4⟩
    show c = _
    rw [hc]
    simp only [toS32]
    omega

/-- Witness for C28 (amended): the first evaluation of the default scenario at
tick 1100 starts the hold with `cnt = 10000`. -/
theorem lola_hold_entry_amended_witness :
    ∃ s1, lolatcp_precautionary_decongestion defaultParams kernelHz1000 1100 defaultScenario
        = Except.ok s1 ∧
      has_bit s1.ca.flags LOLA_IN_CWND_HOLD = true ∧ s1.ca.cnt = 10000 ∧
      s1.ca.epoch_start = 1100 ∧ s1.tp = defaultScenario.tp := by
  have h := lola_hold_entry_amended defaultParams kernelHz1000 1100 defaultScenario rfl
    (by decide) rfl (by decide) rfl
  obtain ⟨s1, hs1, _, h2, _, _, h5, h6, h7, _⟩ := h.2 (Or.inr ⟨rfl, by decide⟩)
  exact ⟨s1, hs1, h2, h5 (by decide), h6, h7⟩

/-- C33 (counterexample). With the module parameter
`lola_slow_start_exit = -1000`, delay detection enabled, no detection flag
set, 16 samples and `curr_rtt = 600` over `delay_min = 500`, the condition
`curr_rtt > delay_min + lola_slow_start_exit` holds (`600 > -500`); but line
837 adds in `u32`, the sum wraps to `4294966796`, and `hystart_update` leaves
`snd_ssthresh = 50` below the window of 100: slow start is not left. -/
theorem lola_hystart_delay_exit_fails :
    has_bit (toU32 negativeExitParams.hystart_detect) HYSTART_DELAY = true ∧
    has_bit shortPathSlowStart.ca.flags (toU32 negativeExitParams.hystart_detect) = false ∧
    16 ≤ shortPathSlowStart.ca.sample_cnt ∧
    (shortPathSlowStart.ca.curr_rtt : Int)
      > (shortPathSlowStart.ca.delay_min : Int) + negativeExitParams.lola_slow_start_exit ∧
    (shortPathSlowStart.ca.delay_min + toU32 negativeExitParams.lola_slow_start_exit)
      % 4294967296 = 4294966796 ∧
    (hystart_update negativeExitParams 1000 1000 shortPathSlowStart 15000).tp.snd_ssthresh = 50 ∧
    (hystart_update negativeExitParams 1000 1000 shortPathSlowStart 15000).tp.snd_cwnd = 100 := by
  refine ⟨rfl, rfl, by decide, by decide, rfl, rfl, rfl⟩

/-- C33 (amended). `hystart_update(sk, delay)` with delay detection enabled
(`hystart_detect & HYSTART_DELAY`) and no detection flag set
(`!(ca->flags & hystart_detect)`). Once `sample_cnt >= 16` and `curr_rtt`
exceeds the `u32` sum `delay_min + lola_slow_start_exit` of line 837, the call
leaves `snd_ssthresh = snd_cwnd`, the window being the one before the call;
that sum is the plain `delay_min + lola_slow_start_exit` when the parameter is
not negative and `curr_rtt`, a `u32`, exceeds it. While `sample_cnt < 16`, the
call records `curr_rtt = min(curr_rtt, delay)` (`delay` when `curr_rtt` was 0),
adds one to `sample_cnt`, and the delay detector leaves `snd_ssthresh` (the
whole `tp`) as the ACK-train block left it: as it was before the call when
ACK-train detection is disabled. -/
theorem lola_hystart_delay_detector_amended (p : Params) (now clock : Nat) (s : sock)
    (delay : Nat)
    (hen : has_bit (toU32 p.hystart_detect) HYSTART_DELAY = true)
    (hno : has_bit s.ca.flags (toU32 p.hystart_detect) = false) :
    (16 ≤ s.ca.sample_cnt →
      s.ca.curr_rtt > (s.ca.delay_min + toU32 p.lola_slow_start_exit) % 4294967296 →
      (hystart_update p now clock s delay).tp.snd_ssthresh
        = (hystart_update p now clock s delay).tp.snd_cwnd ∧
      (hystart_update p now clock s delay).tp.snd_cwnd = s.tp.snd_cwnd) ∧
    (16 ≤ s.ca.sample_cnt → s.ca.curr_rtt < 4294967296 → 0 ≤ p.lola_slow_start_exit →
      (s.ca.curr_rtt : Int) > (s.ca.delay_min : Int) + p.lola_slow_start_exit →
      (hystart_update p now clock s delay).tp.snd_ssthresh
        = (hystart_update p now clock s delay).tp.snd_cwnd ∧
      (hystart_update p now clock s delay).tp.snd_cwnd = s.tp.snd_cwnd) ∧
    (s.ca.sample_cnt < 16 →
      (hystart_update p now clock s delay).ca.curr_rtt
        = (if s.ca.curr_rtt = 0 then delay else min s.ca.curr_rtt delay) ∧
      (hystart_update p now clock s delay).ca.sample_cnt = s.ca.sample_cnt + 1 ∧
      (hystart_update p now clock s delay).tp
        = (if has_bit (toU32 p.hystart_detect) HYSTART_ACK_TRAIN then
            (ack_train_detect p clock (if s.ca.epoch_start = 0 then
              { s with ca := { s.ca with epoch_start := now } } else s)).tp
           else s.tp) ∧
      (has_bit (toU32 p.hystart_detect) HYSTART_ACK_TRAIN = false →
        (hystart_update p now clock s delay).tp.snd_ssthresh = s.tp.snd_ssthresh)) := by
  -- the state after line 805
  obtain ⟨s0, hs0, e1, e2, e3, e4, e5⟩ : ∃ s0 : sock,
      s0 = (if s.ca.epoch_start = 0 then { s with ca := { s.ca with epoch_start := now } }
            else s) ∧
      s0.ca.flags = s.ca.flags ∧ s0.ca.curr_rtt = s.ca.curr_rtt ∧
      s0.ca.sample_cnt = s.ca.sample_cnt ∧ s0.ca.delay_min = s.ca.delay_min ∧ s0.tp = s.tp := by
    refine ⟨_, rfl, ?_⟩
    split <;> exact ⟨rfl, rfl, rfl, rfl, rfl⟩
  -- the state after the ACK-train block
  obtain ⟨s1, hs1, f2, f3, f4, f5⟩ : ∃ s1 : sock,
      s1 = (if has_bit (toU32 p.hystart_detect) HYSTART_ACK_TRAIN then
              ack_train_detect p clock s0 else s0) ∧
      s1.ca.curr_rtt = s.ca.curr_rtt ∧ s1.ca.sample_cnt = s.ca.sample_cnt ∧
      s1.ca.delay_min = s.ca.delay_min ∧ s1.tp.snd_cwnd = s.tp.snd_cwnd := by
    refine ⟨_, rfl, ?_⟩
    split
    · have k : ∀ t : sock, (ack_train_detect p clock t).ca.curr_rtt = t.ca.curr_rtt ∧
          (ack_train_detect p clock t).ca.sample_cnt = t.ca.sample_cnt ∧
          (ack_train_detect p clock t).ca.delay_min = t.ca.delay_min ∧
          (ack_train_detect p clock t).tp.snd_cwnd = t.tp.snd_cwnd := by
        intro t
        unfold ack_train_detect
        simp only
        split
        · split <;> exact ⟨rfl, rfl, rfl, rfl⟩
        · exact ⟨rfl, rfl, rfl, rfl⟩
      obtain ⟨k1, k2, k3, k4⟩ := k s0
      exact ⟨by rw [k1, e2], by rw [k2, e3], by rw [k3, e4], by rw [k4, e5]⟩
    · exact ⟨e2, e3, e4, by rw [e5]⟩
  have hu : hystart_update p now clock s delay = delay_detect p s1 delay := by
    unfold hystart_update hystart_detectors
    rw [← hs0, e1, hno]
    simp only [Bool.false_eq_true, if_false]
    rw [← hs1, hen]
    simp only [if_true]
  rw [hu]
  have hexit : 16 ≤ s.ca.sample_cnt →
      s.ca.curr_rtt > (s.ca.delay_min + toU32 p.lola_slow_start_exit) % 4294967296 →
      (delay_detect p s1 delay).tp.snd_ssthresh = (delay_detect p s1 delay).tp.snd_cwnd ∧
      (delay_detect p s1 delay).tp.snd_cwnd = s.tp.snd_cwnd := by
    intro h16 hx
    obtain ⟨d1, d2⟩ := delay_detect_exit p s1 delay (by rw [f3]; exact h16)
      (by rw [f2, f4]; exact hx)
    exact ⟨by rw [d1, d2], by rw [d2, f5]⟩
  refine ⟨hexit, fun h16 hu32 hx0 hgt => ?_, fun hlt => ?_⟩
  · apply hexit h16
    have : (toU32 p.lola_slow_start_exit : Int) = p.lola_slow_start_exit := by
      simp only [toU32]
      omega
    omega
  · rw [delay_detect_sampling p s1 delay (by rw [f3]; exact hlt)]
    refine ⟨by simp only [f2], by simp only [f3], ?_, fun hoff => ?_⟩
    · show s1.tp = _
      rw [hs1, hs0]
      split
      · rfl
      · rw [← hs0, e5]
    · show s1.tp.snd_ssthresh = _
      rw [hs1, hoff]
      simp only [Bool.false_eq_true, if_false]
      rw [e5]

/-- Witness for C33 (amended) on the default parameters (`hystart_detect = 3`,
`lola_slow_start_exit = 1000`): with 16 samples and `curr_rtt = 20000` over
`delay_min = 10000` the call leaves slow start at the window of 100; with 3
samples a sample of 15000 us is recorded as the fourth. -/
theorem lola_hystart_delay_detector_amended_witness :
    (hystart_update defaultParams 1000 1000 slowStartScenario 15000).tp.snd_ssthresh = 100 ∧
    (hystart_update defaultParams 1000 1000 earlySlowStartScenario 15000).ca.curr_rtt = 15000 ∧
    (hystart_update defaultParams 1000 1000 earlySlowStartScenario 15000).ca.sample_cnt = 4 := by
  have h1 := (lola_hystart_delay_detector_amended defaultParams 1000 1000 slowStartScenario 15000
    rfl rfl).1 (by decide) (by decide)
  have h2 := (lola_hystart_delay_detector_amended defaultParams 1000 1000 earlySlowStartScenario
    15000 rfl rfl).2.2 (by decide)
  exact ⟨by rw [h1.1, h1.2]; rfl, h2.1, h2.2.1⟩

end Lola

/-! ## Theorems: RED -/

namespace Red

/-- The value of `p_b` in the scenario of C19. -/
theorem p_b_halfway (q : RedPacketQueue)
    (hmin : q.min_queue_size_threshold_in_bytes_ = 50000)
    (hmax : q.max_queue_size_threshold_in_bytes_ = 150000)
    (hdp : q.drop_probability_ = 1 / 10) :
    p_b q 100000 1500 = 1 / 20 := by
  simp only [p_b, hmin, hmax, hdp]
  norm_num

/-- In the scenario of C19 the packet is dropped early exactly when the draw
is below `p_a`. -/
theorem enqueue_halfway (q : RedPacketQueue) (curr_time : Nat) (r : ℚ) (c : Int)
    (hmin : q.min_queue_size_threshold_in_bytes_ = 50000)
    (hmax : q.max_queue_size_threshold_in_bytes_ = 150000)
    (hdp : q.drop_probability_ = 1 / 10)
    (havg : updated_average q curr_time = 100000)
    (hc : toS32 (q.count_ + 1) = c) (hden : (1 : ℚ) - c * (1 / 20) ≠ 0) :
    ((enqueue q 1500 curr_time r).1 = Verdict.early_drop ↔ r < p_a (1 / 20) c) ∧
    (enqueue q 1500 curr_time r).1 ≠ Verdict.forced_drop := by
  have hpb : ∀ (a : ℚ) (n : Int),
      p_b { q with average_queue_size_in_bytes_ := a, count_ := n } 100000 1500 = 1 / 20 :=
    fun a n => p_b_halfway _ hmin hmax hdp
  have h1 : ¬ ((100000 : ℚ) ≥ (q.max_queue_size_threshold_in_bytes_ : ℚ)) := by
    rw [hmax]
    norm_num
  have h2 : (100000 : ℚ) ≥ (q.min_queue_size_threshold_in_bytes_ : ℚ) := by
    rw [hmin]
    norm_num
  simp only [enqueue, havg, hc, if_neg h1, if_pos h2, hpb, draw_below, if_neg hden]
  by_cases hr : r < p_a (1 / 20) c
  · simp only [hr, decide_True, if_true, true_iff, iff_true, ne_eq, not_false_eq_true,
      and_self, reduceCtorEq]
  · simp only [hr, decide_False, if_false, false_iff, iff_false, ne_eq, not_false_eq_true,
      and_self, reduceCtorEq, Bool.false_eq_true]

/-- C19 (as stated, refuted): on a queue built with `min_bytes=50000`,
`max_bytes=150000`, `drop_percentage=10`, an enqueue of a 1500-byte packet that
finds the updated average at 100000 bytes and `count_ = 0` computes
`p_b = 1/20` and, `count_` having been incremented first,
`p_a = (1/20) / (1 - 1/20) = 1/19`, not `1/20`; with the draw `r = 51/1000`
the packet is dropped although `r ≥ 0.05`. -/
theorem red_halfway_p_a_is_not_p_b :
    updated_average halfwayQueue 0 = 100000 ∧ halfwayQueue.count_ = 0 ∧
    p_b halfwayQueue (updated_average halfwayQueue 0) 1500 = 1 / 20 ∧
    p_a (p_b halfwayQueue (updated_average halfwayQueue 0) 1500)
      (toS32 (halfwayQueue.count_ + 1)) = 1 / 19 ∧
    (enqueue halfwayQueue 1500 0 (51 / 1000)).1 = Verdict.early_drop ∧
    ¬ ((51 / 1000 : ℚ) < 1 / 20) := by
  have havg : updated_average halfwayQueue 0 = 100000 := by
    simp only [updated_average, halfwayQueue, W]
    norm_num
  have hpb := p_b_halfway halfwayQueue rfl rfl rfl
  have hc : toS32 (halfwayQueue.count_ + 1) = 1 := by decide
  have hpa : p_a (1 / 20) 1 = 1 / 19 := by
    simp only [p_a]
    norm_num
  refine ⟨havg, rfl, by rw [havg]; exact hpb, by rw [havg, hpb, hc]; exact hpa, ?_,
    by norm_num⟩
  have h := (enqueue_halfway halfwayQueue 0 (51 / 1000) 1 rfl rfl rfl havg hc
    (by norm_num)).1
  rw [hpa] at h
  exact h.mpr (by norm_num)

/-- C19 (amended): on a queue with `min = 50000`, `max = 150000` and drop
probability `1/10`, an enqueue of a 1500-byte packet that finds the updated
average at 100000 bytes computes `p_b = 1/20`; with `count_ = 0` on entry
(after a drop) it computes `p_a = 1/19` and drops the packet iff `r < 1/19`;
with `count_ = -1` on entry (after an accepted packet) it computes
`p_a = 1/20` and drops the packet iff `r < 1/20`. -/
theorem red_halfway_drop_probability (q : RedPacketQueue) (curr_time : Nat) (r : ℚ)
    (hmin : q.min_queue_size_threshold_in_bytes_ = 50000)
    (hmax : q.max_queue_size_threshold_in_bytes_ = 150000)
    (hdp : q.drop_probability_ = 1 / 10)
    (havg : updated_average q curr_time = 100000) :
    p_b q (updated_average q curr_time) 1500 = 1 / 20 ∧
    (q.count_ = 0 →
      p_a (p_b q (updated_average q curr_time) 1500) (toS32 (q.count_ + 1)) = 1 / 19 ∧
      ((enqueue q 1500 curr_time r).1 = Verdict.early_drop ↔ r < 1 / 19)) ∧
    (q.count_ = -1 →
      p_a (p_b q (updated_average q curr_time) 1500) (toS32 (q.count_ + 1)) = 1 / 20 ∧
      ((enqueue q 1500 curr_time r).1 = Verdict.early_drop ↔ r < 1 / 20)) := by
  have hpb : p_b q (updated_average q curr_time) 1500 = 1 / 20 := by
    rw [havg]
    exact p_b_halfway q hmin hmax hdp
  refine ⟨hpb, ?_, ?_⟩
  · intro hcount
    have hc : toS32 (q.count_ + 1) = 1 := by rw [hcount]; decide
    have hpa : p_a (1 / 20) 1 = 1 / 19 := by
      simp only [p_a]
      norm_num
    have h := (enqueue_halfway q curr_time r 1 hmin hmax hdp havg hc (by norm_num)).1
    rw [hpa] at h
    exact ⟨by rw [hpb, hc]; exact hpa, h⟩
  · intro hcount
    have hc : toS32 (q.count_ + 1) = 0 := by rw [hcount]; decide
    have hpa : p_a (1 / 20) 0 = 1 / 20 := by
      simp only [p_a]
      norm_num
    have h := (enqueue_halfway q curr_time r 0 hmin hmax hdp havg hc (by norm_num)).1
    rw [hpa] at h
    exact ⟨by rw [hpb, hc]; exact hpa, h⟩

/-- The amended C19 at `halfwayQueue` (`count_ = 0`) with the draw
`r = 51/1000`. -/
theorem red_halfway_drop_probability_witness :
    p_b halfwayQueue (updated_average halfwayQueue 0) 1500 = 1 / 20 ∧
    ((enqueue halfwayQueue 1500 0 (51 / 1000)).1 = Verdict.early_drop ↔
      (51 / 1000 : ℚ) < 1 / 19) := by
  have h := red_halfway_drop_probability halfwayQueue 0 (51 / 1000) rfl rfl rfl
    (by simp only [updated_average, halfwayQueue, W]; norm_num)
  exact ⟨h.1, (h.2.1 rfl).2⟩

/-- On `[min, ∞)` the value `p_b` is non-negative and monotone in the average. -/
theorem p_b_nonneg_mono (q : RedPacketQueue) (avg1 avg2 : ℚ) (size : Nat)
    (hthr : q.min_queue_size_threshold_in_bytes_ < q.max_queue_size_threshold_in_bytes_)
    (hdp0 : 0 ≤ q.drop_probability_)
    (h1 : (q.min_queue_size_threshold_in_bytes_ : ℚ) ≤ avg1) (h12 : avg1 ≤ avg2) :
    0 ≤ p_b q avg1 size ∧ p_b q avg1 size ≤ p_b q avg2 size := by
  have hD : (0 : ℚ) < ((q.max_queue_size_threshold_in_bytes_
      - q.min_queue_size_threshold_in_bytes_ : Int) : ℚ) := by
    have : (0 : Int) < q.max_queue_size_threshold_in_bytes_
        - q.min_queue_size_threshold_in_bytes_ := by omega
    exact_mod_cast this
  have hs : (0 : ℚ) ≤ (size : ℚ) := Nat.cast_nonneg _
  have ha : (0 : ℚ) ≤ avg1 - q.min_queue_size_threshold_in_bytes_ := by linarith
  unfold p_b
  constructor
  · positivity
  · gcongr

/-- The map `x ↦ x / (1 - c * x)` is monotone on `x ≥ 0` below its pole. -/
theorem p_a_mono (x1 x2 : ℚ) (c : Int) (h0 : 0 ≤ x1) (h12 : x1 ≤ x2) (hden : (c : ℚ) * x2 < 1) :
    p_a x1 c ≤ p_a x2 c := by
  have hd2 : (0 : ℚ) < 1 - c * x2 := by linarith
  have hd1 : (0 : ℚ) < 1 - c * x1 := by
    rcases le_or_lt 0 (c : ℚ) with hc | hc
    · have : (c : ℚ) * x1 ≤ c * x2 := mul_le_mul_of_nonneg_left h12 hc
      linarith
    · have : (c : ℚ) * x1 ≤ 0 := mul_nonpos_of_nonpos_of_nonneg (le_of_lt hc) h0
      linarith
  unfold p_a
  rw [div_le_div_iff₀ hd1 hd2]
  nlinarith

/-- C20 (as stated, refuted): with `min = 50000 < max = 150000` and a 1500-byte
packet, at `count_ = 29` on entry and drop probability `1/10` the value `p_a`
is `3/10` for the average 80000 and `-1/10` for the average 100000; and at
`count_ = 0` on entry, drop probability 1 and a 3000-byte packet it is 4 for
the average 90000 and -6 for the average 110000. -/
theorem red_p_a_not_monotone :
    longRunQueue.min_queue_size_threshold_in_bytes_
      < longRunQueue.max_queue_size_threshold_in_bytes_ ∧
    0 ≤ longRunQueue.drop_probability_ ∧ longRunQueue.drop_probability_ ≤ 1 ∧
    p_a (p_b longRunQueue 80000 1500) (toS32 (longRunQueue.count_ + 1)) = 3 / 10 ∧
    p_a (p_b longRunQueue 100000 1500) (toS32 (longRunQueue.count_ + 1)) = -1 / 10 ∧
    ¬ (p_a (p_b longRunQueue 80000 1500) (toS32 (longRunQueue.count_ + 1))
        ≤ p_a (p_b longRunQueue 100000 1500) (toS32 (longRunQueue.count_ + 1))) ∧
    0 ≤ certainDropQueue.drop_probability_ ∧ certainDropQueue.drop_probability_ ≤ 1 ∧
    p_a (p_b certainDropQueue 90000 3000) (toS32 (certainDropQueue.count_ + 1)) = 4 ∧
    p_a (p_b certainDropQueue 110000 3000) (toS32 (certainDropQueue.count_ + 1)) = -6 ∧
    ¬ (p_a (p_b certainDropQueue 90000 3000) (toS32 (certainDropQueue.count_ + 1))
        ≤ p_a (p_b certainDropQueue 110000 3000) (toS32 (certainDropQueue.count_ + 1))) := by
  have c1 : toS32 (longRunQueue.count_ + 1) = 30 := by decide
  have c2 : toS32 (certainDropQueue.count_ + 1) = 1 := by decide
  have a1 : p_a (p_b longRunQueue 80000 1500) 30 = 3 / 10 := by
    simp only [p_a, p_b, longRunQueue, halfwayQueue]
    norm_num
  have a2 : p_a (p_b longRunQueue 100000 1500) 30 = -1 / 10 := by
    simp only [p_a, p_b, longRunQueue, halfwayQueue]
    norm_num
  have b1 : p_a (p_b certainDropQueue 90000 3000) 1 = 4 := by
    simp only [p_a, p_b, certainDropQueue, halfwayQueue]
    norm_num
  have b2 : p_a (p_b certainDropQueue 110000 3000) 1 = -6 := by
    simp only [p_a, p_b, certainDropQueue, halfwayQueue]
    norm_num
  rw [c1, c2, a1, a2, b1, b2]
  refine ⟨by decide, ?_, ?_, rfl, rfl, by norm_num, ?_, ?_, rfl, rfl, by norm_num⟩
  · simp only [longRunQueue, halfwayQueue]
    norm_num
  · simp only [longRunQueue, halfwayQueue]
    norm_num
  · simp only [certainDropQueue]
    norm_num
  · simp only [certainDropQueue]
    norm_num

/-- C20 (amended): for thresholds `min < max`, a drop probability `≥ 0`, a
packet size and a value of `count_`, the `p_a` that `enqueue` computes is
monotone non-decreasing in the average on `[min, max)` as long as the
denominator `1 - count_ * p_b` of line 107 is positive at the larger average
(`count_` being the incremented value); and it is positive whenever `count_`
on entry is 0 or -1 (the only values `enqueue` leaves), the drop probability is
at most 1 and the packet has at most 1500 bytes. -/
theorem red_p_a_monotone_amended (q : RedPacketQueue) (avg1 avg2 : ℚ) (size : Nat)
    (hthr : q.min_queue_size_threshold_in_bytes_ < q.max_queue_size_threshold_in_bytes_)
    (hdp0 : 0 ≤ q.drop_probability_)
    (h1 : (q.min_queue_size_threshold_in_bytes_ : ℚ) ≤ avg1) (h12 : avg1 ≤ avg2)
    (h2 : avg2 < (q.max_queue_size_threshold_in_bytes_ : ℚ)) :
    (((toS32 (q.count_ + 1) : Int) : ℚ) * p_b q avg2 size < 1 →
      p_a (p_b q avg1 size) (toS32 (q.count_ + 1))
        ≤ p_a (p_b q avg2 size) (toS32 (q.count_ + 1))) ∧
    ((q.count_ = 0 ∨ q.count_ = -1) → q.drop_probability_ ≤ 1 → size ≤ 1500 →
      ((toS32 (q.count_ + 1) : Int) : ℚ) * p_b q avg2 size < 1) := by
  obtain ⟨hb0, hb12⟩ := p_b_nonneg_mono q avg1 avg2 size hthr hdp0 h1 h12
  refine ⟨fun hden => p_a_mono _ _ _ hb0 hb12 hden, ?_⟩
  intro hcount hdp1 hsize
  have hD : (0 : ℚ) < ((q.max_queue_size_threshold_in_bytes_
      - q.min_queue_size_threshold_in_bytes_ : Int) : ℚ) := by
    have : (0 : Int) < q.max_queue_size_threshold_in_bytes_
        - q.min_queue_size_threshold_in_bytes_ := by omega
    exact_mod_cast this
  have hpb : p_b q avg2 size < 1 := by
    have hs0 : (0 : ℚ) ≤ (size : ℚ) := Nat.cast_nonneg _
    have hs1 : (size : ℚ) ≤ 1500 := by exact_mod_cast hsize
    have ha0 : (0 : ℚ) ≤ avg2 - q.min_queue_size_threshold_in_bytes_ := by linarith
    have ha1 : avg2 - q.min_queue_size_threshold_in_bytes_
        < ((q.max_queue_size_threshold_in_bytes_
            - q.min_queue_size_threshold_in_bytes_ : Int) : ℚ) := by
      push_cast
      linarith
    have hx : q.drop_probability_ * (avg2 - q.min_queue_size_threshold_in_bytes_)
        < ((q.max_queue_size_threshold_in_bytes_
            - q.min_queue_size_threshold_in_bytes_ : Int) : ℚ) := by
      calc q.drop_probability_ * (avg2 - q.min_queue_size_threshold_in_bytes_)
          ≤ 1 * (avg2 - q.min_queue_size_threshold_in_bytes_) :=
            mul_le_mul_of_nonneg_right hdp1 ha0
        _ = avg2 - q.min_queue_size_threshold_in_bytes_ := one_mul _
        _ < _ := ha1
    have hy : q.drop_probability_ * (avg2 - q.min_queue_size_threshold_in_bytes_) /
        ((q.max_queue_size_threshold_in_bytes_
            - q.min_queue_size_threshold_in_bytes_ : Int) : ℚ) < 1 :=
      (div_lt_one hD).mpr hx
    have hy0 : 0 ≤ q.drop_probability_ * (avg2 - q.min_queue_size_threshold_in_bytes_) /
        ((q.max_queue_size_threshold_in_bytes_
            - q.min_queue_size_threshold_in_bytes_ : Int) : ℚ) := by positivity
    unfold p_b
    rw [div_lt_one (by norm_num : (0 : ℚ) < 1500)]
    nlinarith
  rcases hcount with hc | hc
  · have : toS32 (q.count_ + 1) = 1 := by rw [hc]; decide
    rw [this]
    simpa using hpb
  · have : toS32 (q.count_ + 1) = 0 := by rw [hc]; decide
    rw [this]
    simp

/-- The amended C20 at `halfwayQueue` (`count_ = 0`), averages 80000 and
100000, a 1500-byte packet. -/
theorem red_p_a_monotone_amended_witness :
    p_a (p_b halfwayQueue 80000 1500) (toS32 (halfwayQueue.count_ + 1))
      ≤ p_a (p_b halfwayQueue 100000 1500) (toS32 (halfwayQueue.count_ + 1)) := by
  have h := red_p_a_monotone_amended halfwayQueue 80000 100000 1500 (by decide)
    (by simp only [halfwayQueue]; norm_num) (by simp only [halfwayQueue]; norm_num)
    (by norm_num) (by simp only [halfwayQueue]; norm_num)
  exact h.1 (h.2 (Or.inl rfl) (by simp only [halfwayQueue]; norm_num) (by norm_num))

/-- Whatever branch lets the packet through, `enqueue` appends it and leaves
`count_ = -1` (line 116). -/
theorem enqueue_queued_state (q : RedPacketQueue) (size curr_time : Nat) (r : ℚ)
    (h : (enqueue q size curr_time r).1 = Verdict.queued) :
    (enqueue q size curr_time r).2.count_ = -1 ∧
    (enqueue q size curr_time r).2.internal_queue_ = q.internal_queue_ ++ [size] := by
  unfold enqueue at h ⊢
  simp only at h ⊢
  split
  · rename_i h1
    rw [if_pos h1] at h
    exact absurd h (by simp)
  · rename_i h1
    rw [if_neg h1] at h
    split
    · rename_i h2
      rw [if_pos h2] at h
      split
      · rename_i h3
        rw [if_pos h3] at h
        exact absurd h (by simp)
      · exact ⟨rfl, rfl⟩
    · exact ⟨rfl, rfl⟩

/-- C34 (the code at the failing input). On `halfwayQueue` (`count_ = 0`, the
updated average `100000` between the thresholds `50000` and `150000`) a
1500-byte packet with the draw `r = 1/2 ≥ p_a = 1/19` is appended to the
queue, but `count_` is then overwritten by the `count_ = -1` of line 116 and
ends at `-1`, not at `count_ before + 1 = 1`. -/
theorem red_accepted_packet_resets_count :
    updated_average halfwayQueue 0 = 100000 ∧
    halfwayQueue.min_queue_size_threshold_in_bytes_ = 50000 ∧
    halfwayQueue.max_queue_size_threshold_in_bytes_ = 150000 ∧
    halfwayQueue.count_ = 0 ∧
    p_a (p_b halfwayQueue (updated_average halfwayQueue 0) 1500)
      (toS32 (halfwayQueue.count_ + 1)) = 1 / 19 ∧
    ¬ ((1 / 2 : ℚ) < 1 / 19) ∧
    (enqueue halfwayQueue 1500 0 (1 / 2)).1 = Verdict.queued ∧
    (enqueue halfwayQueue 1500 0 (1 / 2)).2.internal_queue_
      = halfwayQueue.internal_queue_ ++ [1500] ∧
    (enqueue halfwayQueue 1500 0 (1 / 2)).2.count_ = -1 ∧
    (-1 : Int) ≠ halfwayQueue.count_ + 1 := by
  have havg : updated_average halfwayQueue 0 = 100000 := by
    simp only [updated_average, halfwayQueue, W]
    norm_num
  have hpb := p_b_halfway halfwayQueue rfl rfl rfl
  have hc : toS32 (halfwayQueue.count_ + 1) = 1 := by decide
  have hpa : p_a (1 / 20) 1 = 1 / 19 := by
    simp only [p_a]
    norm_num
  have h := enqueue_halfway halfwayQueue 0 (1 / 2) 1 rfl rfl rfl havg hc (by norm_num)
  rw [hpa] at h
  have hq : (enqueue halfwayQueue 1500 0 (1 / 2)).1 = Verdict.queued := by
    have h1 : (enqueue halfwayQueue 1500 0 (1 / 2)).1 ≠ Verdict.early_drop :=
      fun he => absurd (h.1.mp he) (by norm_num)
    have h2 := h.2
    cases hv : (enqueue halfwayQueue 1500 0 (1 / 2)).1 with
    | forced_drop => exact absurd hv h2
    | early_drop => exact absurd hv h1
    | queued => rfl
  obtain ⟨e1, e2⟩ := enqueue_queued_state halfwayQueue 1500 0 (1 / 2) hq
  exact ⟨havg, rfl, rfl, rfl, by rw [havg, hpb, hc]; exact hpa, by norm_num, hq, e2, e1,
    by decide⟩

/-- What `enqueue` does with the queue contents and the byte counter: an
accepted packet is appended and counted (in 32 bits); a dropped packet changes
neither. -/
theorem enqueue_contents (q : RedPacketQueue) (size curr_time : Nat) (r : ℚ) :
    ((enqueue q size curr_time r).1 = Verdict.queued ∧
      (enqueue q size curr_time r).2.internal_queue_ = q.internal_queue_ ++ [size] ∧
      (enqueue q size curr_time r).2.queue_size_in_bytes_
        = toS32 (q.queue_size_in_bytes_ + size)) ∨
    ((enqueue q size curr_time r).1 ≠ Verdict.queued ∧
      (enqueue q size curr_time r).2.internal_queue_ = q.internal_queue_ ∧
      (enqueue q size curr_time r).2.queue_size_in_bytes_ = q.queue_size_in_bytes_) := by
  unfold enqueue
  simp only
  split
  · exact Or.inr ⟨by simp, rfl, rfl⟩
  · split
    · split
      · exact Or.inr ⟨by simp, rfl, rfl⟩
      · exact Or.inl ⟨rfl, rfl, rfl⟩
    · exact Or.inl ⟨rfl, rfl, rfl⟩

/-- What `dequeue` does on a non-empty queue: it returns the front packet,
removes it and discounts it (in 32 bits). -/
theorem dequeue_contents (q : RedPacketQueue) (curr_time size : Nat) (q1 : RedPacketQueue)
    (h : dequeue q curr_time = some (size, q1)) :
    q.internal_queue_ = size :: q1.internal_queue_ ∧
    q1.queue_size_in_bytes_ = toS32 (q.queue_size_in_bytes_ - size) := by
  unfold dequeue at h
  split at h
  · exact absurd h (by simp)
  · rename_i sz rest heq
    simp only [Option.some.injEq, Prod.mk.injEq] at h
    obtain ⟨h1, h2⟩ := h
    rw [← h2, ← h1]
    exact ⟨heq, rfl⟩

/-- A packet that finds the updated average below both thresholds is accepted. -/
theorem enqueue_below_min (q : RedPacketQueue) (size curr_time : Nat) (r : ℚ)
    (hmax : updated_average q curr_time < q.max_queue_size_threshold_in_bytes_)
    (hmin : updated_average q curr_time < q.min_queue_size_threshold_in_bytes_) :
    enqueue q size curr_time r
      = (Verdict.queued,
          accept { q with average_queue_size_in_bytes_ := updated_average q curr_time } size) := by
  unfold enqueue
  simp only
  rw [if_neg (not_le.mpr hmax), if_neg (not_le.mpr hmin)]

/-- The byte counter follows the queue contents along a run on which the bytes
held never exceed `INT_MAX`, and the packets leave in arrival order. -/
theorem run_contents (ops : List Op) :
    ∀ (q0 : RedPacketQueue) (acc out : List Nat) (q : RedPacketQueue),
      q0.queue_size_in_bytes_ = (q0.internal_queue_.sum : Int) →
      (∀ n r, run q0 (ops.take n) = some r → r.2.2.internal_queue_.sum ≤ INT_MAX) →
      run q0 ops = some (acc, out, q) →
      q.queue_size_in_bytes_ = (q.internal_queue_.sum : Int) ∧
      q0.internal_queue_ ++ acc = out ++ q.internal_queue_ := by
  induction ops with
  | nil =>
    intro q0 acc out q h0 _ hrun
    simp only [run, Option.some.injEq, Prod.mk.injEq] at hrun
    obtain ⟨h1, h2, h3⟩ := hrun
    subst h1 h2 h3
    exact ⟨h0, by simp⟩
  | cons op rest ih =>
    intro q0 acc out q h0 hfit hrun
    have hq0 : q0.internal_queue_.sum ≤ INT_MAX := hfit 0 ([], [], q0) rfl
    cases op with
    | enq size curr_time r =>
      simp only [run] at hrun
      cases hr : run (enqueue q0 size curr_time r).2 rest with
      | none =>
        rw [hr] at hrun
        exact absurd hrun (by simp)
      | some res =>
        obtain ⟨acc1, out1, q1⟩ := res
        rw [hr] at hrun
        simp only [Option.some.injEq, Prod.mk.injEq] at hrun
        obtain ⟨hacc, hout, hq⟩ := hrun
        subst hout hq
        have hfit1 : ∀ n r1, run (enqueue q0 size curr_time r).2 (rest.take n) = some r1 →
            r1.2.2.internal_queue_.sum ≤ INT_MAX := by
          intro n r1 hn
          have := hfit (n + 1)
            (if (enqueue q0 size curr_time r).1 = Verdict.queued then size :: r1.1 else r1.1,
              r1.2.1, r1.2.2) (by simp only [List.take_succ_cons, run, hn])
          exact this
        have hnext := hfit1 0 ([], [], (enqueue q0 size curr_time r).2) rfl
        rcases enqueue_contents q0 size curr_time r with ⟨e1, e2, e3⟩ | ⟨e1, e2, e3⟩
        · have hinv : (enqueue q0 size curr_time r).2.queue_size_in_bytes_
              = ((enqueue q0 size curr_time r).2.internal_queue_.sum : Int) := by
            rw [e2] at hnext
            simp only [List.sum_append, List.sum_cons, List.sum_nil, INT_MAX] at hnext
            rw [e3, e2, h0]
            simp only [List.sum_append, List.sum_cons, List.sum_nil, add_zero]
            generalize q0.internal_queue_.sum = S at hnext ⊢
            simp only [toS32]
            omega
          obtain ⟨i1, i2⟩ := ih _ acc1 out1 q1 hinv hfit1 hr
          refine ⟨i1, ?_⟩
          rw [← hacc, if_pos e1, ← i2, e2]
          simp
        · have hinv : (enqueue q0 size curr_time r).2.queue_size_in_bytes_
              = ((enqueue q0 size curr_time r).2.internal_queue_.sum : Int) := by
            rw [e3, e2, h0]
          obtain ⟨i1, i2⟩ := ih _ acc1 out1 q1 hinv hfit1 hr
          refine ⟨i1, ?_⟩
          rw [← hacc, if_neg e1, ← i2, e2]
    | deq curr_time =>
      simp only [run] at hrun
      cases hd : dequeue q0 curr_time with
      | none =>
        rw [hd] at hrun
        exact absurd hrun (by simp)
      | some res0 =>
        obtain ⟨size, q1⟩ := res0
        rw [hd] at hrun
        simp only at hrun
        cases hr : run q1 rest with
        | none =>
          rw [hr] at hrun
          exact absurd hrun (by simp)
        | some res =>
          obtain ⟨acc1, out1, q2⟩ := res
          rw [hr] at hrun
          simp only [Option.some.injEq, Prod.mk.injEq] at hrun
          obtain ⟨hacc, hout, hq⟩ := hrun
          subst hacc hq
          obtain ⟨d1, d2⟩ := dequeue_contents q0 curr_time size q1 hd
          have hfit1 : ∀ n r1, run q1 (rest.take n) = some r1 →
              r1.2.2.internal_queue_.sum ≤ INT_MAX := by
            intro n r1 hn
            have := hfit (n + 1) (r1.1, size :: r1.2.1, r1.2.2)
              (by simp only [List.take_succ_cons, run, hd, hn])
            exact this
          have hinv : q1.queue_size_in_bytes_ = (q1.internal_queue_.sum : Int) := by
            rw [d1] at hq0
            simp only [List.sum_cons, INT_MAX] at hq0
            rw [d2, h0, d1]
            simp only [List.sum_cons]
            generalize q1.internal_queue_.sum = S at hq0 ⊢
            simp only [toS32]
            omega
          obtain ⟨i1, i2⟩ := ih q1 acc1 out1 q2 hinv hfit1 hr
          refine ⟨i1, ?_⟩
          rw [← hout, d1, List.cons_append, i2, List.cons_append]

/-- The first packet of the counterexample: 2^30 bytes into the empty
`wideQueue`. -/
theorem wide_first_packet :
    enqueue wideQueue 1073741824 0 0
      = (Verdict.queued,
          accept { wideQueue with average_queue_size_in_bytes_ := updated_average wideQueue 0 }
            1073741824) := by
  apply enqueue_below_min <;> simp only [updated_average, wideQueue, W, toULong] <;> norm_num

/-- The second packet of the counterexample is accepted as well: the average
is then `0.002 * 2^30`, far below the thresholds. -/
theorem wide_second_packet (q : RedPacketQueue)
    (h1 : q.queue_size_in_bytes_ = 1073741824) (h2 : q.average_queue_size_in_bytes_ = 0)
    (h3 : q.min_queue_size_threshold_in_bytes_ = 2147483647)
    (h4 : q.max_queue_size_threshold_in_bytes_ = 2147483647) :
    enqueue q 1073741824 0 0
      = (Verdict.queued,
          accept { q with average_queue_size_in_bytes_ := updated_average q 0 } 1073741824) := by
  apply enqueue_below_min <;> simp only [updated_average, h1, h2, h3, h4, W] <;> norm_num

/-- C39 (counterexample). Two packets of 2^30 bytes enqueued into the empty
`wideQueue` (thresholds `INT_MAX`) are both accepted; the queue then holds
`2^31` bytes, but the `int` counter `queue_size_in_bytes_` has wrapped to
`-2^31`. -/
theorem red_byte_counter_wraps :
    wideQueue.queue_size_in_bytes_ = (wideQueue.internal_queue_.sum : Int) ∧
    (run wideQueue [Op.enq 1073741824 0 0, Op.enq 1073741824 0 0]).map
      (fun res => (res.1, res.2.1, res.2.2.internal_queue_, res.2.2.queue_size_in_bytes_))
      = some ([1073741824, 1073741824], [], [1073741824, 1073741824], -2147483648) ∧
    ([1073741824, 1073741824] : List Nat).sum = 2147483648 ∧
    (-2147483648 : Int) ≠ ((2147483648 : Nat) : Int) := by
  obtain ⟨q1, hq1, a1, a2, a3, a4, a5⟩ : ∃ q1, enqueue wideQueue 1073741824 0 0
      = (Verdict.queued, q1) ∧ q1.queue_size_in_bytes_ = 1073741824 ∧
      q1.average_queue_size_in_bytes_ = 0 ∧
      q1.min_queue_size_threshold_in_bytes_ = 2147483647 ∧
      q1.max_queue_size_threshold_in_bytes_ = 2147483647 ∧
      q1.internal_queue_ = [1073741824] :=
    ⟨_, wide_first_packet, rfl,
      by simp only [accept, updated_average, wideQueue, toULong]; norm_num, rfl, rfl, rfl⟩
  obtain ⟨q2, hq2, b1, b2⟩ : ∃ q2, enqueue q1 1073741824 0 0 = (Verdict.queued, q2) ∧
      q2.internal_queue_ = [1073741824, 1073741824] ∧
      q2.queue_size_in_bytes_ = -2147483648 := by
    refine ⟨_, wide_second_packet q1 a1 a2 a3 a4, ?_, ?_⟩
    · simp only [accept, a5]
      rfl
    · simp only [accept, a1]
      decide
  refine ⟨rfl, ?_, by decide, by decide⟩
  simp only [run, hq1, hq2, if_true, Option.map_some', b1, b2]

/-- C39 (amended). For every sequence of `enqueue` and `dequeue` calls
(`dequeue` only on a non-empty queue) from a state whose byte counter equals
the bytes held, during which the bytes held never exceed `INT_MAX`:
`queue_size_in_bytes_` equals the sum of the sizes of the packets held, it is
0 iff the queue holds no bytes, and the packets leave in FIFO order (the
initial contents followed by the accepted packets are the dequeued packets
followed by the final contents). A dropped packet changes neither the queue
contents nor `queue_size_in_bytes_`, an accepted one is appended, and
`dequeue` returns the front packet. -/
theorem red_byte_counter_amended (q0 : RedPacketQueue) (ops : List Op) (acc out : List Nat)
    (q : RedPacketQueue)
    (h0 : q0.queue_size_in_bytes_ = (q0.internal_queue_.sum : Int))
    (hfit : ∀ n res, run q0 (ops.take n) = some res → res.2.2.internal_queue_.sum ≤ INT_MAX)
    (hrun : run q0 ops = some (acc, out, q)) :
    q.queue_size_in_bytes_ = (q.internal_queue_.sum : Int) ∧
    (q.queue_size_in_bytes_ = 0 ↔ q.internal_queue_.sum = 0) ∧
    q0.internal_queue_ ++ acc = out ++ q.internal_queue_ ∧
    (∀ (q1 : RedPacketQueue) (size curr_time : Nat) (r : ℚ),
      ((enqueue q1 size curr_time r).1 ≠ Verdict.queued →
        (enqueue q1 size curr_time r).2.internal_queue_ = q1.internal_queue_ ∧
        (enqueue q1 size curr_time r).2.queue_size_in_bytes_ = q1.queue_size_in_bytes_) ∧
      ((enqueue q1 size curr_time r).1 = Verdict.queued →
        (enqueue q1 size curr_time r).2.internal_queue_ = q1.internal_queue_ ++ [size])) ∧
    (∀ (q1 q2 : RedPacketQueue) (size curr_time : Nat),
      dequeue q1 curr_time = some (size, q2) →
        q1.internal_queue_ = size :: q2.internal_queue_) := by
  obtain ⟨i1, i2⟩ := run_contents ops q0 acc out q h0 hfit hrun
  refine ⟨i1, ?_, i2, ?_, ?_⟩
  · rw [i1]
    exact Int.natCast_eq_zero
  · intro q1 size curr_time r
    rcases enqueue_contents q1 size curr_time r with ⟨e1, e2, _⟩ | ⟨e1, e2, e3⟩
    · exact ⟨fun h => absurd e1 h, fun _ => e2⟩
    · exact ⟨fun _ => ⟨e2, e3⟩, fun h => absurd h e1⟩
  · intro q1 q2 size curr_time h
    exact (dequeue_contents q1 curr_time size q2 h).1

/-- C39 (amended) on `halfwayQueue` (100 packets of 1000 bytes): two `dequeue`
calls return two packets of 1000 bytes and leave 98000 bytes counted. -/
theorem red_byte_counter_amended_witness :
    ∃ q, run halfwayQueue [Op.deq 5, Op.deq 6] = some ([], [1000, 1000], q) ∧
      q.queue_size_in_bytes_ = (q.internal_queue_.sum : Int) ∧
      q.internal_queue_.sum = 98000 := by
  have hrun : ∃ q, run halfwayQueue [Op.deq 5, Op.deq 6] = some ([], [1000, 1000], q) ∧
      q.internal_queue_ = List.replicate 98 1000 := ⟨_, rfl, rfl⟩
  obtain ⟨q, hq, hl⟩ := hrun
  have hfit : ∀ n res, run halfwayQueue (([Op.deq 5, Op.deq 6] : List Op).take n) = some res →
      res.2.2.internal_queue_.sum ≤ INT_MAX := by
    intro n res h
    match n with
    | 0 =>
      simp only [List.take_zero, run, Option.some.injEq] at h
      rw [← h]
      decide
    | 1 =>
      have e : run halfwayQueue (([Op.deq 5, Op.deq 6] : List Op).take 1)
          = some ([], [1000], (dequeue halfwayQueue 5).get (by decide) |>.2) := rfl
      rw [e] at h
      simp only [Option.some.injEq] at h
      rw [← h]
      decide
    | k + 2 =>
      have e : (([Op.deq 5, Op.deq 6] : List Op).take (k + 2)) = [Op.deq 5, Op.deq 6] := by
        simp
      rw [e, hq] at h
      simp only [Option.some.injEq] at h
      rw [← h, hl]
      decide
  have h := red_byte_counter_amended halfwayQueue [Op.deq 5, Op.deq 6] [] [1000, 1000] q rfl
    hfit hq
  exact ⟨q, hq, h.1, by rw [hl]; decide⟩

end Red

end CCA
